import Mathlib

/-!
# Vanadis out-of-order core: register renaming, issue and retirement

A shallow embedding of `src/sst/elements/vanadis/vanadis.cc` (the pipeline driver
`VanadisComponent`) together with the collaborator classes it uses.  The driver's
functions are transcribed from the source; the collaborator classes whose headers
are not part of the source tree under study are modelled from the specification
and marked as such.

Conventions
* C++ `uint16_t` register indices and counts are natural numbers; where a value is
  narrowed or can wrap (configuration values read into fixed-width variables,
  `capacity()` stored in a `uint16_t`, `current_cycle++`) the reduction is written out
  with an explicit `%`.
* Instruction objects live in an arena (`heap`); an instruction pointer is an index
  into it, `delete` empties the cell, `new` appends a cell.
* Reading a C++ array outside its bounds is undefined; the accessors below return
  `0` there and writes are dropped.  Vector accesses of the driver (`rob[i]`,
  `int_register_stacks[i]`, ...) outside their bounds end the step with
  `Fault.badAccess`.
-/

namespace Vanadis

/-- How a step of the driver can end abnormally. -/
inductive Fault where
  /-- `output->fatal(...)`: the simulation is terminated. -/
  | fatal
  /-- `pop()` on an empty register stack. -/
  | exhaustion
  /-- `push` on a full circular queue. -/
  | capacityExceeded
  /-- An access outside a vector of the driver, or through a dangling pointer. -/
  | badAccess
  deriving DecidableEq, Repr

/-- Modelled from the spec: the enumeration `VanadisFunctionalUnitType` is declared in a
header outside the source tree.  The six classes named by the issue switch of `tick`,
and one constructor standing for every class the switch has no case for. -/
inductive VanadisFunctionalUnitType where
  | INST_INT_ARITH
  | INST_FP_ARITH
  | INST_LOAD
  | INST_STORE
  | INST_INT_DIV
  | INST_FP_DIV
  | INST_OTHER
  deriving DecidableEq, Repr

/-- Modelled from the spec: the control-flow direction of a speculated instruction. -/
inductive VanadisBranchDirection where
  | BRANCH_TAKEN
  | BRANCH_NOT_TAKEN
  deriving DecidableEq, Repr

/-- Modelled from the spec: the extra state of a speculated instruction, its predicted
direction and the direction it resolves to (`getResultDirection`). -/
structure VanadisSpeculation where
  speculatedDirection : VanadisBranchDirection
  resultDirection : VanadisBranchDirection
  deriving DecidableEq, Repr

/-- Modelled from the spec: class `VanadisInstruction` (section 3, "Instruction").
Immutable: identifier, program counter, hardware thread, functional-unit class and the
architectural operand lists.  Mutable: the assigned physical registers and the flags.
`speculation` is `some _` exactly for the speculated variant. -/
structure VanadisInstruction where
  id : Nat
  ins_address : Nat
  hw_thread : Nat
  func_type : VanadisFunctionalUnitType
  isa_int_regs_in : List Nat
  isa_fp_regs_in : List Nat
  isa_int_regs_out : List Nat
  isa_fp_regs_out : List Nat
  phys_int_regs_in : List Nat
  phys_fp_regs_in : List Nat
  phys_int_regs_out : List Nat
  phys_fp_regs_out : List Nat
  hasIssued : Bool
  hasExecuted : Bool
  trapError : Bool
  isFrontOfROB : Bool
  speculation : Option VanadisSpeculation
  deriving DecidableEq, Repr

namespace VanadisInstruction

/-- A newly created instruction: no physical register assigned (the arrays have the
length of the architectural lists), all flags clear. -/
def create (id addr hw_thr : Nat) (ft : VanadisFunctionalUnitType)
    (int_in fp_in int_out fp_out : List Nat) (spec : Option VanadisSpeculation) :
    VanadisInstruction :=
  { id := id, ins_address := addr, hw_thread := hw_thr, func_type := ft,
    isa_int_regs_in := int_in, isa_fp_regs_in := fp_in,
    isa_int_regs_out := int_out, isa_fp_regs_out := fp_out,
    phys_int_regs_in := List.replicate int_in.length 0,
    phys_fp_regs_in := List.replicate fp_in.length 0,
    phys_int_regs_out := List.replicate int_out.length 0,
    phys_fp_regs_out := List.replicate fp_out.length 0,
    hasIssued := false, hasExecuted := false, trapError := false,
    isFrontOfROB := false, speculation := spec }

def countISAIntRegIn (ins : VanadisInstruction) : Nat := ins.isa_int_regs_in.length
def countISAFPRegIn (ins : VanadisInstruction) : Nat := ins.isa_fp_regs_in.length
def countISAIntRegOut (ins : VanadisInstruction) : Nat := ins.isa_int_regs_out.length
def countISAFPRegOut (ins : VanadisInstruction) : Nat := ins.isa_fp_regs_out.length

def getISAIntRegIn (ins : VanadisInstruction) (i : Nat) : Nat := ins.isa_int_regs_in.getD i 0
def getISAFPRegIn (ins : VanadisInstruction) (i : Nat) : Nat := ins.isa_fp_regs_in.getD i 0
def getISAIntRegOut (ins : VanadisInstruction) (i : Nat) : Nat := ins.isa_int_regs_out.getD i 0
def getISAFPRegOut (ins : VanadisInstruction) (i : Nat) : Nat := ins.isa_fp_regs_out.getD i 0

def getPhysIntRegIn (ins : VanadisInstruction) (i : Nat) : Nat := ins.phys_int_regs_in.getD i 0
def getPhysFPRegIn (ins : VanadisInstruction) (i : Nat) : Nat := ins.phys_fp_regs_in.getD i 0
def getPhysIntRegOut (ins : VanadisInstruction) (i : Nat) : Nat := ins.phys_int_regs_out.getD i 0
def getPhysFPRegOut (ins : VanadisInstruction) (i : Nat) : Nat := ins.phys_fp_regs_out.getD i 0

def setPhysIntRegIn (ins : VanadisInstruction) (i v : Nat) : VanadisInstruction :=
  { ins with phys_int_regs_in := ins.phys_int_regs_in.set i v }
def setPhysFPRegIn (ins : VanadisInstruction) (i v : Nat) : VanadisInstruction :=
  { ins with phys_fp_regs_in := ins.phys_fp_regs_in.set i v }
def setPhysIntRegOut (ins : VanadisInstruction) (i v : Nat) : VanadisInstruction :=
  { ins with phys_int_regs_out := ins.phys_int_regs_out.set i v }
def setPhysFPRegOut (ins : VanadisInstruction) (i v : Nat) : VanadisInstruction :=
  { ins with phys_fp_regs_out := ins.phys_fp_regs_out.set i v }

def getInstFuncType (ins : VanadisInstruction) : VanadisFunctionalUnitType := ins.func_type
def getHWThread (ins : VanadisInstruction) : Nat := ins.hw_thread
def completedExecution (ins : VanadisInstruction) : Bool := ins.hasExecuted
def trapsError (ins : VanadisInstruction) : Bool := ins.trapError
def isSpeculated (ins : VanadisInstruction) : Bool := ins.speculation.isSome
def markIssued (ins : VanadisInstruction) : VanadisInstruction := { ins with hasIssued := true }
def markExecuted (ins : VanadisInstruction) : VanadisInstruction :=
  { ins with hasExecuted := true }
def markFrontOfROB (ins : VanadisInstruction) : VanadisInstruction :=
  { ins with isFrontOfROB := true }

end VanadisInstruction

/-- Modelled from the spec: class `VanadisRegisterStack` (section 4.1), the free physical
registers of one class on one hardware thread; the head of `regs` is the top. -/
structure VanadisRegisterStack where
  max_capacity : Nat
  regs : List Nat
  deriving DecidableEq, Repr

namespace VanadisRegisterStack

/-- `VanadisRegisterStack(count)`.  The constructor of the driver pops from the object it
has just built, before any push, and nothing is mapped at that point: a new stack
holds every register index `0 .. count-1`. -/
def create (count : Nat) : VanadisRegisterStack :=
  { max_capacity := count, regs := List.range count }

def capacity (s : VanadisRegisterStack) : Nat := s.max_capacity
def unused (s : VanadisRegisterStack) : Nat := s.regs.length
def size (s : VanadisRegisterStack) : Nat := s.regs.length

/-- `pop()`: remove and return one free register; fails on an empty stack. -/
def pop (s : VanadisRegisterStack) : Except Fault (Nat × VanadisRegisterStack) :=
  match s.regs with
  | [] => .error .exhaustion
  | r :: rest => .ok (r, { s with regs := rest })

/-- `push(reg)`: return a register to the free set. -/
def push (s : VanadisRegisterStack) (reg : Nat) : VanadisRegisterStack :=
  { s with regs := reg :: s.regs }

end VanadisRegisterStack

/-- Modelled from the spec: class `VanadisISATable` (section 4.2): per architectural
register the mapped physical register and the pending-read and pending-write counters,
for the integer and the floating-point class. -/
structure VanadisISATable where
  int_reg_ptr : List Nat
  fp_reg_ptr : List Nat
  int_reg_pending_read : List Nat
  int_reg_pending_write : List Nat
  fp_reg_pending_read : List Nat
  fp_reg_pending_write : List Nat
  deriving DecidableEq, Repr

namespace VanadisISATable

/-- `VanadisISATable(options, int_count, fp_count)`: everything zero. -/
def create (count_int count_fp : Nat) : VanadisISATable :=
  { int_reg_ptr := List.replicate count_int 0,
    fp_reg_ptr := List.replicate count_fp 0,
    int_reg_pending_read := List.replicate count_int 0,
    int_reg_pending_write := List.replicate count_int 0,
    fp_reg_pending_read := List.replicate count_fp 0,
    fp_reg_pending_write := List.replicate count_fp 0 }

def getIntPhysReg (t : VanadisISATable) (r : Nat) : Nat := t.int_reg_ptr.getD r 0
def getFPPhysReg (t : VanadisISATable) (r : Nat) : Nat := t.fp_reg_ptr.getD r 0

def setIntPhysReg (t : VanadisISATable) (r p : Nat) : VanadisISATable :=
  { t with int_reg_ptr := t.int_reg_ptr.set r p }
def setFPPhysReg (t : VanadisISATable) (r p : Nat) : VanadisISATable :=
  { t with fp_reg_ptr := t.fp_reg_ptr.set r p }

def incIntRead (t : VanadisISATable) (r : Nat) : VanadisISATable :=
  { t with int_reg_pending_read :=
      t.int_reg_pending_read.set r (t.int_reg_pending_read.getD r 0 + 1) }
def decIntRead (t : VanadisISATable) (r : Nat) : VanadisISATable :=
  { t with int_reg_pending_read :=
      t.int_reg_pending_read.set r (t.int_reg_pending_read.getD r 0 - 1) }
def incFPRead (t : VanadisISATable) (r : Nat) : VanadisISATable :=
  { t with fp_reg_pending_read :=
      t.fp_reg_pending_read.set r (t.fp_reg_pending_read.getD r 0 + 1) }
def decFPRead (t : VanadisISATable) (r : Nat) : VanadisISATable :=
  { t with fp_reg_pending_read :=
      t.fp_reg_pending_read.set r (t.fp_reg_pending_read.getD r 0 - 1) }
def incIntWrite (t : VanadisISATable) (r : Nat) : VanadisISATable :=
  { t with int_reg_pending_write :=
      t.int_reg_pending_write.set r (t.int_reg_pending_write.getD r 0 + 1) }
def decIntWrite (t : VanadisISATable) (r : Nat) : VanadisISATable :=
  { t with int_reg_pending_write :=
      t.int_reg_pending_write.set r (t.int_reg_pending_write.getD r 0 - 1) }
def incFPWrite (t : VanadisISATable) (r : Nat) : VanadisISATable :=
  { t with fp_reg_pending_write :=
      t.fp_reg_pending_write.set r (t.fp_reg_pending_write.getD r 0 + 1) }
def decFPWrite (t : VanadisISATable) (r : Nat) : VanadisISATable :=
  { t with fp_reg_pending_write :=
      t.fp_reg_pending_write.set r (t.fp_reg_pending_write.getD r 0 - 1) }

/-- `pendingIntWrites(r)`: the write-in-flight counter of `r` is nonzero. -/
def pendingIntWrites (t : VanadisISATable) (r : Nat) : Bool :=
  decide (0 < t.int_reg_pending_write.getD r 0)
def pendingFPWrites (t : VanadisISATable) (r : Nat) : Bool :=
  decide (0 < t.fp_reg_pending_write.getD r 0)

/-- `physIntRegInUse(p)`: some architectural integer register is mapped to `p`. -/
def physIntRegInUse (t : VanadisISATable) (p : Nat) : Bool := decide (p ∈ t.int_reg_ptr)
def physFPRegInUse (t : VanadisISATable) (p : Nat) : Bool := decide (p ∈ t.fp_reg_ptr)

/-- `reset(tbl)`: bulk copy of another table, mappings and counters. -/
def reset (_t : VanadisISATable) (tbl : VanadisISATable) : VanadisISATable := tbl

end VanadisISATable

/-- `checkInstructionResources` (vanadis.cc 540-592).  Returns the status (0 = issuable)
and the two written-ahead sets as the call leaves them. -/
def checkInstructionResources (ins : VanadisInstruction)
    (int_regs fp_regs : VanadisRegisterStack) (isa_table : VanadisISATable)
    (isa_int_regs_written_ahead isa_fp_regs_written_ahead : Finset Nat) :
    Nat × Finset Nat × Finset Nat :=
  let good0 : Bool := true
  let good1 := good0 && decide (int_regs.unused ≥ ins.countISAIntRegOut)
  let good2 := good1 && decide (fp_regs.unused ≥ ins.countISAFPRegOut)
  let good3 := (List.range ins.countISAIntRegIn).foldl
    (fun good i =>
      let ins_isa_reg := ins.getISAIntRegIn i
      (good && !isa_table.pendingIntWrites ins_isa_reg)
        && decide (ins_isa_reg ∉ isa_int_regs_written_ahead)) good2
  let good4 :=
    if good3 then
      (List.range ins.countISAFPRegIn).foldl
        (fun good i =>
          let ins_isa_reg := ins.getISAFPRegIn i
          (good && !isa_table.pendingFPWrites ins_isa_reg)
            && decide (ins_isa_reg ∉ isa_fp_regs_written_ahead)) good3
    else good3
  let wa_int := (List.range ins.countISAIntRegOut).foldl
    (fun s i => insert (ins.getISAIntRegOut i) s) isa_int_regs_written_ahead
  let wa_fp := (List.range ins.countISAFPRegOut).foldl
    (fun s i => insert (ins.getISAIntRegOut i) s) isa_fp_regs_written_ahead
  (if good4 then 0 else 1, wa_int, wa_fp)

/-- The objects `assignRegistersToInstruction` mutates through its pointer arguments. -/
structure RenameState where
  ins : VanadisInstruction
  int_regs : VanadisRegisterStack
  fp_regs : VanadisRegisterStack
  isa_table : VanadisISATable
  deriving DecidableEq, Repr

/-- Body of the integer input loop of `assignRegistersToInstruction` (vanadis.cc 601-604). -/
def assignIntInStep (st : RenameState) (i : Nat) : RenameState :=
  { st with
    ins := st.ins.setPhysIntRegIn i (st.isa_table.getIntPhysReg (st.ins.getISAIntRegIn i)),
    isa_table := st.isa_table.incIntRead (st.ins.getISAIntRegIn i) }

/-- Body of the floating-point input loop (vanadis.cc 606-609). -/
def assignFPInStep (st : RenameState) (i : Nat) : RenameState :=
  { st with
    ins := st.ins.setPhysFPRegIn i (st.isa_table.getFPPhysReg (st.ins.getISAFPRegIn i)),
    isa_table := st.isa_table.incFPRead (st.ins.getISAFPRegIn i) }

/-- Body of the integer output loop (vanadis.cc 612-619). -/
def assignIntOutStep (st : RenameState) (i : Nat) : Except Fault RenameState :=
  let ins_isa_reg := st.ins.getISAIntRegOut i
  match st.int_regs.pop with
  | .error e => .error e
  | .ok (free_reg, int_regs) =>
    .ok { st with
          ins := st.ins.setPhysIntRegOut i free_reg,
          int_regs := int_regs,
          isa_table := (st.isa_table.setIntPhysReg ins_isa_reg free_reg).incIntWrite ins_isa_reg }

/-- Body of the floating-point output loop (vanadis.cc 622-629). -/
def assignFPOutStep (st : RenameState) (i : Nat) : Except Fault RenameState :=
  let ins_isa_reg := st.ins.getISAFPRegOut i
  match st.fp_regs.pop with
  | .error e => .error e
  | .ok (free_reg, fp_regs) =>
    .ok { st with
          ins := st.ins.setPhysFPRegOut i free_reg,
          fp_regs := fp_regs,
          isa_table := (st.isa_table.setFPPhysReg ins_isa_reg free_reg).incFPWrite ins_isa_reg }

/-- `assignRegistersToInstruction` (vanadis.cc 594-632).  The status it returns is
always 0, so only the mutated objects are returned. -/
def assignRegistersToInstruction (ins : VanadisInstruction)
    (int_regs fp_regs : VanadisRegisterStack) (isa_table : VanadisISATable) :
    Except Fault RenameState :=
  let st0 : RenameState :=
    { ins := ins, int_regs := int_regs, fp_regs := fp_regs, isa_table := isa_table }
  let st1 := (List.range ins.countISAIntRegIn).foldl assignIntInStep st0
  let st2 := (List.range ins.countISAFPRegIn).foldl assignFPInStep st1
  match (List.range ins.countISAIntRegOut).foldlM assignIntOutStep st2 with
  | .error e => .error e
  | .ok st3 => (List.range ins.countISAFPRegOut).foldlM assignFPOutStep st3

/-- The objects `recoverRetiredRegisters` mutates, and its two local vectors. -/
structure RetireState where
  int_regs : VanadisRegisterStack
  fp_regs : VanadisRegisterStack
  issue_isa_table : VanadisISATable
  retire_isa_table : VanadisISATable
  recovered_phys_reg_int : List Nat
  recovered_phys_reg_fp : List Nat
  deriving DecidableEq, Repr

/-- Body of the integer input loop of `recoverRetiredRegisters` (vanadis.cc 644-647). -/
def recoverIntInStep (ins : VanadisInstruction) (st : RetireState) (i : Nat) : RetireState :=
  let isa_reg := ins.getISAIntRegIn i
  { st with issue_isa_table := st.issue_isa_table.decIntRead isa_reg }

/-- Body of the floating-point input loop (vanadis.cc 649-652). -/
def recoverFPInStep (ins : VanadisInstruction) (st : RetireState) (i : Nat) : RetireState :=
  let isa_reg := ins.getISAFPRegIn i
  { st with issue_isa_table := st.issue_isa_table.decFPRead isa_reg }

/-- Body of the integer output loop of `recoverRetiredRegisters` (vanadis.cc 654-665). -/
def recoverIntOutStep (ins : VanadisInstruction) (st : RetireState) (i : Nat) : RetireState :=
  let isa_reg := ins.getISAIntRegOut i
  let cur_phys_reg := st.retire_isa_table.getIntPhysReg isa_reg
  { st with
    recovered_phys_reg_int := st.recovered_phys_reg_int ++ [cur_phys_reg],
    issue_isa_table := st.issue_isa_table.decIntWrite isa_reg,
    retire_isa_table := st.retire_isa_table.setIntPhysReg isa_reg (ins.getPhysIntRegOut i) }

/-- Body of the floating-point output loop (vanadis.cc 667-678). -/
def recoverFPOutStep (ins : VanadisInstruction) (st : RetireState) (i : Nat) : RetireState :=
  let isa_reg := ins.getISAFPRegOut i
  let cur_phys_reg := st.retire_isa_table.getFPPhysReg isa_reg
  { st with
    recovered_phys_reg_fp := st.recovered_phys_reg_fp ++ [cur_phys_reg],
    issue_isa_table := st.issue_isa_table.decFPWrite isa_reg,
    retire_isa_table := st.retire_isa_table.setFPPhysReg isa_reg (ins.getPhysFPRegOut i) }

/-- `recoverRetiredRegisters` (vanadis.cc 634-692).  The status it returns is always 0. -/
def recoverRetiredRegisters (ins : VanadisInstruction)
    (int_regs fp_regs : VanadisRegisterStack)
    (issue_isa_table retire_isa_table : VanadisISATable) : RetireState :=
  let st0 : RetireState :=
    { int_regs := int_regs, fp_regs := fp_regs, issue_isa_table := issue_isa_table,
      retire_isa_table := retire_isa_table,
      recovered_phys_reg_int := [], recovered_phys_reg_fp := [] }
  let st1 := (List.range ins.countISAIntRegIn).foldl (recoverIntInStep ins) st0
  let st2 := (List.range ins.countISAFPRegIn).foldl (recoverFPInStep ins) st1
  let st3 := (List.range ins.countISAIntRegOut).foldl (recoverIntOutStep ins) st2
  let st4 := (List.range ins.countISAFPRegOut).foldl (recoverFPOutStep ins) st3
  let st5 := { st4 with
    int_regs := st4.recovered_phys_reg_int.foldl VanadisRegisterStack.push st4.int_regs }
  { st5 with
    fp_regs := st5.recovered_phys_reg_fp.foldl VanadisRegisterStack.push st5.fp_regs }

/-- A pointer to an instruction object: an index into the arena. -/
abbrev InsPtr := Nat

/-- The arena of instruction objects; a deleted object leaves an empty cell.  The source
keeps pointers to deleted objects (the functional unit an instruction was dispatched to,
vanadis.cc 386, is not emptied when retirement deletes the instruction, 525); what a use
of such a pointer does is left open by the language, and the arena fixes it by
convention, see `allocIns`, `allocInsReusing` and `updateIns`. -/
abbrev Heap := List (Option VanadisInstruction)

/-- Dereference a pointer. -/
def derefIns (heap : Heap) (p : InsPtr) : Option VanadisInstruction := heap.getD p none

/-- `new` under an allocator that never hands a released cell out again: the object is
placed in a new cell, so that a pointer kept after `delete` aliases no later object.
`allocInsReusing` is the allocator that reuses released cells. -/
def allocIns (heap : Heap) (ins : VanadisInstruction) : InsPtr × Heap :=
  (heap.length, heap ++ [some ins])

/-- Apply a mutator through a pointer.  Convention for a pointer whose object has been
deleted and whose cell is still empty: the write is lost and the arena stays as it is.
Functional units write through such pointers on every tick after a retirement (vanadis.cc
461-475 after 525); once an allocator has handed the cell out again, the write lands in
the object that lies there now. -/
def updateIns (heap : Heap) (p : InsPtr) (f : VanadisInstruction → VanadisInstruction) : Heap :=
  match derefIns heap p with
  | some ins => heap.set p (some (f ins))
  | none => heap

/-- `delete`. -/
def deleteIns (heap : Heap) (p : InsPtr) : Heap := heap.set p none

/-- Access to an element of one of the driver's vectors. -/
def vecAt {α : Type} (v : List α) (i : Nat) : Except Fault α :=
  match v[i]? with
  | some x => .ok x
  | none => .error .badAccess

/-- Modelled from the spec: class `VanadisCircularQueue` (section 4.3), a bounded FIFO
queue; the head of `items` is the front. -/
structure VanadisCircularQueue (α : Type) where
  max_capacity : Nat
  items : List α
  deriving DecidableEq, Repr

namespace VanadisCircularQueue

def create {α : Type} (count : Nat) : VanadisCircularQueue α :=
  { max_capacity := count, items := [] }

def empty {α : Type} (q : VanadisCircularQueue α) : Bool := q.items.isEmpty
def full {α : Type} (q : VanadisCircularQueue α) : Bool := decide (q.max_capacity ≤ q.items.length)
def size {α : Type} (q : VanadisCircularQueue α) : Nat := q.items.length
def capacity {α : Type} (q : VanadisCircularQueue α) : Nat := q.max_capacity
def peek {α : Type} (q : VanadisCircularQueue α) : Option α := q.items.head?

/-- `push`: fails when the queue is full. -/
def push {α : Type} (q : VanadisCircularQueue α) (x : α) :
    Except Fault (VanadisCircularQueue α) :=
  if q.full then .error .capacityExceeded else .ok { q with items := q.items ++ [x] }

/-- `pop`: remove the head. -/
def pop {α : Type} (q : VanadisCircularQueue α) : VanadisCircularQueue α :=
  { q with items := q.items.tail }

end VanadisCircularQueue

/-- Modelled from the spec: class `VanadisFunctionalUnit` (section 4.5), one instruction
slot with a fixed latency. -/
structure VanadisFunctionalUnit where
  fu_id : Nat
  fu_type : VanadisFunctionalUnitType
  latency : Nat
  slot_inst : Option InsPtr
  slot_cycles : Nat
  deriving DecidableEq, Repr

namespace VanadisFunctionalUnit

def create (id : Nat) (ft : VanadisFunctionalUnitType) (lat : Nat) : VanadisFunctionalUnit :=
  { fu_id := id, fu_type := ft, latency := lat, slot_inst := none, slot_cycles := 0 }

def isInstructionSlotFree (fu : VanadisFunctionalUnit) : Bool := fu.slot_inst.isNone

def setSlotInstruction (fu : VanadisFunctionalUnit) (ins : InsPtr) : VanadisFunctionalUnit :=
  { fu with slot_inst := some ins, slot_cycles := fu.latency }

/-- `tick`: decrement the latency counter of an occupied slot; at zero the instruction
is marked execution-complete and stays in the slot. -/
def tick (fu : VanadisFunctionalUnit) (heap : Heap) : VanadisFunctionalUnit × Heap :=
  match fu.slot_inst with
  | none => (fu, heap)
  | some p =>
    let fu1 := { fu with slot_cycles := fu.slot_cycles - 1 }
    if fu1.slot_cycles = 0 then (fu1, updateIns heap p VanadisInstruction.markExecuted)
    else (fu1, heap)

/-- `clearByHWThreadID`: evict the slot if its instruction belongs to the thread. -/
def clearByHWThreadID (fu : VanadisFunctionalUnit) (heap : Heap) (hw_thr : Nat) :
    VanadisFunctionalUnit :=
  match fu.slot_inst with
  | none => fu
  | some p =>
    match derefIns heap p with
    | some ins => if ins.getHWThread = hw_thr then { fu with slot_inst := none } else fu
    | none => fu

end VanadisFunctionalUnit

/-- Modelled from the spec: class `VanadisLoadStoreQueue` (section 4.6), seen from the
core as two capacity-limited queues. -/
structure VanadisLoadStoreQueue where
  max_loads : Nat
  max_stores : Nat
  loads : List InsPtr
  stores : List InsPtr
  deriving DecidableEq, Repr

namespace VanadisLoadStoreQueue

def create (lsq_store_size lsq_load_size : Nat) : VanadisLoadStoreQueue :=
  { max_loads := lsq_load_size, max_stores := lsq_store_size, loads := [], stores := [] }

def loadFull (q : VanadisLoadStoreQueue) : Bool := decide (q.max_loads ≤ q.loads.length)
def storeFull (q : VanadisLoadStoreQueue) : Bool := decide (q.max_stores ≤ q.stores.length)

/-- `push(VanadisLoadInstruction*)`. -/
def pushLoad (q : VanadisLoadStoreQueue) (p : InsPtr) : VanadisLoadStoreQueue :=
  { q with loads := q.loads ++ [p] }

/-- `push(VanadisStoreInstruction*)`. -/
def pushStore (q : VanadisLoadStoreQueue) (p : InsPtr) : VanadisLoadStoreQueue :=
  { q with stores := q.stores ++ [p] }

/-- `tick`: the memory operations the transport has finished (`done`) are marked
execution-complete and drained; the others stay queued. -/
def tick (q : VanadisLoadStoreQueue) (done : InsPtr → Bool) (heap : Heap) :
    VanadisLoadStoreQueue × Heap :=
  let finished := (q.loads ++ q.stores).filter done
  ({ q with loads := q.loads.filter (fun p => !done p),
            stores := q.stores.filter (fun p => !done p) },
   finished.foldl (fun h p => updateIns h p VanadisInstruction.markExecuted) heap)

/-- `clearLSQByThreadID`: discard the entries of one thread. -/
def clearLSQByThreadID (q : VanadisLoadStoreQueue) (heap : Heap) (hw_thr : Nat) :
    VanadisLoadStoreQueue :=
  let keep : InsPtr → Bool := fun p =>
    match derefIns heap p with
    | some ins => decide (ins.getHWThread ≠ hw_thr)
    | none => true
  { q with loads := q.loads.filter keep, stores := q.stores.filter keep }

end VanadisLoadStoreQueue

/-- What the decoder reports for one decoded instruction (its immutable part). -/
structure DecodedOp where
  id : Nat
  ins_address : Nat
  func_type : VanadisFunctionalUnitType
  isa_int_regs_in : List Nat
  isa_fp_regs_in : List Nat
  isa_int_regs_out : List Nat
  isa_fp_regs_out : List Nat
  speculation : Option VanadisSpeculation
  deriving DecidableEq, Repr

/-- Modelled from the spec: class `VanadisDecoder` (section 6, decoder boundary), as far
as the core uses it: the FIFO of decoded instructions and the per-thread metadata. -/
structure VanadisDecoder where
  decoded_q : List InsPtr
  count_isa_int_reg : Nat
  count_isa_fp_reg : Nat
  ins_cache_line_width : Nat
  ip : Nat
  delegated_read : Bool
  deriving DecidableEq, Repr

/-- The behaviour of the external collaborators during one cycle: the instructions each
thread's decoder delivers, and the memory operations the transport completes. -/
structure External where
  decoded : Nat → Nat → List DecodedOp
  lsq_done : Nat → InsPtr → Bool

/-- The mutable state of `VanadisComponent`. -/
structure VanadisComponent where
  current_cycle : Nat
  max_cycle : Nat
  core_id : Nat
  hw_threads : Nat
  nextInsID : Nat
  halted_masks : List Bool
  thread_decoders : List VanadisDecoder
  int_register_stacks : List VanadisRegisterStack
  fp_register_stacks : List VanadisRegisterStack
  rob : List (VanadisCircularQueue InsPtr)
  issue_isa_tables : List VanadisISATable
  retire_isa_tables : List VanadisISATable
  fu_int_arith : List VanadisFunctionalUnit
  fu_int_div : List VanadisFunctionalUnit
  fu_fp_arith : List VanadisFunctionalUnit
  fu_fp_div : List VanadisFunctionalUnit
  lsq : VanadisLoadStoreQueue
  tmp_raw_int : Finset Nat
  tmp_raw_fp : Finset Nat
  heap : Heap
  deriving DecidableEq

/-- Modelled from the spec: the test instructions the driver creates come from
`inst/vinstall.h`, outside the source tree.  `VanadisAddInstruction(id, addr, hw_thr,
opts, dest, src_1, src_2)`: integer arithmetic, reads `src_1`, `src_2`, writes `dest`. -/
def VanadisAddInstruction (id addr hw_thr dest src_1 src_2 : Nat) : VanadisInstruction :=
  VanadisInstruction.create id addr hw_thr .INST_INT_ARITH [src_1, src_2] [] [dest] [] none

/-- Modelled from the spec: `VanadisSubInstruction`, same operand shape as the addition. -/
def VanadisSubInstruction (id addr hw_thr dest src_1 src_2 : Nat) : VanadisInstruction :=
  VanadisInstruction.create id addr hw_thr .INST_INT_ARITH [src_1, src_2] [] [dest] [] none

/-- Modelled from the spec: `VanadisAddImmInstruction(id, addr, hw_thr, opts, dest, src,
imm)`: integer arithmetic, reads `src`, writes `dest`. -/
def VanadisAddImmInstruction (id addr hw_thr dest src_1 : Nat) : VanadisInstruction :=
  VanadisInstruction.create id addr hw_thr .INST_INT_ARITH [src_1] [] [dest] [] none

/-- Modelled from the spec: `VanadisStoreInstruction(id, addr, hw_thr, opts, memAddrReg,
offset, valueReg, width)`: reads the address and the value register, writes none. -/
def VanadisStoreInstruction (id addr hw_thr memAddrReg valueReg : Nat) : VanadisInstruction :=
  VanadisInstruction.create id addr hw_thr .INST_STORE [memAddrReg, valueReg] [] [] [] none

/-- Modelled from the spec: `VanadisLoadInstruction(id, addr, hw_thr, opts, memAddrReg,
offset, tgtReg, width)`: reads the address register, writes the target register. -/
def VanadisLoadInstruction (id addr hw_thr memAddrReg tgtReg : Nat) : VanadisInstruction :=
  VanadisInstruction.create id addr hw_thr .INST_LOAD [memAddrReg] [] [tgtReg] [] none

/-- The pattern `new ...; thread_decoders[0]->getDecodedQueue()->push(test_ins);
rob[0]->push(test_ins);` of the constructor (vanadis.cc 160-194) and of `tick`
(vanadis.cc 343-345).  `mk` builds the instruction from `nextInsID++`. -/
def pushTestInstruction (s : VanadisComponent) (mk : Nat → VanadisInstruction) :
    Except Fault VanadisComponent := do
  let a := allocIns s.heap (mk s.nextInsID)
  let dec ← vecAt s.thread_decoders 0
  let rob_0 ← vecAt s.rob 0
  let rob_1 ← rob_0.push a.1
  .ok { s with
    nextInsID := s.nextInsID + 1,
    heap := a.2,
    thread_decoders := s.thread_decoders.set 0 { dec with decoded_q := dec.decoded_q ++ [a.1] },
    rob := s.rob.set 0 rob_1 }

/-- Body of the fetch loop of `tick` (vanadis.cc 318-331). -/
def fetchThread (s : VanadisComponent) (i : Nat) : Except Fault VanadisComponent := do
  let halted ← vecAt s.halted_masks i
  if halted then .ok s
  else do
    let dec ← vecAt s.thread_decoders i
    if dec.delegated_read then
      .ok { s with thread_decoders := s.thread_decoders.set i { dec with delegated_read := false } }
    else .ok s

/-- Modelled from the spec: `VanadisDecoder::tick`; the instructions the decoder delivers
this cycle are created and appended to its decoded queue. -/
def decoderTick (dec : VanadisDecoder) (heap : Heap) (hw_thr : Nat) (ops : List DecodedOp) :
    VanadisDecoder × Heap :=
  ops.foldl
    (fun acc op =>
      let a := allocIns acc.2
        (VanadisInstruction.create op.id op.ins_address hw_thr op.func_type
          op.isa_int_regs_in op.isa_fp_regs_in op.isa_int_regs_out op.isa_fp_regs_out
          op.speculation)
      ({ acc.1 with decoded_q := acc.1.decoded_q ++ [a.1] }, a.2))
    (dec, heap)

/-- Body of the decode loop of `tick` (vanadis.cc 335-340). -/
def decodeThread (ext : External) (cycle : Nat) (s : VanadisComponent) (i : Nat) :
    Except Fault VanadisComponent := do
  let halted ← vecAt s.halted_masks i
  if halted then .ok s
  else do
    let dec ← vecAt s.thread_decoders i
    let r := decoderTick dec s.heap i (ext.decoded cycle i)
    .ok { s with thread_decoders := s.thread_decoders.set i r.1, heap := r.2 }

/-- The test instruction `tick` feeds to thread 0 (vanadis.cc 342-346). -/
def injectTestInstruction (s : VanadisComponent) : Except Fault VanadisComponent := do
  let dec ← vecAt s.thread_decoders 0
  if dec.decoded_q.length < 6 then
    pushTestInstruction s (fun id => VanadisAddInstruction id 0 0 0 0 0)
  else .ok s

/-- The loop `for next_fu in pool: if slot free then setSlotInstruction; break`
(vanadis.cc 384-390 and its copies).  Returns `allocated_fu` and the pool. -/
def allocateFuncUnit (ins : InsPtr) :
    List VanadisFunctionalUnit → Bool × List VanadisFunctionalUnit
  | [] => (false, [])
  | next_fu :: rest =>
    if next_fu.isInstructionSlotFree then (true, next_fu.setSlotInstruction ins :: rest)
    else ((allocateFuncUnit ins rest).1, next_fu :: (allocateFuncUnit ins rest).2)

/-- The `switch( ins_type )` of the issue stage (vanadis.cc 382-439).  Returns
`allocated_fu` and the state. -/
def dispatch (ins_type : VanadisFunctionalUnitType) (ins : InsPtr) (s : VanadisComponent) :
    Except Fault (Bool × VanadisComponent) :=
  match ins_type with
  | .INST_INT_ARITH =>
    .ok ((allocateFuncUnit ins s.fu_int_arith).1,
         { s with fu_int_arith := (allocateFuncUnit ins s.fu_int_arith).2 })
  | .INST_FP_ARITH =>
    .ok ((allocateFuncUnit ins s.fu_fp_div).1,
         { s with fu_fp_div := (allocateFuncUnit ins s.fu_fp_div).2 })
  | .INST_LOAD =>
    if !s.lsq.loadFull then .ok (true, { s with lsq := s.lsq.pushLoad ins })
    else .ok (false, s)
  | .INST_STORE =>
    if !s.lsq.storeFull then .ok (true, { s with lsq := s.lsq.pushStore ins })
    else .ok (false, s)
  | .INST_INT_DIV =>
    .ok ((allocateFuncUnit ins s.fu_int_div).1,
         { s with fu_int_div := (allocateFuncUnit ins s.fu_int_div).2 })
  | .INST_FP_DIV =>
    .ok ((allocateFuncUnit ins s.fu_fp_div).1,
         { s with fu_fp_div := (allocateFuncUnit ins s.fu_fp_div).2 })
  | .INST_OTHER => .error .fatal

/-- Body of the issue loop of `tick` for thread `i` (vanadis.cc 350-456). -/
def issueThread (s : VanadisComponent) (i : Nat) : Except Fault VanadisComponent := do
  let s0 := { s with tmp_raw_int := ∅, tmp_raw_fp := ∅ }
  let halted ← vecAt s0.halted_masks i
  if halted then .ok s0
  else do
    let dec ← vecAt s0.thread_decoders i
    match dec.decoded_q with
    | [] => .ok s0
    | p :: rest =>
      match derefIns s0.heap p with
      | none => .error .badAccess
      | some ins => do
        let int_regs ← vecAt s0.int_register_stacks i
        let fp_regs ← vecAt s0.fp_register_stacks i
        let isa_table ← vecAt s0.issue_isa_tables i
        let chk := checkInstructionResources ins int_regs fp_regs isa_table
          s0.tmp_raw_int s0.tmp_raw_fp
        let s1 := { s0 with tmp_raw_int := chk.2.1, tmp_raw_fp := chk.2.2 }
        if chk.1 = 0 then do
          let d ← dispatch ins.getInstFuncType p s1
          if d.1 then do
            let st ← assignRegistersToInstruction ins int_regs fp_regs isa_table
            .ok { d.2 with
              int_register_stacks := d.2.int_register_stacks.set i st.int_regs,
              fp_register_stacks := d.2.fp_register_stacks.set i st.fp_regs,
              issue_isa_tables := d.2.issue_isa_tables.set i st.isa_table,
              thread_decoders := d.2.thread_decoders.set i { dec with decoded_q := rest },
              heap := d.2.heap.set p (some st.ins.markIssued) }
          else .ok d.2
        else .ok s1

/-- The four loops `for next_fu in pool: next_fu->tick(...)` (vanadis.cc 461-475). -/
def tickFuncUnits : List VanadisFunctionalUnit → Heap → List VanadisFunctionalUnit × Heap
  | [], heap => ([], heap)
  | next_fu :: rest, heap =>
    ((next_fu.tick heap).1 :: (tickFuncUnits rest (next_fu.tick heap).2).1,
     (tickFuncUnits rest (next_fu.tick heap).2).2)

/-- The execute stage of `tick` (vanadis.cc 458-478). -/
def executeStage (ext : External) (cycle : Nat) (s : VanadisComponent) : VanadisComponent :=
  let r1 := tickFuncUnits s.fu_int_arith s.heap
  let r2 := tickFuncUnits s.fu_int_div r1.2
  let r3 := tickFuncUnits s.fu_fp_arith r2.2
  let r4 := tickFuncUnits s.fu_fp_div r3.2
  let r5 := s.lsq.tick (ext.lsq_done cycle) r4.2
  { s with fu_int_arith := r1.1, fu_int_div := r2.1, fu_fp_arith := r3.1, fu_fp_div := r4.1,
           lsq := r5.1, heap := r5.2 }

/-- Body of the retire loop of `tick` for thread `i` (vanadis.cc 483-532). -/
def retireThread (s : VanadisComponent) (i : Nat) : Except Fault VanadisComponent := do
  let rob_i ← vecAt s.rob i
  match rob_i.peek with
  | none => .ok s
  | some rob_front =>
    match derefIns s.heap rob_front with
    | none => .error .badAccess
    | some ins =>
      if ins.trapsError then .error .fatal
      else if ins.isSpeculated && ins.completedExecution then
        match ins.speculation with
        | none => .ok s
        | some spec_ins =>
          if spec_ins.speculatedDirection ≠ spec_ins.resultDirection then .ok s
          else .ok s
      else if ins.completedExecution then do
        let s1 := { s with rob := s.rob.set i rob_i.pop }
        let int_regs ← vecAt s1.int_register_stacks ins.getHWThread
        let fp_regs ← vecAt s1.fp_register_stacks ins.getHWThread
        let issue_isa_table ← vecAt s1.issue_isa_tables i
        let retire_isa_table ← vecAt s1.retire_isa_tables i
        let st := recoverRetiredRegisters ins int_regs fp_regs issue_isa_table retire_isa_table
        .ok { s1 with
          int_register_stacks := s1.int_register_stacks.set ins.getHWThread st.int_regs,
          fp_register_stacks := s1.fp_register_stacks.set ins.getHWThread st.fp_regs,
          issue_isa_tables := s1.issue_isa_tables.set i st.issue_isa_table,
          retire_isa_tables := s1.retire_isa_tables.set i st.retire_isa_table,
          heap := deleteIns s1.heap rob_front }
      else .ok { s with heap := updateIns s.heap rob_front VanadisInstruction.markFrontOfROB }

/-- The issue stage: the loop over the hardware threads. -/
def issueStage (s : VanadisComponent) : Except Fault VanadisComponent :=
  (List.range s.hw_threads).foldlM issueThread s

/-- The retire stage: the loop over the hardware threads. -/
def retireStage (s : VanadisComponent) : Except Fault VanadisComponent :=
  (List.range s.hw_threads).foldlM retireThread s

/-- `VanadisComponent::tick` (vanadis.cc 293-538).  The result is the value `tick`
returns together with the state it leaves. -/
def tick (ext : External) (cycle : Nat) (s : VanadisComponent) :
    Except Fault (Bool × VanadisComponent) :=
  if s.current_cycle ≥ s.max_cycle then .ok (true, s)
  else do
    let s1 ← (List.range s.hw_threads).foldlM fetchThread s
    let s2 ← (List.range s1.hw_threads).foldlM (decodeThread ext cycle) s1
    let s3 ← injectTestInstruction s2
    let s4 ← issueStage s3
    let s5 := executeStage ext cycle s4
    let s6 ← retireStage s5
    .ok (false, { s6 with current_cycle := (s6.current_cycle + 1) % 2 ^ 64 })

/-- `clearFuncUnit` (vanadis.cc 738-742). -/
def clearFuncUnit (heap : Heap) (hw_thr : Nat) (unit : List VanadisFunctionalUnit) :
    List VanadisFunctionalUnit :=
  unit.map (fun next_fu => next_fu.clearByHWThreadID heap hw_thr)

/-- The loop `for i < count: if !inUse(i) then new_stack->push(i)` of
`resetRegisterStacks`, starting from the newly constructed stack. -/
def rebuildStack (inUse : Nat → Bool) (reg_count : Nat) : VanadisRegisterStack :=
  (List.range reg_count).foldl
    (fun new_stack i => if !inUse i then new_stack.push i else new_stack)
    (VanadisRegisterStack.create reg_count)

/-- `resetRegisterStacks` (vanadis.cc 744-779). -/
def resetRegisterStacks (s : VanadisComponent) (hw_thr : Nat) : Except Fault VanadisComponent := do
  let old_int_stack ← vecAt s.int_register_stacks hw_thr
  let retire_isa_table ← vecAt s.retire_isa_tables hw_thr
  let int_reg_count := old_int_stack.capacity % 65536
  let new_int_stack := rebuildStack retire_isa_table.physIntRegInUse int_reg_count
  let s1 := { s with int_register_stacks := s.int_register_stacks.set hw_thr new_int_stack }
  let old_fp_stack ← vecAt s1.fp_register_stacks hw_thr
  let fp_reg_count := old_fp_stack.capacity % 65536
  let new_fp_stack := rebuildStack retire_isa_table.physFPRegInUse fp_reg_count
  .ok { s1 with fp_register_stacks := s1.fp_register_stacks.set hw_thr new_fp_stack }

/-- `clearROBMisspeculate` (vanadis.cc 781-788). -/
def clearROBMisspeculate (s : VanadisComponent) (hw_thr : Nat) : Except Fault VanadisComponent := do
  let old_rob ← vecAt s.rob hw_thr
  let rob_tmp : VanadisCircularQueue InsPtr := VanadisCircularQueue.create old_rob.capacity
  .ok { s with rob := s.rob.set hw_thr rob_tmp }

/-- `handleMisspeculate` (vanadis.cc 720-736). -/
def handleMisspeculate (s : VanadisComponent) (hw_thr : Nat) : Except Fault VanadisComponent := do
  let s1 := { s with fu_int_arith := clearFuncUnit s.heap hw_thr s.fu_int_arith }
  let s2 := { s1 with fu_int_div := clearFuncUnit s1.heap hw_thr s1.fu_int_div }
  let s3 := { s2 with fu_fp_arith := clearFuncUnit s2.heap hw_thr s2.fu_fp_arith }
  let s4 := { s3 with fu_fp_div := clearFuncUnit s3.heap hw_thr s3.fu_fp_div }
  let s5 := { s4 with lsq := s4.lsq.clearLSQByThreadID s4.heap hw_thr }
  let s6 ← resetRegisterStacks s5 hw_thr
  let s7 ← clearROBMisspeculate s6 hw_thr
  let issue_isa_table ← vecAt s7.issue_isa_tables hw_thr
  let retire_isa_table ← vecAt s7.retire_isa_tables hw_thr
  .ok { s7 with
    issue_isa_tables := s7.issue_isa_tables.set hw_thr (issue_isa_table.reset retire_isa_table) }

/-- What a decoder sub-component reports when it is loaded: the architectural register
counts of its ISA, its instruction-cache line width, its instruction pointer and whether
it asks for a delegated read. -/
structure DecoderConfig where
  count_isa_int_reg : Nat
  count_isa_fp_reg : Nat
  ins_cache_line_width : Nat
  ip : Nat
  delegated_read : Bool
  deriving DecidableEq, Repr

/-- The configuration the constructor reads (`params.find`), the sub-components the
harness can load (`none` = `nullptr`), and the entry point of the binary. -/
structure Params where
  max_cycle : Nat
  core_id : Nat
  reorder_slots : Nat
  icache_line_width : Nat
  hardware_threads : Nat
  physical_integer_registers : Nat
  physical_fp_registers : Nat
  integer_arith_units : Nat
  integer_arith_cycles : Nat
  integer_div_units : Nat
  integer_div_cycles : Nat
  fp_arith_units : Nat
  fp_arith_cycles : Nat
  fp_div_units : Nat
  fp_div_cycles : Nat
  lsq_store_entries : Nat
  lsq_load_entries : Nat
  decoders : List (Option DecoderConfig)
  mem_interface_data : Bool
  mem_interface_inst : Bool
  entry_point : Nat
  deriving DecidableEq, Repr

/-- The loop `for j < count: table->setPhysReg(j, stack->pop())` of the constructor
(vanadis.cc 127-133), for one register class given by `set`. -/
def initialMapping (set : VanadisISATable → Nat → Nat → VanadisISATable) (count : Nat)
    (stack : VanadisRegisterStack) (table : VanadisISATable) :
    Except Fault (VanadisRegisterStack × VanadisISATable) :=
  (List.range count).foldlM
    (fun acc j =>
      match acc.1.pop with
      | .error e => .error e
      | .ok r => .ok (r.2, set acc.2 j r.1))
    (stack, table)

/-- The first part of the per-thread loop of the constructor (vanadis.cc 75-102): the
decoder is loaded and its instruction-cache line width checked or set. -/
def loadDecoder (params : Params) (i : Nat) : Except Fault VanadisDecoder :=
  match params.decoders.getD i none with
  | none => .error .fatal
  | some cfg =>
    let thr_decoder : VanadisDecoder :=
      { decoded_q := [], count_isa_int_reg := cfg.count_isa_int_reg,
        count_isa_fp_reg := cfg.count_isa_fp_reg,
        ins_cache_line_width := cfg.ins_cache_line_width, ip := cfg.ip,
        delegated_read := cfg.delegated_read }
    if thr_decoder.ins_cache_line_width = 0 then
      .ok { thr_decoder with ins_cache_line_width := params.icache_line_width }
    else if params.icache_line_width < thr_decoder.ins_cache_line_width then
      .error .fatal
    else .ok thr_decoder

/-- Body of the per-thread loop of the constructor (vanadis.cc 73-140). -/
def constructThread (params : Params) (s : VanadisComponent) (i : Nat) :
    Except Fault VanadisComponent := do
  let dec ← loadDecoder params i
  let int_reg_count := params.physical_integer_registers % 65536
  let fp_reg_count := params.physical_fp_registers % 65536
  let rob_count := params.reorder_slots % 2 ^ 32
  let issue0 := VanadisISATable.create dec.count_isa_int_reg dec.count_isa_fp_reg
  let m1 ← initialMapping VanadisISATable.setIntPhysReg dec.count_isa_int_reg
    (VanadisRegisterStack.create int_reg_count) issue0
  let m2 ← initialMapping VanadisISATable.setFPPhysReg dec.count_isa_fp_reg
    (VanadisRegisterStack.create fp_reg_count) m1.2
  let retire0 := VanadisISATable.create dec.count_isa_int_reg dec.count_isa_fp_reg
  .ok { s with
    thread_decoders := s.thread_decoders ++ [dec],
    int_register_stacks := s.int_register_stacks ++ [m1.1],
    fp_register_stacks := s.fp_register_stacks ++ [m2.1],
    rob := s.rob ++ [VanadisCircularQueue.create rob_count],
    issue_isa_tables := s.issue_isa_tables ++ [m2.2],
    retire_isa_tables := s.retire_isa_tables ++ [retire0.reset m2.2],
    halted_masks := s.halted_masks ++ [true] }

/-- The loops creating the functional units (vanadis.cc 206-240): `units` units of class
`ft`, numbered from `fu_id`. -/
def createFuncUnits (fu_id : Nat) (ft : VanadisFunctionalUnitType) (units cycles : Nat) :
    List VanadisFunctionalUnit :=
  (List.range units).map (fun k => VanadisFunctionalUnit.create ((fu_id + k) % 65536) ft cycles)

/-- The state before the per-thread loop of the constructor. -/
def emptyComponent (params : Params) : VanadisComponent :=
  { current_cycle := 0, max_cycle := params.max_cycle % 2 ^ 64,
    core_id := params.core_id % 2 ^ 32,
    hw_threads := params.hardware_threads % 2 ^ 32, nextInsID := 0,
    halted_masks := [], thread_decoders := [], int_register_stacks := [],
    fp_register_stacks := [], rob := [], issue_isa_tables := [], retire_isa_tables := [],
    fu_int_arith := [], fu_int_div := [], fu_fp_arith := [], fu_fp_div := [],
    lsq := VanadisLoadStoreQueue.create 0 0, tmp_raw_int := ∅, tmp_raw_fp := ∅, heap := [] }

/-- The block `if( 0 == core_id )` of the constructor (vanadis.cc 144-158). -/
def startCoreZero (params : Params) (s : VanadisComponent) : Except Fault VanadisComponent :=
  if s.core_id = 0 then do
    let _ ← vecAt s.halted_masks 0
    let dec ← vecAt s.thread_decoders 0
    let dec1 := if dec.ip = 0 then { dec with ip := params.entry_point } else dec
    .ok { s with halted_masks := s.halted_masks.set 0 false,
                 thread_decoders := s.thread_decoders.set 0 dec1 }
  else .ok s

/-- The seven test instructions of the constructor (vanadis.cc 160-194). -/
def constructorTestInstructions : List (Nat → VanadisInstruction) :=
  [ fun id => VanadisAddInstruction id 0 0 3 4 5,
    fun id => VanadisAddImmInstruction id 1 0 1 3,
    fun id => VanadisSubInstruction id 3 0 4 1 1,
    fun id => VanadisSubInstruction id 3 0 5 6 1,
    fun id => VanadisAddImmInstruction id 3 0 10 0,
    fun id => VanadisStoreInstruction id 3 0 10 5,
    fun id => VanadisLoadInstruction id 4 0 0 12 ]

/-- `VanadisComponent::VanadisComponent` (vanadis.cc 14-286). -/
def construct (params : Params) : Except Fault VanadisComponent := do
  let s0 := emptyComponent params
  let s1 ← (List.range s0.hw_threads).foldlM (constructThread params) s0
  let s2 ← startCoreZero params s1
  let s3 ← constructorTestInstructions.foldlM pushTestInstruction s2
  let int_arith_units := params.integer_arith_units % 65536
  let int_div_units := params.integer_div_units % 65536
  let fp_arith_units := params.fp_arith_units % 65536
  let fp_div_units := params.fp_div_units % 65536
  let s4 := { s3 with
    fu_int_arith := createFuncUnits 0 .INST_INT_ARITH int_arith_units
      (params.integer_arith_cycles % 65536),
    fu_int_div := createFuncUnits int_arith_units .INST_INT_DIV int_div_units
      (params.integer_div_cycles % 65536),
    fu_fp_arith := createFuncUnits (int_arith_units + int_div_units) .INST_FP_ARITH
      fp_arith_units (params.fp_arith_cycles % 65536),
    fu_fp_div := createFuncUnits (int_arith_units + int_div_units + fp_arith_units)
      .INST_FP_DIV fp_div_units (params.fp_div_cycles % 65536) }
  if !params.mem_interface_data then .error .fatal
  else if !params.mem_interface_inst then .error .fatal
  else .ok { s4 with lsq := VanadisLoadStoreQueue.create params.lsq_store_entries
                               params.lsq_load_entries }

/-! ## Register conservation: the quantities and the invariant -/

/-- The integer physical registers an instruction object of thread `t` holds as renamed
outputs: one per declared integer output once it is issued (an object stays in the arena
until retirement deletes it). -/
def heldIntRegs (t : Nat) (c : Option VanadisInstruction) : Nat :=
  match c with
  | some ins => if ins.hasIssued = true ∧ ins.getHWThread = t then ins.countISAIntRegOut else 0
  | none => 0

/-- The floating-point physical registers an instruction object of thread `t` holds. -/
def heldFPRegs (t : Nat) (c : Option VanadisInstruction) : Nat :=
  match c with
  | some ins => if ins.hasIssued = true ∧ ins.getHWThread = t then ins.countISAFPRegOut else 0
  | none => 0

/-- Integer physical registers held by the issued, not yet retired instructions of
thread `t`. -/
def inflightIntRegs (heap : Heap) (t : Nat) : Nat := (heap.map (heldIntRegs t)).sum

/-- Floating-point physical registers held by the issued, not yet retired instructions
of thread `t`. -/
def inflightFPRegs (heap : Heap) (t : Nat) : Nat := (heap.map (heldFPRegs t)).sum

/-- The states reachable from construction with `params` by ticks, under any behaviour of
the external collaborators. -/
inductive Reachable (params : Params) : VanadisComponent → Prop where
  | init (s : VanadisComponent) : construct params = .ok s → Reachable params s
  | step (ext : External) (cycle : Nat) (s s' : VanadisComponent) (b : Bool) :
      Reachable params s → tick ext cycle s = .ok (b, s') → Reachable params s'

/-- What an instruction object may become while the pointers to it stay where they are:
its issue state, thread and output lists are kept, and it is marked executed only if it
was executed or issued before. -/
def CellRel (c c' : Option VanadisInstruction) : Prop :=
  match c, c' with
  | none, none => True
  | some ins, some ins' =>
    ins'.hasIssued = ins.hasIssued ∧ ins'.hw_thread = ins.hw_thread ∧
    ins'.isa_int_regs_out = ins.isa_int_regs_out ∧
    ins'.isa_fp_regs_out = ins.isa_fp_regs_out ∧
    (ins'.hasExecuted = true → ins.hasExecuted = true ∨ ins.hasIssued = true)
  | _, _ => False

/-- The arena changes cell by cell as `CellRel` allows. -/
def HeapRel (heap heap' : Heap) : Prop :=
  heap'.length = heap.length ∧ ∀ q, CellRel (derefIns heap q) (derefIns heap' q)

/-- The invariant behind the register count of the runs whose `new` is `allocIns`, for
`ci` integer and `cf` floating-point physical registers per thread. -/
structure CoreInv (ci cf : Nat) (s : VanadisComponent) : Prop where
  len_int : s.int_register_stacks.length = s.hw_threads
  len_fp : s.fp_register_stacks.length = s.hw_threads
  len_retire : s.retire_isa_tables.length = s.hw_threads
  cap_int : ∀ (t : Nat) (st : VanadisRegisterStack),
    s.int_register_stacks[t]? = some st → st.capacity = ci
  cap_fp : ∀ (t : Nat) (st : VanadisRegisterStack),
    s.fp_register_stacks[t]? = some st → st.capacity = cf
  conserve_int : ∀ (t : Nat) (st : VanadisRegisterStack) (rt : VanadisISATable),
    s.int_register_stacks[t]? = some st →
    s.retire_isa_tables[t]? = some rt →
    st.unused + rt.int_reg_ptr.length + inflightIntRegs s.heap t = st.capacity
  conserve_fp : ∀ (t : Nat) (st : VanadisRegisterStack) (rt : VanadisISATable),
    s.fp_register_stacks[t]? = some st →
    s.retire_isa_tables[t]? = some rt →
    st.unused + rt.fp_reg_ptr.length + inflightFPRegs s.heap t = st.capacity
  exec_issued : ∀ p ins, derefIns s.heap p = some ins → ins.hasExecuted = true →
    ins.hasIssued = true
  queue_ok : ∀ (i : Nat) (dec : VanadisDecoder), s.thread_decoders[i]? = some dec →
    dec.decoded_q.Nodup ∧ ∀ p ∈ dec.decoded_q, ∃ ins, derefIns s.heap p = some ins ∧
      ins.hasIssued = false ∧ ins.hw_thread = i
  fu_ok : ∀ fu ∈ s.fu_int_arith ++ s.fu_int_div ++ s.fu_fp_arith ++ s.fu_fp_div,
    ∀ p, fu.slot_inst = some p → p < s.heap.length ∧
      ∀ ins, derefIns s.heap p = some ins → ins.hasIssued = true
  lsq_ok : ∀ p ∈ s.lsq.loads ++ s.lsq.stores, p < s.heap.length ∧
    ∀ ins, derefIns s.heap p = some ins → ins.hasIssued = true

/-! ## Concrete states used to exercise the theorems -/

/-- A table with four integer and two floating-point architectural registers, mapped to
the physical registers of the same index, nothing pending. -/
def exampleTable : VanadisISATable :=
  { int_reg_ptr := [0, 1, 2, 3], fp_reg_ptr := [0, 1],
    int_reg_pending_read := [0, 0, 0, 0], int_reg_pending_write := [0, 0, 0, 0],
    fp_reg_pending_read := [0, 0], fp_reg_pending_write := [0, 0] }

/-- A one-thread core: six integer and four floating-point physical registers, one unit
per pool, an LSQ with one load and one store entry, over the given instruction objects,
decoded queue and ROB contents. -/
def exampleCore (heap : Heap) (decoded_q rob_items : List InsPtr) : VanadisComponent :=
  { current_cycle := 0, max_cycle := 10, core_id := 0, hw_threads := 1,
    nextInsID := heap.length,
    halted_masks := [false],
    thread_decoders := [{ decoded_q := decoded_q, count_isa_int_reg := 4,
                          count_isa_fp_reg := 2, ins_cache_line_width := 64, ip := 0,
                          delegated_read := false }],
    int_register_stacks := [{ max_capacity := 6, regs := [4, 5] }],
    fp_register_stacks := [{ max_capacity := 4, regs := [2, 3] }],
    rob := [{ max_capacity := 4, items := rob_items }],
    issue_isa_tables := [exampleTable],
    retire_isa_tables := [exampleTable],
    fu_int_arith := [VanadisFunctionalUnit.create 0 .INST_INT_ARITH 1],
    fu_int_div := [VanadisFunctionalUnit.create 1 .INST_INT_DIV 4],
    fu_fp_arith := [VanadisFunctionalUnit.create 2 .INST_FP_ARITH 8],
    fu_fp_div := [VanadisFunctionalUnit.create 3 .INST_FP_DIV 80],
    lsq := VanadisLoadStoreQueue.create 1 1,
    tmp_raw_int := ∅, tmp_raw_fp := ∅,
    heap := heap }

/-- The core holding one addition `r3 := r1 + r2`, decoded and not yet issued. -/
def exampleAddCore : VanadisComponent :=
  exampleCore [some (VanadisAddInstruction 0 0 0 3 1 2)] [0] [0]

/-- External collaborators that deliver nothing during a cycle. -/
def quietExternal : External :=
  { decoded := fun _ _ => [], lsq_done := fun _ _ => false }

/-- A floating-point arithmetic instruction `f1 := f0 op f1`. -/
def exampleFPArith : VanadisInstruction :=
  VanadisInstruction.create 0 0 0 .INST_FP_ARITH [] [0, 1] [] [1] none

/-- The core holding one floating-point arithmetic instruction, decoded and not yet
issued; every functional unit is free. -/
def exampleFPArithCore : VanadisComponent :=
  exampleCore [some exampleFPArith] [0] [0]

/-- A speculated instruction (a branch-and-link writing `r3`) that has been renamed (its
output is physical register 4), issued and executed; `spec` and `res` are the predicted
and the resolved direction. -/
def exampleBranch (spec res : VanadisBranchDirection) : VanadisInstruction :=
  { VanadisInstruction.create 0 0 0 .INST_INT_ARITH [1] [] [3] []
      (some { speculatedDirection := spec, resultDirection := res }) with
    phys_int_regs_in := [1], phys_int_regs_out := [4],
    hasIssued := true, hasExecuted := true }

/-- The core with `exampleBranch spec res` at the head of the ROB of thread 0: the issue-time
table carries its rename (`r3` mapped to 4, one pending write, one pending read of `r1`),
the free integer stack has lost register 4, and the instruction sits in the integer
unit. -/
def exampleBranchCore (spec res : VanadisBranchDirection) : VanadisComponent :=
  { exampleCore [some (exampleBranch spec res)] [] [0] with
    int_register_stacks := [{ max_capacity := 6, regs := [5] }],
    issue_isa_tables := [{ exampleTable with
      int_reg_ptr := [0, 1, 2, 4],
      int_reg_pending_read := [0, 1, 0, 0],
      int_reg_pending_write := [0, 0, 0, 1] }],
    fu_int_arith := [{ VanadisFunctionalUnit.create 0 .INST_INT_ARITH 1 with
      slot_inst := some 0 }] }

/-- The addition `r3 := r1 + r2` after rename (output in physical register 4), issue and
execution. -/
def exampleIssuedAdd : VanadisInstruction :=
  { VanadisAddInstruction 0 0 0 3 1 2 with
    phys_int_regs_in := [1, 2], phys_int_regs_out := [4],
    hasIssued := true, hasExecuted := true }

/-- The issue-time table after the rename of `exampleIssuedAdd`. -/
def exampleIssuedAddTable : VanadisISATable :=
  { exampleTable with
    int_reg_ptr := [0, 1, 2, 4],
    int_reg_pending_read := [0, 1, 1, 0],
    int_reg_pending_write := [0, 0, 0, 1] }

/-- The core with `exampleIssuedAdd` at the head of the ROB of thread 0, ready to retire. -/
def exampleRetireCore : VanadisComponent :=
  { exampleCore [some exampleIssuedAdd] [] [0] with
    int_register_stacks := [{ max_capacity := 6, regs := [5] }],
    issue_isa_tables := [exampleIssuedAddTable],
    fu_int_arith := [{ VanadisFunctionalUnit.create 0 .INST_INT_ARITH 1 with
      slot_inst := some 0 }] }

/-- An executed instruction that names `r3` twice among its integer outputs, renamed to the
physical registers 4 and 5. -/
def exampleTwiceOut : VanadisInstruction :=
  { VanadisInstruction.create 0 0 0 .INST_INT_ARITH [] [] [3, 3] [] none with
    phys_int_regs_out := [4, 5], hasIssued := true, hasExecuted := true }

/-- The core with `exampleTwiceOut` at the head of the ROB of thread 0. -/
def exampleTwiceOutCore : VanadisComponent :=
  { exampleCore [some exampleTwiceOut] [] [0] with
    int_register_stacks := [{ max_capacity := 6, regs := [] }],
    issue_isa_tables := [{ exampleTable with
      int_reg_ptr := [0, 1, 2, 5], int_reg_pending_write := [0, 0, 0, 2] }],
    fu_int_arith := [{ VanadisFunctionalUnit.create 0 .INST_INT_ARITH 1 with
      slot_inst := some 0 }] }

/-- The core with `exampleIssuedAdd` at the head of the ROB of thread 0 and a second,
not yet issued addition `r2 := r3 + r3` behind it. -/
def exampleTwoInRobCore : VanadisComponent :=
  { exampleCore [some exampleIssuedAdd, some (VanadisAddInstruction 1 4 0 2 3 3)] [1] [0, 1] with
    int_register_stacks := [{ max_capacity := 6, regs := [5] }],
    issue_isa_tables := [exampleIssuedAddTable],
    fu_int_arith := [{ VanadisFunctionalUnit.create 0 .INST_INT_ARITH 1 with
      slot_inst := some 0 }] }

/-- A core whose thread 0 has exactly as many physical as architectural registers: every
physical register is mapped by the retire-time table and both free stacks are empty. -/
def exampleFullyMappedCore : VanadisComponent :=
  { exampleCore [] [] [] with
    int_register_stacks := [{ max_capacity := 4, regs := [] }],
    fp_register_stacks := [{ max_capacity := 2, regs := [] }] }

/-- A configuration with one hardware thread on core 0: an ISA with 16 integer and 4
floating-point registers, 24 integer and 8 floating-point physical registers, a ROB of 64
entries and the default functional units. -/
def exampleParams : Params :=
  { max_cycle := 100, core_id := 0, reorder_slots := 64, icache_line_width := 64,
    hardware_threads := 1, physical_integer_registers := 24, physical_fp_registers := 8,
    integer_arith_units := 2, integer_arith_cycles := 2, integer_div_units := 1,
    integer_div_cycles := 4, fp_arith_units := 2, fp_arith_cycles := 8, fp_div_units := 1,
    fp_div_cycles := 80, lsq_store_entries := 8, lsq_load_entries := 8,
    decoders := [some { count_isa_int_reg := 16, count_isa_fp_reg := 4,
                        ins_cache_line_width := 0, ip := 0, delegated_read := false }],
    mem_interface_data := true, mem_interface_inst := true, entry_point := 4096 }

/-- The core with a completed, non-speculated instruction at the head of the ROB of
thread 0 whose trap flag is set. -/
def exampleTrappedCore : VanadisComponent :=
  { exampleCore [some { exampleIssuedAdd with trapError := true }] [] [0] with
    int_register_stacks := [{ max_capacity := 6, regs := [5] }],
    issue_isa_tables := [exampleIssuedAddTable],
    fu_int_arith := [{ VanadisFunctionalUnit.create 0 .INST_INT_ARITH 1 with
      slot_inst := some 0 }] }

/-- An instruction with the integer output `r3` and the floating-point output `f1` (a
conversion that also sets an integer flag register). -/
def exampleMixedOut : VanadisInstruction :=
  VanadisInstruction.create 0 0 0 .INST_FP_ARITH [] [0] [3] [1] none

/-- The core of `exampleTrappedCore` with the trapped instruction issued but not yet
executed. -/
def exampleTrappedPendingCore : VanadisComponent :=
  { exampleCore [some { exampleIssuedAdd with trapError := true, hasExecuted := false }] [] [0] with
    int_register_stacks := [{ max_capacity := 6, regs := [5] }],
    issue_isa_tables := [exampleIssuedAddTable],
    fu_int_arith := [{ VanadisFunctionalUnit.create 0 .INST_INT_ARITH 1 with
      slot_inst := some 0 }] }

/-- One admission to the LSQ made under its guard: a load is appended while `loadFull()`
is false, or a store while `storeFull()` is false. -/
def GuardedPush (q q' : VanadisLoadStoreQueue) : Prop :=
  (q.loadFull = false ∧ ∃ p, q' = q.pushLoad p) ∨
  (q.storeFull = false ∧ ∃ p, q' = q.pushStore p)

/-- The core holding one load `r3 := mem[r1]`, decoded and not yet issued; the LSQ has
room for one load and one store. -/
def exampleLoadCore : VanadisComponent :=
  exampleCore [some (VanadisLoadInstruction 0 0 0 1 3)] [0] [0]

/-- The core holding one load, decoded and not yet issued, while the only load entry of
the LSQ is taken by an earlier load. -/
def exampleLoadFullCore : VanadisComponent :=
  { exampleCore [some { VanadisLoadInstruction 0 0 0 1 2 with hasIssued := true },
                 some (VanadisLoadInstruction 1 4 0 1 3)] [1] [0, 1] with
    lsq := { max_loads := 1, max_stores := 1, loads := [0], stores := [] } }

/-- The core of `exampleFPArithCore` configured with no floating-point arithmetic unit
(`fp_arith_units = 0`): the pool `fu_fp_arith` is empty, the unit of `fu_fp_div` is
free. -/
def exampleNoFPArithCore : VanadisComponent :=
  { exampleFPArithCore with fu_fp_arith := [] }

/-- The configuration `exampleParams` with a ROB of four entries. -/
def fourSlotParams : Params := { exampleParams with reorder_slots := 4 }

/-- The configuration `exampleParams` with a ROB of seven entries and four integer
arithmetic units of latency three. -/
def sevenSlotParams : Params :=
  { exampleParams with reorder_slots := 7, integer_arith_units := 4, integer_arith_cycles := 3 }

/-- The harness calling `tick` for `n` consecutive cycles, starting with cycle `c`. -/
def runTicks (ext : External) : Nat → Nat → VanadisComponent → Except Fault VanadisComponent
  | 0, _, s => .ok s
  | n + 1, c, s =>
    match tick ext c s with
    | .error e => .error e
    | .ok r => runTicks ext n (c + 1) r.2

/-- Construction followed by `n` cycles. -/
def run (params : Params) (ext : External) (n : Nat) : Except Fault VanadisComponent :=
  match construct params with
  | .error e => .error e
  | .ok s => runTicks ext n 0 s

/-- The instruction `r3 := r3 + r1`, which reads and writes `r3`. -/
def exampleReadWrite : VanadisInstruction := VanadisAddInstruction 0 0 0 3 3 1

/-- An instruction naming `r1` twice among its integer inputs and `r3` twice among its
integer outputs, with one floating-point input `f0` and one floating-point output `f1`. -/
def exampleTwiceNamed : VanadisInstruction :=
  VanadisInstruction.create 0 0 0 .INST_INT_ARITH [1, 1] [0] [3, 3] [1] none

/-- The number of times the instruction object in cell `c` names `r` among its integer
outputs, counted while the object is renamed (issued) on thread `t` and not yet retired
(retirement deletes the object). -/
def intWritesOf (t r : Nat) (c : Option VanadisInstruction) : Nat :=
  match c with
  | some ins =>
    if ins.hasIssued = true ∧ ins.getHWThread = t then ins.isa_int_regs_out.count r else 0
  | none => 0

/-- The same count for the floating-point outputs. -/
def fpWritesOf (t r : Nat) (c : Option VanadisInstruction) : Nat :=
  match c with
  | some ins =>
    if ins.hasIssued = true ∧ ins.getHWThread = t then ins.isa_fp_regs_out.count r else 0
  | none => 0

/-- Writes of the integer register `r` by the renamed, not yet retired instructions of
thread `t`. -/
def inflightIntWrites (heap : Heap) (t r : Nat) : Nat := (heap.map (intWritesOf t r)).sum

/-- Writes of the floating-point register `r` by the renamed, not yet retired
instructions of thread `t`. -/
def inflightFPWrites (heap : Heap) (t r : Nat) : Nat := (heap.map (fpWritesOf t r)).sum

/-- Some instruction of thread `t` with the integer output `r` has been renamed and is
not yet retired. -/
def InflightIntWriter (heap : Heap) (t r : Nat) : Prop :=
  ∃ p W, derefIns heap p = some W ∧ W.hasIssued = true ∧ W.getHWThread = t ∧
    r ∈ W.isa_int_regs_out

/-- Some instruction of thread `t` with the floating-point output `r` has been renamed
and is not yet retired. -/
def InflightFPWriter (heap : Heap) (t r : Nat) : Prop :=
  ∃ p W, derefIns heap p = some W ∧ W.hasIssued = true ∧ W.getHWThread = t ∧
    r ∈ W.isa_fp_regs_out

/-- The invariant behind the pending-write counters: each counter of a thread's
issue-time table equals the number of writes of its register by the renamed, not yet
retired instructions of the thread, and a ROB holds pointers to instructions of its own
thread. -/
structure WriteInv (s : VanadisComponent) : Prop where
  count_int : ∀ (t : Nat) (tbl : VanadisISATable) (r : Nat),
    s.issue_isa_tables[t]? = some tbl → r < tbl.int_reg_pending_write.length →
    tbl.int_reg_pending_write.getD r 0 = inflightIntWrites s.heap t r
  count_fp : ∀ (t : Nat) (tbl : VanadisISATable) (r : Nat),
    s.issue_isa_tables[t]? = some tbl → r < tbl.fp_reg_pending_write.length →
    tbl.fp_reg_pending_write.getD r 0 = inflightFPWrites s.heap t r
  rob_ok : ∀ (i : Nat) (q : VanadisCircularQueue InsPtr), s.rob[i]? = some q →
    ∀ p ∈ q.items, p < s.heap.length ∧
      ∀ ins, derefIns s.heap p = some ins → ins.hw_thread = i

/-- Every decoded queue of `b` is the decoded queue of `a` with instructions appended. -/
def QueueGrows (a b : VanadisComponent) : Prop :=
  ∀ (k : Nat) (dec : VanadisDecoder), a.thread_decoders[k]? = some dec →
    ∃ dec' added, b.thread_decoders[k]? = some dec' ∧ dec'.decoded_q = dec.decoded_q ++ added

/-- The states a run passes through: the states between ticks, and the states reached
from them by steps of the stages of `tick` (the loop bodies of fetch, decode, issue and
retire, the test-instruction injection, the execute stage). -/
inductive StageReachable (params : Params) : VanadisComponent → Prop where
  | boundary (s : VanadisComponent) : Reachable params s → StageReachable params s
  | fetch (s s' : VanadisComponent) (i : Nat) :
      StageReachable params s → fetchThread s i = .ok s' → StageReachable params s'
  | decode (ext : External) (cycle : Nat) (s s' : VanadisComponent) (i : Nat) :
      StageReachable params s → decodeThread ext cycle s i = .ok s' → StageReachable params s'
  | inject (s s' : VanadisComponent) :
      StageReachable params s → injectTestInstruction s = .ok s' → StageReachable params s'
  | issue (s s' : VanadisComponent) (i : Nat) :
      StageReachable params s → issueThread s i = .ok s' → StageReachable params s'
  | execute (ext : External) (cycle : Nat) (s : VanadisComponent) :
      StageReachable params s → StageReachable params (executeStage ext cycle s)
  | retire (s s' : VanadisComponent) (i : Nat) :
      StageReachable params s → retireThread s i = .ok s' → StageReachable params s'

/-- An instruction of a functional-unit class the issue switch has no case for, reading
`r1` and writing `r3`. -/
def exampleOtherClass : VanadisInstruction :=
  VanadisInstruction.create 0 0 0 .INST_OTHER [1] [] [3] [] none

/-- The core holding one instruction of an unhandled class, decoded and not yet issued. -/
def exampleOtherClassCore : VanadisComponent :=
  exampleCore [some exampleOtherClass] [0] [0]

/-- The core of `exampleRetireCore` with the addition at the head of the ROB issued but not
yet executed. -/
def examplePendingHeadCore : VanadisComponent :=
  { exampleRetireCore with heap := [some { exampleIssuedAdd with hasExecuted := false }] }

/-- First-free selection within a pool, in the words of the specification: `pool'` is
`pool` with the instruction placed in the first unit, in the pool's order, whose slot is
free; the units before it are occupied, and every unit but that one is as it was. -/
def ClaimsFirstFree (ins : InsPtr) (pool pool' : List VanadisFunctionalUnit) : Prop :=
  ∃ pre u post, pool = pre ++ u :: post ∧
    (∀ v ∈ pre, v.isInstructionSlotFree = false) ∧ u.isInstructionSlotFree = true ∧
    pool' = pre ++ u.setSlotInstruction ins :: post

/-- A core with two integer arithmetic units: the first holds the issued addition
`r3 := r1 + r2`, the second is free; behind the addition the instruction `r2 := r1 + r1`,
which passes the resource check, is at the head of the decoded queue. -/
def exampleSecondUnitCore : VanadisComponent :=
  { exampleCore [some { exampleIssuedAdd with hasExecuted := false },
                 some (VanadisAddInstruction 1 4 0 2 1 1)] [1] [0, 1] with
    int_register_stacks := [{ max_capacity := 6, regs := [5] }],
    issue_isa_tables := [exampleIssuedAddTable],
    fu_int_arith :=
      [{ VanadisFunctionalUnit.create 0 .INST_INT_ARITH 1 with slot_inst := some 0 },
       VanadisFunctionalUnit.create 4 .INST_INT_ARITH 1] }

/-- `new` under an allocator that hands a released cell out again, as a free-list
allocator does for objects of one size: the object is placed in the first cell emptied by
`delete`, and in a new cell when no cell is empty. -/
def allocInsReusing (heap : Heap) (ins : VanadisInstruction) : InsPtr × Heap :=
  if heap.findIdx (fun c => c.isNone) < heap.length then
    (heap.findIdx (fun c => c.isNone),
     heap.set (heap.findIdx (fun c => c.isNone)) (some ins))
  else (heap.length, heap ++ [some ins])

/-- `pushTestInstruction` with the allocator behind `new` as a parameter. -/
def pushTestInstructionWith (alloc : Heap → VanadisInstruction → InsPtr × Heap)
    (s : VanadisComponent) (mk : Nat → VanadisInstruction) : Except Fault VanadisComponent := do
  let a := alloc s.heap (mk s.nextInsID)
  let dec ← vecAt s.thread_decoders 0
  let rob_0 ← vecAt s.rob 0
  let rob_1 ← rob_0.push a.1
  .ok { s with
    nextInsID := s.nextInsID + 1,
    heap := a.2,
    thread_decoders := s.thread_decoders.set 0 { dec with decoded_q := dec.decoded_q ++ [a.1] },
    rob := s.rob.set 0 rob_1 }

/-- `decoderTick` with the allocator behind `new` as a parameter. -/
def decoderTickWith (alloc : Heap → VanadisInstruction → InsPtr × Heap)
    (dec : VanadisDecoder) (heap : Heap) (hw_thr : Nat) (ops : List DecodedOp) :
    VanadisDecoder × Heap :=
  ops.foldl
    (fun acc op =>
      let a := alloc acc.2
        (VanadisInstruction.create op.id op.ins_address hw_thr op.func_type
          op.isa_int_regs_in op.isa_fp_regs_in op.isa_int_regs_out op.isa_fp_regs_out
          op.speculation)
      ({ acc.1 with decoded_q := acc.1.decoded_q ++ [a.1] }, a.2))
    (dec, heap)

/-- `decodeThread` with the allocator behind `new` as a parameter. -/
def decodeThreadWith (alloc : Heap → VanadisInstruction → InsPtr × Heap)
    (ext : External) (cycle : Nat) (s : VanadisComponent) (i : Nat) :
    Except Fault VanadisComponent := do
  let halted ← vecAt s.halted_masks i
  if halted then .ok s
  else do
    let dec ← vecAt s.thread_decoders i
    let r := decoderTickWith alloc dec s.heap i (ext.decoded cycle i)
    .ok { s with thread_decoders := s.thread_decoders.set i r.1, heap := r.2 }

/-- `injectTestInstruction` with the allocator behind `new` as a parameter. -/
def injectTestInstructionWith (alloc : Heap → VanadisInstruction → InsPtr × Heap)
    (s : VanadisComponent) : Except Fault VanadisComponent := do
  let dec ← vecAt s.thread_decoders 0
  if dec.decoded_q.length < 6 then
    pushTestInstructionWith alloc s (fun id => VanadisAddInstruction id 0 0 0 0 0)
  else .ok s

/-- `VanadisComponent::tick` (vanadis.cc 293-538) with the allocator behind `new` as a
parameter; the stages that create no instruction are those of `tick`. -/
def tickWith (alloc : Heap → VanadisInstruction → InsPtr × Heap)
    (ext : External) (cycle : Nat) (s : VanadisComponent) :
    Except Fault (Bool × VanadisComponent) :=
  if s.current_cycle ≥ s.max_cycle then .ok (true, s)
  else do
    let s1 ← (List.range s.hw_threads).foldlM fetchThread s
    let s2 ← (List.range s1.hw_threads).foldlM (decodeThreadWith alloc ext cycle) s1
    let s3 ← injectTestInstructionWith alloc s2
    let s4 ← issueStage s3
    let s5 := executeStage ext cycle s4
    let s6 ← retireStage s5
    .ok (false, { s6 with current_cycle := (s6.current_cycle + 1) % 2 ^ 64 })

/-- The harness calling `tickWith` for `n` consecutive cycles, starting with cycle `c`. -/
def runTicksWith (alloc : Heap → VanadisInstruction → InsPtr × Heap) (ext : External) :
    Nat → Nat → VanadisComponent → Except Fault VanadisComponent
  | 0, _, s => .ok s
  | n + 1, c, s =>
    match tickWith alloc ext c s with
    | .error e => .error e
    | .ok r => runTicksWith alloc ext n (c + 1) r.2

/-- Construction followed by `n` cycles under the given allocator.  The constructor
creates its instructions before any `delete`, so both allocators place them alike. -/
def runWith (alloc : Heap → VanadisInstruction → InsPtr × Heap) (params : Params)
    (ext : External) (n : Nat) : Except Fault VanadisComponent :=
  match construct params with
  | .error e => .error e
  | .ok s => runTicksWith alloc ext n 0 s

theorem foldl_and_eq_true (f : Nat → Bool) (l : List Nat) (b : Bool) :
    l.foldl (fun good i => good && f i) b = true ↔ b = true ∧ ∀ i ∈ l, f i = true := by
  induction l generalizing b with
  | nil => simp
  | cons a l ih =>
    simp only [List.foldl_cons, ih, Bool.and_eq_true, List.mem_cons, forall_eq_or_imp]
    tauto

theorem mem_iff_getD (l : List Nat) (r : Nat) :
    r ∈ l ↔ ∃ i, i < l.length ∧ l.getD i 0 = r := by
  constructor
  · intro h
    obtain ⟨i, hi, rfl⟩ := List.mem_iff_getElem.mp h
    exact ⟨i, hi, by simp [List.getD_eq_getElem?_getD, List.getElem?_eq_getElem hi]⟩
  · rintro ⟨i, hi, rfl⟩
    simp [List.getD_eq_getElem?_getD, List.getElem?_eq_getElem hi]

/-- The status computed by `checkInstructionResources`, characterised. -/
theorem checkInstructionResources_eq_zero_iff (ins : VanadisInstruction)
    (int_regs fp_regs : VanadisRegisterStack) (isa_table : VanadisISATable)
    (wa_int wa_fp : Finset Nat) :
    (checkInstructionResources ins int_regs fp_regs isa_table wa_int wa_fp).1 = 0 ↔
      (ins.countISAIntRegOut ≤ int_regs.unused ∧ ins.countISAFPRegOut ≤ fp_regs.unused) ∧
      (∀ r ∈ ins.isa_int_regs_in, isa_table.pendingIntWrites r = false ∧ r ∉ wa_int) ∧
      (∀ r ∈ ins.isa_fp_regs_in, isa_table.pendingFPWrites r = false ∧ r ∉ wa_fp) := by
  have hI : ∀ b : Bool, (List.range ins.countISAIntRegIn).foldl
      (fun good i =>
        (good && !isa_table.pendingIntWrites (ins.getISAIntRegIn i))
          && decide (ins.getISAIntRegIn i ∉ wa_int)) b = true ↔
      b = true ∧ ∀ r ∈ ins.isa_int_regs_in, isa_table.pendingIntWrites r = false ∧ r ∉ wa_int := by
    intro b
    have := foldl_and_eq_true (fun i => !isa_table.pendingIntWrites (ins.getISAIntRegIn i)
          && decide (ins.getISAIntRegIn i ∉ wa_int)) (List.range ins.countISAIntRegIn) b
    simp only [Bool.and_assoc] at this ⊢
    rw [this]
    simp only [List.mem_range, Bool.and_eq_true, Bool.not_eq_true', decide_eq_true_eq,
      VanadisInstruction.countISAIntRegIn, VanadisInstruction.getISAIntRegIn]
    constructor
    · rintro ⟨hb, h⟩
      refine ⟨hb, fun r hr => ?_⟩
      obtain ⟨i, hi, rfl⟩ := (mem_iff_getD _ _).mp hr
      exact h i hi
    · rintro ⟨hb, h⟩
      exact ⟨hb, fun i hi => h _ ((mem_iff_getD _ _).mpr ⟨i, hi, rfl⟩)⟩
  have hF : ∀ b : Bool, (List.range ins.countISAFPRegIn).foldl
      (fun good i =>
        (good && !isa_table.pendingFPWrites (ins.getISAFPRegIn i))
          && decide (ins.getISAFPRegIn i ∉ wa_fp)) b = true ↔
      b = true ∧ ∀ r ∈ ins.isa_fp_regs_in, isa_table.pendingFPWrites r = false ∧ r ∉ wa_fp := by
    intro b
    have := foldl_and_eq_true (fun i => !isa_table.pendingFPWrites (ins.getISAFPRegIn i)
          && decide (ins.getISAFPRegIn i ∉ wa_fp)) (List.range ins.countISAFPRegIn) b
    simp only [Bool.and_assoc] at this ⊢
    rw [this]
    simp only [List.mem_range, Bool.and_eq_true, Bool.not_eq_true', decide_eq_true_eq,
      VanadisInstruction.countISAFPRegIn, VanadisInstruction.getISAFPRegIn]
    constructor
    · rintro ⟨hb, h⟩
      refine ⟨hb, fun r hr => ?_⟩
      obtain ⟨i, hi, rfl⟩ := (mem_iff_getD _ _).mp hr
      exact h i hi
    · rintro ⟨hb, h⟩
      exact ⟨hb, fun i hi => h _ ((mem_iff_getD _ _).mpr ⟨i, hi, rfl⟩)⟩
  simp only [checkInstructionResources]
  split_ifs with h3 h4
  · simp only [true_iff]
    rw [hF] at h4
    rw [hI] at h3
    simp only [Bool.true_and, Bool.and_eq_true, decide_eq_true_eq, ge_iff_le] at h3
    exact ⟨h3.1, h3.2, h4.2⟩
  · rw [hF] at h4
    simp only [one_ne_zero, false_iff]
    rintro ⟨_, _, h5⟩
    exact h4 ⟨h3, h5⟩
  · simp only [one_ne_zero, false_iff]
    rintro ⟨h1, h2, _⟩
    apply h3
    rw [hI]
    simpa using ⟨h1, h2⟩

theorem vecAt_eq_ok {α : Type} (v : List α) (i : Nat) (x : α) :
    vecAt v i = .ok x ↔ v[i]? = some x := by
  unfold vecAt
  cases h : v[i]? <;> simp

/-- The state a thread's issue step starts from: both written-ahead sets cleared. -/
theorem issueThread_ok_cases (s s' : VanadisComponent) (i : Nat)
    (h : issueThread s i = .ok s') :
    (s' = { s with tmp_raw_int := ∅, tmp_raw_fp := ∅ } ∧
      (s.halted_masks[i]? = some true ∨
        ∃ dec, s.thread_decoders[i]? = some dec ∧ dec.decoded_q = [])) ∨
    ∃ dec p rest ins int_regs fp_regs isa_table,
      s.halted_masks[i]? = some false ∧
      s.thread_decoders[i]? = some dec ∧ dec.decoded_q = p :: rest ∧
      derefIns s.heap p = some ins ∧
      s.int_register_stacks[i]? = some int_regs ∧
      s.fp_register_stacks[i]? = some fp_regs ∧
      s.issue_isa_tables[i]? = some isa_table ∧
      ((checkInstructionResources ins int_regs fp_regs isa_table ∅ ∅).1 ≠ 0 ∧
        s' = { s with
          tmp_raw_int := (checkInstructionResources ins int_regs fp_regs isa_table ∅ ∅).2.1,
          tmp_raw_fp := (checkInstructionResources ins int_regs fp_regs isa_table ∅ ∅).2.2 } ∨
       (checkInstructionResources ins int_regs fp_regs isa_table ∅ ∅).1 = 0 ∧
        ∃ d, dispatch ins.getInstFuncType p { s with
          tmp_raw_int := (checkInstructionResources ins int_regs fp_regs isa_table ∅ ∅).2.1,
          tmp_raw_fp := (checkInstructionResources ins int_regs fp_regs isa_table ∅ ∅).2.2 }
            = .ok d ∧
          (d.1 = false ∧ s' = d.2 ∨
           d.1 = true ∧ ∃ st, assignRegistersToInstruction ins int_regs fp_regs isa_table = .ok st ∧
             s' = { d.2 with
              int_register_stacks := d.2.int_register_stacks.set i st.int_regs,
              fp_register_stacks := d.2.fp_register_stacks.set i st.fp_regs,
              issue_isa_tables := d.2.issue_isa_tables.set i st.isa_table,
              thread_decoders := d.2.thread_decoders.set i { dec with decoded_q := rest },
              heap := d.2.heap.set p (some st.ins.markIssued) })) := by
  unfold issueThread at h
  simp only [bind, Except.bind] at h
  cases hh : vecAt s.halted_masks i with
  | error e => simp [hh] at h
  | ok halted =>
    simp only [hh] at h
    rw [vecAt_eq_ok] at hh
    cases halted with
    | true =>
      simp only [if_true, Except.ok.injEq] at h
      exact Or.inl ⟨h.symm, Or.inl hh⟩
    | false =>
      simp only [Bool.false_eq_true, if_false] at h
      cases hd : vecAt s.thread_decoders i with
      | error e => simp [hd] at h
      | ok dec =>
        simp only [hd] at h
        rw [vecAt_eq_ok] at hd
        cases hq : dec.decoded_q with
        | nil =>
          simp only [hq, Except.ok.injEq] at h
          exact Or.inl ⟨h.symm, Or.inr ⟨dec, hd, hq⟩⟩
        | cons p rest =>
          simp only [hq] at h
          cases hp : derefIns s.heap p with
          | none => simp [hp] at h
          | some ins =>
            simp only [hp] at h
            cases hi : vecAt s.int_register_stacks i with
            | error e => simp [hi] at h
            | ok int_regs =>
              simp only [hi] at h
              cases hf : vecAt s.fp_register_stacks i with
              | error e => simp [hf] at h
              | ok fp_regs =>
                simp only [hf] at h
                cases ht : vecAt s.issue_isa_tables i with
                | error e => simp [ht] at h
                | ok isa_table =>
                  simp only [ht] at h
                  rw [vecAt_eq_ok] at hi hf ht
                  refine Or.inr ⟨dec, p, rest, ins, int_regs, fp_regs, isa_table,
                    hh, hd, hq, hp, hi, hf, ht, ?_⟩
                  by_cases hc : (checkInstructionResources ins int_regs fp_regs isa_table ∅ ∅).1 = 0
                  · simp only [hc, if_true] at h
                    right
                    refine ⟨hc, ?_⟩
                    cases hdisp : dispatch ins.getInstFuncType p { s with
                        tmp_raw_int :=
                          (checkInstructionResources ins int_regs fp_regs isa_table ∅ ∅).2.1,
                        tmp_raw_fp :=
                          (checkInstructionResources ins int_regs fp_regs isa_table ∅ ∅).2.2 } with
                    | error e => simp [hdisp] at h
                    | ok d =>
                      simp only [hdisp] at h
                      refine ⟨d, rfl, ?_⟩
                      cases hd1 : d.1 with
                      | false =>
                        simp only [hd1, Bool.false_eq_true, if_false, Except.ok.injEq] at h
                        exact Or.inl ⟨rfl, h.symm⟩
                      | true =>
                        simp only [hd1, if_true] at h
                        cases ha : assignRegistersToInstruction ins int_regs fp_regs isa_table with
                        | error e => simp [ha] at h
                        | ok st =>
                          simp only [ha, Except.ok.injEq] at h
                          exact Or.inr ⟨rfl, st, rfl, h.symm⟩
                  · simp only [hc, if_false, Except.ok.injEq] at h
                    exact Or.inl ⟨hc, h.symm⟩

/-- The issue switch touches only the functional-unit pools and the LSQ. -/
theorem dispatch_frame (ft : VanadisFunctionalUnitType) (p : InsPtr) (s : VanadisComponent)
    (d : Bool × VanadisComponent) (h : dispatch ft p s = .ok d) :
    d.2.thread_decoders = s.thread_decoders ∧
    d.2.int_register_stacks = s.int_register_stacks ∧
    d.2.fp_register_stacks = s.fp_register_stacks ∧
    d.2.issue_isa_tables = s.issue_isa_tables ∧
    d.2.retire_isa_tables = s.retire_isa_tables ∧
    d.2.heap = s.heap ∧ d.2.rob = s.rob ∧ d.2.halted_masks = s.halted_masks ∧
    d.2.hw_threads = s.hw_threads := by
  cases ft <;> simp only [dispatch] at h
  case INST_OTHER => cases h
  case INST_LOAD => split at h <;> cases h <;> simp
  case INST_STORE => split at h <;> cases h <;> simp
  all_goals cases h; simp

/-- C1. `checkInstructionResources` returns 0 (issuable) only if the integer free stack
holds at least as many registers as the instruction has integer outputs, the
floating-point free stack at least as many as it has floating-point outputs, and no
integer or floating-point input register has a pending write in the issue-time table;
and the issue step of `tick` for a thread changes that thread's decoded queue, the free
stacks, the issue-time tables or an instruction object (rename, dequeue, mark issued)
only when the check on the head of the decoded queue returned 0. -/
theorem issue_only_with_resources :
    (∀ (ins : VanadisInstruction) (int_regs fp_regs : VanadisRegisterStack)
        (isa_table : VanadisISATable) (wa_int wa_fp : Finset Nat),
      (checkInstructionResources ins int_regs fp_regs isa_table wa_int wa_fp).1 = 0 →
        ins.countISAIntRegOut ≤ int_regs.unused ∧
        ins.countISAFPRegOut ≤ fp_regs.unused ∧
        (∀ r ∈ ins.isa_int_regs_in, isa_table.pendingIntWrites r = false) ∧
        (∀ r ∈ ins.isa_fp_regs_in, isa_table.pendingFPWrites r = false)) ∧
    (∀ (s s' : VanadisComponent) (i : Nat), issueThread s i = .ok s' →
      (s'.thread_decoders ≠ s.thread_decoders ∨
        s'.int_register_stacks ≠ s.int_register_stacks ∨
        s'.fp_register_stacks ≠ s.fp_register_stacks ∨
        s'.issue_isa_tables ≠ s.issue_isa_tables ∨
        s'.heap ≠ s.heap) →
      ∃ dec p rest ins int_regs fp_regs isa_table,
        s.thread_decoders[i]? = some dec ∧ dec.decoded_q = p :: rest ∧
        derefIns s.heap p = some ins ∧
        s.int_register_stacks[i]? = some int_regs ∧
        s.fp_register_stacks[i]? = some fp_regs ∧
        s.issue_isa_tables[i]? = some isa_table ∧
        (checkInstructionResources ins int_regs fp_regs isa_table ∅ ∅).1 = 0) := by
  refine ⟨?_, ?_⟩
  · intro ins int_regs fp_regs isa_table wa_int wa_fp h
    rw [checkInstructionResources_eq_zero_iff] at h
    exact ⟨h.1.1, h.1.2, fun r hr => (h.2.1 r hr).1, fun r hr => (h.2.2 r hr).1⟩
  · intro s s' i h hchg
    rcases issueThread_ok_cases s s' i h with ⟨rfl, _⟩ |
      ⟨dec, p, rest, ins, int_regs, fp_regs, isa_table, _, hd, hq, hp, hi, hf, ht, hcase⟩
    · simp at hchg
    · rcases hcase with ⟨_, rfl⟩ | ⟨hc, _⟩
      · simp at hchg
      · exact ⟨dec, p, rest, ins, int_regs, fp_regs, isa_table, hd, hq, hp, hi, hf, ht, hc⟩

/-- C1 exercised: the addition `r3 := r1 + r2` passes the check on the example core, the
issue step dequeues it, and the conclusions of the theorem hold there. -/
theorem issue_only_with_resources_witness :
    ((checkInstructionResources (VanadisAddInstruction 0 0 0 3 1 2)
        { max_capacity := 6, regs := [4, 5] } { max_capacity := 4, regs := [2, 3] }
        exampleTable ∅ ∅).1 = 0 ∧
      (VanadisAddInstruction 0 0 0 3 1 2).countISAIntRegOut ≤
        VanadisRegisterStack.unused { max_capacity := 6, regs := [4, 5] }) ∧
    (∃ s', issueThread exampleAddCore 0 = .ok s' ∧
      s'.thread_decoders ≠ exampleAddCore.thread_decoders ∧
      ∃ dec p rest ins int_regs fp_regs isa_table,
        exampleAddCore.thread_decoders[0]? = some dec ∧ dec.decoded_q = p :: rest ∧
        derefIns exampleAddCore.heap p = some ins ∧
        exampleAddCore.int_register_stacks[0]? = some int_regs ∧
        exampleAddCore.fp_register_stacks[0]? = some fp_regs ∧
        exampleAddCore.issue_isa_tables[0]? = some isa_table ∧
        (checkInstructionResources ins int_regs fp_regs isa_table ∅ ∅).1 = 0) := by
  have hcheck : (checkInstructionResources (VanadisAddInstruction 0 0 0 3 1 2)
        { max_capacity := 6, regs := [4, 5] } { max_capacity := 4, regs := [2, 3] }
        exampleTable ∅ ∅).1 = 0 := by decide
  refine ⟨⟨hcheck, (issue_only_with_resources.1 _ _ _ _ _ _ hcheck).1⟩, ?_⟩
  obtain ⟨s', hs', hne⟩ : ∃ s', issueThread exampleAddCore 0 = .ok s' ∧
      s'.thread_decoders ≠ exampleAddCore.thread_decoders := by
    refine ⟨_, rfl, ?_⟩
    decide
  exact ⟨s', hs', hne, issue_only_with_resources.2 _ _ _ hs' (Or.inl hne)⟩

/-- C2 (code defect). A floating-point arithmetic instruction that passes the resource
check while every unit is free is issued, but into the unit of `fu_fp_div`: the case
`INST_FP_ARITH` of the issue switch scans `fu_fp_div`, and `fu_fp_arith` stays empty. -/
theorem fp_arith_placed_in_fp_div_pool :
    exampleFPArith.getInstFuncType = .INST_FP_ARITH ∧
    (checkInstructionResources exampleFPArith { max_capacity := 6, regs := [4, 5] }
      { max_capacity := 4, regs := [2, 3] } exampleTable ∅ ∅).1 = 0 ∧
    exampleFPArithCore.fu_fp_arith.map (fun fu => fu.slot_inst) = [none] ∧
    exampleFPArithCore.fu_fp_div.map (fun fu => fu.slot_inst) = [none] ∧
    ∃ s', issueThread exampleFPArithCore 0 = .ok s' ∧
      s'.thread_decoders.map (fun d => d.decoded_q) = [[]] ∧
      s'.fu_fp_arith.map (fun fu => fu.slot_inst) = [none] ∧
      s'.fu_fp_div.map (fun fu => (fu.fu_type, fu.slot_inst)) = [(.INST_FP_DIV, some 0)] := by
  refine ⟨rfl, by decide, by decide, by decide, _, rfl, ?_, ?_, ?_⟩ <;> decide

/-- C3 (code defect). With a completed, mis-speculated instruction (predicted taken,
resolved not taken) at the head of thread 0's ROB, the retire step for the thread
returns the state unchanged, and after the whole `tick` the instruction is still at the
head of the ROB and the issue-time table still differs from the retire-time table:
`handleMisspeculate` is not called. -/
theorem misspeculation_not_recovered :
    retireThread (exampleBranchCore .BRANCH_TAKEN .BRANCH_NOT_TAKEN) 0
      = .ok (exampleBranchCore .BRANCH_TAKEN .BRANCH_NOT_TAKEN) ∧
    ∃ s', tick quietExternal 0 (exampleBranchCore .BRANCH_TAKEN .BRANCH_NOT_TAKEN)
        = .ok (false, s') ∧
      (s'.rob.map (fun q => q.items.head?)) = [some 0] ∧
      s'.issue_isa_tables ≠ s'.retire_isa_tables := by
  refine ⟨rfl, _, rfl, ?_, ?_⟩ <;> decide

/-- C4 (code defect). With a completed, correctly speculated instruction (predicted and
resolved taken) at the head of thread 0's ROB, the retire step for the thread returns
the state unchanged: the ROB keeps its size, and neither the retire-time table nor the
free stack shows the effect of `recoverRetiredRegisters`. -/
theorem correct_speculation_not_retired :
    retireThread (exampleBranchCore .BRANCH_TAKEN .BRANCH_TAKEN) 0
      = .ok (exampleBranchCore .BRANCH_TAKEN .BRANCH_TAKEN) ∧
    (recoverRetiredRegisters (exampleBranch .BRANCH_TAKEN .BRANCH_TAKEN)
      { max_capacity := 6, regs := [5] } { max_capacity := 4, regs := [2, 3] }
      exampleTable exampleTable).retire_isa_table ≠ exampleTable ∧
    ∃ s', tick quietExternal 0 (exampleBranchCore .BRANCH_TAKEN .BRANCH_TAKEN)
        = .ok (false, s') ∧
      (s'.rob.map (fun q => q.items.head?)) = [some 0] ∧
      s'.retire_isa_tables = [exampleTable] := by
  refine ⟨rfl, by decide, _, rfl, ?_, ?_⟩ <;> decide

theorem getD_set_nat (l : List Nat) (r r' p : Nat) :
    (l.set r p).getD r' 0 = if r = r' ∧ r < l.length then p else l.getD r' 0 := by
  simp only [List.getD_eq_getElem?_getD, List.getElem?_set]
  by_cases h : r = r'
  · subst h
    by_cases h2 : r < l.length
    · simp [h2]
    · simp [h2, List.getElem?_eq_none (Nat.le_of_not_lt h2)]
  · simp [h]

theorem getD_range_map (l : List Nat) (f : Nat → Nat) :
    (List.range l.length).map (fun j => f (l.getD j 0)) = l.map f := by
  apply List.ext_getElem
  · simp
  · intro j h1 h2
    simp only [List.length_map, List.length_range] at h1
    simp [List.getD_eq_getElem?_getD, List.getElem?_eq_getElem h1]

theorem foldl_push_regs (l : List Nat) (st : VanadisRegisterStack) :
    (l.foldl VanadisRegisterStack.push st).regs = l.reverse ++ st.regs ∧
    (l.foldl VanadisRegisterStack.push st).max_capacity = st.max_capacity := by
  induction l generalizing st with
  | nil => simp
  | cons a l ih =>
    simp only [List.foldl_cons, List.reverse_cons, List.append_assoc, List.singleton_append]
    rw [(ih _).1, (ih _).2]
    simp [VanadisRegisterStack.push]

/-- The integer output loop of `recoverRetiredRegisters` after `k` iterations, for an
instruction whose integer outputs are distinct registers of the table. -/
theorem recoverIntOut_fold (ins : VanadisInstruction) (st : RetireState)
    (hnd : ins.isa_int_regs_out.Nodup)
    (hr : ∀ r ∈ ins.isa_int_regs_out, r < st.retire_isa_table.int_reg_ptr.length)
    (k : Nat) (hk : k ≤ ins.isa_int_regs_out.length) :
    ((List.range k).foldl (recoverIntOutStep ins) st).int_regs = st.int_regs ∧
    ((List.range k).foldl (recoverIntOutStep ins) st).fp_regs = st.fp_regs ∧
    ((List.range k).foldl (recoverIntOutStep ins) st).recovered_phys_reg_fp
      = st.recovered_phys_reg_fp ∧
    ((List.range k).foldl (recoverIntOutStep ins) st).retire_isa_table.fp_reg_ptr
      = st.retire_isa_table.fp_reg_ptr ∧
    ((List.range k).foldl (recoverIntOutStep ins) st).retire_isa_table.int_reg_ptr.length
      = st.retire_isa_table.int_reg_ptr.length ∧
    ((List.range k).foldl (recoverIntOutStep ins) st).recovered_phys_reg_int
      = st.recovered_phys_reg_int ++
        (List.range k).map (fun j => st.retire_isa_table.getIntPhysReg (ins.getISAIntRegOut j)) ∧
    (∀ j < k, ((List.range k).foldl (recoverIntOutStep ins) st).retire_isa_table.getIntPhysReg
        (ins.getISAIntRegOut j) = ins.getPhysIntRegOut j) ∧
    (∀ r, (∀ j < k, ins.getISAIntRegOut j ≠ r) →
      ((List.range k).foldl (recoverIntOutStep ins) st).retire_isa_table.getIntPhysReg r
        = st.retire_isa_table.getIntPhysReg r) := by
  induction k with
  | zero => simp
  | succ k ih =>
    obtain ⟨h1, h2, h3, h4, h5, h6, h7, h8⟩ := ih (Nat.le_of_succ_le hk)
    have hklt : k < ins.isa_int_regs_out.length := hk
    have hne : ∀ j < k, ins.getISAIntRegOut j ≠ ins.getISAIntRegOut k := by
      intro j hj heq
      have hjl : j < ins.isa_int_regs_out.length := lt_trans hj hklt
      simp only [VanadisInstruction.getISAIntRegOut, List.getD_eq_getElem?_getD,
        List.getElem?_eq_getElem hjl, List.getElem?_eq_getElem hklt, Option.getD_some] at heq
      have := (List.Nodup.getElem_inj_iff hnd).mp heq
      omega
    have hin : ins.getISAIntRegOut k <
        ((List.range k).foldl (recoverIntOutStep ins) st).retire_isa_table.int_reg_ptr.length := by
      rw [h5]
      apply hr
      simp only [VanadisInstruction.getISAIntRegOut, List.getD_eq_getElem?_getD,
        List.getElem?_eq_getElem hklt, Option.getD_some]
      exact List.getElem_mem _
    simp only [List.range_succ, List.foldl_append, List.foldl_cons, List.foldl_nil,
      List.map_append, List.map_cons, List.map_nil]
    refine ⟨?_, ?_, ?_, ?_, ?_, ?_, ?_, ?_⟩
    · simpa [recoverIntOutStep] using h1
    · simpa [recoverIntOutStep] using h2
    · simpa [recoverIntOutStep] using h3
    · simpa [recoverIntOutStep, VanadisISATable.setIntPhysReg] using h4
    · simpa [recoverIntOutStep, VanadisISATable.setIntPhysReg] using h5
    · simp only [recoverIntOutStep, h6, List.append_assoc]
      rw [h8 _ hne]
    · intro j hj
      simp only [recoverIntOutStep, VanadisISATable.getIntPhysReg, VanadisISATable.setIntPhysReg,
        getD_set_nat]
      rcases Nat.lt_succ_iff_lt_or_eq.mp hj with hlt | rfl
      · have := hne j hlt
        rw [if_neg (fun h => this h.1.symm)]
        exact h7 j hlt
      · rw [if_pos ⟨rfl, hin⟩]
    · intro r hrj
      simp only [recoverIntOutStep, VanadisISATable.getIntPhysReg, VanadisISATable.setIntPhysReg,
        getD_set_nat]
      rw [if_neg (fun h => hrj k (Nat.lt_succ_self k) h.1)]
      exact h8 r (fun j hj => hrj j (Nat.lt_succ_of_lt hj))

/-- The floating-point output loop of `recoverRetiredRegisters` after `k` iterations, for an
instruction whose floating-point outputs are distinct registers of the table. -/
theorem recoverFPOut_fold (ins : VanadisInstruction) (st : RetireState)
    (hnd : ins.isa_fp_regs_out.Nodup)
    (hr : ∀ r ∈ ins.isa_fp_regs_out, r < st.retire_isa_table.fp_reg_ptr.length)
    (k : Nat) (hk : k ≤ ins.isa_fp_regs_out.length) :
    ((List.range k).foldl (recoverFPOutStep ins) st).int_regs = st.int_regs ∧
    ((List.range k).foldl (recoverFPOutStep ins) st).fp_regs = st.fp_regs ∧
    ((List.range k).foldl (recoverFPOutStep ins) st).recovered_phys_reg_int
      = st.recovered_phys_reg_int ∧
    ((List.range k).foldl (recoverFPOutStep ins) st).retire_isa_table.int_reg_ptr
      = st.retire_isa_table.int_reg_ptr ∧
    ((List.range k).foldl (recoverFPOutStep ins) st).retire_isa_table.fp_reg_ptr.length
      = st.retire_isa_table.fp_reg_ptr.length ∧
    ((List.range k).foldl (recoverFPOutStep ins) st).recovered_phys_reg_fp
      = st.recovered_phys_reg_fp ++
        (List.range k).map (fun j => st.retire_isa_table.getFPPhysReg (ins.getISAFPRegOut j)) ∧
    (∀ j < k, ((List.range k).foldl (recoverFPOutStep ins) st).retire_isa_table.getFPPhysReg
        (ins.getISAFPRegOut j) = ins.getPhysFPRegOut j) ∧
    (∀ r, (∀ j < k, ins.getISAFPRegOut j ≠ r) →
      ((List.range k).foldl (recoverFPOutStep ins) st).retire_isa_table.getFPPhysReg r
        = st.retire_isa_table.getFPPhysReg r) := by
  induction k with
  | zero => simp
  | succ k ih =>
    obtain ⟨h1, h2, h3, h4, h5, h6, h7, h8⟩ := ih (Nat.le_of_succ_le hk)
    have hklt : k < ins.isa_fp_regs_out.length := hk
    have hne : ∀ j < k, ins.getISAFPRegOut j ≠ ins.getISAFPRegOut k := by
      intro j hj heq
      have hjl : j < ins.isa_fp_regs_out.length := lt_trans hj hklt
      simp only [VanadisInstruction.getISAFPRegOut, List.getD_eq_getElem?_getD,
        List.getElem?_eq_getElem hjl, List.getElem?_eq_getElem hklt, Option.getD_some] at heq
      have := (List.Nodup.getElem_inj_iff hnd).mp heq
      omega
    have hin : ins.getISAFPRegOut k <
        ((List.range k).foldl (recoverFPOutStep ins) st).retire_isa_table.fp_reg_ptr.length := by
      rw [h5]
      apply hr
      simp only [VanadisInstruction.getISAFPRegOut, List.getD_eq_getElem?_getD,
        List.getElem?_eq_getElem hklt, Option.getD_some]
      exact List.getElem_mem _
    simp only [List.range_succ, List.foldl_append, List.foldl_cons, List.foldl_nil,
      List.map_append, List.map_cons, List.map_nil]
    refine ⟨?_, ?_, ?_, ?_, ?_, ?_, ?_, ?_⟩
    · simpa [recoverFPOutStep] using h1
    · simpa [recoverFPOutStep] using h2
    · simpa [recoverFPOutStep] using h3
    · simpa [recoverFPOutStep, VanadisISATable.setFPPhysReg] using h4
    · simpa [recoverFPOutStep, VanadisISATable.setFPPhysReg] using h5
    · simp only [recoverFPOutStep, h6, List.append_assoc]
      rw [h8 _ hne]
    · intro j hj
      simp only [recoverFPOutStep, VanadisISATable.getFPPhysReg, VanadisISATable.setFPPhysReg,
        getD_set_nat]
      rcases Nat.lt_succ_iff_lt_or_eq.mp hj with hlt | rfl
      · have := hne j hlt
        rw [if_neg (fun h => this h.1.symm)]
        exact h7 j hlt
      · rw [if_pos ⟨rfl, hin⟩]
    · intro r hrj
      simp only [recoverFPOutStep, VanadisISATable.getFPPhysReg, VanadisISATable.setFPPhysReg,
        getD_set_nat]
      rw [if_neg (fun h => hrj k (Nat.lt_succ_self k) h.1)]
      exact h8 r (fun j hj => hrj j (Nat.lt_succ_of_lt hj))


/-- A loop whose body leaves everything but the issue-time table alone does so as a
whole. -/
theorem foldl_issue_only (f : RetireState → Nat → RetireState)
    (hf : ∀ st i, (f st i).retire_isa_table = st.retire_isa_table ∧
      (f st i).int_regs = st.int_regs ∧ (f st i).fp_regs = st.fp_regs ∧
      (f st i).recovered_phys_reg_int = st.recovered_phys_reg_int ∧
      (f st i).recovered_phys_reg_fp = st.recovered_phys_reg_fp)
    (l : List Nat) (st : RetireState) :
    (l.foldl f st).retire_isa_table = st.retire_isa_table ∧
      (l.foldl f st).int_regs = st.int_regs ∧ (l.foldl f st).fp_regs = st.fp_regs ∧
      (l.foldl f st).recovered_phys_reg_int = st.recovered_phys_reg_int ∧
      (l.foldl f st).recovered_phys_reg_fp = st.recovered_phys_reg_fp := by
  induction l generalizing st with
  | nil => simp
  | cons a l ih =>
    simp only [List.foldl_cons]
    obtain ⟨h1, h2, h3, h4, h5⟩ := ih (f st a)
    obtain ⟨g1, g2, g3, g4, g5⟩ := hf st a
    exact ⟨h1.trans g1, h2.trans g2, h3.trans g3, h4.trans g4, h5.trans g5⟩

/-- What `recoverRetiredRegisters` does to the retire-time table and the free stacks, for
an instruction whose output registers are distinct registers of the table. -/
theorem recoverRetiredRegisters_spec (ins : VanadisInstruction)
    (int_regs fp_regs : VanadisRegisterStack) (issue retire : VanadisISATable)
    (hndi : ins.isa_int_regs_out.Nodup) (hndf : ins.isa_fp_regs_out.Nodup)
    (hri : ∀ r ∈ ins.isa_int_regs_out, r < retire.int_reg_ptr.length)
    (hrf : ∀ r ∈ ins.isa_fp_regs_out, r < retire.fp_reg_ptr.length) :
    (∀ j < ins.countISAIntRegOut,
      (recoverRetiredRegisters ins int_regs fp_regs issue retire).retire_isa_table.getIntPhysReg
        (ins.getISAIntRegOut j) = ins.getPhysIntRegOut j) ∧
    (∀ j < ins.countISAFPRegOut,
      (recoverRetiredRegisters ins int_regs fp_regs issue retire).retire_isa_table.getFPPhysReg
        (ins.getISAFPRegOut j) = ins.getPhysFPRegOut j) ∧
    (∀ r, r ∉ ins.isa_int_regs_out →
      (recoverRetiredRegisters ins int_regs fp_regs issue retire).retire_isa_table.getIntPhysReg r
        = retire.getIntPhysReg r) ∧
    (∀ r, r ∉ ins.isa_fp_regs_out →
      (recoverRetiredRegisters ins int_regs fp_regs issue retire).retire_isa_table.getFPPhysReg r
        = retire.getFPPhysReg r) ∧
    (recoverRetiredRegisters ins int_regs fp_regs issue retire).int_regs.regs
      = (ins.isa_int_regs_out.map retire.getIntPhysReg).reverse ++ int_regs.regs ∧
    (recoverRetiredRegisters ins int_regs fp_regs issue retire).fp_regs.regs
      = (ins.isa_fp_regs_out.map retire.getFPPhysReg).reverse ++ fp_regs.regs := by
  have hmemI : ∀ r, r ∉ ins.isa_int_regs_out →
      ∀ j < ins.isa_int_regs_out.length, ins.getISAIntRegOut j ≠ r := by
    intro r hr j hj heq
    exact hr ((mem_iff_getD _ _).mpr ⟨j, hj, heq⟩)
  have hmemF : ∀ r, r ∉ ins.isa_fp_regs_out →
      ∀ j < ins.isa_fp_regs_out.length, ins.getISAFPRegOut j ≠ r := by
    intro r hr j hj heq
    exact hr ((mem_iff_getD _ _).mpr ⟨j, hj, heq⟩)
  simp only [recoverRetiredRegisters, VanadisInstruction.countISAIntRegOut,
    VanadisInstruction.countISAFPRegOut]
  obtain ⟨c1, c2, c3, c4, c5⟩ := foldl_issue_only (recoverIntInStep ins)
    (fun _ _ => ⟨rfl, rfl, rfl, rfl, rfl⟩) (List.range ins.countISAIntRegIn)
    { int_regs := int_regs, fp_regs := fp_regs, issue_isa_table := issue,
      retire_isa_table := retire, recovered_phys_reg_int := [], recovered_phys_reg_fp := [] }
  generalize (List.range ins.countISAIntRegIn).foldl (recoverIntInStep ins)
    { int_regs := int_regs, fp_regs := fp_regs, issue_isa_table := issue,
      retire_isa_table := retire, recovered_phys_reg_int := [], recovered_phys_reg_fp := [] }
    = st1 at c1 c2 c3 c4 c5 ⊢
  obtain ⟨d1, d2, d3, d4, d5⟩ := foldl_issue_only (recoverFPInStep ins)
    (fun _ _ => ⟨rfl, rfl, rfl, rfl, rfl⟩) (List.range ins.countISAFPRegIn) st1
  generalize (List.range ins.countISAFPRegIn).foldl (recoverFPInStep ins) st1
    = st2 at d1 d2 d3 d4 d5 ⊢
  have e1 : st2.retire_isa_table = retire := d1.trans c1
  have e2 : st2.int_regs = int_regs := d2.trans c2
  have e3 : st2.fp_regs = fp_regs := d3.trans c3
  have e4 : st2.recovered_phys_reg_int = [] := d4.trans c4
  have e5 : st2.recovered_phys_reg_fp = [] := d5.trans c5
  obtain ⟨a1, a2, a3, a4, a5, a6, a7, a8⟩ :=
    recoverIntOut_fold ins st2 hndi (by rw [e1]; exact hri) _ (le_refl _)
  generalize hst3 : (List.range ins.isa_int_regs_out.length).foldl (recoverIntOutStep ins) st2
    = st3 at a1 a2 a3 a4 a5 a6 a7 a8
  obtain ⟨b1, b2, b3, b4, b5, b6, b7, b8⟩ :=
    recoverFPOut_fold ins st3 hndf (by rw [a4, e1]; exact hrf) _ (le_refl _)
  generalize hst4 : (List.range ins.isa_fp_regs_out.length).foldl (recoverFPOutStep ins) st3
    = st4 at b1 b2 b3 b4 b5 b6 b7 b8
  have hgetI : ∀ r, st4.retire_isa_table.getIntPhysReg r = st3.retire_isa_table.getIntPhysReg r := by
    intro r; simp only [VanadisISATable.getIntPhysReg, b4]
  have hgetF : ∀ r, st3.retire_isa_table.getFPPhysReg r = retire.getFPPhysReg r := by
    intro r; simp only [VanadisISATable.getFPPhysReg, a4, e1]
  refine ⟨?_, ?_, ?_, ?_, ?_, ?_⟩
  · intro j hj
    rw [hgetI]; exact a7 j hj
  · intro j hj
    exact b7 j hj
  · intro r hr
    rw [hgetI, a8 r (hmemI r hr), e1]
  · intro r hr
    rw [b8 r (hmemF r hr), hgetF]
  · simp only [(foldl_push_regs _ _).1]
    rw [b3, a6, e4, b1, a1, e2, List.nil_append, e1]
    have : (fun j => retire.getIntPhysReg (ins.getISAIntRegOut j))
        = (fun j => retire.getIntPhysReg (ins.isa_int_regs_out.getD j 0)) := rfl
    rw [this, getD_range_map ins.isa_int_regs_out retire.getIntPhysReg]
  · simp only [(foldl_push_regs _ _).1]
    rw [b6, a3, e5, b2, a2, e3, List.nil_append]
    have : (fun j => st3.retire_isa_table.getFPPhysReg (ins.getISAFPRegOut j))
        = (fun j => retire.getFPPhysReg (ins.isa_fp_regs_out.getD j 0)) := by
      funext j; rw [hgetF]; rfl
    rw [this, getD_range_map ins.isa_fp_regs_out retire.getFPPhysReg]

/-- The retire step on a completed, non-speculated ROB head without trap flag. -/
theorem retireThread_retires (s : VanadisComponent) (i : Nat)
    (rob_i : VanadisCircularQueue InsPtr) (p : InsPtr) (ins : VanadisInstruction)
    (int_regs fp_regs : VanadisRegisterStack) (issue retire : VanadisISATable)
    (hrob : s.rob[i]? = some rob_i) (hpeek : rob_i.peek = some p)
    (hderef : derefIns s.heap p = some ins)
    (htrap : ins.trapsError = false) (hspec : ins.isSpeculated = false)
    (hdone : ins.completedExecution = true)
    (hi : s.int_register_stacks[ins.getHWThread]? = some int_regs)
    (hf : s.fp_register_stacks[ins.getHWThread]? = some fp_regs)
    (hit : s.issue_isa_tables[i]? = some issue)
    (hrt : s.retire_isa_tables[i]? = some retire) :
    retireThread s i = .ok { s with
      rob := s.rob.set i rob_i.pop,
      int_register_stacks := s.int_register_stacks.set ins.getHWThread
        (recoverRetiredRegisters ins int_regs fp_regs issue retire).int_regs,
      fp_register_stacks := s.fp_register_stacks.set ins.getHWThread
        (recoverRetiredRegisters ins int_regs fp_regs issue retire).fp_regs,
      issue_isa_tables := s.issue_isa_tables.set i
        (recoverRetiredRegisters ins int_regs fp_regs issue retire).issue_isa_table,
      retire_isa_tables := s.retire_isa_tables.set i
        (recoverRetiredRegisters ins int_regs fp_regs issue retire).retire_isa_table,
      heap := deleteIns s.heap p } := by
  rw [← vecAt_eq_ok] at hrob hi hf hit hrt
  simp [retireThread, bind, Except.bind, hrob, hpeek, hderef, htrap, hspec, hdone, hi, hf, hit,
    hrt]

theorem getElem?_set_self_of_some {α : Type} (l : List α) (i : Nat) (x y : α)
    (h : l[i]? = some x) : (l.set i y)[i]? = some y := by
  have hi : i < l.length := by
    by_contra hc
    rw [List.getElem?_eq_none (Nat.le_of_not_lt hc)] at h
    cases h
  simp [List.getElem?_set, hi]

/-- A relation that holds across every successful step holds across a successful loop. -/
theorem foldlM_rel {σ : Type} (f : σ → Nat → Except Fault σ) (R : σ → σ → Prop)
    (hrefl : ∀ s, R s s) (htrans : ∀ a b c, R a b → R b c → R a c)
    (hstep : ∀ s i s', f s i = .ok s' → R s s') :
    ∀ (l : List Nat) (s s' : σ), l.foldlM f s = .ok s' → R s s' := by
  intro l
  induction l with
  | nil =>
    intro s s' h
    simp only [List.foldlM, pure, Except.pure, Except.ok.injEq] at h
    subst h
    exact hrefl s
  | cons a l ih =>
    intro s s' h
    simp only [List.foldlM, bind, Except.bind] at h
    cases hfa : f s a with
    | error e => simp [hfa] at h
    | ok s1 =>
      simp only [hfa] at h
      exact htrans _ _ _ (hstep _ _ _ hfa) (ih _ _ h)

/-- The outcomes of a successful fetch step. -/
theorem fetchThread_ok_cases (s s' : VanadisComponent) (i : Nat)
    (h : fetchThread s i = .ok s') :
    s' = s ∨ ∃ dec, s.thread_decoders[i]? = some dec ∧
      s' = { s with
        thread_decoders := s.thread_decoders.set i { dec with delegated_read := false } } := by
  unfold fetchThread at h
  simp only [bind, Except.bind] at h
  cases hh : vecAt s.halted_masks i with
  | error e => simp [hh] at h
  | ok halted =>
    simp only [hh] at h
    cases halted with
    | true =>
      simp only [if_true, Except.ok.injEq] at h
      exact Or.inl h.symm
    | false =>
      simp only [Bool.false_eq_true, if_false] at h
      cases hd : vecAt s.thread_decoders i with
      | error e => simp [hd] at h
      | ok dec =>
        simp only [hd] at h
        rw [vecAt_eq_ok] at hd
        split at h
        · simp only [Except.ok.injEq] at h
          exact Or.inr ⟨dec, hd, h.symm⟩
        · simp only [Except.ok.injEq] at h
          exact Or.inl h.symm

/-- The outcomes of a successful decode step. -/
theorem decodeThread_ok_cases (ext : External) (cycle : Nat) (s s' : VanadisComponent) (i : Nat)
    (h : decodeThread ext cycle s i = .ok s') :
    s' = s ∨ ∃ dec, s.halted_masks[i]? = some false ∧ s.thread_decoders[i]? = some dec ∧
      s' = { s with
        thread_decoders := s.thread_decoders.set i
          (decoderTick dec s.heap i (ext.decoded cycle i)).1,
        heap := (decoderTick dec s.heap i (ext.decoded cycle i)).2 } := by
  unfold decodeThread at h
  simp only [bind, Except.bind] at h
  cases hh : vecAt s.halted_masks i with
  | error e => simp [hh] at h
  | ok halted =>
    simp only [hh] at h
    rw [vecAt_eq_ok] at hh
    cases halted with
    | true =>
      simp only [if_true, Except.ok.injEq] at h
      exact Or.inl h.symm
    | false =>
      simp only [Bool.false_eq_true, if_false] at h
      cases hd : vecAt s.thread_decoders i with
      | error e => simp [hd] at h
      | ok dec =>
        simp only [hd, Except.ok.injEq] at h
        rw [vecAt_eq_ok] at hd
        exact Or.inr ⟨dec, hh, hd, h.symm⟩

/-- The outcome of a successful `pushTestInstruction`. -/
theorem pushTestInstruction_ok (s s' : VanadisComponent) (mk : Nat → VanadisInstruction)
    (h : pushTestInstruction s mk = .ok s') :
    ∃ dec rob_0, s.thread_decoders[0]? = some dec ∧ s.rob[0]? = some rob_0 ∧
      rob_0.full = false ∧
      s' = { s with
        nextInsID := s.nextInsID + 1,
        heap := s.heap ++ [some (mk s.nextInsID)],
        thread_decoders := s.thread_decoders.set 0
          { dec with decoded_q := dec.decoded_q ++ [s.heap.length] },
        rob := s.rob.set 0 { rob_0 with items := rob_0.items ++ [s.heap.length] } } := by
  unfold pushTestInstruction at h
  simp only [bind, Except.bind, allocIns] at h
  cases hd : vecAt s.thread_decoders 0 with
  | error e => simp [hd] at h
  | ok dec =>
    simp only [hd] at h
    cases hr : vecAt s.rob 0 with
    | error e => simp [hr] at h
    | ok rob_0 =>
      simp only [hr, VanadisCircularQueue.push] at h
      rw [vecAt_eq_ok] at hd hr
      cases hfull : rob_0.full with
      | true => simp [hfull] at h
      | false =>
        simp only [hfull, Bool.false_eq_true, if_false, Except.ok.injEq] at h
        exact ⟨dec, rob_0, hd, hr, hfull, h.symm⟩

/-- The outcomes of a successful test-instruction injection. -/
theorem injectTestInstruction_ok_cases (s s' : VanadisComponent)
    (h : injectTestInstruction s = .ok s') :
    s' = s ∨ pushTestInstruction s (fun id => VanadisAddInstruction id 0 0 0 0 0) = .ok s' := by
  unfold injectTestInstruction at h
  simp only [bind, Except.bind] at h
  cases hd : vecAt s.thread_decoders 0 with
  | error e => simp [hd] at h
  | ok dec =>
    simp only [hd] at h
    split at h
    · exact Or.inr h
    · simp only [Except.ok.injEq] at h
      exact Or.inl h.symm

/-- The outcomes of a successful retire step. -/
theorem retireThread_ok_cases (s s' : VanadisComponent) (i : Nat)
    (h : retireThread s i = .ok s') :
    s' = s ∨
    ∃ rob_i p ins, s.rob[i]? = some rob_i ∧ rob_i.peek = some p ∧
      derefIns s.heap p = some ins ∧ ins.trapsError = false ∧
      ((ins.completedExecution = false ∧
          s' = { s with heap := updateIns s.heap p VanadisInstruction.markFrontOfROB }) ∨
       (ins.completedExecution = true ∧ ins.isSpeculated = false ∧
          ∃ int_regs fp_regs issue retire,
            s.int_register_stacks[ins.getHWThread]? = some int_regs ∧
            s.fp_register_stacks[ins.getHWThread]? = some fp_regs ∧
            s.issue_isa_tables[i]? = some issue ∧
            s.retire_isa_tables[i]? = some retire ∧
            s' = { s with
              rob := s.rob.set i rob_i.pop,
              int_register_stacks := s.int_register_stacks.set ins.getHWThread
                (recoverRetiredRegisters ins int_regs fp_regs issue retire).int_regs,
              fp_register_stacks := s.fp_register_stacks.set ins.getHWThread
                (recoverRetiredRegisters ins int_regs fp_regs issue retire).fp_regs,
              issue_isa_tables := s.issue_isa_tables.set i
                (recoverRetiredRegisters ins int_regs fp_regs issue retire).issue_isa_table,
              retire_isa_tables := s.retire_isa_tables.set i
                (recoverRetiredRegisters ins int_regs fp_regs issue retire).retire_isa_table,
              heap := deleteIns s.heap p })) := by
  unfold retireThread at h
  simp only [bind, Except.bind] at h
  cases hr : vecAt s.rob i with
  | error e => simp [hr] at h
  | ok rob_i =>
    simp only [hr] at h
    rw [vecAt_eq_ok] at hr
    cases hp : rob_i.peek with
    | none =>
      simp only [hp, Except.ok.injEq] at h
      exact Or.inl h.symm
    | some p =>
      simp only [hp] at h
      cases hd : derefIns s.heap p with
      | none => simp [hd] at h
      | some ins =>
        simp only [hd] at h
        cases ht : ins.trapsError with
        | true => simp [ht] at h
        | false =>
          simp only [ht, Bool.false_eq_true, if_false] at h
          cases hc : ins.completedExecution with
          | false =>
            simp only [hc, Bool.and_false, Bool.false_eq_true, if_false, Except.ok.injEq] at h
            exact Or.inr ⟨rob_i, p, ins, hr, hp, hd, ht, Or.inl ⟨hc, h.symm⟩⟩
          | true =>
            cases hs : ins.isSpeculated with
            | true =>
              simp only [hc, hs, Bool.and_self, if_true] at h
              left
              split at h
              · simp only [Except.ok.injEq] at h; exact h.symm
              · split at h <;> (simp only [Except.ok.injEq] at h; exact h.symm)
            | false =>
              simp only [hc, hs, Bool.false_and, Bool.false_eq_true, if_false, if_true] at h
              cases hi : vecAt s.int_register_stacks ins.getHWThread with
              | error e => simp [hi] at h
              | ok int_regs =>
                simp only [hi] at h
                cases hf : vecAt s.fp_register_stacks ins.getHWThread with
                | error e => simp [hf] at h
                | ok fp_regs =>
                  simp only [hf] at h
                  cases hit : vecAt s.issue_isa_tables i with
                  | error e => simp [hit] at h
                  | ok issue =>
                    simp only [hit] at h
                    cases hrt : vecAt s.retire_isa_tables i with
                    | error e => simp [hrt] at h
                    | ok retire =>
                      simp only [hrt, Except.ok.injEq] at h
                      rw [vecAt_eq_ok] at hi hf hit hrt
                      exact Or.inr ⟨rob_i, p, ins, hr, hp, hd, ht, Or.inr ⟨hc, hs,
                        int_regs, fp_regs, issue, retire, hi, hf, hit, hrt, h.symm⟩⟩

/-- A successful `tick` either stops at the cycle limit or runs its stages in order. -/
theorem tick_ok_stages (ext : External) (cycle : Nat) (s s' : VanadisComponent) (b : Bool)
    (h : tick ext cycle s = .ok (b, s')) :
    (s.current_cycle ≥ s.max_cycle ∧ b = true ∧ s' = s) ∨
    (s.current_cycle < s.max_cycle ∧ b = false ∧ ∃ s1 s2 s3 s4 s6,
      (List.range s.hw_threads).foldlM fetchThread s = .ok s1 ∧
      (List.range s1.hw_threads).foldlM (decodeThread ext cycle) s1 = .ok s2 ∧
      injectTestInstruction s2 = .ok s3 ∧
      issueStage s3 = .ok s4 ∧
      retireStage (executeStage ext cycle s4) = .ok s6 ∧
      s' = { s6 with current_cycle := (s6.current_cycle + 1) % 2 ^ 64 }) := by
  unfold tick at h
  split at h
  · rename_i hc
    simp only [Except.ok.injEq, Prod.mk.injEq] at h
    exact Or.inl ⟨hc, h.1.symm, h.2.symm⟩
  · rename_i hc
    simp only [bind, Except.bind] at h
    cases h1 : (List.range s.hw_threads).foldlM fetchThread s with
    | error e => simp [h1] at h
    | ok s1 =>
      simp only [h1] at h
      cases h2 : (List.range s1.hw_threads).foldlM (decodeThread ext cycle) s1 with
      | error e => simp [h2] at h
      | ok s2 =>
        simp only [h2] at h
        cases h3 : injectTestInstruction s2 with
        | error e => simp [h3] at h
        | ok s3 =>
          simp only [h3] at h
          cases h4 : issueStage s3 with
          | error e => simp [h4] at h
          | ok s4 =>
            simp only [h4] at h
            cases h6 : retireStage (executeStage ext cycle s4) with
            | error e => simp [h6] at h
            | ok s6 =>
              simp only [h6, Except.ok.injEq, Prod.mk.injEq] at h
              exact Or.inr ⟨Nat.lt_of_not_le hc, h.1.symm, s1, s2, s3, s4, s6, rfl, h2, h3, h4,
                h6, h.2.symm⟩

theorem fetchThread_rob (s s' : VanadisComponent) (i : Nat) (h : fetchThread s i = .ok s') :
    s'.rob = s.rob ∧ s'.hw_threads = s.hw_threads := by
  rcases fetchThread_ok_cases s s' i h with rfl | ⟨dec, _, rfl⟩ <;> exact ⟨rfl, rfl⟩

theorem decodeThread_rob (ext : External) (cycle : Nat) (s s' : VanadisComponent) (i : Nat)
    (h : decodeThread ext cycle s i = .ok s') :
    s'.rob = s.rob ∧ s'.hw_threads = s.hw_threads := by
  rcases decodeThread_ok_cases ext cycle s s' i h with rfl | ⟨dec, _, _, rfl⟩ <;> exact ⟨rfl, rfl⟩

theorem issueThread_rob (s s' : VanadisComponent) (i : Nat) (h : issueThread s i = .ok s') :
    s'.rob = s.rob ∧ s'.hw_threads = s.hw_threads := by
  rcases issueThread_ok_cases s s' i h with ⟨rfl, _⟩ |
    ⟨dec, p, rest, ins, int_regs, fp_regs, isa_table, _, _, _, _, _, _, _, hcase⟩
  · exact ⟨rfl, rfl⟩
  · rcases hcase with ⟨_, rfl⟩ | ⟨_, d, hd, hcase2⟩
    · exact ⟨rfl, rfl⟩
    · obtain ⟨_, _, _, _, _, _, f7, _, f9⟩ := dispatch_frame _ _ _ _ hd
      rcases hcase2 with ⟨_, rfl⟩ | ⟨_, st, _, rfl⟩
      · exact ⟨f7, f9⟩
      · exact ⟨f7, f9⟩

theorem rob_rel_foldlM (f : VanadisComponent → Nat → Except Fault VanadisComponent)
    (hstep : ∀ s s' i, f s i = .ok s' → s'.rob = s.rob ∧ s'.hw_threads = s.hw_threads)
    (l : List Nat) (s s' : VanadisComponent) (h : l.foldlM f s = .ok s') :
    s'.rob = s.rob ∧ s'.hw_threads = s.hw_threads :=
  foldlM_rel f (fun a b => b.rob = a.rob ∧ b.hw_threads = a.hw_threads)
    (fun _ => ⟨rfl, rfl⟩)
    (fun _ _ _ h1 h2 => ⟨h2.1.trans h1.1, h2.2.trans h1.2⟩)
    (fun a i b => hstep a b i) l s s' h

/-- The retire step leaves every ROB alone or pops the completed head of thread `i`'s. -/
theorem retireThread_rob (s s' : VanadisComponent) (i : Nat) (h : retireThread s i = .ok s') :
    s'.rob = s.rob ∨ ∃ rob_i p ins, s.rob[i]? = some rob_i ∧ rob_i.peek = some p ∧
      derefIns s.heap p = some ins ∧ ins.completedExecution = true ∧
      s'.rob = s.rob.set i rob_i.pop := by
  rcases retireThread_ok_cases s s' i h with rfl |
    ⟨rob_i, p, ins, hr, hp, hd, _, ⟨_, rfl⟩ | ⟨hc, _, _, _, _, _, _, _, _, _, rfl⟩⟩
  · exact Or.inl rfl
  · exact Or.inl rfl
  · exact Or.inr ⟨rob_i, p, ins, hr, hp, hd, hc, rfl⟩

/-- Across the retire loop every ROB is unchanged or has lost its head, once. -/
theorem retire_fold_rob : ∀ (l : List Nat), l.Nodup → ∀ (s s' : VanadisComponent),
    l.foldlM retireThread s = .ok s' → ∀ k : Nat,
      s'.rob[k]? = s.rob[k]? ∨ ∃ q, s.rob[k]? = some q ∧ s'.rob[k]? = some q.pop := by
  intro l
  induction l with
  | nil =>
    intro _ s s' h k
    simp only [List.foldlM, pure, Except.pure, Except.ok.injEq] at h
    subst h
    exact Or.inl rfl
  | cons a l ih =>
    intro hnd s s' h k
    simp only [List.foldlM, bind, Except.bind] at h
    cases hfa : retireThread s a with
    | error e => simp [hfa] at h
    | ok s1 =>
      simp only [hfa] at h
      have hnd' := (List.nodup_cons.mp hnd)
      rcases retireThread_rob s s1 a hfa with h1 | ⟨rob_a, p, ins, hr, _, _, _, h1⟩
      · rw [← h1]
        exact ih hnd'.2 s1 s' h k
      · by_cases hk : k = a
        · subst hk
          have hfix : ∀ (l : List Nat), k ∉ l → ∀ (t t' : VanadisComponent),
              l.foldlM retireThread t = .ok t' → t'.rob[k]? = t.rob[k]? := by
            intro l
            induction l with
            | nil =>
              intro _ t t' ht
              simp only [List.foldlM, pure, Except.pure, Except.ok.injEq] at ht
              subst ht; rfl
            | cons b l ihl =>
              intro hkl t t' ht
              simp only [List.foldlM, bind, Except.bind] at ht
              cases hfb : retireThread t b with
              | error e => simp [hfb] at ht
              | ok t1 =>
                simp only [hfb] at ht
                have hkb : b ≠ k := fun hb => hkl (by simp [hb])
                have hkl' : k ∉ l := fun hm => hkl (List.mem_cons_of_mem _ hm)
                rw [ihl hkl' t1 t' ht]
                rcases retireThread_rob t t1 b hfb with h2 | ⟨_, _, _, _, _, _, _, h2⟩
                · rw [h2]
                · rw [h2, List.getElem?_set_ne hkb]
          right
          refine ⟨rob_a, hr, ?_⟩
          rw [hfix l hnd'.1 s1 s' h, h1]
          exact getElem?_set_self_of_some _ _ _ _ hr
        · have : s1.rob[k]? = s.rob[k]? := by
            rw [h1, List.getElem?_set_ne (fun hh => hk hh.symm)]
          rw [← this]
          exact ih hnd'.2 s1 s' h k

/-- C6. The retire step of `tick` removes an instruction from a ROB only as the head of
thread `i`'s ROB, and only when that instruction has completed execution; and across a
whole `tick` the ROB of a thread becomes its former content followed by what was pushed,
or that list without its head.  So an instruction `B` that entered the ROB after an
instruction `A` still in it is never popped by the tick: it is still in the ROB
afterwards. -/
theorem rob_retires_in_order :
    (∀ (s s' : VanadisComponent) (i : Nat), retireThread s i = .ok s' →
      s'.rob = s.rob ∨ ∃ rob_i p ins, s.rob[i]? = some rob_i ∧ rob_i.peek = some p ∧
        derefIns s.heap p = some ins ∧ ins.completedExecution = true ∧
        s'.rob = s.rob.set i rob_i.pop) ∧
    (∀ (ext : External) (cycle : Nat) (s s' : VanadisComponent) (b : Bool) (i : Nat)
        (q : VanadisCircularQueue InsPtr),
      tick ext cycle s = .ok (b, s') → s.rob[i]? = some q →
      ∃ q' pushed, s'.rob[i]? = some q' ∧
        (q'.items = q.items ++ pushed ∨ q'.items = (q.items ++ pushed).tail) ∧
        ∀ l1 A l2 B, q.items = l1 ++ A :: l2 → B ∈ l2 → B ∈ q'.items) := by
  refine ⟨retireThread_rob, ?_⟩
  intro ext cycle s s' b i q h hq
  have hAB : ∀ (items pushed : List InsPtr) (l1 : List InsPtr) (A : InsPtr) (l2 : List InsPtr)
      (B : InsPtr), items = l1 ++ A :: l2 → B ∈ l2 →
      B ∈ items ++ pushed ∧ B ∈ (items ++ pushed).tail := by
    intro items pushed l1 A l2 B hi hB
    subst hi
    refine ⟨by simp [hB], ?_⟩
    cases l1 with
    | nil => simp [hB]
    | cons x l1 => simp [hB]
  rcases tick_ok_stages ext cycle s s' b h with ⟨_, _, rfl⟩ |
    ⟨_, _, s1, s2, s3, s4, s6, h1, h2, h3, h4, h6, rfl⟩
  · refine ⟨q, [], hq, Or.inl (by simp), ?_⟩
    intro l1 A l2 B hi hB
    rw [hi]; simp [hB]
  · have e1 := rob_rel_foldlM _ fetchThread_rob _ _ _ h1
    have e2 := rob_rel_foldlM _ (decodeThread_rob ext cycle) _ _ _ h2
    have e4 := rob_rel_foldlM _ issueThread_rob _ _ _ h4
    have e5 : (executeStage ext cycle s4).rob = s4.rob := rfl
    have hs2 : s2.rob[i]? = some q := by rw [e2.1, e1.1]; exact hq
    have h3' : ∃ pushed, ∃ q3, s3.rob[i]? = some q3 ∧ q3.items = q.items ++ pushed ∧
        q3.max_capacity = q.max_capacity := by
      rcases injectTestInstruction_ok_cases s2 s3 h3 with rfl | hpush
      · exact ⟨[], q, hs2, by simp, rfl⟩
      · obtain ⟨dec, rob_0, _, hr0, _, rfl⟩ := pushTestInstruction_ok _ _ _ hpush
        by_cases hi0 : i = 0
        · subst hi0
          rw [hs2] at hr0
          cases hr0
          exact ⟨[s2.heap.length], _, getElem?_set_self_of_some _ _ _ _ hs2, rfl, rfl⟩
        · refine ⟨[], q, ?_, by simp, rfl⟩
          simp only []
          rw [List.getElem?_set_ne (fun hh => hi0 hh.symm)]
          exact hs2
    obtain ⟨pushed, q3, hq3, hitems, _⟩ := h3'
    have hs5 : (executeStage ext cycle s4).rob[i]? = some q3 := by rw [e5, e4.1]; exact hq3
    rcases retire_fold_rob _ (List.nodup_range _) _ _ h6 i with h7 | ⟨q5, hq5, h7⟩
    · refine ⟨q3, pushed, by simpa [h7] using hs5, Or.inl hitems, ?_⟩
      intro l1 A l2 B hi hB
      rw [hitems]
      exact (hAB _ pushed l1 A l2 B hi hB).1
    · rw [hs5] at hq5
      cases hq5
      refine ⟨q3.pop, pushed, by simpa using h7, Or.inr ?_, ?_⟩
      · simp [VanadisCircularQueue.pop, hitems]
      · intro l1 A l2 B hi hB
        simp only [VanadisCircularQueue.pop, hitems]
        exact (hAB _ pushed l1 A l2 B hi hB).2

/-- C6 exercised on `exampleTwoInRobCore`: the tick pops the completed head 0, and the
instruction 1 behind it is still in the ROB. -/
theorem rob_retires_in_order_witness :
    ∃ s' q' pushed, tick quietExternal 0 exampleTwoInRobCore = .ok (false, s') ∧
      s'.rob[0]? = some q' ∧
      (q'.items = [0, 1] ++ pushed ∨ q'.items = ([0, 1] ++ pushed).tail) ∧
      1 ∈ q'.items ∧ 0 ∉ q'.items := by
  obtain ⟨s', hs', h0⟩ : ∃ s', tick quietExternal 0 exampleTwoInRobCore = .ok (false, s') ∧
      s'.rob.map (fun q => q.items) = [[1, 2]] := by
    refine ⟨_, rfl, ?_⟩
    decide
  obtain ⟨q', pushed, hq', hitems, hAB⟩ := rob_retires_in_order.2 quietExternal 0
    exampleTwoInRobCore s' false 0 { max_capacity := 4, items := [0, 1] } hs' rfl
  refine ⟨s', q', pushed, hs', hq', hitems, hAB [] 0 [1] 1 rfl (by simp), ?_⟩
  have : s'.rob.map (fun q => q.items) = [q'.items] := by
    have hlen : s'.rob.length = 1 := by
      have := congrArg List.length h0
      simpa using this
    match hrob : s'.rob, hlen with
    | [x], _ =>
      rw [hrob] at hq'
      simp only [List.getElem?_cons_zero, Option.some.injEq] at hq'
      simp [hq']
  rw [this] at h0
  simp only [List.cons.injEq, and_true] at h0
  rw [h0]
  decide

/-- C8 (code defect). On `exampleRetireCore` no register is both free and mapped by the
retire-time table of thread 0, but after `resetRegisterStacks` the rebuilt integer stack
holds the registers 0-3 the retire-time table maps, and the floating-point stack the
mapped registers 0 and 1: the rebuild pushes onto a newly constructed stack, which
already holds every register. -/
theorem reset_breaks_free_mapped_disjointness :
    (∀ r ∈ [5], VanadisISATable.physIntRegInUse exampleTable r = false) ∧
    (∀ r ∈ [2, 3], VanadisISATable.physFPRegInUse exampleTable r = false) ∧
    exampleRetireCore.int_register_stacks.map (fun st => st.regs) = [[5]] ∧
    exampleRetireCore.fp_register_stacks.map (fun st => st.regs) = [[2, 3]] ∧
    exampleRetireCore.retire_isa_tables = [exampleTable] ∧
    ∃ s', resetRegisterStacks exampleRetireCore 0 = .ok s' ∧
      s'.retire_isa_tables = [exampleTable] ∧
      s'.int_register_stacks.map (fun st => st.regs) = [[5, 4, 0, 1, 2, 3, 4, 5]] ∧
      s'.fp_register_stacks.map (fun st => st.regs) = [[3, 2, 0, 1, 2, 3]] ∧
      VanadisISATable.physIntRegInUse exampleTable 0 = true ∧
      VanadisISATable.physFPRegInUse exampleTable 0 = true := by
  refine ⟨by decide, by decide, by decide, by decide, rfl, _, rfl, ?_, ?_, ?_, ?_, ?_⟩ <;> decide

/-- C9 (code defect). When the retire-time table of thread 0 maps every physical register
(`exampleFullyMappedCore`), `resetRegisterStacks` pushes nothing, yet the rebuilt stacks
hold all four integer and both floating-point registers instead of none; and when two
integer registers are unmapped (`exampleAddCore`, capacity 6) the rebuilt integer stack
has eight entries, the free registers 4 and 5 twice and the mapped ones once. -/
theorem reset_stack_not_complement_of_mapped :
    (∀ r ∈ [0, 1, 2, 3], VanadisISATable.physIntRegInUse exampleTable r = true) ∧
    (∀ r ∈ [0, 1], VanadisISATable.physFPRegInUse exampleTable r = true) ∧
    exampleFullyMappedCore.retire_isa_tables = [exampleTable] ∧
    exampleFullyMappedCore.int_register_stacks.map (fun st => st.capacity) = [4] ∧
    exampleFullyMappedCore.fp_register_stacks.map (fun st => st.capacity) = [2] ∧
    (∃ s', resetRegisterStacks exampleFullyMappedCore 0 = .ok s' ∧
      s'.int_register_stacks.map (fun st => st.regs) = [[0, 1, 2, 3]] ∧
      s'.fp_register_stacks.map (fun st => st.regs) = [[0, 1]]) ∧
    exampleAddCore.retire_isa_tables = [exampleTable] ∧
    exampleAddCore.int_register_stacks.map (fun st => st.capacity) = [6] ∧
    (∃ s', resetRegisterStacks exampleAddCore 0 = .ok s' ∧
      s'.int_register_stacks.map (fun st => st.regs) = [[5, 4, 0, 1, 2, 3, 4, 5]] ∧
      s'.int_register_stacks.map (fun st => st.size) = [8]) := by
  refine ⟨by decide, by decide, rfl, by decide, by decide, ⟨_, rfl, ?_, ?_⟩, rfl, by decide,
    ⟨_, rfl, ?_, ?_⟩⟩ <;> decide

theorem resetRegisterStacks_ok (s : VanadisComponent) (hw_thr : Nat)
    (int_stack fp_stack : VanadisRegisterStack) (retire : VanadisISATable)
    (hi : s.int_register_stacks[hw_thr]? = some int_stack)
    (hf : s.fp_register_stacks[hw_thr]? = some fp_stack)
    (hr : s.retire_isa_tables[hw_thr]? = some retire) :
    resetRegisterStacks s hw_thr = .ok { s with
      int_register_stacks := s.int_register_stacks.set hw_thr
        (rebuildStack retire.physIntRegInUse (int_stack.capacity % 65536)),
      fp_register_stacks := s.fp_register_stacks.set hw_thr
        (rebuildStack retire.physFPRegInUse (fp_stack.capacity % 65536)) } := by
  rw [← vecAt_eq_ok] at hi hf hr
  simp [resetRegisterStacks, bind, Except.bind, hi, hf, hr]

/-- The state `handleMisspeculate` leaves for a thread of the core. -/
theorem handleMisspeculate_ok (s : VanadisComponent) (hw_thr : Nat)
    (int_stack fp_stack : VanadisRegisterStack) (rob_t : VanadisCircularQueue InsPtr)
    (issue retire : VanadisISATable)
    (hi : s.int_register_stacks[hw_thr]? = some int_stack)
    (hf : s.fp_register_stacks[hw_thr]? = some fp_stack)
    (hrob : s.rob[hw_thr]? = some rob_t)
    (hit : s.issue_isa_tables[hw_thr]? = some issue)
    (hrt : s.retire_isa_tables[hw_thr]? = some retire) :
    handleMisspeculate s hw_thr = .ok { s with
      fu_int_arith := clearFuncUnit s.heap hw_thr s.fu_int_arith,
      fu_int_div := clearFuncUnit s.heap hw_thr s.fu_int_div,
      fu_fp_arith := clearFuncUnit s.heap hw_thr s.fu_fp_arith,
      fu_fp_div := clearFuncUnit s.heap hw_thr s.fu_fp_div,
      lsq := s.lsq.clearLSQByThreadID s.heap hw_thr,
      int_register_stacks := s.int_register_stacks.set hw_thr
        (rebuildStack retire.physIntRegInUse (int_stack.capacity % 65536)),
      fp_register_stacks := s.fp_register_stacks.set hw_thr
        (rebuildStack retire.physFPRegInUse (fp_stack.capacity % 65536)),
      rob := s.rob.set hw_thr (VanadisCircularQueue.create rob_t.capacity),
      issue_isa_tables := s.issue_isa_tables.set hw_thr retire } := by
  have h6 := resetRegisterStacks_ok
    { s with
      fu_int_arith := clearFuncUnit s.heap hw_thr s.fu_int_arith,
      fu_int_div := clearFuncUnit s.heap hw_thr s.fu_int_div,
      fu_fp_arith := clearFuncUnit s.heap hw_thr s.fu_fp_arith,
      fu_fp_div := clearFuncUnit s.heap hw_thr s.fu_fp_div,
      lsq := s.lsq.clearLSQByThreadID s.heap hw_thr } hw_thr int_stack fp_stack retire hi hf hrt
  rw [← vecAt_eq_ok] at hrob hit hrt
  simp only [handleMisspeculate, bind, Except.bind, h6, clearROBMisspeculate, hrob, hit, hrt,
    VanadisISATable.reset]

/-- C10. For a thread `hw_thr` of the core (its entries in the driver's vectors exist),
`handleMisspeculate` succeeds, leaves the retire-time table of the thread as it was, and
leaves the issue-time table of the thread equal to it: mappings, pending-read and
pending-write counters of every architectural register coincide, so a register has a
pending write in the issue-time table afterwards exactly if it has one in the
retire-time table. -/
theorem misspeculate_resyncs_issue_table (s : VanadisComponent) (hw_thr : Nat)
    (int_stack fp_stack : VanadisRegisterStack) (rob_t : VanadisCircularQueue InsPtr)
    (issue retire : VanadisISATable)
    (hi : s.int_register_stacks[hw_thr]? = some int_stack)
    (hf : s.fp_register_stacks[hw_thr]? = some fp_stack)
    (hrob : s.rob[hw_thr]? = some rob_t)
    (hit : s.issue_isa_tables[hw_thr]? = some issue)
    (hrt : s.retire_isa_tables[hw_thr]? = some retire) :
    ∃ s', handleMisspeculate s hw_thr = .ok s' ∧
      s'.retire_isa_tables[hw_thr]? = some retire ∧
      s'.issue_isa_tables[hw_thr]? = some retire ∧
      s'.issue_isa_tables[hw_thr]? = s'.retire_isa_tables[hw_thr]? ∧
      ∀ issue', s'.issue_isa_tables[hw_thr]? = some issue' →
        (∀ r, issue'.getIntPhysReg r = retire.getIntPhysReg r ∧
              issue'.getFPPhysReg r = retire.getFPPhysReg r ∧
              issue'.int_reg_pending_read.getD r 0 = retire.int_reg_pending_read.getD r 0 ∧
              issue'.fp_reg_pending_read.getD r 0 = retire.fp_reg_pending_read.getD r 0 ∧
              issue'.pendingIntWrites r = retire.pendingIntWrites r ∧
              issue'.pendingFPWrites r = retire.pendingFPWrites r) := by
  have hset : (s.issue_isa_tables.set hw_thr retire)[hw_thr]? = some retire :=
    getElem?_set_self_of_some _ _ _ _ hit
  refine ⟨_, handleMisspeculate_ok s hw_thr int_stack fp_stack rob_t issue retire hi hf hrob hit
    hrt, hrt, hset, hset.trans hrt.symm, ?_⟩
  intro issue' h'
  simp only [] at h'
  rw [hset] at h'
  cases h'
  intro r
  exact ⟨rfl, rfl, rfl, rfl, rfl, rfl⟩

/-- C10 exercised on the core with a mis-speculated branch at the ROB head: recovery
succeeds and the issue-time table, which carried the branch's rename, equals the
retire-time table again. -/
theorem misspeculate_resyncs_issue_table_witness :
    (exampleBranchCore .BRANCH_TAKEN .BRANCH_NOT_TAKEN).issue_isa_tables[0]? ≠
      (exampleBranchCore .BRANCH_TAKEN .BRANCH_NOT_TAKEN).retire_isa_tables[0]? ∧
    ∃ s', handleMisspeculate (exampleBranchCore .BRANCH_TAKEN .BRANCH_NOT_TAKEN) 0 = .ok s' ∧
      s'.retire_isa_tables[0]? = some exampleTable ∧
      s'.issue_isa_tables[0]? = some exampleTable := by
  refine ⟨by decide, ?_⟩
  obtain ⟨s', h1, h2, h3, _⟩ := misspeculate_resyncs_issue_table
    (exampleBranchCore .BRANCH_TAKEN .BRANCH_NOT_TAKEN) 0
    { max_capacity := 6, regs := [5] } { max_capacity := 4, regs := [2, 3] }
    { max_capacity := 4, items := [0] }
    { exampleTable with
      int_reg_ptr := [0, 1, 2, 4],
      int_reg_pending_read := [0, 1, 0, 0],
      int_reg_pending_write := [0, 0, 0, 1] } exampleTable rfl rfl rfl rfl rfl
  exact ⟨s', h1, h2, h3⟩

/-! ## The arena -/

theorem derefIns_lt (heap : Heap) (p : InsPtr) (ins : VanadisInstruction)
    (h : derefIns heap p = some ins) : p < heap.length := by
  by_contra hc
  simp [derefIns, List.getD_eq_getElem?_getD, List.getElem?_eq_none (Nat.le_of_not_lt hc)] at h

theorem derefIns_eq_getElem (heap : Heap) (p : InsPtr) (hp : p < heap.length) :
    derefIns heap p = heap[p] := by
  simp [derefIns, List.getD_eq_getElem?_getD, List.getElem?_eq_getElem hp]

theorem derefIns_ge (heap : Heap) (p : InsPtr) (hp : heap.length ≤ p) :
    derefIns heap p = none := by
  simp [derefIns, List.getD_eq_getElem?_getD, List.getElem?_eq_none hp]

theorem derefIns_set (heap : Heap) (p q : InsPtr) (c : Option VanadisInstruction)
    (hp : p < heap.length) :
    derefIns (heap.set p c) q = if q = p then c else derefIns heap q := by
  simp only [derefIns, List.getD_eq_getElem?_getD, List.getElem?_set]
  by_cases h : p = q
  · subst h; simp [hp]
  · have h' : ¬ q = p := fun hh => h hh.symm
    simp [h, h']

theorem derefIns_append (heap : Heap) (q : InsPtr) (c : Option VanadisInstruction) :
    derefIns (heap ++ [c]) q = if q = heap.length then c else derefIns heap q := by
  simp only [derefIns, List.getD_eq_getElem?_getD]
  rcases Nat.lt_trichotomy q heap.length with h | h | h
  · simp [List.getElem?_append_left h, Nat.ne_of_lt h]
  · subst h; simp
  · rw [List.getElem?_eq_none (by simp; omega), List.getElem?_eq_none (by omega)]
    simp [Nat.ne_of_gt h]

theorem sum_map_set {α : Type} (f : α → Nat) (l : List α) (p : Nat) (c : α)
    (hp : p < l.length) :
    ((l.set p c).map f).sum + f l[p] = (l.map f).sum + f c := by
  induction l generalizing p with
  | nil => simp at hp
  | cons a l ih =>
    cases p with
    | zero => simp; omega
    | succ p =>
      simp only [List.length_cons, Nat.add_lt_add_iff_right] at hp
      have := ih p hp
      simp only [List.set_cons_succ, List.map_cons, List.sum_cons, List.getElem_cons_succ]
      omega

theorem sum_map_congr_getD {α : Type} (f : α → Nat) (d : α) (l l' : List α)
    (hlen : l'.length = l.length) (h : ∀ q, f (l'.getD q d) = f (l.getD q d)) :
    (l'.map f).sum = (l.map f).sum := by
  have : l'.map f = l.map f := by
    apply List.ext_getElem
    · simp [hlen]
    · intro q h1 h2
      simp only [List.length_map] at h1 h2
      have := h q
      simp only [List.getD_eq_getElem?_getD, List.getElem?_eq_getElem h1,
        List.getElem?_eq_getElem h2, Option.getD_some] at this
      simpa using this
  rw [this]

theorem cellRel_refl (c : Option VanadisInstruction) : CellRel c c := by
  cases c with
  | none => trivial
  | some ins => exact ⟨rfl, rfl, rfl, rfl, fun h => Or.inl h⟩

theorem cellRel_trans {a b c : Option VanadisInstruction} (h1 : CellRel a b) (h2 : CellRel b c) :
    CellRel a c := by
  cases a <;> cases b <;> cases c <;> simp only [CellRel] at h1 h2 ⊢
  obtain ⟨a1, a2, a3, a4, a5⟩ := h1
  obtain ⟨b1, b2, b3, b4, b5⟩ := h2
  refine ⟨b1.trans a1, b2.trans a2, b3.trans a3, b4.trans a4, fun h => ?_⟩
  rcases b5 h with h' | h'
  · exact a5 h'
  · exact Or.inr (a1 ▸ h')

theorem heapRel_refl (heap : Heap) : HeapRel heap heap := ⟨rfl, fun _ => cellRel_refl _⟩

theorem heapRel_trans {a b c : Heap} (h1 : HeapRel a b) (h2 : HeapRel b c) : HeapRel a c :=
  ⟨h2.1.trans h1.1, fun q => cellRel_trans (h1.2 q) (h2.2 q)⟩

theorem CellRel_heldInt {c c' : Option VanadisInstruction} (h : CellRel c c') (t : Nat) :
    heldIntRegs t c' = heldIntRegs t c := by
  cases c <;> cases c' <;> simp only [CellRel] at h <;> try trivial
  obtain ⟨a1, a2, a3, _, _⟩ := h
  simp [heldIntRegs, VanadisInstruction.getHWThread, VanadisInstruction.countISAIntRegOut, a1, a2,
    a3]

theorem CellRel_heldFP {c c' : Option VanadisInstruction} (h : CellRel c c') (t : Nat) :
    heldFPRegs t c' = heldFPRegs t c := by
  cases c <;> cases c' <;> simp only [CellRel] at h <;> try trivial
  obtain ⟨a1, a2, _, a4, _⟩ := h
  simp [heldFPRegs, VanadisInstruction.getHWThread, VanadisInstruction.countISAFPRegOut, a1, a2,
    a4]

theorem HeapRel_inflightInt {heap heap' : Heap} (h : HeapRel heap heap') (t : Nat) :
    inflightIntRegs heap' t = inflightIntRegs heap t :=
  sum_map_congr_getD (heldIntRegs t) none heap heap' h.1 (fun q => CellRel_heldInt (h.2 q) t)

theorem HeapRel_inflightFP {heap heap' : Heap} (h : HeapRel heap heap') (t : Nat) :
    inflightFPRegs heap' t = inflightFPRegs heap t :=
  sum_map_congr_getD (heldFPRegs t) none heap heap' h.1 (fun q => CellRel_heldFP (h.2 q) t)

theorem length_updateIns (heap : Heap) (p : InsPtr) (f : VanadisInstruction → VanadisInstruction) :
    (updateIns heap p f).length = heap.length := by
  unfold updateIns
  split <;> simp

theorem derefIns_updateIns (heap : Heap) (p q : InsPtr)
    (f : VanadisInstruction → VanadisInstruction) :
    derefIns (updateIns heap p f) q
      = if q = p then (derefIns heap p).map f else derefIns heap q := by
  unfold updateIns
  cases h : derefIns heap p with
  | none =>
    simp only [Option.map_none']
    split
    · rename_i hq; subst hq; exact h
    · rfl
  | some ins =>
    simp only [Option.map_some']
    exact derefIns_set heap p q _ (derefIns_lt heap p ins h)

/-- Marking an instruction through a pointer keeps the arena within `HeapRel`, when the
mutator respects `CellRel`. -/
theorem HeapRel_updateIns (heap : Heap) (p : InsPtr) (f : VanadisInstruction → VanadisInstruction)
    (hf : ∀ ins, derefIns heap p = some ins → CellRel (some ins) (some (f ins))) :
    HeapRel heap (updateIns heap p f) := by
  refine ⟨length_updateIns heap p f, fun q => ?_⟩
  rw [derefIns_updateIns]
  split
  · rename_i hq
    subst hq
    cases h : derefIns heap q with
    | none => trivial
    | some ins => exact hf ins h
  · exact cellRel_refl _

theorem CellRel_markExecuted (ins : VanadisInstruction) (h : ins.hasIssued = true) :
    CellRel (some ins) (some ins.markExecuted) :=
  ⟨rfl, rfl, rfl, rfl, fun _ => Or.inr h⟩

theorem CellRel_markFrontOfROB (ins : VanadisInstruction) :
    CellRel (some ins) (some ins.markFrontOfROB) :=
  ⟨rfl, rfl, rfl, rfl, fun h => Or.inl h⟩

/-! ## What rename and retirement do to the sizes of the free stacks -/

theorem foldl_assignIn_frame (f : RenameState → Nat → RenameState)
    (hf : ∀ st i, (f st i).int_regs = st.int_regs ∧ (f st i).fp_regs = st.fp_regs ∧
      (f st i).ins.hw_thread = st.ins.hw_thread ∧
      (f st i).ins.isa_int_regs_out = st.ins.isa_int_regs_out ∧
      (f st i).ins.isa_fp_regs_out = st.ins.isa_fp_regs_out ∧
      (f st i).ins.hasExecuted = st.ins.hasExecuted)
    (l : List Nat) (st : RenameState) :
    (l.foldl f st).int_regs = st.int_regs ∧ (l.foldl f st).fp_regs = st.fp_regs ∧
      (l.foldl f st).ins.hw_thread = st.ins.hw_thread ∧
      (l.foldl f st).ins.isa_int_regs_out = st.ins.isa_int_regs_out ∧
      (l.foldl f st).ins.isa_fp_regs_out = st.ins.isa_fp_regs_out ∧
      (l.foldl f st).ins.hasExecuted = st.ins.hasExecuted := by
  induction l generalizing st with
  | nil => simp
  | cons a l ih =>
    simp only [List.foldl_cons]
    obtain ⟨h1, h2, h3, h4, h5, h6⟩ := ih (f st a)
    obtain ⟨g1, g2, g3, g4, g5, g6⟩ := hf st a
    exact ⟨h1.trans g1, h2.trans g2, h3.trans g3, h4.trans g4, h5.trans g5, h6.trans g6⟩

theorem foldlM_assignIntOut (l : List Nat) (st st' : RenameState)
    (h : l.foldlM assignIntOutStep st = .ok st') :
    st'.int_regs.regs.length + l.length = st.int_regs.regs.length ∧
      st'.int_regs.max_capacity = st.int_regs.max_capacity ∧
      st'.fp_regs = st.fp_regs ∧
      st'.ins.hw_thread = st.ins.hw_thread ∧
      st'.ins.isa_int_regs_out = st.ins.isa_int_regs_out ∧
      st'.ins.isa_fp_regs_out = st.ins.isa_fp_regs_out ∧
      st'.ins.hasExecuted = st.ins.hasExecuted := by
  induction l generalizing st with
  | nil =>
    simp only [List.foldlM, pure, Except.pure, Except.ok.injEq] at h
    subst h; simp
  | cons a l ih =>
    simp only [List.foldlM, bind, Except.bind] at h
    cases hs : assignIntOutStep st a with
    | error e => simp [hs] at h
    | ok st1 =>
      simp only [hs] at h
      obtain ⟨h1, h2, h3, h4, h5, h6, h7⟩ := ih st1 h
      unfold assignIntOutStep VanadisRegisterStack.pop at hs
      cases hr : st.int_regs.regs with
      | nil => simp [hr] at hs
      | cons r rest =>
        simp only [hr, Except.ok.injEq] at hs
        subst hs
        simp only [VanadisInstruction.setPhysIntRegOut] at h1 h2 h3 h4 h5 h6 h7
        simp only [List.length_cons]
        exact ⟨by omega, h2, h3, h4, h5, h6, h7⟩

theorem foldlM_assignFPOut (l : List Nat) (st st' : RenameState)
    (h : l.foldlM assignFPOutStep st = .ok st') :
    st'.fp_regs.regs.length + l.length = st.fp_regs.regs.length ∧
      st'.fp_regs.max_capacity = st.fp_regs.max_capacity ∧
      st'.int_regs = st.int_regs ∧
      st'.ins.hw_thread = st.ins.hw_thread ∧
      st'.ins.isa_int_regs_out = st.ins.isa_int_regs_out ∧
      st'.ins.isa_fp_regs_out = st.ins.isa_fp_regs_out ∧
      st'.ins.hasExecuted = st.ins.hasExecuted := by
  induction l generalizing st with
  | nil =>
    simp only [List.foldlM, pure, Except.pure, Except.ok.injEq] at h
    subst h; simp
  | cons a l ih =>
    simp only [List.foldlM, bind, Except.bind] at h
    cases hs : assignFPOutStep st a with
    | error e => simp [hs] at h
    | ok st1 =>
      simp only [hs] at h
      obtain ⟨h1, h2, h3, h4, h5, h6, h7⟩ := ih st1 h
      unfold assignFPOutStep VanadisRegisterStack.pop at hs
      cases hr : st.fp_regs.regs with
      | nil => simp [hr] at hs
      | cons r rest =>
        simp only [hr, Except.ok.injEq] at hs
        subst hs
        simp only [VanadisInstruction.setPhysFPRegOut] at h1 h2 h3 h4 h5 h6 h7
        simp only [List.length_cons]
        exact ⟨by omega, h2, h3, h4, h5, h6, h7⟩

/-- A successful rename takes one register per declared output from each free stack and
leaves the instruction's thread, output lists and execution flag as they were. -/
theorem assignRegistersToInstruction_sizes (ins : VanadisInstruction)
    (int_regs fp_regs : VanadisRegisterStack) (isa_table : VanadisISATable) (st : RenameState)
    (h : assignRegistersToInstruction ins int_regs fp_regs isa_table = .ok st) :
    st.int_regs.unused + ins.countISAIntRegOut = int_regs.unused ∧
      st.int_regs.capacity = int_regs.capacity ∧
      st.fp_regs.unused + ins.countISAFPRegOut = fp_regs.unused ∧
      st.fp_regs.capacity = fp_regs.capacity ∧
      st.ins.hw_thread = ins.hw_thread ∧
      st.ins.isa_int_regs_out = ins.isa_int_regs_out ∧
      st.ins.isa_fp_regs_out = ins.isa_fp_regs_out ∧
      st.ins.hasExecuted = ins.hasExecuted := by
  unfold assignRegistersToInstruction at h
  simp only at h
  obtain ⟨a1, a2, a3, a4, a5, a6⟩ := foldl_assignIn_frame assignIntInStep
    (fun _ _ => ⟨rfl, rfl, rfl, rfl, rfl, rfl⟩) (List.range ins.countISAIntRegIn)
    { ins := ins, int_regs := int_regs, fp_regs := fp_regs, isa_table := isa_table }
  generalize (List.range ins.countISAIntRegIn).foldl assignIntInStep
    { ins := ins, int_regs := int_regs, fp_regs := fp_regs, isa_table := isa_table } = st1
    at h a1 a2 a3 a4 a5 a6
  obtain ⟨b1, b2, b3, b4, b5, b6⟩ := foldl_assignIn_frame assignFPInStep
    (fun _ _ => ⟨rfl, rfl, rfl, rfl, rfl, rfl⟩) (List.range ins.countISAFPRegIn) st1
  generalize (List.range ins.countISAFPRegIn).foldl assignFPInStep st1 = st2
    at h b1 b2 b3 b4 b5 b6
  cases h3 : (List.range ins.countISAIntRegOut).foldlM assignIntOutStep st2 with
  | error e => simp [h3] at h
  | ok st3 =>
    simp only [h3] at h
    obtain ⟨c1, c2, c3, c4, c5, c6, c7⟩ := foldlM_assignIntOut _ _ _ h3
    obtain ⟨d1, d2, d3, d4, d5, d6, d7⟩ := foldlM_assignFPOut _ _ _ h
    simp only [List.length_range] at c1 d1
    simp only [VanadisRegisterStack.unused, VanadisRegisterStack.capacity]
    refine ⟨?_, ?_, ?_, ?_, ?_, ?_, ?_, ?_⟩
    · rw [d3, c1, b1, a1]
    · rw [d3, c2, b1, a1]
    · rw [d1, c3, b2, a2]
    · rw [d2, c3, b2, a2]
    · rw [d4, c4, b3, a3]
    · rw [d5, c5, b4, a4]
    · rw [d6, c6, b5, a5]
    · rw [d7, c7, b6, a6]

theorem foldl_recoverIntOut_sizes (ins : VanadisInstruction) (l : List Nat) (st : RetireState) :
    (l.foldl (recoverIntOutStep ins) st).int_regs = st.int_regs ∧
      (l.foldl (recoverIntOutStep ins) st).fp_regs = st.fp_regs ∧
      (l.foldl (recoverIntOutStep ins) st).recovered_phys_reg_fp = st.recovered_phys_reg_fp ∧
      (l.foldl (recoverIntOutStep ins) st).recovered_phys_reg_int.length
        = st.recovered_phys_reg_int.length + l.length ∧
      (l.foldl (recoverIntOutStep ins) st).retire_isa_table.int_reg_ptr.length
        = st.retire_isa_table.int_reg_ptr.length ∧
      (l.foldl (recoverIntOutStep ins) st).retire_isa_table.fp_reg_ptr
        = st.retire_isa_table.fp_reg_ptr := by
  induction l generalizing st with
  | nil => simp
  | cons a l ih =>
    simp only [List.foldl_cons]
    obtain ⟨h1, h2, h3, h4, h5, h6⟩ := ih (recoverIntOutStep ins st a)
    simp only [recoverIntOutStep, VanadisISATable.setIntPhysReg, List.length_append,
      List.length_singleton, List.length_set, List.length_cons, List.length_nil]
      at h1 h2 h3 h4 h5 h6 ⊢
    exact ⟨h1, h2, h3, by omega, h5, h6⟩

theorem foldl_recoverFPOut_sizes (ins : VanadisInstruction) (l : List Nat) (st : RetireState) :
    (l.foldl (recoverFPOutStep ins) st).int_regs = st.int_regs ∧
      (l.foldl (recoverFPOutStep ins) st).fp_regs = st.fp_regs ∧
      (l.foldl (recoverFPOutStep ins) st).recovered_phys_reg_int = st.recovered_phys_reg_int ∧
      (l.foldl (recoverFPOutStep ins) st).recovered_phys_reg_fp.length
        = st.recovered_phys_reg_fp.length + l.length ∧
      (l.foldl (recoverFPOutStep ins) st).retire_isa_table.fp_reg_ptr.length
        = st.retire_isa_table.fp_reg_ptr.length ∧
      (l.foldl (recoverFPOutStep ins) st).retire_isa_table.int_reg_ptr
        = st.retire_isa_table.int_reg_ptr := by
  induction l generalizing st with
  | nil => simp
  | cons a l ih =>
    simp only [List.foldl_cons]
    obtain ⟨h1, h2, h3, h4, h5, h6⟩ := ih (recoverFPOutStep ins st a)
    simp only [recoverFPOutStep, VanadisISATable.setFPPhysReg, List.length_append,
      List.length_singleton, List.length_set, List.length_cons, List.length_nil]
      at h1 h2 h3 h4 h5 h6 ⊢
    exact ⟨h1, h2, h3, by omega, h5, h6⟩

/-- Retirement returns one register per declared output to each free stack and keeps the
number of entries of the retire-time table. -/
theorem recoverRetiredRegisters_sizes (ins : VanadisInstruction)
    (int_regs fp_regs : VanadisRegisterStack) (issue retire : VanadisISATable) :
    (recoverRetiredRegisters ins int_regs fp_regs issue retire).int_regs.unused
        = int_regs.unused + ins.countISAIntRegOut ∧
      (recoverRetiredRegisters ins int_regs fp_regs issue retire).int_regs.capacity
        = int_regs.capacity ∧
      (recoverRetiredRegisters ins int_regs fp_regs issue retire).fp_regs.unused
        = fp_regs.unused + ins.countISAFPRegOut ∧
      (recoverRetiredRegisters ins int_regs fp_regs issue retire).fp_regs.capacity
        = fp_regs.capacity ∧
      (recoverRetiredRegisters ins int_regs fp_regs issue retire).retire_isa_table.int_reg_ptr.length
        = retire.int_reg_ptr.length ∧
      (recoverRetiredRegisters ins int_regs fp_regs issue retire).retire_isa_table.fp_reg_ptr.length
        = retire.fp_reg_ptr.length := by
  simp only [recoverRetiredRegisters]
  obtain ⟨c1, c2, c3, c4, c5⟩ := foldl_issue_only (recoverIntInStep ins)
    (fun _ _ => ⟨rfl, rfl, rfl, rfl, rfl⟩) (List.range ins.countISAIntRegIn)
    { int_regs := int_regs, fp_regs := fp_regs, issue_isa_table := issue,
      retire_isa_table := retire, recovered_phys_reg_int := [], recovered_phys_reg_fp := [] }
  generalize (List.range ins.countISAIntRegIn).foldl (recoverIntInStep ins)
    { int_regs := int_regs, fp_regs := fp_regs, issue_isa_table := issue,
      retire_isa_table := retire, recovered_phys_reg_int := [], recovered_phys_reg_fp := [] }
    = st1 at c1 c2 c3 c4 c5 ⊢
  obtain ⟨d1, d2, d3, d4, d5⟩ := foldl_issue_only (recoverFPInStep ins)
    (fun _ _ => ⟨rfl, rfl, rfl, rfl, rfl⟩) (List.range ins.countISAFPRegIn) st1
  generalize (List.range ins.countISAFPRegIn).foldl (recoverFPInStep ins) st1
    = st2 at d1 d2 d3 d4 d5 ⊢
  obtain ⟨a1, a2, a3, a4, a5, a6⟩ :=
    foldl_recoverIntOut_sizes ins (List.range ins.countISAIntRegOut) st2
  generalize (List.range ins.countISAIntRegOut).foldl (recoverIntOutStep ins) st2
    = st3 at a1 a2 a3 a4 a5 a6 ⊢
  obtain ⟨b1, b2, b3, b4, b5, b6⟩ :=
    foldl_recoverFPOut_sizes ins (List.range ins.countISAFPRegOut) st3
  generalize (List.range ins.countISAFPRegOut).foldl (recoverFPOutStep ins) st3
    = st4 at b1 b2 b3 b4 b5 b6 ⊢
  simp only [List.length_range] at a4 b4
  simp only [VanadisRegisterStack.unused, VanadisRegisterStack.capacity,
    (foldl_push_regs _ _).1, (foldl_push_regs _ _).2, List.length_append, List.length_reverse]
  simp only [c4, d4, c5, d5, List.length_nil] at a4 b4
  rw [b3, a3, d5, c5] at *
  refine ⟨?_, ?_, ?_, ?_, ?_, ?_⟩
  · rw [b3, a4, b1, a1, d2, c2]; simp only [List.length_nil]; omega
  · rw [b1, a1, d2, c2]
  · rw [b4, b2, a2, d3, c3]; simp only [List.length_nil]; omega
  · rw [b2, a2, d3, c3]
  · rw [b6, a5, d1, c1]
  · rw [b5, a6, d1, c1]

/-! ## Preservation of the invariant -/

/-- The invariant survives a step that leaves stacks, retire-time tables, decoded queues,
slot contents and LSQ entries alone (or drops LSQ entries) and changes the arena within
`HeapRel`. -/
theorem CoreInv_frame (ci cf : Nat) (s s' : VanadisComponent) (h : CoreInv ci cf s)
    (hw : s'.hw_threads = s.hw_threads)
    (hi : s'.int_register_stacks = s.int_register_stacks)
    (hf : s'.fp_register_stacks = s.fp_register_stacks)
    (hr : s'.retire_isa_tables = s.retire_isa_tables)
    (hq : ∀ (i : Nat) (dec' : VanadisDecoder), s'.thread_decoders[i]? = some dec' →
      ∃ dec, s.thread_decoders[i]? = some dec ∧ dec'.decoded_q = dec.decoded_q)
    (hfu : ∀ fu' ∈ s'.fu_int_arith ++ s'.fu_int_div ++ s'.fu_fp_arith ++ s'.fu_fp_div,
      ∃ fu ∈ s.fu_int_arith ++ s.fu_int_div ++ s.fu_fp_arith ++ s.fu_fp_div,
        fu'.slot_inst = fu.slot_inst)
    (hl : ∀ p ∈ s'.lsq.loads ++ s'.lsq.stores, p ∈ s.lsq.loads ++ s.lsq.stores)
    (hh : HeapRel s.heap s'.heap) : CoreInv ci cf s' := by
  have hissued : ∀ q ins', derefIns s'.heap q = some ins' →
      ∃ ins, derefIns s.heap q = some ins ∧ ins'.hasIssued = ins.hasIssued ∧
        ins'.hw_thread = ins.hw_thread ∧
        (ins'.hasExecuted = true → ins.hasExecuted = true ∨ ins.hasIssued = true) := by
    intro q ins' hq'
    have := hh.2 q
    rw [hq'] at this
    cases hd : derefIns s.heap q with
    | none => rw [hd] at this; exact absurd this (by simp [CellRel])
    | some ins =>
      rw [hd] at this
      exact ⟨ins, rfl, this.1, this.2.1, this.2.2.2.2⟩
  have hfwd : ∀ q ins, derefIns s.heap q = some ins →
      ∃ ins', derefIns s'.heap q = some ins' ∧ ins'.hasIssued = ins.hasIssued ∧
        ins'.hw_thread = ins.hw_thread := by
    intro q ins hq'
    have := hh.2 q
    rw [hq'] at this
    cases hd : derefIns s'.heap q with
    | none => rw [hd] at this; exact absurd this (by simp [CellRel])
    | some ins' =>
      rw [hd] at this
      exact ⟨ins', rfl, this.1, this.2.1⟩
  refine ⟨?_, ?_, ?_, ?_, ?_, ?_, ?_, ?_, ?_, ?_, ?_⟩
  · rw [hi, hw]; exact h.len_int
  · rw [hf, hw]; exact h.len_fp
  · rw [hr, hw]; exact h.len_retire
  · rw [hi]; exact h.cap_int
  · rw [hf]; exact h.cap_fp
  · rw [hi, hr]
    intro t st rt h1 h2
    rw [HeapRel_inflightInt hh]
    exact h.conserve_int t st rt h1 h2
  · rw [hf, hr]
    intro t st rt h1 h2
    rw [HeapRel_inflightFP hh]
    exact h.conserve_fp t st rt h1 h2
  · intro p ins' hp he
    obtain ⟨ins, hd, e1, _, e3⟩ := hissued p ins' hp
    rw [e1]
    rcases e3 he with h' | h'
    · exact h.exec_issued p ins hd h'
    · exact h'
  · intro i dec' hd'
    obtain ⟨dec, hd, e⟩ := hq i dec' hd'
    rw [e]
    refine ⟨(h.queue_ok i dec hd).1, fun p hp => ?_⟩
    obtain ⟨ins, h1, h2, h3⟩ := (h.queue_ok i dec hd).2 p hp
    obtain ⟨ins', g1, g2, g3⟩ := hfwd p ins h1
    exact ⟨ins', g1, g2.trans h2, g3.trans h3⟩
  · intro fu' hfu' p hp
    obtain ⟨fu, hfu1, e⟩ := hfu fu' hfu'
    rw [e] at hp
    obtain ⟨g1, g2⟩ := h.fu_ok fu hfu1 p hp
    refine ⟨by rw [hh.1]; exact g1, fun ins' hd' => ?_⟩
    obtain ⟨ins, hd, e1, _, _⟩ := hissued p ins' hd'
    rw [e1]; exact g2 ins hd
  · intro p hp
    obtain ⟨g1, g2⟩ := h.lsq_ok p (hl p hp)
    refine ⟨by rw [hh.1]; exact g1, fun ins' hd' => ?_⟩
    obtain ⟨ins, hd, e1, _, _⟩ := hissued p ins' hd'
    rw [e1]; exact g2 ins hd

theorem inflightInt_append (heap : Heap) (c : Option VanadisInstruction) (t : Nat) :
    inflightIntRegs (heap ++ [c]) t = inflightIntRegs heap t + heldIntRegs t c := by
  simp [inflightIntRegs]

theorem inflightFP_append (heap : Heap) (c : Option VanadisInstruction) (t : Nat) :
    inflightFPRegs (heap ++ [c]) t = inflightFPRegs heap t + heldFPRegs t c := by
  simp [inflightFPRegs]

theorem inflightInt_set (heap : Heap) (p : InsPtr) (c : Option VanadisInstruction) (t : Nat)
    (hp : p < heap.length) :
    inflightIntRegs (heap.set p c) t + heldIntRegs t (derefIns heap p)
      = inflightIntRegs heap t + heldIntRegs t c := by
  rw [derefIns_eq_getElem heap p hp]
  exact sum_map_set (heldIntRegs t) heap p c hp

theorem inflightFP_set (heap : Heap) (p : InsPtr) (c : Option VanadisInstruction) (t : Nat)
    (hp : p < heap.length) :
    inflightFPRegs (heap.set p c) t + heldFPRegs t (derefIns heap p)
      = inflightFPRegs heap t + heldFPRegs t c := by
  rw [derefIns_eq_getElem heap p hp]
  exact sum_map_set (heldFPRegs t) heap p c hp

theorem getElem?_set_cases {α : Type} (l : List α) (i t : Nat) (x y : α)
    (h : (l.set i x)[t]? = some y) : (t = i ∧ y = x ∧ i < l.length) ∨ (t ≠ i ∧ l[t]? = some y) := by
  rw [List.getElem?_set] at h
  by_cases hti : i = t
  · subst hti
    simp only [if_true] at h
    split at h
    · rename_i hlt
      simp only [Option.some.injEq] at h
      exact Or.inl ⟨rfl, h.symm, hlt⟩
    · cases h
  · simp only [hti, if_false] at h
    exact Or.inr ⟨fun hh => hti hh.symm, h⟩

/-- The invariant survives the creation of an instruction that is appended to the decoded
queue of its thread. -/
theorem CoreInv_alloc (ci cf : Nat) (s s' : VanadisComponent) (i : Nat) (dec : VanadisDecoder)
    (ins : VanadisInstruction) (h : CoreInv ci cf s)
    (hd : s.thread_decoders[i]? = some dec)
    (hins : ins.hasIssued = false ∧ ins.hasExecuted = false ∧ ins.hw_thread = i)
    (e_heap : s'.heap = s.heap ++ [some ins])
    (e_dec : s'.thread_decoders = s.thread_decoders.set i
      { dec with decoded_q := dec.decoded_q ++ [s.heap.length] })
    (hw : s'.hw_threads = s.hw_threads)
    (hi : s'.int_register_stacks = s.int_register_stacks)
    (hf : s'.fp_register_stacks = s.fp_register_stacks)
    (hr : s'.retire_isa_tables = s.retire_isa_tables)
    (hfu : s'.fu_int_arith ++ s'.fu_int_div ++ s'.fu_fp_arith ++ s'.fu_fp_div
      = s.fu_int_arith ++ s.fu_int_div ++ s.fu_fp_arith ++ s.fu_fp_div)
    (hl : s'.lsq = s.lsq) : CoreInv ci cf s' := by
  have hold : ∀ q x, derefIns s.heap q = some x → derefIns s'.heap q = some x := by
    intro q x hq
    rw [e_heap, derefIns_append, if_neg (Nat.ne_of_lt (derefIns_lt _ _ _ hq))]
    exact hq
  have hnew : ∀ q x, derefIns s'.heap q = some x →
      (q = s.heap.length ∧ x = ins) ∨ derefIns s.heap q = some x := by
    intro q x hq
    rw [e_heap, derefIns_append] at hq
    split at hq
    · rename_i hql
      simp only [Option.some.injEq] at hq
      exact Or.inl ⟨hql, hq.symm⟩
    · exact Or.inr hq
  have hheldI : ∀ t, heldIntRegs t (some ins) = 0 := by
    intro t; simp [heldIntRegs, hins.1]
  have hheldF : ∀ t, heldFPRegs t (some ins) = 0 := by
    intro t; simp [heldFPRegs, hins.1]
  refine ⟨?_, ?_, ?_, ?_, ?_, ?_, ?_, ?_, ?_, ?_, ?_⟩
  · rw [hi, hw]; exact h.len_int
  · rw [hf, hw]; exact h.len_fp
  · rw [hr, hw]; exact h.len_retire
  · rw [hi]; exact h.cap_int
  · rw [hf]; exact h.cap_fp
  · rw [hi, hr, e_heap]
    intro t st rt h1 h2
    rw [inflightInt_append, hheldI, Nat.add_zero]
    exact h.conserve_int t st rt h1 h2
  · rw [hf, hr, e_heap]
    intro t st rt h1 h2
    rw [inflightFP_append, hheldF, Nat.add_zero]
    exact h.conserve_fp t st rt h1 h2
  · intro p x hp he
    rcases hnew p x hp with ⟨_, rfl⟩ | hp'
    · rw [hins.2.1] at he; cases he
    · exact h.exec_issued p x hp' he
  · intro j dec' hd'
    rw [e_dec] at hd'
    rcases getElem?_set_cases _ _ _ _ _ hd' with ⟨rfl, rfl, _⟩ | ⟨_, hd''⟩
    · obtain ⟨hnd, hent⟩ := h.queue_ok j dec hd
      refine ⟨?_, ?_⟩
      · simp only []
        rw [List.nodup_append]
        refine ⟨hnd, List.nodup_singleton _, ?_⟩
        intro a ha hb
        simp only [List.mem_singleton] at hb
        subst hb
        obtain ⟨x, hx, _⟩ := hent _ ha
        exact absurd (derefIns_lt _ _ _ hx) (Nat.lt_irrefl _)
      · intro p hp
        simp only [List.mem_append, List.mem_singleton] at hp
        rcases hp with hp | rfl
        · obtain ⟨x, hx, h2, h3⟩ := hent p hp
          exact ⟨x, hold p x hx, h2, h3⟩
        · refine ⟨ins, ?_, hins.1, hins.2.2⟩
          rw [e_heap, derefIns_append, if_pos rfl]
    · obtain ⟨hnd, hent⟩ := h.queue_ok j dec' hd''
      refine ⟨hnd, fun p hp => ?_⟩
      obtain ⟨x, hx, h2, h3⟩ := hent p hp
      exact ⟨x, hold p x hx, h2, h3⟩
  · rw [hfu]
    intro fu hfu' p hp
    obtain ⟨g1, g2⟩ := h.fu_ok fu hfu' p hp
    refine ⟨by rw [e_heap, List.length_append]; exact Nat.lt_add_right _ g1, fun x hx => ?_⟩
    rcases hnew p x hx with ⟨hpl, _⟩ | hx'
    · rw [hpl] at g1; exact absurd g1 (Nat.lt_irrefl _)
    · exact g2 x hx'
  · rw [hl]
    intro p hp
    obtain ⟨g1, g2⟩ := h.lsq_ok p hp
    refine ⟨by rw [e_heap, List.length_append]; exact Nat.lt_add_right _ g1, fun x hx => ?_⟩
    rcases hnew p x hx with ⟨hpl, _⟩ | hx'
    · rw [hpl] at g1; exact absurd g1 (Nat.lt_irrefl _)
    · exact g2 x hx'

theorem CoreInv_foldlM (ci cf : Nat) (f : VanadisComponent → Nat → Except Fault VanadisComponent)
    (hstep : ∀ s s' i, CoreInv ci cf s → f s i = .ok s' → CoreInv ci cf s')
    (l : List Nat) (s s' : VanadisComponent) (h : CoreInv ci cf s)
    (hf : l.foldlM f s = .ok s') : CoreInv ci cf s' := by
  induction l generalizing s with
  | nil =>
    simp only [List.foldlM, pure, Except.pure, Except.ok.injEq] at hf
    subst hf; exact h
  | cons a l ih =>
    simp only [List.foldlM, bind, Except.bind] at hf
    cases hfa : f s a with
    | error e => simp [hfa] at hf
    | ok s1 =>
      simp only [hfa] at hf
      exact ih s1 (hstep s s1 a h hfa) hf

theorem CoreInv_fetchThread (ci cf : Nat) (s s' : VanadisComponent) (i : Nat)
    (h : CoreInv ci cf s) (hf : fetchThread s i = .ok s') : CoreInv ci cf s' := by
  rcases fetchThread_ok_cases s s' i hf with rfl | ⟨dec, hd, rfl⟩
  · exact h
  · refine CoreInv_frame ci cf s _ h rfl rfl rfl rfl ?_ (fun fu hfu => ⟨fu, hfu, rfl⟩)
      (fun p hp => hp) (heapRel_refl _)
    intro j dec' hd'
    rcases getElem?_set_cases _ _ _ _ _ hd' with ⟨rfl, rfl, _⟩ | ⟨_, hd''⟩
    · exact ⟨dec, hd, rfl⟩
    · exact ⟨dec', hd'', rfl⟩

/-- The invariant survives the delivery of decoded instructions to a thread's queue. -/
theorem CoreInv_decoderTick (ci cf : Nat) (i : Nat) (ops : List DecodedOp) :
    ∀ (s : VanadisComponent) (dec : VanadisDecoder), CoreInv ci cf s →
      s.thread_decoders[i]? = some dec →
      CoreInv ci cf { s with
        thread_decoders := s.thread_decoders.set i (decoderTick dec s.heap i ops).1,
        heap := (decoderTick dec s.heap i ops).2 } := by
  induction ops with
  | nil =>
    intro s dec h hd
    simp only [decoderTick, List.foldl_nil]
    have : s.thread_decoders.set i dec = s.thread_decoders := by
      apply List.ext_getElem?
      intro j
      rw [List.getElem?_set]
      split
      · rename_i hij; subst hij
        split
        · exact hd.symm
        · rename_i hlt
          rw [List.getElem?_eq_none (Nat.le_of_not_lt hlt)] at hd
          cases hd
      · rfl
    rw [this]
    exact h
  | cons op ops ih =>
    intro s dec h hd
    have h1 := CoreInv_alloc ci cf s
      { s with
        thread_decoders := s.thread_decoders.set i
          { dec with decoded_q := dec.decoded_q ++ [s.heap.length] },
        heap := s.heap ++ [some (VanadisInstruction.create op.id op.ins_address i op.func_type
          op.isa_int_regs_in op.isa_fp_regs_in op.isa_int_regs_out op.isa_fp_regs_out
          op.speculation)] }
      i dec _ h hd ⟨rfl, rfl, rfl⟩ rfl rfl rfl rfl rfl rfl rfl rfl
    have h2 := ih _ { dec with decoded_q := dec.decoded_q ++ [s.heap.length] } h1
      (getElem?_set_self_of_some _ _ _ _ hd)
    simp only [List.set_set] at h2
    simpa only [decoderTick, List.foldl_cons, allocIns] using h2

theorem CoreInv_decodeThread (ci cf : Nat) (ext : External) (cycle : Nat)
    (s s' : VanadisComponent) (i : Nat)
    (h : CoreInv ci cf s) (hf : decodeThread ext cycle s i = .ok s') : CoreInv ci cf s' := by
  rcases decodeThread_ok_cases ext cycle s s' i hf with rfl | ⟨dec, _, hd, rfl⟩
  · exact h
  · exact CoreInv_decoderTick ci cf i _ s dec h hd

theorem CoreInv_pushTestInstruction (ci cf : Nat) (s s' : VanadisComponent)
    (mk : Nat → VanadisInstruction)
    (hmk : ∀ id, (mk id).hasIssued = false ∧ (mk id).hasExecuted = false ∧ (mk id).hw_thread = 0)
    (h : CoreInv ci cf s) (hf : pushTestInstruction s mk = .ok s') : CoreInv ci cf s' := by
  obtain ⟨dec, rob_0, hd, _, _, rfl⟩ := pushTestInstruction_ok s s' mk hf
  exact CoreInv_alloc ci cf s _ 0 dec (mk s.nextInsID) h hd (hmk _) rfl rfl rfl rfl rfl rfl rfl rfl

theorem CoreInv_injectTestInstruction (ci cf : Nat) (s s' : VanadisComponent)
    (h : CoreInv ci cf s) (hf : injectTestInstruction s = .ok s') : CoreInv ci cf s' := by
  rcases injectTestInstruction_ok_cases s s' hf with rfl | hp
  · exact h
  · exact CoreInv_pushTestInstruction ci cf s s' _ (fun _ => ⟨rfl, rfl, rfl⟩) h hp

theorem HeapRel_issued {heap heap' : Heap} (h : HeapRel heap heap') (p : InsPtr)
    (hp : ∀ ins, derefIns heap p = some ins → ins.hasIssued = true) :
    ∀ ins', derefIns heap' p = some ins' → ins'.hasIssued = true := by
  intro ins' hd'
  have := h.2 p
  rw [hd'] at this
  cases hd : derefIns heap p with
  | none => rw [hd] at this; exact absurd this (by simp [CellRel])
  | some ins =>
    rw [hd] at this
    rw [this.1]
    exact hp ins hd

theorem HeapRel_markExecuted (heap : Heap) (p : InsPtr)
    (hp : ∀ ins, derefIns heap p = some ins → ins.hasIssued = true) :
    HeapRel heap (updateIns heap p VanadisInstruction.markExecuted) :=
  HeapRel_updateIns heap p _ (fun ins hd => CellRel_markExecuted ins (hp ins hd))

theorem VanadisFunctionalUnit.tick_spec (fu : VanadisFunctionalUnit) (heap : Heap)
    (h : ∀ p, fu.slot_inst = some p → ∀ ins, derefIns heap p = some ins → ins.hasIssued = true) :
    HeapRel heap (fu.tick heap).2 ∧ (fu.tick heap).1.slot_inst = fu.slot_inst := by
  unfold VanadisFunctionalUnit.tick
  cases hs : fu.slot_inst with
  | none => exact ⟨heapRel_refl _, hs⟩
  | some p =>
    simp only
    split
    · exact ⟨HeapRel_markExecuted heap p (h p hs), rfl⟩
    · exact ⟨heapRel_refl _, rfl⟩

theorem tickFuncUnits_spec (fus : List VanadisFunctionalUnit) :
    ∀ (heap : Heap), (∀ fu ∈ fus, ∀ p, fu.slot_inst = some p →
        ∀ ins, derefIns heap p = some ins → ins.hasIssued = true) →
      HeapRel heap (tickFuncUnits fus heap).2 ∧
      (tickFuncUnits fus heap).1.map (fun fu => fu.slot_inst)
        = fus.map (fun fu => fu.slot_inst) := by
  induction fus with
  | nil => intro heap _; exact ⟨heapRel_refl _, rfl⟩
  | cons fu rest ih =>
    intro heap h
    obtain ⟨h1, h2⟩ := fu.tick_spec heap (h fu (List.mem_cons_self _ _))
    obtain ⟨h3, h4⟩ := ih (fu.tick heap).2 (fun fu' hfu' p hp =>
      HeapRel_issued h1 p (h fu' (List.mem_cons_of_mem _ hfu') p hp))
    simp only [tickFuncUnits, List.map_cons]
    exact ⟨heapRel_trans h1 h3, by rw [h2, h4]⟩

theorem foldl_markExecuted_spec (l : List InsPtr) :
    ∀ (heap : Heap), (∀ p ∈ l, ∀ ins, derefIns heap p = some ins → ins.hasIssued = true) →
      HeapRel heap
        (l.foldl (fun h p => updateIns h p VanadisInstruction.markExecuted) heap) := by
  induction l with
  | nil => intro heap _; exact heapRel_refl _
  | cons a l ih =>
    intro heap h
    simp only [List.foldl_cons]
    have h1 := HeapRel_markExecuted heap a (h a (List.mem_cons_self _ _))
    exact heapRel_trans h1 (ih _ (fun p hp =>
      HeapRel_issued h1 p (h p (List.mem_cons_of_mem _ hp))))

theorem slot_of_map_eq (fus fus' : List VanadisFunctionalUnit)
    (h : fus'.map (fun fu => fu.slot_inst) = fus.map (fun fu => fu.slot_inst)) :
    ∀ fu' ∈ fus', ∃ fu ∈ fus, fu'.slot_inst = fu.slot_inst := by
  intro fu' hfu'
  have : fu'.slot_inst ∈ fus.map (fun fu => fu.slot_inst) := by
    rw [← h]; exact List.mem_map_of_mem _ hfu'
  obtain ⟨fu, hfu, e⟩ := List.mem_map.mp this
  exact ⟨fu, hfu, e.symm⟩

theorem CoreInv_executeStage (ci cf : Nat) (ext : External) (cycle : Nat)
    (s : VanadisComponent) (h : CoreInv ci cf s) : CoreInv ci cf (executeStage ext cycle s) := by
  have hfu := h.fu_ok
  simp only [List.mem_append] at hfu
  obtain ⟨a1, a2⟩ := tickFuncUnits_spec s.fu_int_arith s.heap
    (fun fu hfu' p hp => (hfu fu (Or.inl (Or.inl (Or.inl hfu'))) p hp).2)
  obtain ⟨b1, b2⟩ := tickFuncUnits_spec s.fu_int_div (tickFuncUnits s.fu_int_arith s.heap).2
    (fun fu hfu' p hp => HeapRel_issued a1 p (hfu fu (Or.inl (Or.inl (Or.inr hfu'))) p hp).2)
  have ab := heapRel_trans a1 b1
  obtain ⟨c1, c2⟩ := tickFuncUnits_spec s.fu_fp_arith
    (tickFuncUnits s.fu_int_div (tickFuncUnits s.fu_int_arith s.heap).2).2
    (fun fu hfu' p hp => HeapRel_issued ab p (hfu fu (Or.inl (Or.inr hfu')) p hp).2)
  have abc := heapRel_trans ab c1
  obtain ⟨d1, d2⟩ := tickFuncUnits_spec s.fu_fp_div
    (tickFuncUnits s.fu_fp_arith
      (tickFuncUnits s.fu_int_div (tickFuncUnits s.fu_int_arith s.heap).2).2).2
    (fun fu hfu' p hp => HeapRel_issued abc p (hfu fu (Or.inr hfu') p hp).2)
  have abcd := heapRel_trans abc d1
  have e1 := foldl_markExecuted_spec
    ((s.lsq.loads ++ s.lsq.stores).filter (ext.lsq_done cycle))
    (tickFuncUnits s.fu_fp_div (tickFuncUnits s.fu_fp_arith
      (tickFuncUnits s.fu_int_div (tickFuncUnits s.fu_int_arith s.heap).2).2).2).2
    (fun p hp => HeapRel_issued abcd p (h.lsq_ok p (List.mem_filter.mp hp).1).2)
  refine CoreInv_frame ci cf s _ h rfl rfl rfl rfl (fun i dec' hd' => ⟨dec', hd', rfl⟩) ?_ ?_
    (heapRel_trans abcd e1)
  · intro fu' hfu'
    simp only [executeStage, List.mem_append] at hfu' ⊢
    rcases hfu' with ((hm | hm) | hm) | hm
    · obtain ⟨fu, g1, g2⟩ := slot_of_map_eq _ _ a2 fu' hm
      exact ⟨fu, Or.inl (Or.inl (Or.inl g1)), g2⟩
    · obtain ⟨fu, g1, g2⟩ := slot_of_map_eq _ _ b2 fu' hm
      exact ⟨fu, Or.inl (Or.inl (Or.inr g1)), g2⟩
    · obtain ⟨fu, g1, g2⟩ := slot_of_map_eq _ _ c2 fu' hm
      exact ⟨fu, Or.inl (Or.inr g1), g2⟩
    · obtain ⟨fu, g1, g2⟩ := slot_of_map_eq _ _ d2 fu' hm
      exact ⟨fu, Or.inr g1, g2⟩
  · intro p hp
    simp only [executeStage, VanadisLoadStoreQueue.tick, List.mem_append, List.mem_filter] at hp ⊢
    rcases hp with hp | hp
    · exact Or.inl hp.1
    · exact Or.inr hp.1

theorem derefIns_deleteIns (heap : Heap) (p q : InsPtr) (ins : VanadisInstruction)
    (hp : derefIns heap p = some ins) :
    derefIns (deleteIns heap p) q = if q = p then none else derefIns heap q :=
  derefIns_set heap p q none (derefIns_lt heap p ins hp)

/-- The invariant survives the retire step. -/
theorem CoreInv_retireThread (ci cf : Nat) (s s' : VanadisComponent) (i : Nat)
    (h : CoreInv ci cf s) (hf : retireThread s i = .ok s') : CoreInv ci cf s' := by
  rcases retireThread_ok_cases s s' i hf with rfl |
    ⟨rob_i, p, ins, hr, hp, hd, _, ⟨_, rfl⟩ |
      ⟨hc, _, int_regs, fp_regs, issue, retire, hi, hfp, hit, hrt, rfl⟩⟩
  · exact h
  · exact CoreInv_frame ci cf s _ h rfl rfl rfl rfl (fun i dec' hd' => ⟨dec', hd', rfl⟩)
      (fun fu hfu => ⟨fu, hfu, rfl⟩) (fun p hp => hp)
      (HeapRel_updateIns _ _ _ (fun x _ => CellRel_markFrontOfROB x))
  · have hiss : ins.hasIssued = true := h.exec_issued p ins hd hc
    obtain ⟨z1, z2, z3, z4, z5, z6⟩ :=
      recoverRetiredRegisters_sizes ins int_regs fp_regs issue retire
    have hderef : ∀ q x, derefIns (deleteIns s.heap p) q = some x →
        q ≠ p ∧ derefIns s.heap q = some x := by
      intro q x hq
      rw [derefIns_deleteIns _ _ _ _ hd] at hq
      split at hq
      · cases hq
      · rename_i hne; exact ⟨hne, hq⟩
    have hkeep : ∀ q x, derefIns s.heap q = some x → x.hasIssued = false →
        derefIns (deleteIns s.heap p) q = some x := by
      intro q x hq hx
      rw [derefIns_deleteIns _ _ _ _ hd, if_neg]
      · exact hq
      · intro hqp
        subst hqp
        rw [hd] at hq
        cases hq
        rw [hiss] at hx
        cases hx
    have hlen : (deleteIns s.heap p).length = s.heap.length := by simp [deleteIns]
    have hret : ∀ (t : Nat) (rt' : VanadisISATable),
        (s.retire_isa_tables.set i
          (recoverRetiredRegisters ins int_regs fp_regs issue retire).retire_isa_table)[t]?
            = some rt' →
        ∃ rt, s.retire_isa_tables[t]? = some rt ∧
          rt'.int_reg_ptr.length = rt.int_reg_ptr.length ∧
          rt'.fp_reg_ptr.length = rt.fp_reg_ptr.length := by
      intro t rt' ht
      rcases getElem?_set_cases _ _ _ _ _ ht with ⟨rfl, rfl, _⟩ | ⟨_, ht'⟩
      · exact ⟨retire, hrt, z5, z6⟩
      · exact ⟨rt', ht', rfl, rfl⟩
    have hpl := derefIns_lt _ _ _ hd
    refine ⟨?_, ?_, ?_, ?_, ?_, ?_, ?_, ?_, ?_, ?_, ?_⟩
    · simp only [List.length_set]; exact h.len_int
    · simp only [List.length_set]; exact h.len_fp
    · simp only [List.length_set]; exact h.len_retire
    · intro t st ht
      rcases getElem?_set_cases _ _ _ _ _ ht with ⟨rfl, rfl, _⟩ | ⟨_, ht'⟩
      · rw [z2]; exact h.cap_int _ _ hi
      · exact h.cap_int _ _ ht'
    · intro t st ht
      rcases getElem?_set_cases _ _ _ _ _ ht with ⟨rfl, rfl, _⟩ | ⟨_, ht'⟩
      · rw [z4]; exact h.cap_fp _ _ hfp
      · exact h.cap_fp _ _ ht'
    · intro t st rt' ht htr
      obtain ⟨rt, hrt0, e1, _⟩ := hret t rt' htr
      have hsum := inflightInt_set s.heap p none t hpl
      rw [hd] at hsum
      simp only [] at ht ⊢
      rw [e1]
      rcases getElem?_set_cases _ _ _ _ _ ht with ⟨rfl, rfl, _⟩ | ⟨hne, ht'⟩
      · have hold := h.conserve_int _ _ _ hi hrt0
        have hheld : heldIntRegs ins.getHWThread (some ins) = ins.countISAIntRegOut := by
          simp [heldIntRegs, hiss]
        rw [hheld] at hsum
        simp only [heldIntRegs, deleteIns] at hsum ⊢
        rw [z1, z2]
        omega
      · have hold := h.conserve_int _ _ _ ht' hrt0
        have hheld : heldIntRegs t (some ins) = 0 := by
          have hne' : ¬ ins.getHWThread = t := fun hh => hne hh.symm
          simp [heldIntRegs, hiss, hne']
        rw [hheld] at hsum
        simp only [heldIntRegs, deleteIns] at hsum ⊢
        omega
    · intro t st rt' ht htr
      obtain ⟨rt, hrt0, _, e1⟩ := hret t rt' htr
      have hsum := inflightFP_set s.heap p none t hpl
      rw [hd] at hsum
      simp only [] at ht ⊢
      rw [e1]
      rcases getElem?_set_cases _ _ _ _ _ ht with ⟨rfl, rfl, _⟩ | ⟨hne, ht'⟩
      · have hold := h.conserve_fp _ _ _ hfp hrt0
        have hheld : heldFPRegs ins.getHWThread (some ins) = ins.countISAFPRegOut := by
          simp [heldFPRegs, hiss]
        rw [hheld] at hsum
        simp only [heldFPRegs, deleteIns] at hsum ⊢
        rw [z3, z4]
        omega
      · have hold := h.conserve_fp _ _ _ ht' hrt0
        have hheld : heldFPRegs t (some ins) = 0 := by
          have hne' : ¬ ins.getHWThread = t := fun hh => hne hh.symm
          simp [heldFPRegs, hiss, hne']
        rw [hheld] at hsum
        simp only [heldFPRegs, deleteIns] at hsum ⊢
        omega
    · intro q x hq he
      exact h.exec_issued q x (hderef q x hq).2 he
    · intro j dec' hd'
      obtain ⟨hnd, hent⟩ := h.queue_ok j dec' hd'
      refine ⟨hnd, fun q hq => ?_⟩
      obtain ⟨x, hx, h2, h3⟩ := hent q hq
      exact ⟨x, hkeep q x hx h2, h2, h3⟩
    · intro fu hfu q hq
      obtain ⟨g1, g2⟩ := h.fu_ok fu hfu q hq
      exact ⟨by rw [hlen]; exact g1, fun x hx => g2 x (hderef q x hx).2⟩
    · intro q hq
      obtain ⟨g1, g2⟩ := h.lsq_ok q hq
      exact ⟨by rw [hlen]; exact g1, fun x hx => g2 x (hderef q x hx).2⟩

theorem allocateFuncUnit_mem (p : InsPtr) (l : List VanadisFunctionalUnit) :
    ∀ fu' ∈ (allocateFuncUnit p l).2, fu' ∈ l ∨ fu'.slot_inst = some p := by
  induction l with
  | nil => intro fu' h; simp [allocateFuncUnit] at h
  | cons fu rest ih =>
    intro fu' h
    simp only [allocateFuncUnit] at h
    split at h
    · simp only [List.mem_cons] at h
      rcases h with rfl | h
      · exact Or.inr rfl
      · exact Or.inl (List.mem_cons_of_mem _ h)
    · simp only [List.mem_cons] at h
      rcases h with rfl | h
      · exact Or.inl (List.mem_cons_self _ _)
      · rcases ih fu' h with h' | h'
        · exact Or.inl (List.mem_cons_of_mem _ h')
        · exact Or.inr h'

theorem allocateFuncUnit_false (p : InsPtr) (l : List VanadisFunctionalUnit)
    (h : (allocateFuncUnit p l).1 = false) : (allocateFuncUnit p l).2 = l := by
  induction l with
  | nil => rfl
  | cons fu rest ih =>
    simp only [allocateFuncUnit] at h ⊢
    split at h
    · cases h
    · rename_i hfree
      simp only [hfree, Bool.false_eq_true, if_false]
      rw [ih h]

/-- Where the issue switch can put the instruction: into a slot of some pool or into the
LSQ; when it reports no allocation, pools and LSQ are unchanged. -/
theorem dispatch_pools (ft : VanadisFunctionalUnitType) (p : InsPtr) (s : VanadisComponent)
    (d : Bool × VanadisComponent) (h : dispatch ft p s = .ok d) :
    (∀ fu' ∈ d.2.fu_int_arith ++ d.2.fu_int_div ++ d.2.fu_fp_arith ++ d.2.fu_fp_div,
      fu' ∈ s.fu_int_arith ++ s.fu_int_div ++ s.fu_fp_arith ++ s.fu_fp_div ∨
        fu'.slot_inst = some p) ∧
    (∀ q ∈ d.2.lsq.loads ++ d.2.lsq.stores, q ∈ s.lsq.loads ++ s.lsq.stores ∨ q = p) ∧
    (d.1 = false → d.2.fu_int_arith = s.fu_int_arith ∧ d.2.fu_int_div = s.fu_int_div ∧
      d.2.fu_fp_arith = s.fu_fp_arith ∧ d.2.fu_fp_div = s.fu_fp_div ∧ d.2.lsq = s.lsq) := by
  cases ft <;> simp only [dispatch] at h
  case INST_OTHER => cases h
  case INST_LOAD =>
    split at h <;> cases h
    · refine ⟨fun fu' hfu => Or.inl hfu, fun q hq => ?_, fun hh => by cases hh⟩
      simp only [VanadisLoadStoreQueue.pushLoad, List.mem_append, List.mem_singleton] at hq ⊢
      tauto
    · exact ⟨fun fu' hfu => Or.inl hfu, fun q hq => Or.inl hq, fun _ => ⟨rfl, rfl, rfl, rfl, rfl⟩⟩
  case INST_STORE =>
    split at h <;> cases h
    · refine ⟨fun fu' hfu => Or.inl hfu, fun q hq => ?_, fun hh => by cases hh⟩
      simp only [VanadisLoadStoreQueue.pushStore, List.mem_append, List.mem_singleton] at hq ⊢
      tauto
    · exact ⟨fun fu' hfu => Or.inl hfu, fun q hq => Or.inl hq, fun _ => ⟨rfl, rfl, rfl, rfl, rfl⟩⟩
  case INST_INT_ARITH =>
    cases h
    refine ⟨fun fu' hfu => ?_, fun q hq => Or.inl hq, fun hh => ?_⟩
    · simp only [List.mem_append] at hfu ⊢
      rcases hfu with ((hm | hm) | hm) | hm
      · rcases allocateFuncUnit_mem p _ fu' hm with h' | h'
        · exact Or.inl (Or.inl (Or.inl (Or.inl h')))
        · exact Or.inr h'
      · exact Or.inl (Or.inl (Or.inl (Or.inr hm)))
      · exact Or.inl (Or.inl (Or.inr hm))
      · exact Or.inl (Or.inr hm)
    · exact ⟨allocateFuncUnit_false p _ hh, rfl, rfl, rfl, rfl⟩
  case INST_INT_DIV =>
    cases h
    refine ⟨fun fu' hfu => ?_, fun q hq => Or.inl hq, fun hh => ?_⟩
    · simp only [List.mem_append] at hfu ⊢
      rcases hfu with ((hm | hm) | hm) | hm
      · exact Or.inl (Or.inl (Or.inl (Or.inl hm)))
      · rcases allocateFuncUnit_mem p _ fu' hm with h' | h'
        · exact Or.inl (Or.inl (Or.inl (Or.inr h')))
        · exact Or.inr h'
      · exact Or.inl (Or.inl (Or.inr hm))
      · exact Or.inl (Or.inr hm)
    · exact ⟨rfl, allocateFuncUnit_false p _ hh, rfl, rfl, rfl⟩
  all_goals
    cases h
    refine ⟨fun fu' hfu => ?_, fun q hq => Or.inl hq, fun hh => ?_⟩
    · simp only [List.mem_append] at hfu ⊢
      rcases hfu with ((hm | hm) | hm) | hm
      · exact Or.inl (Or.inl (Or.inl (Or.inl hm)))
      · exact Or.inl (Or.inl (Or.inl (Or.inr hm)))
      · exact Or.inl (Or.inl (Or.inr hm))
      · rcases allocateFuncUnit_mem p _ fu' hm with h' | h'
        · exact Or.inl (Or.inr h')
        · exact Or.inr h'
    · exact ⟨rfl, rfl, rfl, allocateFuncUnit_false p _ hh, rfl⟩

/-- The invariant survives the rename, dequeue and marking of the head of a decoded
queue, once a functional unit or the LSQ holds the instruction. -/
theorem CoreInv_rename (ci cf : Nat) (s s' : VanadisComponent) (i : Nat) (dec : VanadisDecoder)
    (p : InsPtr) (rest : List InsPtr) (ins new_ins : VanadisInstruction)
    (int_regs fp_regs new_int new_fp : VanadisRegisterStack)
    (h : CoreInv ci cf s)
    (hd : s.thread_decoders[i]? = some dec) (hq : dec.decoded_q = p :: rest)
    (hp : derefIns s.heap p = some ins)
    (hi : s.int_register_stacks[i]? = some int_regs)
    (hf : s.fp_register_stacks[i]? = some fp_regs)
    (z1 : new_int.unused + ins.countISAIntRegOut = int_regs.unused)
    (z2 : new_int.capacity = int_regs.capacity)
    (z3 : new_fp.unused + ins.countISAFPRegOut = fp_regs.unused)
    (z4 : new_fp.capacity = fp_regs.capacity)
    (z5 : new_ins.hw_thread = ins.hw_thread)
    (z6 : new_ins.isa_int_regs_out = ins.isa_int_regs_out)
    (z7 : new_ins.isa_fp_regs_out = ins.isa_fp_regs_out)
    (z8 : new_ins.hasIssued = true)
    (e_hw : s'.hw_threads = s.hw_threads)
    (e_int : s'.int_register_stacks = s.int_register_stacks.set i new_int)
    (e_fp : s'.fp_register_stacks = s.fp_register_stacks.set i new_fp)
    (e_ret : s'.retire_isa_tables = s.retire_isa_tables)
    (e_dec : s'.thread_decoders = s.thread_decoders.set i { dec with decoded_q := rest })
    (e_heap : s'.heap = s.heap.set p (some new_ins))
    (e_fu : ∀ fu' ∈ s'.fu_int_arith ++ s'.fu_int_div ++ s'.fu_fp_arith ++ s'.fu_fp_div,
      fu' ∈ s.fu_int_arith ++ s.fu_int_div ++ s.fu_fp_arith ++ s.fu_fp_div ∨
        fu'.slot_inst = some p)
    (e_lsq : ∀ q ∈ s'.lsq.loads ++ s'.lsq.stores, q ∈ s.lsq.loads ++ s.lsq.stores ∨ q = p) :
    CoreInv ci cf s' := by
  obtain ⟨hnd, hent⟩ := h.queue_ok i dec hd
  rw [hq] at hnd hent
  obtain ⟨ins0, hins0, hunissued, hthr⟩ := hent p (List.mem_cons_self _ _)
  rw [hp] at hins0
  cases hins0
  have hpl := derefIns_lt _ _ _ hp
  have hderef : ∀ q, derefIns s'.heap q = if q = p then some new_ins else derefIns s.heap q := by
    intro q; rw [e_heap]; exact derefIns_set _ _ _ _ hpl
  have hlen : s'.heap.length = s.heap.length := by rw [e_heap]; simp
  have hheldI0 : ∀ t, heldIntRegs t (some ins) = 0 := by
    intro t; simp [heldIntRegs, hunissued]
  have hheldF0 : ∀ t, heldFPRegs t (some ins) = 0 := by
    intro t; simp [heldFPRegs, hunissued]
  refine ⟨?_, ?_, ?_, ?_, ?_, ?_, ?_, ?_, ?_, ?_, ?_⟩
  · rw [e_int, e_hw, List.length_set]; exact h.len_int
  · rw [e_fp, e_hw, List.length_set]; exact h.len_fp
  · rw [e_ret, e_hw]; exact h.len_retire
  · intro t st ht
    rw [e_int] at ht
    rcases getElem?_set_cases _ _ _ _ _ ht with ⟨rfl, rfl, _⟩ | ⟨_, ht'⟩
    · rw [z2]; exact h.cap_int _ _ hi
    · exact h.cap_int _ _ ht'
  · intro t st ht
    rw [e_fp] at ht
    rcases getElem?_set_cases _ _ _ _ _ ht with ⟨rfl, rfl, _⟩ | ⟨_, ht'⟩
    · rw [z4]; exact h.cap_fp _ _ hf
    · exact h.cap_fp _ _ ht'
  · intro t st rt ht htr
    rw [e_int] at ht
    rw [e_ret] at htr
    rw [e_heap]
    have hsum := inflightInt_set s.heap p (some new_ins) t hpl
    rw [hp, hheldI0] at hsum
    rcases getElem?_set_cases _ _ _ _ _ ht with ⟨rfl, rfl, _⟩ | ⟨hne, ht'⟩
    · have hold := h.conserve_int _ _ _ hi htr
      have hheld : heldIntRegs t (some new_ins) = ins.countISAIntRegOut := by
        simp [heldIntRegs, z8, VanadisInstruction.getHWThread, z5, hthr,
          VanadisInstruction.countISAIntRegOut, z6]
      rw [hheld] at hsum
      rw [z2]
      omega
    · have hold := h.conserve_int _ _ _ ht' htr
      have hne' : ¬ new_ins.getHWThread = t := by
        simp only [VanadisInstruction.getHWThread, z5, hthr]
        exact fun hh => hne hh.symm
      have hheld : heldIntRegs t (some new_ins) = 0 := by
        simp [heldIntRegs, hne']
      rw [hheld] at hsum
      omega
  · intro t st rt ht htr
    rw [e_fp] at ht
    rw [e_ret] at htr
    rw [e_heap]
    have hsum := inflightFP_set s.heap p (some new_ins) t hpl
    rw [hp, hheldF0] at hsum
    rcases getElem?_set_cases _ _ _ _ _ ht with ⟨rfl, rfl, _⟩ | ⟨hne, ht'⟩
    · have hold := h.conserve_fp _ _ _ hf htr
      have hheld : heldFPRegs t (some new_ins) = ins.countISAFPRegOut := by
        simp [heldFPRegs, z8, VanadisInstruction.getHWThread, z5, hthr,
          VanadisInstruction.countISAFPRegOut, z7]
      rw [hheld] at hsum
      rw [z4]
      omega
    · have hold := h.conserve_fp _ _ _ ht' htr
      have hne' : ¬ new_ins.getHWThread = t := by
        simp only [VanadisInstruction.getHWThread, z5, hthr]
        exact fun hh => hne hh.symm
      have hheld : heldFPRegs t (some new_ins) = 0 := by
        simp [heldFPRegs, hne']
      rw [hheld] at hsum
      omega
  · intro q x hx he
    rw [hderef] at hx
    split at hx
    · cases hx; exact z8
    · exact h.exec_issued q x hx he
  · intro j dec' hd'
    rw [e_dec] at hd'
    have hother : ∀ q x, derefIns s.heap q = some x → q ≠ p → derefIns s'.heap q = some x := by
      intro q x hx hne
      rw [hderef, if_neg hne]; exact hx
    rcases getElem?_set_cases _ _ _ _ _ hd' with ⟨rfl, rfl, _⟩ | ⟨hne, hd''⟩
    · have hnd' := List.nodup_cons.mp hnd
      refine ⟨hnd'.2, fun q hq' => ?_⟩
      obtain ⟨x, hx, h2, h3⟩ := hent q (List.mem_cons_of_mem _ hq')
      refine ⟨x, hother q x hx ?_, h2, h3⟩
      rintro rfl
      exact hnd'.1 hq'
    · obtain ⟨hnd', hent'⟩ := h.queue_ok j dec' hd''
      refine ⟨hnd', fun q hq' => ?_⟩
      obtain ⟨x, hx, h2, h3⟩ := hent' q hq'
      refine ⟨x, hother q x hx ?_, h2, h3⟩
      rintro rfl
      rw [hp] at hx
      cases hx
      exact hne (h3.symm.trans hthr)
  · intro fu' hfu' q hq'
    rw [hlen]
    rcases e_fu fu' hfu' with hold | hnew
    · obtain ⟨g1, g2⟩ := h.fu_ok fu' hold q hq'
      refine ⟨g1, fun x hx => ?_⟩
      rw [hderef] at hx
      split at hx
      · cases hx; exact z8
      · exact g2 x hx
    · rw [hnew] at hq'
      cases hq'
      refine ⟨hpl, fun x hx => ?_⟩
      rw [hderef, if_pos rfl] at hx
      cases hx; exact z8
  · intro q hq'
    rw [hlen]
    rcases e_lsq q hq' with hold | rfl
    · obtain ⟨g1, g2⟩ := h.lsq_ok q hold
      refine ⟨g1, fun x hx => ?_⟩
      rw [hderef] at hx
      split at hx
      · cases hx; exact z8
      · exact g2 x hx
    · refine ⟨hpl, fun x hx => ?_⟩
      rw [hderef, if_pos rfl] at hx
      cases hx; exact z8

/-- The invariant survives the issue step. -/
theorem CoreInv_issueThread (ci cf : Nat) (s s' : VanadisComponent) (i : Nat)
    (h : CoreInv ci cf s) (hf : issueThread s i = .ok s') : CoreInv ci cf s' := by
  have hsame : ∀ (a b : Finset Nat), CoreInv ci cf { s with tmp_raw_int := a, tmp_raw_fp := b } :=
    fun a b => CoreInv_frame ci cf s _ h rfl rfl rfl rfl (fun i dec' hd' => ⟨dec', hd', rfl⟩)
      (fun fu hfu => ⟨fu, hfu, rfl⟩) (fun p hp => hp) (heapRel_refl _)
  rcases issueThread_ok_cases s s' i hf with ⟨rfl, _⟩ |
    ⟨dec, p, rest, ins, int_regs, fp_regs, isa_table, _, hd, hq, hp, hi, hfp, _, hcase⟩
  · exact hsame _ _
  · rcases hcase with ⟨_, rfl⟩ | ⟨_, d, hdisp, hcase2⟩
    · exact hsame _ _
    · obtain ⟨f1, f2, f3, f4, f5, f6, f7, f8, f9⟩ := dispatch_frame _ _ _ _ hdisp
      obtain ⟨g1, g2, g3⟩ := dispatch_pools _ _ _ _ hdisp
      rcases hcase2 with ⟨hd1, rfl⟩ | ⟨_, st, hassign, rfl⟩
      · obtain ⟨k1, k2, k3, k4, k5⟩ := g3 hd1
        refine CoreInv_frame ci cf s _ h f9 f2 f3 f5 ?_ ?_ ?_ ?_
        · intro j dec' hd'
          rw [f1] at hd'
          exact ⟨dec', hd', rfl⟩
        · intro fu hfu
          rw [k1, k2, k3, k4] at hfu
          exact ⟨fu, hfu, rfl⟩
        · intro q hq'
          rw [k5] at hq'
          exact hq'
        · rw [f6]; exact heapRel_refl _
      · obtain ⟨z1, z2, z3, z4, z5, z6, z7, _⟩ :=
          assignRegistersToInstruction_sizes _ _ _ _ _ hassign
        refine CoreInv_rename ci cf s _ i dec p rest ins st.ins.markIssued int_regs fp_regs
          st.int_regs st.fp_regs h hd hq hp hi hfp z1 z2 z3 z4 z5 z6 z7 rfl f9 ?_ ?_ f5 ?_ ?_
          g1 g2
        · simp only []; rw [f2]
        · simp only []; rw [f3]
        · simp only []; rw [f1]
        · simp only []; rw [f6]

/-! ## The invariant after construction -/

theorem initialMapping_spec (set : VanadisISATable → Nat → Nat → VanadisISATable)
    (hset : ∀ t j r, (set t j r).int_reg_ptr.length = t.int_reg_ptr.length ∧
      (set t j r).fp_reg_ptr.length = t.fp_reg_ptr.length)
    (l : List Nat) :
    ∀ (acc r : VanadisRegisterStack × VanadisISATable),
      l.foldlM
        (fun acc j =>
          match acc.1.pop with
          | .error e => (Except.error e : Except Fault (VanadisRegisterStack × VanadisISATable))
          | .ok r => .ok (r.2, set acc.2 j r.1)) acc = .ok r →
      r.1.regs.length + l.length = acc.1.regs.length ∧
        r.1.max_capacity = acc.1.max_capacity ∧
        r.2.int_reg_ptr.length = acc.2.int_reg_ptr.length ∧
        r.2.fp_reg_ptr.length = acc.2.fp_reg_ptr.length := by
  induction l with
  | nil =>
    intro acc r h
    simp only [List.foldlM, pure, Except.pure, Except.ok.injEq] at h
    subst h; simp
  | cons a l ih =>
    intro acc r h
    simp only [List.foldlM, bind, Except.bind] at h
    cases hr : acc.1.regs with
    | nil => simp [VanadisRegisterStack.pop, hr] at h
    | cons x rest =>
      simp only [VanadisRegisterStack.pop, hr] at h
      obtain ⟨h1, h2, h3, h4⟩ := ih _ _ h
      simp only [List.length_cons] at h1 h2 h3 h4 ⊢
      rw [(hset _ _ _).1] at h3
      rw [(hset _ _ _).2] at h4
      exact ⟨by omega, h2, h3, h4⟩

theorem loadDecoder_ok (params : Params) (i : Nat) (dec : VanadisDecoder)
    (h : loadDecoder params i = .ok dec) : dec.decoded_q = [] := by
  unfold loadDecoder at h
  split at h
  · cases h
  · simp only at h
    split at h
    · cases h; rfl
    · split at h
      · cases h
      · cases h; rfl

/-- The outcome of a successful pass of the constructor's per-thread loop. -/
theorem constructThread_ok (params : Params) (s s' : VanadisComponent) (i : Nat)
    (h : constructThread params s i = .ok s') :
    ∃ (dec : VanadisDecoder) (int_stack fp_stack : VanadisRegisterStack)
      (issue : VanadisISATable) (rob_i : VanadisCircularQueue InsPtr),
      dec.decoded_q = [] ∧
      int_stack.regs.length + issue.int_reg_ptr.length = params.physical_integer_registers % 65536 ∧
      int_stack.max_capacity = params.physical_integer_registers % 65536 ∧
      fp_stack.regs.length + issue.fp_reg_ptr.length = params.physical_fp_registers % 65536 ∧
      fp_stack.max_capacity = params.physical_fp_registers % 65536 ∧
      s' = { s with
        thread_decoders := s.thread_decoders ++ [dec],
        int_register_stacks := s.int_register_stacks ++ [int_stack],
        fp_register_stacks := s.fp_register_stacks ++ [fp_stack],
        rob := s.rob ++ [rob_i],
        issue_isa_tables := s.issue_isa_tables ++ [issue],
        retire_isa_tables := s.retire_isa_tables ++ [issue],
        halted_masks := s.halted_masks ++ [true] } := by
  unfold constructThread at h
  simp only [bind, Except.bind] at h
  cases hdec : loadDecoder params i with
  | error e => simp [hdec] at h
  | ok dec =>
    simp only [hdec] at h
    cases h1 : initialMapping VanadisISATable.setIntPhysReg dec.count_isa_int_reg
          (VanadisRegisterStack.create (params.physical_integer_registers % 65536))
          (VanadisISATable.create dec.count_isa_int_reg dec.count_isa_fp_reg) with
    | error e => simp [h1] at h
    | ok m1 =>
      simp only [h1] at h
      cases h2 : initialMapping VanadisISATable.setFPPhysReg dec.count_isa_fp_reg
            (VanadisRegisterStack.create (params.physical_fp_registers % 65536)) m1.2 with
      | error e => simp [h2] at h
      | ok m2 =>
        simp only [h2, Except.ok.injEq, VanadisISATable.reset] at h
        obtain ⟨a1, a2, a3, a4⟩ := initialMapping_spec VanadisISATable.setIntPhysReg
          (fun t j r => by simp [VanadisISATable.setIntPhysReg]) _ _ _ h1
        obtain ⟨b1, b2, b3, b4⟩ := initialMapping_spec VanadisISATable.setFPPhysReg
          (fun t j r => by simp [VanadisISATable.setFPPhysReg]) _ _ _ h2
        simp only [VanadisRegisterStack.create, VanadisISATable.create, List.length_range,
          List.length_replicate] at a1 a2 a3 a4 b1 b2 b3 b4
        exact ⟨dec, m1.1, m2.1, m2.2, _, loadDecoder_ok params i dec hdec,
          by rw [b3, a3]; exact a1, a2, by rw [b4, a4]; exact b1, b2, h.symm⟩

theorem getElem?_append_singleton_cases {α : Type} (l : List α) (x y : α) (t : Nat)
    (h : (l ++ [x])[t]? = some y) : (t < l.length ∧ l[t]? = some y) ∨ (t = l.length ∧ y = x) := by
  rcases Nat.lt_trichotomy t l.length with hlt | heq | hgt
  · rw [List.getElem?_append_left hlt] at h
    exact Or.inl ⟨hlt, h⟩
  · subst heq
    simp at h
    exact Or.inr ⟨rfl, h.symm⟩
  · rw [List.getElem?_eq_none (by simp; omega)] at h
    cases h

/-- One pass of the constructor's per-thread loop extends the invariant from `k` to
`k + 1` threads. -/
theorem CoreInv_constructThread (params : Params) (s s' : VanadisComponent) (i k : Nat)
    (h : CoreInv (params.physical_integer_registers % 65536)
      (params.physical_fp_registers % 65536) { s with hw_threads := k })
    (hheap : s.heap = [])
    (hf : constructThread params s i = .ok s') :
    CoreInv (params.physical_integer_registers % 65536)
      (params.physical_fp_registers % 65536) { s' with hw_threads := k + 1 } ∧
    s'.heap = [] ∧ s'.hw_threads = s.hw_threads := by
  obtain ⟨dec, int_stack, fp_stack, issue, rob_i, hq, a1, a2, a3, a4, rfl⟩ :=
    constructThread_ok params s s' i hf
  refine ⟨?_, hheap, rfl⟩
  have l1 := h.len_int
  have l2 := h.len_fp
  have l3 := h.len_retire
  simp only [] at l1 l2 l3
  refine ⟨?_, ?_, ?_, ?_, ?_, ?_, ?_, ?_, ?_, ?_, ?_⟩
  · simp [l1]
  · simp [l2]
  · simp [l3]
  · intro t st ht
    rcases getElem?_append_singleton_cases _ _ _ _ ht with ⟨_, ht'⟩ | ⟨_, rfl⟩
    · exact h.cap_int t st ht'
    · exact a2
  · intro t st ht
    rcases getElem?_append_singleton_cases _ _ _ _ ht with ⟨_, ht'⟩ | ⟨_, rfl⟩
    · exact h.cap_fp t st ht'
    · exact a4
  · intro t st rt ht htr
    simp only [hheap, inflightIntRegs, List.map_nil, List.sum_nil, Nat.add_zero]
    rcases getElem?_append_singleton_cases _ _ _ _ ht with ⟨h1, ht'⟩ | ⟨h1, rfl⟩
    · rcases getElem?_append_singleton_cases _ _ _ _ htr with ⟨_, htr'⟩ | ⟨h2, rfl⟩
      · have := h.conserve_int t st rt ht' htr'
        simpa [hheap, inflightIntRegs] using this
      · omega
    · rcases getElem?_append_singleton_cases _ _ _ _ htr with ⟨h2, _⟩ | ⟨_, rfl⟩
      · omega
      · simp only [VanadisRegisterStack.unused, VanadisRegisterStack.capacity]
        rw [a1, a2]
  · intro t st rt ht htr
    simp only [hheap, inflightFPRegs, List.map_nil, List.sum_nil, Nat.add_zero]
    rcases getElem?_append_singleton_cases _ _ _ _ ht with ⟨h1, ht'⟩ | ⟨h1, rfl⟩
    · rcases getElem?_append_singleton_cases _ _ _ _ htr with ⟨_, htr'⟩ | ⟨h2, rfl⟩
      · have := h.conserve_fp t st rt ht' htr'
        simpa [hheap, inflightFPRegs] using this
      · omega
    · rcases getElem?_append_singleton_cases _ _ _ _ htr with ⟨h2, _⟩ | ⟨_, rfl⟩
      · omega
      · simp only [VanadisRegisterStack.unused, VanadisRegisterStack.capacity]
        rw [a3, a4]
  · intro p x hp
    simp [hheap, derefIns] at hp
  · intro j dec' hd'
    rcases getElem?_append_singleton_cases _ _ _ _ hd' with ⟨_, hd''⟩ | ⟨_, rfl⟩
    · exact h.queue_ok j dec' hd''
    · rw [hq]
      exact ⟨List.nodup_nil, fun p hp => by simp at hp⟩
  · exact h.fu_ok
  · exact h.lsq_ok

theorem CoreInv_construct_loop (params : Params) (l : List Nat) :
    ∀ (k : Nat) (s s' : VanadisComponent),
      CoreInv (params.physical_integer_registers % 65536)
        (params.physical_fp_registers % 65536) { s with hw_threads := k } →
      s.heap = [] →
      l.foldlM (constructThread params) s = .ok s' →
      CoreInv (params.physical_integer_registers % 65536)
        (params.physical_fp_registers % 65536) { s' with hw_threads := k + l.length } ∧
      s'.heap = [] ∧ s'.hw_threads = s.hw_threads := by
  induction l with
  | nil =>
    intro k s s' h hheap hf
    simp only [List.foldlM, pure, Except.pure, Except.ok.injEq] at hf
    subst hf
    exact ⟨h, hheap, rfl⟩
  | cons a l ih =>
    intro k s s' h hheap hf
    simp only [List.foldlM, bind, Except.bind] at hf
    cases hfa : constructThread params s a with
    | error e => simp [hfa] at hf
    | ok s1 =>
      simp only [hfa] at hf
      obtain ⟨h1, h2, h3⟩ := CoreInv_constructThread params s s1 a k h hheap hfa
      obtain ⟨g1, g2, g3⟩ := ih (k + 1) s1 s' h1 h2 hf
      refine ⟨?_, g2, g3.trans h3⟩
      have : k + (a :: l).length = k + 1 + l.length := by simp; omega
      rw [this]
      exact g1

theorem CoreInv_emptyComponent (ci cf : Nat) (params : Params) :
    CoreInv ci cf { emptyComponent params with hw_threads := 0 } := by
  refine ⟨rfl, rfl, rfl, ?_, ?_, ?_, ?_, ?_, ?_, ?_, ?_⟩
  · intro t st ht; simp [emptyComponent] at ht
  · intro t st ht; simp [emptyComponent] at ht
  · intro t st rt ht; simp [emptyComponent] at ht
  · intro t st rt ht; simp [emptyComponent] at ht
  · intro p x hp; simp [emptyComponent, derefIns] at hp
  · intro j dec hd; simp [emptyComponent] at hd
  · intro fu hfu; simp [emptyComponent] at hfu
  · intro p hp; simp [emptyComponent, VanadisLoadStoreQueue.create] at hp

theorem CoreInv_startCoreZero (ci cf : Nat) (params : Params) (s s' : VanadisComponent)
    (h : CoreInv ci cf s) (hf : startCoreZero params s = .ok s') : CoreInv ci cf s' := by
  unfold startCoreZero at hf
  split at hf
  · simp only [bind, Except.bind] at hf
    cases hh : vecAt s.halted_masks 0 with
    | error e => simp [hh] at hf
    | ok halted =>
      simp only [hh] at hf
      cases hd : vecAt s.thread_decoders 0 with
      | error e => simp [hd] at hf
      | ok dec =>
        simp only [hd, Except.ok.injEq] at hf
        subst hf
        rw [vecAt_eq_ok] at hd
        refine CoreInv_frame ci cf s _ h rfl rfl rfl rfl ?_ (fun fu hfu => ⟨fu, hfu, rfl⟩)
          (fun p hp => hp) (heapRel_refl _)
        intro j dec' hd'
        rcases getElem?_set_cases _ _ _ _ _ hd' with ⟨rfl, rfl, _⟩ | ⟨_, hd''⟩
        · refine ⟨dec, hd, ?_⟩
          split <;> rfl
        · exact ⟨dec', hd'', rfl⟩
  · cases hf
    exact h

theorem CoreInv_testInstructions (ci cf : Nat) (l : List (Nat → VanadisInstruction))
    (hl : ∀ mk ∈ l, ∀ id, (mk id).hasIssued = false ∧ (mk id).hasExecuted = false ∧
      (mk id).hw_thread = 0) :
    ∀ (s s' : VanadisComponent), CoreInv ci cf s →
      l.foldlM pushTestInstruction s = .ok s' →
      CoreInv ci cf s' ∧ s'.fu_int_arith = s.fu_int_arith ∧ s'.fu_int_div = s.fu_int_div ∧
        s'.fu_fp_arith = s.fu_fp_arith ∧ s'.fu_fp_div = s.fu_fp_div ∧ s'.lsq = s.lsq := by
  induction l with
  | nil =>
    intro s s' h hf
    simp only [List.foldlM, pure, Except.pure, Except.ok.injEq] at hf
    subst hf
    exact ⟨h, rfl, rfl, rfl, rfl, rfl⟩
  | cons mk l ih =>
    intro s s' h hf
    simp only [List.foldlM, bind, Except.bind] at hf
    cases hfa : pushTestInstruction s mk with
    | error e => simp [hfa] at hf
    | ok s1 =>
      simp only [hfa] at hf
      have h1 := CoreInv_pushTestInstruction ci cf s s1 mk (hl mk (List.mem_cons_self _ _)) h hfa
      obtain ⟨g0, g1, g2, g3, g4, g5⟩ :=
        ih (fun mk' hmk' => hl mk' (List.mem_cons_of_mem _ hmk')) s1 s' h1 hf
      obtain ⟨dec, rob_0, _, _, _, rfl⟩ := pushTestInstruction_ok s s1 mk hfa
      exact ⟨g0, g1, g2, g3, g4, g5⟩

theorem CoreInv_replace_units (ci cf : Nat) (s : VanadisComponent)
    (a b c d : List VanadisFunctionalUnit) (q : VanadisLoadStoreQueue) (h : CoreInv ci cf s)
    (hfu : ∀ fu ∈ a ++ b ++ c ++ d, fu.slot_inst = none)
    (hq : q.loads = [] ∧ q.stores = []) :
    CoreInv ci cf { s with
      fu_int_arith := a, fu_int_div := b, fu_fp_arith := c, fu_fp_div := d, lsq := q } := by
  refine ⟨h.len_int, h.len_fp, h.len_retire, h.cap_int, h.cap_fp, h.conserve_int, h.conserve_fp,
    h.exec_issued, h.queue_ok, ?_, ?_⟩
  · intro fu hfu' p hp
    rw [hfu fu hfu'] at hp
    cases hp
  · intro p hp
    simp [hq.1, hq.2] at hp

theorem createFuncUnits_free (fu_id : Nat) (ft : VanadisFunctionalUnitType) (units cycles : Nat) :
    ∀ fu ∈ createFuncUnits fu_id ft units cycles, fu.slot_inst = none := by
  intro fu hfu
  simp only [createFuncUnits, List.mem_map] at hfu
  obtain ⟨k, _, rfl⟩ := hfu
  rfl

/-- The state the constructor builds satisfies the invariant. -/
theorem CoreInv_construct (params : Params) (s : VanadisComponent)
    (h : construct params = .ok s) :
    CoreInv (params.physical_integer_registers % 65536)
      (params.physical_fp_registers % 65536) s := by
  unfold construct at h
  simp only [bind, Except.bind] at h
  cases h1 : (List.range (emptyComponent params).hw_threads).foldlM (constructThread params)
      (emptyComponent params) with
  | error e => simp [h1] at h
  | ok s1 =>
    simp only [h1] at h
    obtain ⟨i1, i2, i3⟩ := CoreInv_construct_loop params _ 0 _ _
      (CoreInv_emptyComponent _ _ params) rfl h1
    simp only [List.length_range, Nat.zero_add] at i1
    have i1' : CoreInv (params.physical_integer_registers % 65536)
        (params.physical_fp_registers % 65536) s1 := by
      have : ({ s1 with hw_threads := (emptyComponent params).hw_threads } : VanadisComponent)
          = s1 := by
        rw [← i3]
      rw [this] at i1
      exact i1
    cases h2 : startCoreZero params s1 with
    | error e => simp [h2] at h
    | ok s2 =>
      simp only [h2] at h
      have i2' := CoreInv_startCoreZero _ _ params s1 s2 i1' h2
      cases h3 : constructorTestInstructions.foldlM pushTestInstruction s2 with
      | error e => simp [h3] at h
      | ok s3 =>
        simp only [h3] at h
        obtain ⟨j0, j1, j2, j3, j4, j5⟩ := CoreInv_testInstructions _ _
          constructorTestInstructions (by
            intro mk hmk id
            simp only [constructorTestInstructions, List.mem_cons, List.mem_singleton,
              List.not_mem_nil, or_false] at hmk
            rcases hmk with rfl | rfl | rfl | rfl | rfl | rfl | rfl <;> exact ⟨rfl, rfl, rfl⟩)
          s2 s3 i2' h3
        split at h
        · cases h
        · split at h
          · cases h
          · simp only [Except.ok.injEq] at h
            subst h
            refine CoreInv_replace_units _ _ s3 _ _ _ _ _ j0 ?_ ⟨rfl, rfl⟩
            intro fu hfu
            simp only [List.mem_append] at hfu
            rcases hfu with ((hm | hm) | hm) | hm <;> exact createFuncUnits_free _ _ _ _ fu hm

/-- A successful `tick` preserves the invariant. -/
theorem CoreInv_tick (ci cf : Nat) (ext : External) (cycle : Nat) (s s' : VanadisComponent)
    (b : Bool) (h : CoreInv ci cf s) (hf : tick ext cycle s = .ok (b, s')) :
    CoreInv ci cf s' := by
  rcases tick_ok_stages ext cycle s s' b hf with ⟨_, _, rfl⟩ |
    ⟨_, _, s1, s2, s3, s4, s6, h1, h2, h3, h4, h6, rfl⟩
  · exact h
  · have i1 := CoreInv_foldlM ci cf fetchThread
      (fun a b i ha hb => CoreInv_fetchThread ci cf a b i ha hb) _ _ _ h h1
    have i2 := CoreInv_foldlM ci cf (decodeThread ext cycle)
      (fun a b i ha hb => CoreInv_decodeThread ci cf ext cycle a b i ha hb) _ _ _ i1 h2
    have i3 := CoreInv_injectTestInstruction ci cf _ _ i2 h3
    have i4 := CoreInv_foldlM ci cf issueThread
      (fun a b i ha hb => CoreInv_issueThread ci cf a b i ha hb) _ _ _ i3 h4
    have i5 := CoreInv_executeStage ci cf ext cycle s4 i4
    have i6 := CoreInv_foldlM ci cf retireThread
      (fun a b i ha hb => CoreInv_retireThread ci cf a b i ha hb) _ _ _ i5 h6
    exact CoreInv_frame ci cf s6 _ i6 rfl rfl rfl rfl (fun i dec' hd' => ⟨dec', hd', rfl⟩)
      (fun fu hfu => ⟨fu, hfu, rfl⟩) (fun p hp => hp) (heapRel_refl _)

/-- Every reachable state satisfies the invariant. -/
theorem CoreInv_reachable (params : Params) (s : VanadisComponent) (h : Reachable params s) :
    CoreInv (params.physical_integer_registers % 65536)
      (params.physical_fp_registers % 65536) s := by
  induction h with
  | init s hs => exact CoreInv_construct params s hs
  | step ext cycle s s' b _ ht ih => exact CoreInv_tick _ _ ext cycle s s' b ih ht

/-- The register count while no released cell is reused.  In every state reachable by
`tick`, whose `new` is `allocIns`, every hardware thread `t` has its two free stacks and
its retire-time table, and for each register class the number of free-stack entries, plus
the number of entries of the retire-time table, plus the number of output registers of
the issued, not yet retired instructions of the thread, equals the configured physical
register count (read as a 16-bit value).  The statement counts entries, not distinct
registers, and it rests on `CoreInv.exec_issued`, which holds because under `allocIns`
the writes of a functional unit through the pointer of a retired instruction are lost. -/
theorem register_count_without_reuse (params : Params) (s : VanadisComponent)
    (h : Reachable params s) (t : Nat) (ht : t < s.hw_threads) :
    ∃ int_stack fp_stack retire,
      s.int_register_stacks[t]? = some int_stack ∧
      s.fp_register_stacks[t]? = some fp_stack ∧
      s.retire_isa_tables[t]? = some retire ∧
      int_stack.unused + (retire.int_reg_ptr.length + inflightIntRegs s.heap t)
        = params.physical_integer_registers % 65536 ∧
      fp_stack.unused + (retire.fp_reg_ptr.length + inflightFPRegs s.heap t)
        = params.physical_fp_registers % 65536 := by
  have inv := CoreInv_reachable params s h
  have h1 : t < s.int_register_stacks.length := by rw [inv.len_int]; exact ht
  have h2 : t < s.fp_register_stacks.length := by rw [inv.len_fp]; exact ht
  have h3 : t < s.retire_isa_tables.length := by rw [inv.len_retire]; exact ht
  refine ⟨s.int_register_stacks[t], s.fp_register_stacks[t], s.retire_isa_tables[t],
    List.getElem?_eq_getElem h1, List.getElem?_eq_getElem h2, List.getElem?_eq_getElem h3, ?_, ?_⟩
  · have e1 := inv.conserve_int t _ _ (List.getElem?_eq_getElem h1) (List.getElem?_eq_getElem h3)
    have e2 := inv.cap_int t _ (List.getElem?_eq_getElem h1)
    omega
  · have e1 := inv.conserve_fp t _ _ (List.getElem?_eq_getElem h2) (List.getElem?_eq_getElem h3)
    have e2 := inv.cap_fp t _ (List.getElem?_eq_getElem h2)
    omega

/-- The count on an example: with `exampleParams` (24 integer, 8 floating-point physical
registers) the state after construction and one tick is reachable; the first test
instruction has been issued and holds one integer register, 7 integer registers are free
and 16 are mapped by the retire-time table. -/
theorem register_count_without_reuse_example :
    ∃ s int_stack fp_stack retire, Reachable exampleParams s ∧ s.current_cycle = 1 ∧
      s.int_register_stacks[0]? = some int_stack ∧
      s.fp_register_stacks[0]? = some fp_stack ∧
      s.retire_isa_tables[0]? = some retire ∧
      inflightIntRegs s.heap 0 = 1 ∧
      int_stack.unused + (retire.int_reg_ptr.length + inflightIntRegs s.heap 0) = 24 ∧
      fp_stack.unused + (retire.fp_reg_ptr.length + inflightFPRegs s.heap 0) = 8 := by
  obtain ⟨s0, s1, h0, h1, h2, h3, h4⟩ : ∃ s0 s1, construct exampleParams = .ok s0 ∧
      tick quietExternal 0 s0 = .ok (false, s1) ∧ s1.hw_threads = 1 ∧ s1.current_cycle = 1 ∧
      inflightIntRegs s1.heap 0 = 1 := by
    refine ⟨_, _, rfl, rfl, ?_, ?_, ?_⟩ <;> decide
  have hr : Reachable exampleParams s1 :=
    Reachable.step quietExternal 0 s0 s1 false (Reachable.init s0 h0) h1
  obtain ⟨int_stack, fp_stack, retire, g1, g2, g3, g4, g5⟩ :=
    register_count_without_reuse exampleParams s1 hr 0 (by rw [h2]; exact Nat.zero_lt_one)
  exact ⟨s1, int_stack, fp_stack, retire, hr, h3, g1, g2, g3, h4, g4, g5⟩

/-! ## Settling the claims on the ROB, the LSQ and the issue and retire stages -/

theorem runTicks_reachable (params : Params) (ext : External) :
    ∀ (n c : Nat) (s s' : VanadisComponent),
      Reachable params s → runTicks ext n c s = .ok s' → Reachable params s' := by
  intro n
  induction n with
  | zero =>
    intro c s s' hr h
    simp only [runTicks, Except.ok.injEq] at h
    exact h ▸ hr
  | succ n ih =>
    intro c s s' hr h
    simp only [runTicks] at h
    cases ht : tick ext c s with
    | error e => rw [ht] at h; cases h
    | ok r =>
      rw [ht] at h
      exact ih (c + 1) r.2 s' (Reachable.step ext c s r.2 r.1 hr ht) h

theorem run_reachable (params : Params) (ext : External) (n : Nat) (s : VanadisComponent)
    (h : run params ext n = .ok s) : Reachable params s := by
  unfold run at h
  cases hc : construct params with
  | error e => rw [hc] at h; cases h
  | ok s0 =>
    rw [hc] at h
    exact runTicks_reachable params ext n 0 s0 s (Reachable.init s0 hc) h

/-- C11 (code defect). The pushes onto `rob[0]` are not preceded by any test of the ROB.
With a ROB of four entries the constructor's fifth push meets a full ROB.  With a ROB of
seven entries (four integer units of latency three) the constructor fills the ROB to its
capacity, and in the state reached after eight cycles the ROB is full again while the
decoded queue holds five instructions, so the ninth `tick` pushes its test instruction
onto the full ROB. -/
theorem rob_push_without_capacity_check :
    construct fourSlotParams = .error .capacityExceeded ∧
    (∃ s0, construct sevenSlotParams = .ok s0 ∧
      s0.rob.map (fun q => (q.size, q.capacity, q.full)) = [(7, 7, true)]) ∧
    ∃ s, Reachable sevenSlotParams s ∧
      s.rob.map (fun q => (q.size, q.capacity, q.full)) = [(7, 7, true)] ∧
      s.thread_decoders.map (fun d => d.decoded_q.length) = [5] ∧
      tick quietExternal 8 s = .error .capacityExceeded := by
  refine ⟨rfl, ⟨_, rfl, by decide⟩, ?_⟩
  obtain ⟨s, h1, h2, h3, h4⟩ : ∃ s, run sevenSlotParams quietExternal 8 = .ok s ∧
      s.rob.map (fun q => (q.size, q.capacity, q.full)) = [(7, 7, true)] ∧
      s.thread_decoders.map (fun d => d.decoded_q.length) = [5] ∧
      tick quietExternal 8 s = .error .capacityExceeded := by
    refine ⟨_, rfl, ?_, ?_, rfl⟩ <;> decide
  exact ⟨s, run_reachable _ _ _ _ h1, h2, h3, h4⟩

/-- C20 (code defect). For an instruction with the integer output `r3` and the
floating-point output `f1`, `checkInstructionResources` called with empty written-ahead
sets leaves `r3` in the integer set and, in place of `f1`, `r3` in the floating-point
set: its last loop runs over the floating-point outputs and inserts
`getISAIntRegOut(i)`. -/
theorem fp_written_ahead_gets_integer_output :
    exampleMixedOut.isa_int_regs_out = [3] ∧ exampleMixedOut.isa_fp_regs_out = [1] ∧
    checkInstructionResources exampleMixedOut { max_capacity := 6, regs := [4, 5] }
      { max_capacity := 4, regs := [2, 3] } exampleTable ∅ ∅ = (0, {3}, {3}) := by
  decide

/-- C16. When the head of thread `i`'s ROB is an instruction whose trap flag is set, the
retire step of `tick` for the thread ends in the fatal error, whatever the other flags of
the instruction (completed or not): the outcome is the fault, reached before any pop or
update, and there is no successor state. -/
theorem trap_at_rob_head_is_fatal (s : VanadisComponent) (i : Nat)
    (rob_i : VanadisCircularQueue InsPtr) (rob_front : InsPtr) (ins : VanadisInstruction)
    (hrob : s.rob[i]? = some rob_i) (hfront : rob_i.peek = some rob_front)
    (hins : derefIns s.heap rob_front = some ins) (htrap : ins.trapsError = true) :
    retireThread s i = .error .fatal := by
  unfold retireThread
  simp only [bind, Except.bind, (vecAt_eq_ok _ _ _).mpr hrob, hfront, hins, htrap, if_true]

/-- C16 exercised on a trapped head that has completed execution and on one that has
not. -/
theorem trap_at_rob_head_is_fatal_witness :
    (exampleTrappedCore.heap.map (Option.map (fun ins => (ins.trapError, ins.hasExecuted)))
        = [some (true, true)] ∧
      retireThread exampleTrappedCore 0 = .error .fatal) ∧
    (exampleTrappedPendingCore.heap.map
        (Option.map (fun ins => (ins.trapError, ins.hasExecuted))) = [some (true, false)] ∧
      retireThread exampleTrappedPendingCore 0 = .error .fatal) :=
  ⟨⟨by decide, trap_at_rob_head_is_fatal exampleTrappedCore 0 _ 0 _ rfl rfl rfl rfl⟩,
   ⟨by decide, trap_at_rob_head_is_fatal exampleTrappedPendingCore 0 _ 0 _ rfl rfl rfl rfl⟩⟩

/-- What the issue switch does to the LSQ. -/
theorem dispatch_lsq (ft : VanadisFunctionalUnitType) (p : InsPtr) (s : VanadisComponent)
    (d : Bool × VanadisComponent) (h : dispatch ft p s = .ok d) :
    d.2.lsq = s.lsq ∨
    (ft = .INST_LOAD ∧ s.lsq.loadFull = false ∧ d.1 = true ∧ d.2.lsq = s.lsq.pushLoad p) ∨
    (ft = .INST_STORE ∧ s.lsq.storeFull = false ∧ d.1 = true ∧ d.2.lsq = s.lsq.pushStore p) := by
  cases ft <;> simp only [dispatch] at h
  case INST_OTHER => cases h
  case INST_LOAD =>
    cases hf : s.lsq.loadFull with
    | true =>
      simp only [hf, Bool.not_true, Bool.false_eq_true, if_false, Except.ok.injEq] at h
      subst h; exact Or.inl rfl
    | false =>
      simp only [hf, Bool.not_false, if_true, Except.ok.injEq] at h
      subst h; exact Or.inr (Or.inl ⟨rfl, rfl, rfl, rfl⟩)
  case INST_STORE =>
    cases hf : s.lsq.storeFull with
    | true =>
      simp only [hf, Bool.not_true, Bool.false_eq_true, if_false, Except.ok.injEq] at h
      subst h; exact Or.inl rfl
    | false =>
      simp only [hf, Bool.not_false, if_true, Except.ok.injEq] at h
      subst h; exact Or.inr (Or.inr ⟨rfl, rfl, rfl, rfl⟩)
  all_goals (cases h; exact Or.inl rfl)

/-- What the issue step of one thread does to the LSQ. -/
theorem issueThread_lsq (s s' : VanadisComponent) (i : Nat) (h : issueThread s i = .ok s') :
    s'.lsq = s.lsq ∨
    ∃ dec p rest ins, s.thread_decoders[i]? = some dec ∧ dec.decoded_q = p :: rest ∧
      derefIns s.heap p = some ins ∧
      ((ins.getInstFuncType = .INST_LOAD ∧ s.lsq.loadFull = false ∧
          s'.lsq = s.lsq.pushLoad p) ∨
       (ins.getInstFuncType = .INST_STORE ∧ s.lsq.storeFull = false ∧
          s'.lsq = s.lsq.pushStore p)) := by
  rcases issueThread_ok_cases s s' i h with ⟨rfl, _⟩ |
    ⟨dec, p, rest, ins, int_regs, fp_regs, isa_table, _, hd, hq, hp, _, _, _, hcase⟩
  · exact Or.inl rfl
  · rcases hcase with ⟨_, rfl⟩ | ⟨_, d, hdisp, hcase2⟩
    · exact Or.inl rfl
    · have hl : s'.lsq = d.2.lsq := by
        rcases hcase2 with ⟨_, rfl⟩ | ⟨_, st, _, rfl⟩ <;> rfl
      rcases dispatch_lsq _ _ _ _ hdisp with h0 | ⟨hty, hfull, _, hpush⟩ | ⟨hty, hfull, _, hpush⟩
      · exact Or.inl (hl.trans h0)
      · exact Or.inr ⟨dec, p, rest, ins, hd, hq, hp, Or.inl ⟨hty, hfull, hl.trans hpush⟩⟩
      · exact Or.inr ⟨dec, p, rest, ins, hd, hq, hp, Or.inr ⟨hty, hfull, hl.trans hpush⟩⟩

theorem lsq_rel_foldlM (f : VanadisComponent → Nat → Except Fault VanadisComponent)
    (hstep : ∀ s s' i, f s i = .ok s' → s'.lsq = s.lsq)
    (l : List Nat) (s s' : VanadisComponent) (h : l.foldlM f s = .ok s') :
    s'.lsq = s.lsq :=
  foldlM_rel f (fun a b => b.lsq = a.lsq) (fun _ => rfl)
    (fun _ _ _ h1 h2 => h2.trans h1) (fun a i b => hstep a b i) l s s' h

theorem fetchThread_lsq (s s' : VanadisComponent) (i : Nat) (h : fetchThread s i = .ok s') :
    s'.lsq = s.lsq := by
  rcases fetchThread_ok_cases s s' i h with rfl | ⟨dec, _, rfl⟩ <;> rfl

theorem decodeThread_lsq (ext : External) (cycle : Nat) (s s' : VanadisComponent) (i : Nat)
    (h : decodeThread ext cycle s i = .ok s') : s'.lsq = s.lsq := by
  rcases decodeThread_ok_cases ext cycle s s' i h with rfl | ⟨dec, _, _, rfl⟩ <;> rfl

theorem injectTestInstruction_lsq (s s' : VanadisComponent)
    (h : injectTestInstruction s = .ok s') : s'.lsq = s.lsq := by
  rcases injectTestInstruction_ok_cases s s' h with rfl | h1
  · rfl
  · obtain ⟨dec, rob_0, _, _, _, rfl⟩ := pushTestInstruction_ok s s' _ h1
    rfl

theorem retireThread_lsq (s s' : VanadisComponent) (i : Nat) (h : retireThread s i = .ok s') :
    s'.lsq = s.lsq := by
  rcases retireThread_ok_cases s s' i h with rfl |
    ⟨rob_i, p, ins, _, _, _, _, ⟨_, rfl⟩ | ⟨_, _, _, _, _, _, _, _, _, _, rfl⟩⟩ <;> rfl

/-- C12. The issue step of `tick` for a thread changes the LSQ only by pushing the head
of the thread's decoded queue, as a load when the instruction is of class `INST_LOAD` and
`loadFull()` is false, as a store when it is of class `INST_STORE` and `storeFull()` is
false; and over a whole `tick` the LSQ results from such guarded pushes of the issue
stage followed by the LSQ's own `tick`, no other stage touching it. -/
theorem lsq_push_only_when_not_full :
    (∀ (s s' : VanadisComponent) (i : Nat), issueThread s i = .ok s' →
      s'.lsq = s.lsq ∨
      ∃ dec p rest ins, s.thread_decoders[i]? = some dec ∧ dec.decoded_q = p :: rest ∧
        derefIns s.heap p = some ins ∧
        ((ins.getInstFuncType = .INST_LOAD ∧ s.lsq.loadFull = false ∧
            s'.lsq = s.lsq.pushLoad p) ∨
         (ins.getInstFuncType = .INST_STORE ∧ s.lsq.storeFull = false ∧
            s'.lsq = s.lsq.pushStore p))) ∧
    (∀ (ext : External) (cycle : Nat) (s s' : VanadisComponent) (b : Bool),
      tick ext cycle s = .ok (b, s') →
      s' = s ∨ ∃ q, Relation.ReflTransGen GuardedPush s.lsq q ∧
        s'.lsq = (q.tick (ext.lsq_done cycle) []).1) := by
  refine ⟨issueThread_lsq, ?_⟩
  intro ext cycle s s' b h
  rcases tick_ok_stages ext cycle s s' b h with ⟨_, _, rfl⟩ |
    ⟨_, _, s1, s2, s3, s4, s6, h1, h2, h3, h4, h6, rfl⟩
  · exact Or.inl rfl
  · right
    have e1 : s1.lsq = s.lsq := lsq_rel_foldlM _ fetchThread_lsq _ _ _ h1
    have e2 : s2.lsq = s1.lsq := lsq_rel_foldlM _ (decodeThread_lsq ext cycle) _ _ _ h2
    have e3 : s3.lsq = s2.lsq := injectTestInstruction_lsq _ _ h3
    have e4 : Relation.ReflTransGen GuardedPush s3.lsq s4.lsq :=
      foldlM_rel issueThread (fun a b => Relation.ReflTransGen GuardedPush a.lsq b.lsq)
        (fun _ => Relation.ReflTransGen.refl)
        (fun _ _ _ r1 r2 => Relation.ReflTransGen.trans r1 r2)
        (fun a i b hab => by
          rcases issueThread_lsq a b i hab with h0 | ⟨_, p, _, _, _, _, _, hc⟩
          · rw [h0]
          · rcases hc with ⟨_, hf, hp⟩ | ⟨_, hf, hp⟩
            · exact Relation.ReflTransGen.single (Or.inl ⟨hf, p, hp⟩)
            · exact Relation.ReflTransGen.single (Or.inr ⟨hf, p, hp⟩))
        _ _ _ h4
    have e6 : s6.lsq = (executeStage ext cycle s4).lsq :=
      lsq_rel_foldlM _ retireThread_lsq _ _ _ h6
    refine ⟨s4.lsq, ?_, ?_⟩
    · rw [← e1, ← e2, ← e3]; exact e4
    · show s6.lsq = _
      rw [e6]
      rfl

/-- C12 exercised: on the example core the load at the head of the decoded queue is
pushed while `loadFull()` is false, and with the only load entry taken the LSQ is left
alone; the conclusions of the theorem hold for the issue step and for the whole tick. -/
theorem lsq_push_only_when_not_full_witness :
    (exampleLoadCore.lsq.loadFull = false ∧
      ∃ s', issueThread exampleLoadCore 0 = .ok s' ∧ s'.lsq = exampleLoadCore.lsq.pushLoad 0 ∧
        (s'.lsq = exampleLoadCore.lsq ∨
          ∃ dec p rest ins, exampleLoadCore.thread_decoders[0]? = some dec ∧
            dec.decoded_q = p :: rest ∧ derefIns exampleLoadCore.heap p = some ins ∧
            ((ins.getInstFuncType = .INST_LOAD ∧ exampleLoadCore.lsq.loadFull = false ∧
                s'.lsq = exampleLoadCore.lsq.pushLoad p) ∨
             (ins.getInstFuncType = .INST_STORE ∧ exampleLoadCore.lsq.storeFull = false ∧
                s'.lsq = exampleLoadCore.lsq.pushStore p)))) ∧
    (exampleLoadFullCore.lsq.loadFull = true ∧
      ∃ s', tick quietExternal 0 exampleLoadFullCore = .ok (false, s') ∧
        s'.lsq = exampleLoadFullCore.lsq ∧
        (s' = exampleLoadFullCore ∨
          ∃ q, Relation.ReflTransGen GuardedPush exampleLoadFullCore.lsq q ∧
            s'.lsq = (q.tick (quietExternal.lsq_done 0) []).1)) := by
  refine ⟨⟨by decide, ?_⟩, ⟨by decide, ?_⟩⟩
  · obtain ⟨s', hs', hl⟩ : ∃ s', issueThread exampleLoadCore 0 = .ok s' ∧
        s'.lsq = exampleLoadCore.lsq.pushLoad 0 := by
      refine ⟨_, rfl, ?_⟩
      decide
    exact ⟨s', hs', hl, lsq_push_only_when_not_full.1 _ _ _ hs'⟩
  · obtain ⟨s', hs', hl⟩ : ∃ s', tick quietExternal 0 exampleLoadFullCore = .ok (false, s') ∧
        s'.lsq = exampleLoadFullCore.lsq := by
      refine ⟨_, rfl, ?_⟩
      decide
    exact ⟨s', hs', hl, lsq_push_only_when_not_full.2 _ _ _ _ _ hs'⟩

/-- C13 (code defect, the one of C2). On a core configured without floating-point
arithmetic units the pool `fu_fp_arith` is empty, so no unit of the pool of an
`INST_FP_ARITH` instruction has a free slot; the instruction at the head of the decoded
queue passes the resource check and the issue step does not stall it: it leaves the
decoded queue, is marked issued and renamed (the floating-point free stack loses register
2, the issue-time table maps `f1` to it with one pending write), because the switch
offers it to `fu_fp_div`.  With the unit of `fu_fp_div` taken as well it stays where it
is. -/
theorem fp_arith_not_stalled_without_fp_arith_unit :
    exampleFPArith.getInstFuncType = .INST_FP_ARITH ∧
    exampleNoFPArithCore.fu_fp_arith = [] ∧
    exampleNoFPArithCore.thread_decoders.map (fun d => d.decoded_q) = [[0]] ∧
    exampleNoFPArithCore.heap = [some exampleFPArith] ∧
    (checkInstructionResources exampleFPArith { max_capacity := 6, regs := [4, 5] }
      { max_capacity := 4, regs := [2, 3] } exampleTable ∅ ∅).1 = 0 ∧
    (∃ s', issueThread exampleNoFPArithCore 0 = .ok s' ∧
      s'.thread_decoders.map (fun d => d.decoded_q) = [[]] ∧
      s'.heap.map (Option.map (fun ins => ins.hasIssued)) = [some true] ∧
      s'.fp_register_stacks.map (fun st => st.regs) = [[3]] ∧
      s'.issue_isa_tables.map (fun t => (t.fp_reg_ptr, t.fp_reg_pending_write))
        = [([0, 2], [0, 1])] ∧
      s'.fu_fp_div.map (fun fu => fu.slot_inst) = [some 0]) ∧
    ∃ s', issueThread { exampleNoFPArithCore with
        fu_fp_div := [{ VanadisFunctionalUnit.create 3 .INST_FP_DIV 80 with
          slot_inst := some 7 }] } 0 = .ok s' ∧
      s'.thread_decoders = exampleNoFPArithCore.thread_decoders ∧
      s'.heap = exampleNoFPArithCore.heap ∧
      s'.fp_register_stacks = exampleNoFPArithCore.fp_register_stacks ∧
      s'.issue_isa_tables = exampleNoFPArithCore.issue_isa_tables := by
  refine ⟨rfl, rfl, by decide, rfl, by decide, ⟨_, rfl, ?_, ?_, ?_, ?_, ?_⟩,
    ⟨_, rfl, ?_, ?_, ?_, ?_⟩⟩ <;> decide

theorem getD_of_length_le (l : List Nat) (r : Nat) (h : l.length ≤ r) : l.getD r 0 = 0 := by
  simp [List.getD_eq_getElem?_getD, List.getElem?_eq_none h]

theorem list_eq_of_getD (l l' : List Nat) (hlen : l.length = l'.length)
    (h : ∀ r, l.getD r 0 = l'.getD r 0) : l = l' := by
  apply List.ext_getElem hlen
  intro j h1 h2
  have := h j
  simpa [List.getD_eq_getElem?_getD, List.getElem?_eq_getElem h1,
    List.getElem?_eq_getElem h2] using this

/-- A loop of increments adds to each counter the number of times its register is
named. -/
theorem foldl_incr_spec (g : Nat → Nat) (c : List Nat) (n : Nat) :
    ((List.range n).foldl (fun c i => c.set (g i) (c.getD (g i) 0 + 1)) c).length = c.length ∧
    ∀ r, ((List.range n).foldl (fun c i => c.set (g i) (c.getD (g i) 0 + 1)) c).getD r 0
      = c.getD r 0 + if r < c.length then ((List.range n).map g).count r else 0 := by
  induction n with
  | zero => simp
  | succ n ih =>
    rw [List.range_succ, List.foldl_append, List.map_append]
    simp only [List.foldl_cons, List.foldl_nil, List.length_set, List.map_cons, List.map_nil,
      List.count_append]
    refine ⟨ih.1, fun r => ?_⟩
    rw [getD_set_nat, ih.1]
    by_cases h : g n = r
    · subst h
      by_cases hl : g n < c.length
      · simp only [hl, and_self, if_true, ih.2, List.count_cons_self, List.count_nil]
        omega
      · simp only [hl, and_false, if_false, ih.2, Nat.add_zero]
    · have h' : ¬ (g n = r ∧ g n < c.length) := fun hh => h hh.1
      rw [if_neg h', ih.2]
      simp [List.count_cons, h]

/-- A loop of decrements takes from each counter the number of times its register is
named. -/
theorem foldl_decr_spec (g : Nat → Nat) (c : List Nat) (n : Nat) :
    ((List.range n).foldl (fun c i => c.set (g i) (c.getD (g i) 0 - 1)) c).length = c.length ∧
    ∀ r, ((List.range n).foldl (fun c i => c.set (g i) (c.getD (g i) 0 - 1)) c).getD r 0
      = c.getD r 0 - ((List.range n).map g).count r := by
  induction n with
  | zero => simp
  | succ n ih =>
    rw [List.range_succ, List.foldl_append, List.map_append]
    simp only [List.foldl_cons, List.foldl_nil, List.length_set, List.map_cons, List.map_nil,
      List.count_append]
    refine ⟨ih.1, fun r => ?_⟩
    rw [getD_set_nat, ih.1]
    by_cases h : g n = r
    · subst h
      by_cases hl : g n < c.length
      · simp only [hl, and_self, if_true, ih.2, List.count_cons_self, List.count_nil]
        omega
      · simp only [hl, and_false, if_false, ih.2]
        rw [getD_of_length_le c (g n) (Nat.le_of_not_lt hl)]
        simp
    · have h' : ¬ (g n = r ∧ g n < c.length) := fun hh => h hh.1
      rw [if_neg h', ih.2]
      simp [List.count_cons, h]

/-- A loop of assignments leaves in each entry the value of the last iteration naming
it. -/
theorem foldl_set_spec (g v : Nat → Nat) (c : List Nat) (n : Nat) :
    ((List.range n).foldl (fun c i => c.set (g i) (v i)) c).length = c.length ∧
    (∀ i, i < n → (∀ j, i < j → j < n → g j ≠ g i) → g i < c.length →
      ((List.range n).foldl (fun c i => c.set (g i) (v i)) c).getD (g i) 0 = v i) ∧
    (∀ r, (∀ j, j < n → g j ≠ r) →
      ((List.range n).foldl (fun c i => c.set (g i) (v i)) c).getD r 0 = c.getD r 0) := by
  induction n with
  | zero => simp
  | succ n ih =>
    rw [List.range_succ, List.foldl_append]
    simp only [List.foldl_cons, List.foldl_nil, List.length_set]
    obtain ⟨ih1, ih2, ih3⟩ := ih
    refine ⟨ih1, fun i hi hlast hlen => ?_, fun r hr => ?_⟩
    · rw [getD_set_nat, ih1]
      by_cases hin : i = n
      · subst hin
        simp [hlen]
      · have hi' : i < n := by omega
        have hne : g n ≠ g i := hlast n hi' (Nat.lt_succ_self n)
        have h' : ¬ (g n = g i ∧ g n < c.length) := fun hh => hne hh.1
        rw [if_neg h']
        exact ih2 i hi' (fun j hij hjn => hlast j hij (Nat.lt_succ_of_lt hjn)) hlen
    · rw [getD_set_nat, ih1]
      have hne : g n ≠ r := hr n (Nat.lt_succ_self n)
      have h' : ¬ (g n = r ∧ g n < c.length) := fun hh => hne hh.1
      rw [if_neg h']
      exact ih3 r (fun j hj => hr j (Nat.lt_succ_of_lt hj))

/-- The integer input loop of the rename, in closed form. -/
theorem assignIntIn_fold (st : RenameState) (n : Nat) :
    ((List.range n).foldl assignIntInStep st).int_regs = st.int_regs ∧
    ((List.range n).foldl assignIntInStep st).fp_regs = st.fp_regs ∧
    { ((List.range n).foldl assignIntInStep st).ins with phys_int_regs_in := [] }
      = { st.ins with phys_int_regs_in := [] } ∧
    ((List.range n).foldl assignIntInStep st).ins.phys_int_regs_in
      = (List.range n).foldl
          (fun c i => c.set i (st.isa_table.getIntPhysReg (st.ins.getISAIntRegIn i)))
          st.ins.phys_int_regs_in ∧
    { ((List.range n).foldl assignIntInStep st).isa_table with int_reg_pending_read := [] }
      = { st.isa_table with int_reg_pending_read := [] } ∧
    ((List.range n).foldl assignIntInStep st).isa_table.int_reg_pending_read
      = (List.range n).foldl
          (fun c i => c.set (st.ins.getISAIntRegIn i) (c.getD (st.ins.getISAIntRegIn i) 0 + 1))
          st.isa_table.int_reg_pending_read := by
  induction n with
  | zero => simp
  | succ n ih =>
    simp only [List.range_succ, List.foldl_append, List.foldl_cons, List.foldl_nil]
    obtain ⟨h1, h2, h3, h4, h5, h6⟩ := ih
    generalize (List.range n).foldl assignIntInStep st = stn at h1 h2 h3 h4 h5 h6
    have e1 : stn.ins.isa_int_regs_in = st.ins.isa_int_regs_in := by
      have e := congrArg VanadisInstruction.isa_int_regs_in h3; exact e
    have e2 : stn.isa_table.int_reg_ptr = st.isa_table.int_reg_ptr := by
      have e := congrArg VanadisISATable.int_reg_ptr h5; exact e
    refine ⟨h1, h2, h3, ?_, h5, ?_⟩
    · show stn.ins.phys_int_regs_in.set n _ = _
      rw [h4]
      simp only [VanadisISATable.getIntPhysReg, VanadisInstruction.getISAIntRegIn, e1, e2]
    · show stn.isa_table.int_reg_pending_read.set _ _ = _
      rw [h6]
      simp only [VanadisInstruction.getISAIntRegIn, e1]

/-- The floating-point input loop of the rename, in closed form. -/
theorem assignFPIn_fold (st : RenameState) (n : Nat) :
    ((List.range n).foldl assignFPInStep st).int_regs = st.int_regs ∧
    ((List.range n).foldl assignFPInStep st).fp_regs = st.fp_regs ∧
    { ((List.range n).foldl assignFPInStep st).ins with phys_fp_regs_in := [] }
      = { st.ins with phys_fp_regs_in := [] } ∧
    ((List.range n).foldl assignFPInStep st).ins.phys_fp_regs_in
      = (List.range n).foldl
          (fun c i => c.set i (st.isa_table.getFPPhysReg (st.ins.getISAFPRegIn i)))
          st.ins.phys_fp_regs_in ∧
    { ((List.range n).foldl assignFPInStep st).isa_table with fp_reg_pending_read := [] }
      = { st.isa_table with fp_reg_pending_read := [] } ∧
    ((List.range n).foldl assignFPInStep st).isa_table.fp_reg_pending_read
      = (List.range n).foldl
          (fun c i => c.set (st.ins.getISAFPRegIn i) (c.getD (st.ins.getISAFPRegIn i) 0 + 1))
          st.isa_table.fp_reg_pending_read := by
  induction n with
  | zero => simp
  | succ n ih =>
    simp only [List.range_succ, List.foldl_append, List.foldl_cons, List.foldl_nil]
    obtain ⟨h1, h2, h3, h4, h5, h6⟩ := ih
    generalize (List.range n).foldl assignFPInStep st = stn at h1 h2 h3 h4 h5 h6
    have e1 : stn.ins.isa_fp_regs_in = st.ins.isa_fp_regs_in := by
      have e := congrArg VanadisInstruction.isa_fp_regs_in h3; exact e
    have e2 : stn.isa_table.fp_reg_ptr = st.isa_table.fp_reg_ptr := by
      have e := congrArg VanadisISATable.fp_reg_ptr h5; exact e
    refine ⟨h1, h2, h3, ?_, h5, ?_⟩
    · show stn.ins.phys_fp_regs_in.set n _ = _
      rw [h4]
      simp only [VanadisISATable.getFPPhysReg, VanadisInstruction.getISAFPRegIn, e1, e2]
    · show stn.isa_table.fp_reg_pending_read.set _ _ = _
      rw [h6]
      simp only [VanadisInstruction.getISAFPRegIn, e1]

/-- The integer output loop of the rename, in closed form: it succeeds when the free
stack holds enough registers. -/
theorem assignIntOut_fold (st : RenameState) (n : Nat) (hn : n ≤ st.int_regs.regs.length) :
    ∃ st', (List.range n).foldlM assignIntOutStep st = .ok st' ∧
      st'.int_regs = { st.int_regs with regs := st.int_regs.regs.drop n } ∧
      st'.fp_regs = st.fp_regs ∧
      { st'.ins with phys_int_regs_out := [] } = { st.ins with phys_int_regs_out := [] } ∧
      st'.ins.phys_int_regs_out
        = (List.range n).foldl (fun c i => c.set i (st.int_regs.regs.getD i 0))
            st.ins.phys_int_regs_out ∧
      { st'.isa_table with int_reg_ptr := [], int_reg_pending_write := [] }
        = { st.isa_table with int_reg_ptr := [], int_reg_pending_write := [] } ∧
      st'.isa_table.int_reg_ptr
        = (List.range n).foldl
            (fun c i => c.set (st.ins.getISAIntRegOut i) (st.int_regs.regs.getD i 0))
            st.isa_table.int_reg_ptr ∧
      st'.isa_table.int_reg_pending_write
        = (List.range n).foldl
            (fun c i => c.set (st.ins.getISAIntRegOut i)
              (c.getD (st.ins.getISAIntRegOut i) 0 + 1))
            st.isa_table.int_reg_pending_write := by
  induction n with
  | zero =>
    exact ⟨st, rfl, rfl, rfl, rfl, rfl, rfl, rfl, rfl⟩
  | succ n ih =>
    have hn' : n < st.int_regs.regs.length := hn
    obtain ⟨stn, hfold, h1, h2, h3, h4, h5, h6, h7⟩ := ih (Nat.le_of_lt hn')
    have hdrop : stn.int_regs.regs
        = st.int_regs.regs.getD n 0 :: st.int_regs.regs.drop (n + 1) := by
      rw [h1]
      show st.int_regs.regs.drop n = _
      rw [List.drop_eq_getElem_cons hn', List.getD_eq_getElem _ _ hn']
    have e1 : stn.ins.isa_int_regs_out = st.ins.isa_int_regs_out := by
      have e := congrArg VanadisInstruction.isa_int_regs_out h3; exact e
    have hstep : assignIntOutStep stn n = .ok
        { stn with
          ins := stn.ins.setPhysIntRegOut n (st.int_regs.regs.getD n 0),
          int_regs := { stn.int_regs with regs := st.int_regs.regs.drop (n + 1) },
          isa_table := (stn.isa_table.setIntPhysReg (stn.ins.getISAIntRegOut n)
            (st.int_regs.regs.getD n 0)).incIntWrite (stn.ins.getISAIntRegOut n) } := by
      simp only [assignIntOutStep, VanadisRegisterStack.pop, hdrop]
    refine ⟨{ stn with
          ins := stn.ins.setPhysIntRegOut n (st.int_regs.regs.getD n 0),
          int_regs := { stn.int_regs with regs := st.int_regs.regs.drop (n + 1) },
          isa_table := (stn.isa_table.setIntPhysReg (stn.ins.getISAIntRegOut n)
            (st.int_regs.regs.getD n 0)).incIntWrite (stn.ins.getISAIntRegOut n) },
      ?_, ?_, h2, h3, ?_, h5, ?_, ?_⟩
    · rw [List.range_succ, List.foldlM_append, hfold]
      simp only [bind, Except.bind, List.foldlM, hstep, pure, Except.pure]
    · show ({ stn.int_regs with regs := st.int_regs.regs.drop (n + 1) } : VanadisRegisterStack) = _
      rw [h1]
    · show stn.ins.phys_int_regs_out.set n _ = _
      rw [h4, List.range_succ, List.foldl_append]
      rfl
    · show stn.isa_table.int_reg_ptr.set _ _ = _
      rw [h6, List.range_succ, List.foldl_append]
      simp only [VanadisInstruction.getISAIntRegOut, e1, List.foldl_cons, List.foldl_nil]
    · show stn.isa_table.int_reg_pending_write.set (stn.ins.getISAIntRegOut n)
        (stn.isa_table.int_reg_pending_write.getD (stn.ins.getISAIntRegOut n) 0 + 1) = _
      rw [h7, List.range_succ, List.foldl_append]
      simp only [VanadisInstruction.getISAIntRegOut, e1, List.foldl_cons, List.foldl_nil]

/-- The floating-point output loop of the rename, in closed form: it succeeds when the free
stack holds enough registers. -/
theorem assignFPOut_fold (st : RenameState) (n : Nat) (hn : n ≤ st.fp_regs.regs.length) :
    ∃ st', (List.range n).foldlM assignFPOutStep st = .ok st' ∧
      st'.fp_regs = { st.fp_regs with regs := st.fp_regs.regs.drop n } ∧
      st'.int_regs = st.int_regs ∧
      { st'.ins with phys_fp_regs_out := [] } = { st.ins with phys_fp_regs_out := [] } ∧
      st'.ins.phys_fp_regs_out
        = (List.range n).foldl (fun c i => c.set i (st.fp_regs.regs.getD i 0))
            st.ins.phys_fp_regs_out ∧
      { st'.isa_table with fp_reg_ptr := [], fp_reg_pending_write := [] }
        = { st.isa_table with fp_reg_ptr := [], fp_reg_pending_write := [] } ∧
      st'.isa_table.fp_reg_ptr
        = (List.range n).foldl
            (fun c i => c.set (st.ins.getISAFPRegOut i) (st.fp_regs.regs.getD i 0))
            st.isa_table.fp_reg_ptr ∧
      st'.isa_table.fp_reg_pending_write
        = (List.range n).foldl
            (fun c i => c.set (st.ins.getISAFPRegOut i)
              (c.getD (st.ins.getISAFPRegOut i) 0 + 1))
            st.isa_table.fp_reg_pending_write := by
  induction n with
  | zero =>
    exact ⟨st, rfl, rfl, rfl, rfl, rfl, rfl, rfl, rfl⟩
  | succ n ih =>
    have hn' : n < st.fp_regs.regs.length := hn
    obtain ⟨stn, hfold, h1, h2, h3, h4, h5, h6, h7⟩ := ih (Nat.le_of_lt hn')
    have hdrop : stn.fp_regs.regs
        = st.fp_regs.regs.getD n 0 :: st.fp_regs.regs.drop (n + 1) := by
      rw [h1]
      show st.fp_regs.regs.drop n = _
      rw [List.drop_eq_getElem_cons hn', List.getD_eq_getElem _ _ hn']
    have e1 : stn.ins.isa_fp_regs_out = st.ins.isa_fp_regs_out := by
      have e := congrArg VanadisInstruction.isa_fp_regs_out h3; exact e
    have hstep : assignFPOutStep stn n = .ok
        { stn with
          ins := stn.ins.setPhysFPRegOut n (st.fp_regs.regs.getD n 0),
          fp_regs := { stn.fp_regs with regs := st.fp_regs.regs.drop (n + 1) },
          isa_table := (stn.isa_table.setFPPhysReg (stn.ins.getISAFPRegOut n)
            (st.fp_regs.regs.getD n 0)).incFPWrite (stn.ins.getISAFPRegOut n) } := by
      simp only [assignFPOutStep, VanadisRegisterStack.pop, hdrop]
    refine ⟨{ stn with
          ins := stn.ins.setPhysFPRegOut n (st.fp_regs.regs.getD n 0),
          fp_regs := { stn.fp_regs with regs := st.fp_regs.regs.drop (n + 1) },
          isa_table := (stn.isa_table.setFPPhysReg (stn.ins.getISAFPRegOut n)
            (st.fp_regs.regs.getD n 0)).incFPWrite (stn.ins.getISAFPRegOut n) },
      ?_, ?_, h2, h3, ?_, h5, ?_, ?_⟩
    · rw [List.range_succ, List.foldlM_append, hfold]
      simp only [bind, Except.bind, List.foldlM, hstep, pure, Except.pure]
    · show ({ stn.fp_regs with regs := st.fp_regs.regs.drop (n + 1) } : VanadisRegisterStack) = _
      rw [h1]
    · show stn.ins.phys_fp_regs_out.set n _ = _
      rw [h4, List.range_succ, List.foldl_append]
      rfl
    · show stn.isa_table.fp_reg_ptr.set _ _ = _
      rw [h6, List.range_succ, List.foldl_append]
      simp only [VanadisInstruction.getISAFPRegOut, e1, List.foldl_cons, List.foldl_nil]
    · show stn.isa_table.fp_reg_pending_write.set (stn.ins.getISAFPRegOut n)
        (stn.isa_table.fp_reg_pending_write.getD (stn.ins.getISAFPRegOut n) 0 + 1) = _
      rw [h7, List.range_succ, List.foldl_append]
      simp only [VanadisInstruction.getISAFPRegOut, e1, List.foldl_cons, List.foldl_nil]

/-- `assignRegistersToInstruction` in closed form: it succeeds when each free stack holds
a register for every output, and each object it mutates is given by a loop over the
operand list that concerns it. -/
theorem assignRegistersToInstruction_closed (ins : VanadisInstruction)
    (int_regs fp_regs : VanadisRegisterStack) (isa_table : VanadisISATable)
    (hi : ins.countISAIntRegOut ≤ int_regs.unused)
    (hf : ins.countISAFPRegOut ≤ fp_regs.unused) :
    ∃ st, assignRegistersToInstruction ins int_regs fp_regs isa_table = .ok st ∧
      st.int_regs = { int_regs with regs := int_regs.regs.drop ins.countISAIntRegOut } ∧
      st.fp_regs = { fp_regs with regs := fp_regs.regs.drop ins.countISAFPRegOut } ∧
      { st.ins with phys_int_regs_in := [], phys_fp_regs_in := [],
                    phys_int_regs_out := [], phys_fp_regs_out := [] }
        = { ins with phys_int_regs_in := [], phys_fp_regs_in := [],
                     phys_int_regs_out := [], phys_fp_regs_out := [] } ∧
      st.ins.phys_int_regs_in
        = (List.range ins.countISAIntRegIn).foldl
            (fun c i => c.set i (isa_table.int_reg_ptr.getD (ins.isa_int_regs_in.getD i 0) 0))
            ins.phys_int_regs_in ∧
      st.ins.phys_fp_regs_in
        = (List.range ins.countISAFPRegIn).foldl
            (fun c i => c.set i (isa_table.fp_reg_ptr.getD (ins.isa_fp_regs_in.getD i 0) 0))
            ins.phys_fp_regs_in ∧
      st.ins.phys_int_regs_out
        = (List.range ins.countISAIntRegOut).foldl
            (fun c i => c.set i (int_regs.regs.getD i 0)) ins.phys_int_regs_out ∧
      st.ins.phys_fp_regs_out
        = (List.range ins.countISAFPRegOut).foldl
            (fun c i => c.set i (fp_regs.regs.getD i 0)) ins.phys_fp_regs_out ∧
      st.isa_table.int_reg_ptr
        = (List.range ins.countISAIntRegOut).foldl
            (fun c i => c.set (ins.isa_int_regs_out.getD i 0) (int_regs.regs.getD i 0))
            isa_table.int_reg_ptr ∧
      st.isa_table.fp_reg_ptr
        = (List.range ins.countISAFPRegOut).foldl
            (fun c i => c.set (ins.isa_fp_regs_out.getD i 0) (fp_regs.regs.getD i 0))
            isa_table.fp_reg_ptr ∧
      st.isa_table.int_reg_pending_read
        = (List.range ins.countISAIntRegIn).foldl
            (fun c i => c.set (ins.isa_int_regs_in.getD i 0)
              (c.getD (ins.isa_int_regs_in.getD i 0) 0 + 1))
            isa_table.int_reg_pending_read ∧
      st.isa_table.fp_reg_pending_read
        = (List.range ins.countISAFPRegIn).foldl
            (fun c i => c.set (ins.isa_fp_regs_in.getD i 0)
              (c.getD (ins.isa_fp_regs_in.getD i 0) 0 + 1))
            isa_table.fp_reg_pending_read ∧
      st.isa_table.int_reg_pending_write
        = (List.range ins.countISAIntRegOut).foldl
            (fun c i => c.set (ins.isa_int_regs_out.getD i 0)
              (c.getD (ins.isa_int_regs_out.getD i 0) 0 + 1))
            isa_table.int_reg_pending_write ∧
      st.isa_table.fp_reg_pending_write
        = (List.range ins.countISAFPRegOut).foldl
            (fun c i => c.set (ins.isa_fp_regs_out.getD i 0)
              (c.getD (ins.isa_fp_regs_out.getD i 0) 0 + 1))
            isa_table.fp_reg_pending_write := by
  unfold assignRegistersToInstruction
  simp only
  obtain ⟨a1, a2, a3, a4, a5, a6⟩ := assignIntIn_fold
    { ins := ins, int_regs := int_regs, fp_regs := fp_regs, isa_table := isa_table }
    ins.countISAIntRegIn
  generalize (List.range ins.countISAIntRegIn).foldl assignIntInStep
    { ins := ins, int_regs := int_regs, fp_regs := fp_regs, isa_table := isa_table } = st1
    at a1 a2 a3 a4 a5 a6 ⊢
  obtain ⟨b1, b2, b3, b4, b5, b6⟩ := assignFPIn_fold st1 ins.countISAFPRegIn
  generalize (List.range ins.countISAFPRegIn).foldl assignFPInStep st1 = st2
    at b1 b2 b3 b4 b5 b6 ⊢
  have hi2 : ins.countISAIntRegOut ≤ st2.int_regs.regs.length := by
    rw [b1, a1]; exact hi
  obtain ⟨st3, hc, c1, c2, c3, c4, c5, c6, c7⟩ :=
    assignIntOut_fold st2 ins.countISAIntRegOut hi2
  have hf3 : ins.countISAFPRegOut ≤ st3.fp_regs.regs.length := by
    rw [c2, b2, a2]; exact hf
  obtain ⟨st4, hd, d1, d2, d3, d4, d5, d6, d7⟩ :=
    assignFPOut_fold st3 ins.countISAFPRegOut hf3
  simp only [VanadisInstruction.getISAIntRegIn, VanadisInstruction.getISAFPRegIn,
    VanadisInstruction.getISAIntRegOut, VanadisInstruction.getISAFPRegOut,
    VanadisISATable.getIntPhysReg, VanadisISATable.getFPPhysReg]
    at a4 a6 b4 b6 c4 c6 c7 d4 d6 d7
  have ii1 : st1.ins.isa_int_regs_in = ins.isa_int_regs_in := by
    have e := congrArg VanadisInstruction.isa_int_regs_in a3; exact e
  have fi1 : st1.ins.isa_fp_regs_in = ins.isa_fp_regs_in := by
    have e := congrArg VanadisInstruction.isa_fp_regs_in a3; exact e
  have io1 : st1.ins.isa_int_regs_out = ins.isa_int_regs_out := by
    have e := congrArg VanadisInstruction.isa_int_regs_out a3; exact e
  have fo1 : st1.ins.isa_fp_regs_out = ins.isa_fp_regs_out := by
    have e := congrArg VanadisInstruction.isa_fp_regs_out a3; exact e
  have io2 : st2.ins.isa_int_regs_out = st1.ins.isa_int_regs_out := by
    have e := congrArg VanadisInstruction.isa_int_regs_out b3; exact e
  have fo2 : st2.ins.isa_fp_regs_out = st1.ins.isa_fp_regs_out := by
    have e := congrArg VanadisInstruction.isa_fp_regs_out b3; exact e
  have fo3 : st3.ins.isa_fp_regs_out = st2.ins.isa_fp_regs_out := by
    have e := congrArg VanadisInstruction.isa_fp_regs_out c3; exact e
  have pa2 : st2.ins.phys_int_regs_in = st1.ins.phys_int_regs_in := by
    have e := congrArg VanadisInstruction.phys_int_regs_in b3; exact e
  have pa3 : st3.ins.phys_int_regs_in = st2.ins.phys_int_regs_in := by
    have e := congrArg VanadisInstruction.phys_int_regs_in c3; exact e
  have pa4 : st4.ins.phys_int_regs_in = st3.ins.phys_int_regs_in := by
    have e := congrArg VanadisInstruction.phys_int_regs_in d3; exact e
  have pb1 : st1.ins.phys_fp_regs_in = ins.phys_fp_regs_in := by
    have e := congrArg VanadisInstruction.phys_fp_regs_in a3; exact e
  have pb3 : st3.ins.phys_fp_regs_in = st2.ins.phys_fp_regs_in := by
    have e := congrArg VanadisInstruction.phys_fp_regs_in c3; exact e
  have pb4 : st4.ins.phys_fp_regs_in = st3.ins.phys_fp_regs_in := by
    have e := congrArg VanadisInstruction.phys_fp_regs_in d3; exact e
  have pc1 : st1.ins.phys_int_regs_out = ins.phys_int_regs_out := by
    have e := congrArg VanadisInstruction.phys_int_regs_out a3; exact e
  have pc2 : st2.ins.phys_int_regs_out = st1.ins.phys_int_regs_out := by
    have e := congrArg VanadisInstruction.phys_int_regs_out b3; exact e
  have pc4 : st4.ins.phys_int_regs_out = st3.ins.phys_int_regs_out := by
    have e := congrArg VanadisInstruction.phys_int_regs_out d3; exact e
  have pd1 : st1.ins.phys_fp_regs_out = ins.phys_fp_regs_out := by
    have e := congrArg VanadisInstruction.phys_fp_regs_out a3; exact e
  have pd2 : st2.ins.phys_fp_regs_out = st1.ins.phys_fp_regs_out := by
    have e := congrArg VanadisInstruction.phys_fp_regs_out b3; exact e
  have pd3 : st3.ins.phys_fp_regs_out = st2.ins.phys_fp_regs_out := by
    have e := congrArg VanadisInstruction.phys_fp_regs_out c3; exact e
  have ta1 : st1.isa_table.int_reg_ptr = isa_table.int_reg_ptr := by
    have e := congrArg VanadisISATable.int_reg_ptr a5; exact e
  have ta2 : st2.isa_table.int_reg_ptr = st1.isa_table.int_reg_ptr := by
    have e := congrArg VanadisISATable.int_reg_ptr b5; exact e
  have ta4 : st4.isa_table.int_reg_ptr = st3.isa_table.int_reg_ptr := by
    have e := congrArg VanadisISATable.int_reg_ptr d5; exact e
  have tb1 : st1.isa_table.fp_reg_ptr = isa_table.fp_reg_ptr := by
    have e := congrArg VanadisISATable.fp_reg_ptr a5; exact e
  have tb2 : st2.isa_table.fp_reg_ptr = st1.isa_table.fp_reg_ptr := by
    have e := congrArg VanadisISATable.fp_reg_ptr b5; exact e
  have tb3 : st3.isa_table.fp_reg_ptr = st2.isa_table.fp_reg_ptr := by
    have e := congrArg VanadisISATable.fp_reg_ptr c5; exact e
  have tc2 : st2.isa_table.int_reg_pending_read = st1.isa_table.int_reg_pending_read := by
    have e := congrArg VanadisISATable.int_reg_pending_read b5; exact e
  have tc3 : st3.isa_table.int_reg_pending_read = st2.isa_table.int_reg_pending_read := by
    have e := congrArg VanadisISATable.int_reg_pending_read c5; exact e
  have tc4 : st4.isa_table.int_reg_pending_read = st3.isa_table.int_reg_pending_read := by
    have e := congrArg VanadisISATable.int_reg_pending_read d5; exact e
  have td1 : st1.isa_table.fp_reg_pending_read = isa_table.fp_reg_pending_read := by
    have e := congrArg VanadisISATable.fp_reg_pending_read a5; exact e
  have td3 : st3.isa_table.fp_reg_pending_read = st2.isa_table.fp_reg_pending_read := by
    have e := congrArg VanadisISATable.fp_reg_pending_read c5; exact e
  have td4 : st4.isa_table.fp_reg_pending_read = st3.isa_table.fp_reg_pending_read := by
    have e := congrArg VanadisISATable.fp_reg_pending_read d5; exact e
  have te1 : st1.isa_table.int_reg_pending_write = isa_table.int_reg_pending_write := by
    have e := congrArg VanadisISATable.int_reg_pending_write a5; exact e
  have te2 : st2.isa_table.int_reg_pending_write = st1.isa_table.int_reg_pending_write := by
    have e := congrArg VanadisISATable.int_reg_pending_write b5; exact e
  have te4 : st4.isa_table.int_reg_pending_write = st3.isa_table.int_reg_pending_write := by
    have e := congrArg VanadisISATable.int_reg_pending_write d5; exact e
  have tf1 : st1.isa_table.fp_reg_pending_write = isa_table.fp_reg_pending_write := by
    have e := congrArg VanadisISATable.fp_reg_pending_write a5; exact e
  have tf2 : st2.isa_table.fp_reg_pending_write = st1.isa_table.fp_reg_pending_write := by
    have e := congrArg VanadisISATable.fp_reg_pending_write b5; exact e
  have tf3 : st3.isa_table.fp_reg_pending_write = st2.isa_table.fp_reg_pending_write := by
    have e := congrArg VanadisISATable.fp_reg_pending_write c5; exact e
  have q4 : (fun x : VanadisInstruction =>
      ({ x with phys_int_regs_in := [], phys_fp_regs_in := [],
                phys_int_regs_out := [], phys_fp_regs_out := [] } : VanadisInstruction)) st4.ins
      = (fun x : VanadisInstruction =>
      ({ x with phys_int_regs_in := [], phys_fp_regs_in := [],
                phys_int_regs_out := [], phys_fp_regs_out := [] } : VanadisInstruction)) st3.ins := by
    have e := congrArg (fun x : VanadisInstruction =>
      ({ x with phys_int_regs_in := [], phys_fp_regs_in := [],
                phys_int_regs_out := [], phys_fp_regs_out := [] } : VanadisInstruction)) d3; exact e
  have q3 : (fun x : VanadisInstruction =>
      ({ x with phys_int_regs_in := [], phys_fp_regs_in := [],
                phys_int_regs_out := [], phys_fp_regs_out := [] } : VanadisInstruction)) st3.ins
      = (fun x : VanadisInstruction =>
      ({ x with phys_int_regs_in := [], phys_fp_regs_in := [],
                phys_int_regs_out := [], phys_fp_regs_out := [] } : VanadisInstruction)) st2.ins := by
    have e := congrArg (fun x : VanadisInstruction =>
      ({ x with phys_int_regs_in := [], phys_fp_regs_in := [],
                phys_int_regs_out := [], phys_fp_regs_out := [] } : VanadisInstruction)) c3; exact e
  have q2 : (fun x : VanadisInstruction =>
      ({ x with phys_int_regs_in := [], phys_fp_regs_in := [],
                phys_int_regs_out := [], phys_fp_regs_out := [] } : VanadisInstruction)) st2.ins
      = (fun x : VanadisInstruction =>
      ({ x with phys_int_regs_in := [], phys_fp_regs_in := [],
                phys_int_regs_out := [], phys_fp_regs_out := [] } : VanadisInstruction)) st1.ins := by
    have e := congrArg (fun x : VanadisInstruction =>
      ({ x with phys_int_regs_in := [], phys_fp_regs_in := [],
                phys_int_regs_out := [], phys_fp_regs_out := [] } : VanadisInstruction)) b3; exact e
  have q1 : (fun x : VanadisInstruction =>
      ({ x with phys_int_regs_in := [], phys_fp_regs_in := [],
                phys_int_regs_out := [], phys_fp_regs_out := [] } : VanadisInstruction)) st1.ins
      = (fun x : VanadisInstruction =>
      ({ x with phys_int_regs_in := [], phys_fp_regs_in := [],
                phys_int_regs_out := [], phys_fp_regs_out := [] } : VanadisInstruction)) ins := by
    have e := congrArg (fun x : VanadisInstruction =>
      ({ x with phys_int_regs_in := [], phys_fp_regs_in := [],
                phys_int_regs_out := [], phys_fp_regs_out := [] } : VanadisInstruction)) a3; exact e
  refine ⟨st4, ?_, ?_, ?_, ?_, ?_, ?_, ?_, ?_, ?_, ?_, ?_, ?_, ?_, ?_⟩
  · rw [hc]; exact hd
  · rw [d2, c1, b1, a1]
  · rw [d1, c2, b2, a2]
  · exact q4.trans (q3.trans (q2.trans q1))
  · rw [pa4, pa3, pa2, a4]
  · rw [pb4, pb3, b4, pb1, fi1, tb1]
  · rw [pc4, c4, pc2, pc1, b1, a1]
  · rw [d4, pd3, pd2, pd1, c2, b2, a2]
  · rw [ta4, c6, ta2, ta1, io2, io1, b1, a1]
  · rw [d6, tb3, tb2, tb1, fo3, fo2, fo1, c2, b2, a2]
  · rw [tc4, tc3, tc2, a6]
  · rw [td4, td3, b6, td1, fi1]
  · rw [te4, c7, te2, te1, io2, io1]
  · rw [d7, tf3, tf2, tf1, fo3, fo2, fo1]

theorem range_map_getD (l : List Nat) :
    (List.range l.length).map (fun i => l.getD i 0) = l := by
  simpa using getD_range_map l id

/-- C15. When the free stacks hold a register for every output (what the resource check
guarantees) and the instruction's physical input arrays have the length of its input
lists, `assignRegistersToInstruction` returns, and in the instruction it leaves the
`i`-th physical input register is the mapping the table passed to the call had for the
`i`-th input architectural register, whatever the outputs are renamed to; and each
pending-read counter of the table has grown by the number of times its register occurs
among the inputs. -/
theorem rename_inputs_read_old_mapping (ins : VanadisInstruction)
    (int_regs fp_regs : VanadisRegisterStack) (isa_table : VanadisISATable)
    (hi : ins.countISAIntRegOut ≤ int_regs.unused)
    (hf : ins.countISAFPRegOut ≤ fp_regs.unused)
    (hpi : ins.phys_int_regs_in.length = ins.isa_int_regs_in.length)
    (hpf : ins.phys_fp_regs_in.length = ins.isa_fp_regs_in.length) :
    ∃ st, assignRegistersToInstruction ins int_regs fp_regs isa_table = .ok st ∧
      (∀ i, i < ins.countISAIntRegIn →
        st.ins.getPhysIntRegIn i = isa_table.getIntPhysReg (ins.getISAIntRegIn i)) ∧
      (∀ i, i < ins.countISAFPRegIn →
        st.ins.getPhysFPRegIn i = isa_table.getFPPhysReg (ins.getISAFPRegIn i)) ∧
      (∀ r, r < isa_table.int_reg_pending_read.length →
        st.isa_table.int_reg_pending_read.getD r 0
          = isa_table.int_reg_pending_read.getD r 0 + ins.isa_int_regs_in.count r) ∧
      (∀ r, r < isa_table.fp_reg_pending_read.length →
        st.isa_table.fp_reg_pending_read.getD r 0
          = isa_table.fp_reg_pending_read.getD r 0 + ins.isa_fp_regs_in.count r) := by
  obtain ⟨st, hst, _, _, _, p1, p2, _, _, _, _, t1, t2, _, _⟩ :=
    assignRegistersToInstruction_closed ins int_regs fp_regs isa_table hi hf
  refine ⟨st, hst, ?_, ?_, ?_, ?_⟩
  · intro i hlt
    have h := (foldl_set_spec (fun i => i)
      (fun i => isa_table.int_reg_ptr.getD (ins.isa_int_regs_in.getD i 0) 0)
      ins.phys_int_regs_in ins.countISAIntRegIn).2.1 i hlt
      (fun j hij _ hji => by omega) (by rw [hpi]; exact hlt)
    simp only [VanadisInstruction.getPhysIntRegIn, VanadisISATable.getIntPhysReg,
      VanadisInstruction.getISAIntRegIn, p1]
    exact h
  · intro i hlt
    have h := (foldl_set_spec (fun i => i)
      (fun i => isa_table.fp_reg_ptr.getD (ins.isa_fp_regs_in.getD i 0) 0)
      ins.phys_fp_regs_in ins.countISAFPRegIn).2.1 i hlt
      (fun j hij _ hji => by omega) (by rw [hpf]; exact hlt)
    simp only [VanadisInstruction.getPhysFPRegIn, VanadisISATable.getFPPhysReg,
      VanadisInstruction.getISAFPRegIn, p2]
    exact h
  · intro r hr
    rw [t1, (foldl_incr_spec _ _ _).2 r, if_pos hr]
    show _ + ((List.range ins.isa_int_regs_in.length).map _).count r = _
    rw [range_map_getD]
  · intro r hr
    rw [t2, (foldl_incr_spec _ _ _).2 r, if_pos hr]
    show _ + ((List.range ins.isa_fp_regs_in.length).map _).count r = _
    rw [range_map_getD]

/-- C15 exercised on `r3 := r3 + r1` with `r3` mapped to physical register 3 and the
free stack `[4, 5]`: the rename maps `r3` to 4 for the output, and the instruction reads
the old physical register 3; and on an instruction naming `r1` twice among its inputs,
whose pending-read counter grows by two. -/
theorem rename_inputs_read_old_mapping_witness :
    (∃ st, assignRegistersToInstruction exampleReadWrite { max_capacity := 6, regs := [4, 5] }
        { max_capacity := 4, regs := [2, 3] } exampleTable = .ok st ∧
      st.isa_table.getIntPhysReg 3 = 4 ∧ st.ins.phys_int_regs_in = [3, 1] ∧
      st.ins.getPhysIntRegIn 0 = exampleTable.getIntPhysReg (exampleReadWrite.getISAIntRegIn 0)) ∧
    (∃ st, assignRegistersToInstruction exampleTwiceNamed { max_capacity := 6, regs := [4, 5] }
        { max_capacity := 4, regs := [2, 3] } exampleTable = .ok st ∧
      st.isa_table.int_reg_pending_read = [0, 2, 0, 0] ∧
      st.isa_table.int_reg_pending_read.getD 1 0
        = exampleTable.int_reg_pending_read.getD 1 0 + exampleTwiceNamed.isa_int_regs_in.count 1) := by
  refine ⟨?_, ?_⟩
  · obtain ⟨st, hst, h1, _, _, _⟩ := rename_inputs_read_old_mapping exampleReadWrite
      { max_capacity := 6, regs := [4, 5] } { max_capacity := 4, regs := [2, 3] } exampleTable
      (by decide) (by decide) (by decide) (by decide)
    obtain ⟨st', hst', g1, g2⟩ : ∃ st', assignRegistersToInstruction exampleReadWrite
          { max_capacity := 6, regs := [4, 5] } { max_capacity := 4, regs := [2, 3] }
          exampleTable = .ok st' ∧
        st'.isa_table.getIntPhysReg 3 = 4 ∧ st'.ins.phys_int_regs_in = [3, 1] := by
      refine ⟨_, rfl, ?_, ?_⟩ <;> decide
    have e : st = st' := by
      rw [hst] at hst'
      exact Except.ok.inj hst'
    subst e
    exact ⟨st, hst, g1, g2, h1 0 (by decide)⟩
  · obtain ⟨st, hst, _, _, h3, _⟩ := rename_inputs_read_old_mapping exampleTwiceNamed
      { max_capacity := 6, regs := [4, 5] } { max_capacity := 4, regs := [2, 3] } exampleTable
      (by decide) (by decide) (by decide) (by decide)
    obtain ⟨st', hst', g1⟩ : ∃ st', assignRegistersToInstruction exampleTwiceNamed
          { max_capacity := 6, regs := [4, 5] } { max_capacity := 4, regs := [2, 3] }
          exampleTable = .ok st' ∧
        st'.isa_table.int_reg_pending_read = [0, 2, 0, 0] := by
      refine ⟨_, rfl, ?_⟩
      decide
    have e : st = st' := by
      rw [hst] at hst'
      exact Except.ok.inj hst'
    subst e
    exact ⟨st, hst, g1, h3 1 (by decide)⟩

/-- C14. Each iteration of an output loop of `assignRegistersToInstruction` pops the
top of the free stack of its class, records the popped register as the `i`-th physical
output, makes it the issue-time mapping of the `i`-th output architectural register and
adds one to that register's pending-write counter.  For the whole call, when the free
stacks hold a register for every output and the physical output arrays have the length
of the output lists: the call returns; each free stack has lost its top
`countISAIntRegOut` (`countISAFPRegOut`) registers; the `i`-th physical output is the
`i`-th register popped; the table maps the `i`-th output architectural register to it
(a register named more than once among the outputs keeps the mapping set for its last
occurrence) and maps the registers that are not outputs as before; and each
pending-write counter has grown by the number of times its register occurs among the
outputs. -/
theorem rename_outputs_take_free_registers :
    (∀ (st st' : RenameState) (i : Nat), assignIntOutStep st i = .ok st' →
      ∃ free_reg, st.int_regs.regs = free_reg :: st'.int_regs.regs ∧
        (i < st.ins.phys_int_regs_out.length → st'.ins.getPhysIntRegOut i = free_reg) ∧
        (st.ins.getISAIntRegOut i < st.isa_table.int_reg_ptr.length →
          st'.isa_table.getIntPhysReg (st.ins.getISAIntRegOut i) = free_reg) ∧
        (st.ins.getISAIntRegOut i < st.isa_table.int_reg_pending_write.length →
          st'.isa_table.int_reg_pending_write.getD (st.ins.getISAIntRegOut i) 0
            = st.isa_table.int_reg_pending_write.getD (st.ins.getISAIntRegOut i) 0 + 1)) ∧
    (∀ (st st' : RenameState) (i : Nat), assignFPOutStep st i = .ok st' →
      ∃ free_reg, st.fp_regs.regs = free_reg :: st'.fp_regs.regs ∧
        (i < st.ins.phys_fp_regs_out.length → st'.ins.getPhysFPRegOut i = free_reg) ∧
        (st.ins.getISAFPRegOut i < st.isa_table.fp_reg_ptr.length →
          st'.isa_table.getFPPhysReg (st.ins.getISAFPRegOut i) = free_reg) ∧
        (st.ins.getISAFPRegOut i < st.isa_table.fp_reg_pending_write.length →
          st'.isa_table.fp_reg_pending_write.getD (st.ins.getISAFPRegOut i) 0
            = st.isa_table.fp_reg_pending_write.getD (st.ins.getISAFPRegOut i) 0 + 1)) ∧
    (∀ (ins : VanadisInstruction) (int_regs fp_regs : VanadisRegisterStack)
        (isa_table : VanadisISATable),
      ins.countISAIntRegOut ≤ int_regs.unused →
      ins.countISAFPRegOut ≤ fp_regs.unused →
      ins.phys_int_regs_out.length = ins.isa_int_regs_out.length →
      ins.phys_fp_regs_out.length = ins.isa_fp_regs_out.length →
      ∃ st, assignRegistersToInstruction ins int_regs fp_regs isa_table = .ok st ∧
        st.int_regs.regs = int_regs.regs.drop ins.countISAIntRegOut ∧
        st.int_regs.unused + ins.countISAIntRegOut = int_regs.unused ∧
        st.fp_regs.regs = fp_regs.regs.drop ins.countISAFPRegOut ∧
        st.fp_regs.unused + ins.countISAFPRegOut = fp_regs.unused ∧
        (∀ i, i < ins.countISAIntRegOut → st.ins.getPhysIntRegOut i = int_regs.regs.getD i 0) ∧
        (∀ i, i < ins.countISAFPRegOut → st.ins.getPhysFPRegOut i = fp_regs.regs.getD i 0) ∧
        (∀ i, i < ins.countISAIntRegOut →
          (∀ j, i < j → j < ins.countISAIntRegOut →
            ins.getISAIntRegOut j ≠ ins.getISAIntRegOut i) →
          ins.getISAIntRegOut i < isa_table.int_reg_ptr.length →
          st.isa_table.getIntPhysReg (ins.getISAIntRegOut i) = st.ins.getPhysIntRegOut i) ∧
        (∀ i, i < ins.countISAFPRegOut →
          (∀ j, i < j → j < ins.countISAFPRegOut →
            ins.getISAFPRegOut j ≠ ins.getISAFPRegOut i) →
          ins.getISAFPRegOut i < isa_table.fp_reg_ptr.length →
          st.isa_table.getFPPhysReg (ins.getISAFPRegOut i) = st.ins.getPhysFPRegOut i) ∧
        (∀ r, r ∉ ins.isa_int_regs_out →
          st.isa_table.getIntPhysReg r = isa_table.getIntPhysReg r) ∧
        (∀ r, r ∉ ins.isa_fp_regs_out →
          st.isa_table.getFPPhysReg r = isa_table.getFPPhysReg r) ∧
        (∀ r, r < isa_table.int_reg_pending_write.length →
          st.isa_table.int_reg_pending_write.getD r 0
            = isa_table.int_reg_pending_write.getD r 0 + ins.isa_int_regs_out.count r) ∧
        (∀ r, r < isa_table.fp_reg_pending_write.length →
          st.isa_table.fp_reg_pending_write.getD r 0
            = isa_table.fp_reg_pending_write.getD r 0 + ins.isa_fp_regs_out.count r)) := by
  refine ⟨?_, ?_, ?_⟩
  · intro st st' i h
    unfold assignIntOutStep VanadisRegisterStack.pop at h
    cases hr : st.int_regs.regs with
    | nil => simp [hr] at h
    | cons free_reg rest =>
      simp only [hr, Except.ok.injEq] at h
      subst h
      refine ⟨free_reg, rfl, fun hlt => ?_, fun hlt => ?_, fun hlt => ?_⟩
      · simp only [VanadisInstruction.getPhysIntRegOut, VanadisInstruction.setPhysIntRegOut,
          getD_set_nat, hlt, and_self, if_true]
      · simp only [VanadisISATable.getIntPhysReg, VanadisISATable.incIntWrite,
          VanadisISATable.setIntPhysReg, getD_set_nat, hlt, and_self, if_true]
      · simp only [VanadisISATable.incIntWrite, VanadisISATable.setIntPhysReg, getD_set_nat,
          hlt, and_self, if_true]
  · intro st st' i h
    unfold assignFPOutStep VanadisRegisterStack.pop at h
    cases hr : st.fp_regs.regs with
    | nil => simp [hr] at h
    | cons free_reg rest =>
      simp only [hr, Except.ok.injEq] at h
      subst h
      refine ⟨free_reg, rfl, fun hlt => ?_, fun hlt => ?_, fun hlt => ?_⟩
      · simp only [VanadisInstruction.getPhysFPRegOut, VanadisInstruction.setPhysFPRegOut,
          getD_set_nat, hlt, and_self, if_true]
      · simp only [VanadisISATable.getFPPhysReg, VanadisISATable.incFPWrite,
          VanadisISATable.setFPPhysReg, getD_set_nat, hlt, and_self, if_true]
      · simp only [VanadisISATable.incFPWrite, VanadisISATable.setFPPhysReg, getD_set_nat,
          hlt, and_self, if_true]
  · intro ins int_regs fp_regs isa_table hi hf hpi hpf
    obtain ⟨st, hst, s1, s2, _, _, _, p3, p4, m1, m2, _, _, w1, w2⟩ :=
      assignRegistersToInstruction_closed ins int_regs fp_regs isa_table hi hf
    have hI : ∀ i, i < ins.countISAIntRegOut →
        st.ins.getPhysIntRegOut i = int_regs.regs.getD i 0 := by
      intro i hlt
      have h := (foldl_set_spec (fun i => i) (fun i => int_regs.regs.getD i 0)
        ins.phys_int_regs_out ins.countISAIntRegOut).2.1 i hlt
        (fun j hij _ hji => by omega) (by rw [hpi]; exact hlt)
      simp only [VanadisInstruction.getPhysIntRegOut, p3]
      exact h
    have hF : ∀ i, i < ins.countISAFPRegOut →
        st.ins.getPhysFPRegOut i = fp_regs.regs.getD i 0 := by
      intro i hlt
      have h := (foldl_set_spec (fun i => i) (fun i => fp_regs.regs.getD i 0)
        ins.phys_fp_regs_out ins.countISAFPRegOut).2.1 i hlt
        (fun j hij _ hji => by omega) (by rw [hpf]; exact hlt)
      simp only [VanadisInstruction.getPhysFPRegOut, p4]
      exact h
    refine ⟨st, hst, ?_, ?_, ?_, ?_, hI, hF, ?_, ?_, ?_, ?_, ?_, ?_⟩
    · rw [s1]
    · rw [s1]
      simp only [VanadisRegisterStack.unused, List.length_drop] at hi ⊢
      omega
    · rw [s2]
    · rw [s2]
      simp only [VanadisRegisterStack.unused, List.length_drop] at hf ⊢
      omega
    · intro i hlt hlast hrange
      rw [hI i hlt]
      have h := (foldl_set_spec (fun i => ins.isa_int_regs_out.getD i 0)
        (fun i => int_regs.regs.getD i 0) isa_table.int_reg_ptr ins.countISAIntRegOut).2.1
        i hlt hlast hrange
      simp only [VanadisISATable.getIntPhysReg, VanadisInstruction.getISAIntRegOut, m1]
      exact h
    · intro i hlt hlast hrange
      rw [hF i hlt]
      have h := (foldl_set_spec (fun i => ins.isa_fp_regs_out.getD i 0)
        (fun i => fp_regs.regs.getD i 0) isa_table.fp_reg_ptr ins.countISAFPRegOut).2.1
        i hlt hlast hrange
      simp only [VanadisISATable.getFPPhysReg, VanadisInstruction.getISAFPRegOut, m2]
      exact h
    · intro r hr
      have h := (foldl_set_spec (fun i => ins.isa_int_regs_out.getD i 0)
        (fun i => int_regs.regs.getD i 0) isa_table.int_reg_ptr ins.countISAIntRegOut).2.2 r
        (fun j hj heq => hr ((mem_iff_getD _ _).mpr ⟨j, hj, heq⟩))
      simp only [VanadisISATable.getIntPhysReg, m1]
      exact h
    · intro r hr
      have h := (foldl_set_spec (fun i => ins.isa_fp_regs_out.getD i 0)
        (fun i => fp_regs.regs.getD i 0) isa_table.fp_reg_ptr ins.countISAFPRegOut).2.2 r
        (fun j hj heq => hr ((mem_iff_getD _ _).mpr ⟨j, hj, heq⟩))
      simp only [VanadisISATable.getFPPhysReg, m2]
      exact h
    · intro r hr
      rw [w1, (foldl_incr_spec _ _ _).2 r, if_pos hr]
      show _ + ((List.range ins.isa_int_regs_out.length).map _).count r = _
      rw [range_map_getD]
    · intro r hr
      rw [w2, (foldl_incr_spec _ _ _).2 r, if_pos hr]
      show _ + ((List.range ins.isa_fp_regs_out.length).map _).count r = _
      rw [range_map_getD]

/-- C14 exercised on an instruction with the integer outputs `r3`, `r3` and the
floating-point output `f1`, the free stacks `[4, 5]` and `[2, 3]`: the physical outputs
are 4, 5 and 2, both stacks are emptied by as many registers, `r3` is left mapped to
the register popped for its last occurrence with two pending writes, `f1` to 2 with
one. -/
theorem rename_outputs_take_free_registers_witness :
    ∃ st, assignRegistersToInstruction exampleTwiceNamed { max_capacity := 6, regs := [4, 5] }
        { max_capacity := 4, regs := [2, 3] } exampleTable = .ok st ∧
      st.ins.phys_int_regs_out = [4, 5] ∧ st.ins.phys_fp_regs_out = [2] ∧
      st.int_regs.regs = [] ∧ st.fp_regs.regs = [3] ∧
      st.isa_table.int_reg_ptr = [0, 1, 2, 5] ∧ st.isa_table.fp_reg_ptr = [0, 2] ∧
      st.isa_table.int_reg_pending_write = [0, 0, 0, 2] ∧
      st.isa_table.fp_reg_pending_write = [0, 1] ∧
      st.isa_table.getIntPhysReg (exampleTwiceNamed.getISAIntRegOut 1)
        = st.ins.getPhysIntRegOut 1 ∧
      st.isa_table.getFPPhysReg (exampleTwiceNamed.getISAFPRegOut 0)
        = st.ins.getPhysFPRegOut 0 ∧
      st.isa_table.int_reg_pending_write.getD 3 0
        = exampleTable.int_reg_pending_write.getD 3 0
          + exampleTwiceNamed.isa_int_regs_out.count 3 := by
  obtain ⟨st, hst, _, _, _, _, _, _, h7, h8, _, _, h11, _⟩ :=
    rename_outputs_take_free_registers.2.2 exampleTwiceNamed
      { max_capacity := 6, regs := [4, 5] } { max_capacity := 4, regs := [2, 3] } exampleTable
      (by decide) (by decide) (by decide) (by decide)
  obtain ⟨st', hst', g1, g2, g3, g4, g5, g6, g7, g8⟩ :
      ∃ st', assignRegistersToInstruction exampleTwiceNamed
          { max_capacity := 6, regs := [4, 5] } { max_capacity := 4, regs := [2, 3] }
          exampleTable = .ok st' ∧
        st'.ins.phys_int_regs_out = [4, 5] ∧ st'.ins.phys_fp_regs_out = [2] ∧
        st'.int_regs.regs = [] ∧ st'.fp_regs.regs = [3] ∧
        st'.isa_table.int_reg_ptr = [0, 1, 2, 5] ∧ st'.isa_table.fp_reg_ptr = [0, 2] ∧
        st'.isa_table.int_reg_pending_write = [0, 0, 0, 2] ∧
        st'.isa_table.fp_reg_pending_write = [0, 1] := by
    refine ⟨_, rfl, ?_, ?_, ?_, ?_, ?_, ?_, ?_, ?_⟩ <;> decide
  have e : st = st' := by
    rw [hst] at hst'
    exact Except.ok.inj hst'
  subst e
  exact ⟨st, hst, g1, g2, g3, g4, g5, g6, g7, g8,
    h7 1 (by decide) (fun j h1 h2 => absurd h2 (by
      have : exampleTwiceNamed.countISAIntRegOut = 2 := rfl
      omega)) (by decide),
    h8 0 (by decide) (fun j h1 h2 => absurd h2 (by
      have : exampleTwiceNamed.countISAFPRegOut = 1 := rfl
      omega)) (by decide),
    h11 3 (by decide)⟩

/-! ## What retirement does to the counters of the issue-time table -/

/-- The integer input loop of `recoverRetiredRegisters`, as far as the issue-time table is
concerned. -/
theorem recoverIntIn_fold (ins : VanadisInstruction) (st : RetireState) (n : Nat) :
    { ((List.range n).foldl (recoverIntInStep ins) st).issue_isa_table with int_reg_pending_read := [] }
      = { st.issue_isa_table with int_reg_pending_read := [] } ∧
    ((List.range n).foldl (recoverIntInStep ins) st).issue_isa_table.int_reg_pending_read
      = (List.range n).foldl
          (fun c i => c.set (ins.isa_int_regs_in.getD i 0) (c.getD (ins.isa_int_regs_in.getD i 0) 0 - 1))
          st.issue_isa_table.int_reg_pending_read := by
  induction n with
  | zero => simp
  | succ n ih =>
    simp only [List.range_succ, List.foldl_append, List.foldl_cons, List.foldl_nil]
    obtain ⟨h1, h2⟩ := ih
    generalize (List.range n).foldl (recoverIntInStep ins) st = stn at h1 h2
    refine ⟨h1, ?_⟩
    show stn.issue_isa_table.int_reg_pending_read.set (ins.isa_int_regs_in.getD n 0)
      (stn.issue_isa_table.int_reg_pending_read.getD (ins.isa_int_regs_in.getD n 0) 0 - 1) = _
    rw [h2]

/-- The floating-point input loop of `recoverRetiredRegisters`, as far as the issue-time table is
concerned. -/
theorem recoverFPIn_fold (ins : VanadisInstruction) (st : RetireState) (n : Nat) :
    { ((List.range n).foldl (recoverFPInStep ins) st).issue_isa_table with fp_reg_pending_read := [] }
      = { st.issue_isa_table with fp_reg_pending_read := [] } ∧
    ((List.range n).foldl (recoverFPInStep ins) st).issue_isa_table.fp_reg_pending_read
      = (List.range n).foldl
          (fun c i => c.set (ins.isa_fp_regs_in.getD i 0) (c.getD (ins.isa_fp_regs_in.getD i 0) 0 - 1))
          st.issue_isa_table.fp_reg_pending_read := by
  induction n with
  | zero => simp
  | succ n ih =>
    simp only [List.range_succ, List.foldl_append, List.foldl_cons, List.foldl_nil]
    obtain ⟨h1, h2⟩ := ih
    generalize (List.range n).foldl (recoverFPInStep ins) st = stn at h1 h2
    refine ⟨h1, ?_⟩
    show stn.issue_isa_table.fp_reg_pending_read.set (ins.isa_fp_regs_in.getD n 0)
      (stn.issue_isa_table.fp_reg_pending_read.getD (ins.isa_fp_regs_in.getD n 0) 0 - 1) = _
    rw [h2]

/-- The integer output loop of `recoverRetiredRegisters`, as far as the issue-time table is
concerned. -/
theorem recoverIntOutIssue_fold (ins : VanadisInstruction) (st : RetireState) (n : Nat) :
    { ((List.range n).foldl (recoverIntOutStep ins) st).issue_isa_table with int_reg_pending_write := [] }
      = { st.issue_isa_table with int_reg_pending_write := [] } ∧
    ((List.range n).foldl (recoverIntOutStep ins) st).issue_isa_table.int_reg_pending_write
      = (List.range n).foldl
          (fun c i => c.set (ins.isa_int_regs_out.getD i 0) (c.getD (ins.isa_int_regs_out.getD i 0) 0 - 1))
          st.issue_isa_table.int_reg_pending_write := by
  induction n with
  | zero => simp
  | succ n ih =>
    simp only [List.range_succ, List.foldl_append, List.foldl_cons, List.foldl_nil]
    obtain ⟨h1, h2⟩ := ih
    generalize (List.range n).foldl (recoverIntOutStep ins) st = stn at h1 h2
    refine ⟨h1, ?_⟩
    show stn.issue_isa_table.int_reg_pending_write.set (ins.isa_int_regs_out.getD n 0)
      (stn.issue_isa_table.int_reg_pending_write.getD (ins.isa_int_regs_out.getD n 0) 0 - 1) = _
    rw [h2]

/-- The floating-point output loop of `recoverRetiredRegisters`, as far as the issue-time table is
concerned. -/
theorem recoverFPOutIssue_fold (ins : VanadisInstruction) (st : RetireState) (n : Nat) :
    { ((List.range n).foldl (recoverFPOutStep ins) st).issue_isa_table with fp_reg_pending_write := [] }
      = { st.issue_isa_table with fp_reg_pending_write := [] } ∧
    ((List.range n).foldl (recoverFPOutStep ins) st).issue_isa_table.fp_reg_pending_write
      = (List.range n).foldl
          (fun c i => c.set (ins.isa_fp_regs_out.getD i 0) (c.getD (ins.isa_fp_regs_out.getD i 0) 0 - 1))
          st.issue_isa_table.fp_reg_pending_write := by
  induction n with
  | zero => simp
  | succ n ih =>
    simp only [List.range_succ, List.foldl_append, List.foldl_cons, List.foldl_nil]
    obtain ⟨h1, h2⟩ := ih
    generalize (List.range n).foldl (recoverFPOutStep ins) st = stn at h1 h2
    refine ⟨h1, ?_⟩
    show stn.issue_isa_table.fp_reg_pending_write.set (ins.isa_fp_regs_out.getD n 0)
      (stn.issue_isa_table.fp_reg_pending_write.getD (ins.isa_fp_regs_out.getD n 0) 0 - 1) = _
    rw [h2]

/-- The issue-time table `recoverRetiredRegisters` leaves: the mappings are untouched and
each counter has lost the number of times its register is named by the instruction
(stopping at zero). -/
theorem recoverRetiredRegisters_issue (ins : VanadisInstruction)
    (int_regs fp_regs : VanadisRegisterStack) (issue retire : VanadisISATable) :
    (recoverRetiredRegisters ins int_regs fp_regs issue retire).issue_isa_table.int_reg_ptr
      = issue.int_reg_ptr ∧
    (recoverRetiredRegisters ins int_regs fp_regs issue retire).issue_isa_table.fp_reg_ptr
      = issue.fp_reg_ptr ∧
    ((recoverRetiredRegisters ins int_regs fp_regs issue retire).issue_isa_table.int_reg_pending_read.length
        = issue.int_reg_pending_read.length ∧
      ∀ r, (recoverRetiredRegisters ins int_regs fp_regs issue retire).issue_isa_table.int_reg_pending_read.getD r 0
        = issue.int_reg_pending_read.getD r 0 - ins.isa_int_regs_in.count r) ∧
    ((recoverRetiredRegisters ins int_regs fp_regs issue retire).issue_isa_table.fp_reg_pending_read.length
        = issue.fp_reg_pending_read.length ∧
      ∀ r, (recoverRetiredRegisters ins int_regs fp_regs issue retire).issue_isa_table.fp_reg_pending_read.getD r 0
        = issue.fp_reg_pending_read.getD r 0 - ins.isa_fp_regs_in.count r) ∧
    ((recoverRetiredRegisters ins int_regs fp_regs issue retire).issue_isa_table.int_reg_pending_write.length
        = issue.int_reg_pending_write.length ∧
      ∀ r, (recoverRetiredRegisters ins int_regs fp_regs issue retire).issue_isa_table.int_reg_pending_write.getD r 0
        = issue.int_reg_pending_write.getD r 0 - ins.isa_int_regs_out.count r) ∧
    ((recoverRetiredRegisters ins int_regs fp_regs issue retire).issue_isa_table.fp_reg_pending_write.length
        = issue.fp_reg_pending_write.length ∧
      ∀ r, (recoverRetiredRegisters ins int_regs fp_regs issue retire).issue_isa_table.fp_reg_pending_write.getD r 0
        = issue.fp_reg_pending_write.getD r 0 - ins.isa_fp_regs_out.count r) := by
  simp only [recoverRetiredRegisters]
  obtain ⟨a1, a2⟩ := recoverIntIn_fold ins
    { int_regs := int_regs, fp_regs := fp_regs, issue_isa_table := issue,
      retire_isa_table := retire, recovered_phys_reg_int := [], recovered_phys_reg_fp := [] }
    ins.countISAIntRegIn
  generalize (List.range ins.countISAIntRegIn).foldl (recoverIntInStep ins)
    { int_regs := int_regs, fp_regs := fp_regs, issue_isa_table := issue,
      retire_isa_table := retire, recovered_phys_reg_int := [], recovered_phys_reg_fp := [] }
    = st1 at a1 a2 ⊢
  obtain ⟨b1, b2⟩ := recoverFPIn_fold ins st1 ins.countISAFPRegIn
  generalize (List.range ins.countISAFPRegIn).foldl (recoverFPInStep ins) st1 = st2
    at b1 b2 ⊢
  obtain ⟨c1, c2⟩ := recoverIntOutIssue_fold ins st2 ins.countISAIntRegOut
  generalize (List.range ins.countISAIntRegOut).foldl (recoverIntOutStep ins) st2 = st3
    at c1 c2 ⊢
  obtain ⟨d1, d2⟩ := recoverFPOutIssue_fold ins st3 ins.countISAFPRegOut
  generalize (List.range ins.countISAFPRegOut).foldl (recoverFPOutStep ins) st3 = st4
    at d1 d2 ⊢
  have ap : st1.issue_isa_table.int_reg_ptr = issue.int_reg_ptr := by
    have e := congrArg VanadisISATable.int_reg_ptr a1; exact e
  have aq : st1.issue_isa_table.fp_reg_ptr = issue.fp_reg_ptr := by
    have e := congrArg VanadisISATable.fp_reg_ptr a1; exact e
  have as' : st1.issue_isa_table.fp_reg_pending_read = issue.fp_reg_pending_read := by
    have e := congrArg VanadisISATable.fp_reg_pending_read a1; exact e
  have aw : st1.issue_isa_table.int_reg_pending_write = issue.int_reg_pending_write := by
    have e := congrArg VanadisISATable.int_reg_pending_write a1; exact e
  have ax : st1.issue_isa_table.fp_reg_pending_write = issue.fp_reg_pending_write := by
    have e := congrArg VanadisISATable.fp_reg_pending_write a1; exact e
  have bp : st2.issue_isa_table.int_reg_ptr = st1.issue_isa_table.int_reg_ptr := by
    have e := congrArg VanadisISATable.int_reg_ptr b1; exact e
  have bq : st2.issue_isa_table.fp_reg_ptr = st1.issue_isa_table.fp_reg_ptr := by
    have e := congrArg VanadisISATable.fp_reg_ptr b1; exact e
  have br : st2.issue_isa_table.int_reg_pending_read = st1.issue_isa_table.int_reg_pending_read := by
    have e := congrArg VanadisISATable.int_reg_pending_read b1; exact e
  have bw : st2.issue_isa_table.int_reg_pending_write = st1.issue_isa_table.int_reg_pending_write := by
    have e := congrArg VanadisISATable.int_reg_pending_write b1; exact e
  have bx : st2.issue_isa_table.fp_reg_pending_write = st1.issue_isa_table.fp_reg_pending_write := by
    have e := congrArg VanadisISATable.fp_reg_pending_write b1; exact e
  have cp : st3.issue_isa_table.int_reg_ptr = st2.issue_isa_table.int_reg_ptr := by
    have e := congrArg VanadisISATable.int_reg_ptr c1; exact e
  have cq : st3.issue_isa_table.fp_reg_ptr = st2.issue_isa_table.fp_reg_ptr := by
    have e := congrArg VanadisISATable.fp_reg_ptr c1; exact e
  have cr : st3.issue_isa_table.int_reg_pending_read = st2.issue_isa_table.int_reg_pending_read := by
    have e := congrArg VanadisISATable.int_reg_pending_read c1; exact e
  have cs : st3.issue_isa_table.fp_reg_pending_read = st2.issue_isa_table.fp_reg_pending_read := by
    have e := congrArg VanadisISATable.fp_reg_pending_read c1; exact e
  have cx : st3.issue_isa_table.fp_reg_pending_write = st2.issue_isa_table.fp_reg_pending_write := by
    have e := congrArg VanadisISATable.fp_reg_pending_write c1; exact e
  have dp : st4.issue_isa_table.int_reg_ptr = st3.issue_isa_table.int_reg_ptr := by
    have e := congrArg VanadisISATable.int_reg_ptr d1; exact e
  have dq : st4.issue_isa_table.fp_reg_ptr = st3.issue_isa_table.fp_reg_ptr := by
    have e := congrArg VanadisISATable.fp_reg_ptr d1; exact e
  have dr : st4.issue_isa_table.int_reg_pending_read = st3.issue_isa_table.int_reg_pending_read := by
    have e := congrArg VanadisISATable.int_reg_pending_read d1; exact e
  have ds : st4.issue_isa_table.fp_reg_pending_read = st3.issue_isa_table.fp_reg_pending_read := by
    have e := congrArg VanadisISATable.fp_reg_pending_read d1; exact e
  have dw : st4.issue_isa_table.int_reg_pending_write = st3.issue_isa_table.int_reg_pending_write := by
    have e := congrArg VanadisISATable.int_reg_pending_write d1; exact e
  refine ⟨?_, ?_, ⟨?_, fun r => ?_⟩, ⟨?_, fun r => ?_⟩, ⟨?_, fun r => ?_⟩, ⟨?_, fun r => ?_⟩⟩
  · show st4.issue_isa_table.int_reg_ptr = _
    rw [dp, cp, bp, ap]
  · show st4.issue_isa_table.fp_reg_ptr = _
    rw [dq, cq, bq, aq]
  · show st4.issue_isa_table.int_reg_pending_read.length = _
    rw [dr, cr, br, a2, (foldl_decr_spec _ _ _).1]
  · show st4.issue_isa_table.int_reg_pending_read.getD r 0 = _
    rw [dr, cr, br, a2, (foldl_decr_spec _ _ _).2 r]
    show _ - ((List.range ins.isa_int_regs_in.length).map _).count r = _
    rw [range_map_getD]
  · show st4.issue_isa_table.fp_reg_pending_read.length = _
    rw [ds, cs, b2, as', (foldl_decr_spec _ _ _).1]
  · show st4.issue_isa_table.fp_reg_pending_read.getD r 0 = _
    rw [ds, cs, b2, as', (foldl_decr_spec _ _ _).2 r]
    show _ - ((List.range ins.isa_fp_regs_in.length).map _).count r = _
    rw [range_map_getD]
  · show st4.issue_isa_table.int_reg_pending_write.length = _
    rw [dw, c2, bw, aw, (foldl_decr_spec _ _ _).1]
  · show st4.issue_isa_table.int_reg_pending_write.getD r 0 = _
    rw [dw, c2, bw, aw, (foldl_decr_spec _ _ _).2 r]
    show _ - ((List.range ins.isa_int_regs_out.length).map _).count r = _
    rw [range_map_getD]
  · show st4.issue_isa_table.fp_reg_pending_write.length = _
    rw [d2, cx, bx, ax, (foldl_decr_spec _ _ _).1]
  · show st4.issue_isa_table.fp_reg_pending_write.getD r 0 = _
    rw [d2, cx, bx, ax, (foldl_decr_spec _ _ _).2 r]
    show _ - ((List.range ins.isa_fp_regs_out.length).map _).count r = _
    rw [range_map_getD]

/-- C18. For a rename that returned: each pending counter of the issue-time table has
grown by the number of occurrences of its register among the inputs (read counters) or
the outputs (write counters) of the instruction; `recoverRetiredRegisters` applied later
to the renamed instruction, on whatever the issue-time table and the free stacks have
become, takes that number from each counter (a counter stops at zero) and returns one
register per output to each free stack; and applied to the table and stacks the rename left, it
restores each of the four counter arrays and the size of each free stack to what they
were before the rename. -/
theorem rename_then_retire_restores_counters (ins : VanadisInstruction)
    (int_regs fp_regs : VanadisRegisterStack) (isa_table : VanadisISATable) (st : RenameState)
    (h : assignRegistersToInstruction ins int_regs fp_regs isa_table = .ok st) :
    (∀ r, r < isa_table.int_reg_pending_read.length →
      st.isa_table.int_reg_pending_read.getD r 0
        = isa_table.int_reg_pending_read.getD r 0 + ins.isa_int_regs_in.count r) ∧
    (∀ r, r < isa_table.fp_reg_pending_read.length →
      st.isa_table.fp_reg_pending_read.getD r 0
        = isa_table.fp_reg_pending_read.getD r 0 + ins.isa_fp_regs_in.count r) ∧
    (∀ r, r < isa_table.int_reg_pending_write.length →
      st.isa_table.int_reg_pending_write.getD r 0
        = isa_table.int_reg_pending_write.getD r 0 + ins.isa_int_regs_out.count r) ∧
    (∀ r, r < isa_table.fp_reg_pending_write.length →
      st.isa_table.fp_reg_pending_write.getD r 0
        = isa_table.fp_reg_pending_write.getD r 0 + ins.isa_fp_regs_out.count r) ∧
    (∀ (int_regs' fp_regs' : VanadisRegisterStack) (issue retire : VanadisISATable),
      (∀ r, (recoverRetiredRegisters st.ins int_regs' fp_regs' issue retire).issue_isa_table.int_reg_pending_read.getD r 0
        = issue.int_reg_pending_read.getD r 0 - ins.isa_int_regs_in.count r) ∧
      (∀ r, (recoverRetiredRegisters st.ins int_regs' fp_regs' issue retire).issue_isa_table.fp_reg_pending_read.getD r 0
        = issue.fp_reg_pending_read.getD r 0 - ins.isa_fp_regs_in.count r) ∧
      (∀ r, (recoverRetiredRegisters st.ins int_regs' fp_regs' issue retire).issue_isa_table.int_reg_pending_write.getD r 0
        = issue.int_reg_pending_write.getD r 0 - ins.isa_int_regs_out.count r) ∧
      (∀ r, (recoverRetiredRegisters st.ins int_regs' fp_regs' issue retire).issue_isa_table.fp_reg_pending_write.getD r 0
        = issue.fp_reg_pending_write.getD r 0 - ins.isa_fp_regs_out.count r) ∧
      (recoverRetiredRegisters st.ins int_regs' fp_regs' issue retire).int_regs.unused
        = int_regs'.unused + ins.countISAIntRegOut ∧
      (recoverRetiredRegisters st.ins int_regs' fp_regs' issue retire).fp_regs.unused
        = fp_regs'.unused + ins.countISAFPRegOut) ∧
    (∀ retire : VanadisISATable,
      (recoverRetiredRegisters st.ins st.int_regs st.fp_regs st.isa_table retire).issue_isa_table.int_reg_pending_read
        = isa_table.int_reg_pending_read ∧
      (recoverRetiredRegisters st.ins st.int_regs st.fp_regs st.isa_table retire).issue_isa_table.fp_reg_pending_read
        = isa_table.fp_reg_pending_read ∧
      (recoverRetiredRegisters st.ins st.int_regs st.fp_regs st.isa_table retire).issue_isa_table.int_reg_pending_write
        = isa_table.int_reg_pending_write ∧
      (recoverRetiredRegisters st.ins st.int_regs st.fp_regs st.isa_table retire).issue_isa_table.fp_reg_pending_write
        = isa_table.fp_reg_pending_write ∧
      (recoverRetiredRegisters st.ins st.int_regs st.fp_regs st.isa_table retire).int_regs.unused
        = int_regs.unused ∧
      (recoverRetiredRegisters st.ins st.int_regs st.fp_regs st.isa_table retire).fp_regs.unused
        = fp_regs.unused) := by
  obtain ⟨z1, _, z3, _, _, _, _, _⟩ := assignRegistersToInstruction_sizes _ _ _ _ _ h
  have hi : ins.countISAIntRegOut ≤ int_regs.unused := by omega
  have hf : ins.countISAFPRegOut ≤ fp_regs.unused := by omega
  obtain ⟨st', hst', _, _, q, _, _, _, _, _, _, t1, t2, w1, w2⟩ :=
    assignRegistersToInstruction_closed ins int_regs fp_regs isa_table hi hf
  have e : st' = st := by
    rw [hst'] at h
    exact Except.ok.inj h
  subst e
  have e1 : st'.ins.isa_int_regs_in = ins.isa_int_regs_in := by
    have e := congrArg VanadisInstruction.isa_int_regs_in q; exact e
  have e2 : st'.ins.isa_fp_regs_in = ins.isa_fp_regs_in := by
    have e := congrArg VanadisInstruction.isa_fp_regs_in q; exact e
  have e3 : st'.ins.isa_int_regs_out = ins.isa_int_regs_out := by
    have e := congrArg VanadisInstruction.isa_int_regs_out q; exact e
  have e4 : st'.ins.isa_fp_regs_out = ins.isa_fp_regs_out := by
    have e := congrArg VanadisInstruction.isa_fp_regs_out q; exact e
  have A_t1 : st'.isa_table.int_reg_pending_read.length = isa_table.int_reg_pending_read.length ∧
      ∀ r, st'.isa_table.int_reg_pending_read.getD r 0 = isa_table.int_reg_pending_read.getD r 0
        + if r < isa_table.int_reg_pending_read.length then ins.isa_int_regs_in.count r else 0 := by
    rw [t1]
    refine ⟨(foldl_incr_spec _ _ _).1, fun r => ?_⟩
    rw [(foldl_incr_spec _ _ _).2 r]
    show _ + (if _ then ((List.range ins.isa_int_regs_in.length).map _).count r else 0) = _
    rw [range_map_getD]
  have A_t2 : st'.isa_table.fp_reg_pending_read.length = isa_table.fp_reg_pending_read.length ∧
      ∀ r, st'.isa_table.fp_reg_pending_read.getD r 0 = isa_table.fp_reg_pending_read.getD r 0
        + if r < isa_table.fp_reg_pending_read.length then ins.isa_fp_regs_in.count r else 0 := by
    rw [t2]
    refine ⟨(foldl_incr_spec _ _ _).1, fun r => ?_⟩
    rw [(foldl_incr_spec _ _ _).2 r]
    show _ + (if _ then ((List.range ins.isa_fp_regs_in.length).map _).count r else 0) = _
    rw [range_map_getD]
  have A_w1 : st'.isa_table.int_reg_pending_write.length = isa_table.int_reg_pending_write.length ∧
      ∀ r, st'.isa_table.int_reg_pending_write.getD r 0 = isa_table.int_reg_pending_write.getD r 0
        + if r < isa_table.int_reg_pending_write.length then ins.isa_int_regs_out.count r else 0 := by
    rw [w1]
    refine ⟨(foldl_incr_spec _ _ _).1, fun r => ?_⟩
    rw [(foldl_incr_spec _ _ _).2 r]
    show _ + (if _ then ((List.range ins.isa_int_regs_out.length).map _).count r else 0) = _
    rw [range_map_getD]
  have A_w2 : st'.isa_table.fp_reg_pending_write.length = isa_table.fp_reg_pending_write.length ∧
      ∀ r, st'.isa_table.fp_reg_pending_write.getD r 0 = isa_table.fp_reg_pending_write.getD r 0
        + if r < isa_table.fp_reg_pending_write.length then ins.isa_fp_regs_out.count r else 0 := by
    rw [w2]
    refine ⟨(foldl_incr_spec _ _ _).1, fun r => ?_⟩
    rw [(foldl_incr_spec _ _ _).2 r]
    show _ + (if _ then ((List.range ins.isa_fp_regs_out.length).map _).count r else 0) = _
    rw [range_map_getD]
  have B := fun (int_regs' fp_regs' : VanadisRegisterStack) (issue retire : VanadisISATable) =>
    recoverRetiredRegisters_issue st'.ins int_regs' fp_regs' issue retire
  simp only [e1, e2, e3, e4] at B
  have S := fun (int_regs' fp_regs' : VanadisRegisterStack) (issue retire : VanadisISATable) =>
    recoverRetiredRegisters_sizes st'.ins int_regs' fp_regs' issue retire
  simp only [VanadisInstruction.countISAIntRegOut, VanadisInstruction.countISAFPRegOut, e3, e4]
    at S z1 z3 ⊢
  refine ⟨?_, ?_, ?_, ?_, ?_, ?_⟩
  · intro r hr; rw [A_t1.2 r, if_pos hr]
  · intro r hr; rw [A_t2.2 r, if_pos hr]
  · intro r hr; rw [A_w1.2 r, if_pos hr]
  · intro r hr; rw [A_w2.2 r, if_pos hr]
  · intro int_regs' fp_regs' issue retire
    obtain ⟨_, _, b3, b4, b5, b6⟩ := B int_regs' fp_regs' issue retire
    obtain ⟨s1, _, s3, _, _, _⟩ := S int_regs' fp_regs' issue retire
    exact ⟨b3.2, b4.2, b5.2, b6.2, s1, s3⟩
  · intro retire
    obtain ⟨_, _, b3, b4, b5, b6⟩ := B st'.int_regs st'.fp_regs st'.isa_table retire
    obtain ⟨s1, _, s3, _, _, _⟩ := S st'.int_regs st'.fp_regs st'.isa_table retire
    have restore : ∀ (c' c0 cr : List Nat) (k : Nat → Nat),
        cr.length = c'.length → (∀ r, cr.getD r 0 = c'.getD r 0 - k r) →
        c'.length = c0.length →
        (∀ r, c'.getD r 0 = c0.getD r 0 + if r < c0.length then k r else 0) → cr = c0 := by
      intro c' c0 cr k l1 g1 l2 g2
      apply list_eq_of_getD _ _ (l1.trans l2)
      intro r
      rw [g1 r, g2 r]
      by_cases hr : r < c0.length
      · rw [if_pos hr]; omega
      · rw [if_neg hr, getD_of_length_le c0 r (Nat.le_of_not_lt hr)]; omega
    refine ⟨restore _ _ _ _ b3.1 b3.2 A_t1.1 A_t1.2, restore _ _ _ _ b4.1 b4.2 A_t2.1 A_t2.2,
      restore _ _ _ _ b5.1 b5.2 A_w1.1 A_w1.2, restore _ _ _ _ b6.1 b6.2 A_w2.1 A_w2.2, ?_, ?_⟩
    · rw [s1]; exact z1
    · rw [s3]; exact z3

/-- C18 exercised on the instruction naming `r1` twice among its inputs and `r3` twice
among its outputs: the rename leaves two pending reads of `r1` and two pending writes of
`r3`, and the retirement of the renamed instruction restores the counters and the stack
sizes. -/
theorem rename_then_retire_restores_counters_witness :
    ∃ st, assignRegistersToInstruction exampleTwiceNamed { max_capacity := 6, regs := [4, 5] }
        { max_capacity := 4, regs := [2, 3] } exampleTable = .ok st ∧
      st.isa_table.int_reg_pending_read = [0, 2, 0, 0] ∧
      st.isa_table.int_reg_pending_write = [0, 0, 0, 2] ∧
      st.int_regs.unused = 0 ∧
      (recoverRetiredRegisters st.ins st.int_regs st.fp_regs st.isa_table
        exampleTable).issue_isa_table.int_reg_pending_read
          = exampleTable.int_reg_pending_read ∧
      (recoverRetiredRegisters st.ins st.int_regs st.fp_regs st.isa_table
        exampleTable).issue_isa_table.int_reg_pending_write
          = exampleTable.int_reg_pending_write ∧
      (recoverRetiredRegisters st.ins st.int_regs st.fp_regs st.isa_table
        exampleTable).int_regs.unused = 2 := by
  obtain ⟨st, hst, g1, g2, g3⟩ :
      ∃ st, assignRegistersToInstruction exampleTwiceNamed
          { max_capacity := 6, regs := [4, 5] } { max_capacity := 4, regs := [2, 3] }
          exampleTable = .ok st ∧
        st.isa_table.int_reg_pending_read = [0, 2, 0, 0] ∧
        st.isa_table.int_reg_pending_write = [0, 0, 0, 2] ∧
        st.int_regs.unused = 0 := by
    refine ⟨_, rfl, ?_, ?_, ?_⟩ <;> decide
  obtain ⟨_, _, _, _, _, hr⟩ := rename_then_retire_restores_counters _ _ _ _ st hst
  obtain ⟨r1, _, r3, _, r5, _⟩ := hr exampleTable
  exact ⟨st, hst, g1, g2, g3, r1, r3, r5⟩

/-! ## The pending-write counters and the instructions in flight -/

theorem CellRel_intWrites {c c' : Option VanadisInstruction} (h : CellRel c c') (t r : Nat) :
    intWritesOf t r c' = intWritesOf t r c := by
  cases c <;> cases c' <;> simp only [CellRel] at h <;> try trivial
  obtain ⟨a1, a2, a3, _, _⟩ := h
  simp [intWritesOf, VanadisInstruction.getHWThread, a1, a2, a3]

theorem CellRel_fpWrites {c c' : Option VanadisInstruction} (h : CellRel c c') (t r : Nat) :
    fpWritesOf t r c' = fpWritesOf t r c := by
  cases c <;> cases c' <;> simp only [CellRel] at h <;> try trivial
  obtain ⟨a1, a2, _, a4, _⟩ := h
  simp [fpWritesOf, VanadisInstruction.getHWThread, a1, a2, a4]

theorem HeapRel_inflightIntWrites {heap heap' : Heap} (h : HeapRel heap heap') (t r : Nat) :
    inflightIntWrites heap' t r = inflightIntWrites heap t r :=
  sum_map_congr_getD (intWritesOf t r) none heap heap' h.1
    (fun q => CellRel_intWrites (h.2 q) t r)

theorem HeapRel_inflightFPWrites {heap heap' : Heap} (h : HeapRel heap heap') (t r : Nat) :
    inflightFPWrites heap' t r = inflightFPWrites heap t r :=
  sum_map_congr_getD (fpWritesOf t r) none heap heap' h.1
    (fun q => CellRel_fpWrites (h.2 q) t r)

theorem inflightIntWrites_set (heap : Heap) (p : InsPtr) (c : Option VanadisInstruction)
    (t r : Nat) (hp : p < heap.length) :
    inflightIntWrites (heap.set p c) t r + intWritesOf t r (derefIns heap p)
      = inflightIntWrites heap t r + intWritesOf t r c := by
  rw [derefIns_eq_getElem heap p hp]
  exact sum_map_set (intWritesOf t r) heap p c hp

theorem inflightFPWrites_set (heap : Heap) (p : InsPtr) (c : Option VanadisInstruction)
    (t r : Nat) (hp : p < heap.length) :
    inflightFPWrites (heap.set p c) t r + fpWritesOf t r (derefIns heap p)
      = inflightFPWrites heap t r + fpWritesOf t r c := by
  rw [derefIns_eq_getElem heap p hp]
  exact sum_map_set (fpWritesOf t r) heap p c hp

/-- Objects that are not issued add nothing to the writes in flight. -/
theorem inflightWrites_append (heap extra : Heap)
    (hx : ∀ c ∈ extra, ∃ ins, c = some ins ∧ ins.hasIssued = false) (t r : Nat) :
    inflightIntWrites (heap ++ extra) t r = inflightIntWrites heap t r ∧
    inflightFPWrites (heap ++ extra) t r = inflightFPWrites heap t r := by
  have h1 : (extra.map (intWritesOf t r)).sum = 0 := by
    apply List.sum_eq_zero
    intro x hx'
    obtain ⟨c, hc, rfl⟩ := List.mem_map.mp hx'
    obtain ⟨ins, rfl, hi⟩ := hx c hc
    simp [intWritesOf, hi]
  have h2 : (extra.map (fpWritesOf t r)).sum = 0 := by
    apply List.sum_eq_zero
    intro x hx'
    obtain ⟨c, hc, rfl⟩ := List.mem_map.mp hx'
    obtain ⟨ins, rfl, hi⟩ := hx c hc
    simp [fpWritesOf, hi]
  simp only [inflightIntWrites, inflightFPWrites, List.map_append, List.sum_append, h1, h2,
    Nat.add_zero, and_self]

/-- No write of `r` is in flight exactly when no renamed, not yet retired instruction of
the thread has `r` as an integer output. -/
theorem inflightIntWrites_eq_zero_iff (heap : Heap) (t r : Nat) :
    inflightIntWrites heap t r = 0 ↔ ¬ InflightIntWriter heap t r := by
  simp only [inflightIntWrites, List.sum_eq_zero_iff, List.mem_map, forall_exists_index, and_imp,
    forall_apply_eq_imp_iff₂, InflightIntWriter, not_exists, not_and]
  constructor
  · intro h p W hd hi ht hr
    have hp := derefIns_lt _ _ _ hd
    have hm : some W ∈ heap := by
      rw [derefIns_eq_getElem heap p hp] at hd
      rw [← hd]
      exact List.getElem_mem hp
    have := h (some W) hm
    simp only [intWritesOf, hi, ht, and_self, if_true] at this
    exact (List.count_eq_zero.mp this) hr
  · intro h c hc
    cases c with
    | none => rfl
    | some W =>
      obtain ⟨p, hp, hget⟩ := List.getElem_of_mem hc
      have hd : derefIns heap p = some W := by
        rw [derefIns_eq_getElem heap p hp, hget]
      simp only [intWritesOf]
      split
      · rename_i hcond
        exact List.count_eq_zero.mpr (h p W hd hcond.1 hcond.2)
      · rfl

theorem inflightFPWrites_eq_zero_iff (heap : Heap) (t r : Nat) :
    inflightFPWrites heap t r = 0 ↔ ¬ InflightFPWriter heap t r := by
  simp only [inflightFPWrites, List.sum_eq_zero_iff, List.mem_map, forall_exists_index, and_imp,
    forall_apply_eq_imp_iff₂, InflightFPWriter, not_exists, not_and]
  constructor
  · intro h p W hd hi ht hr
    have hp := derefIns_lt _ _ _ hd
    have hm : some W ∈ heap := by
      rw [derefIns_eq_getElem heap p hp] at hd
      rw [← hd]
      exact List.getElem_mem hp
    have := h (some W) hm
    simp only [fpWritesOf, hi, ht, and_self, if_true] at this
    exact (List.count_eq_zero.mp this) hr
  · intro h c hc
    cases c with
    | none => rfl
    | some W =>
      obtain ⟨p, hp, hget⟩ := List.getElem_of_mem hc
      have hd : derefIns heap p = some W := by
        rw [derefIns_eq_getElem heap p hp, hget]
      simp only [fpWritesOf]
      split
      · rename_i hcond
        exact List.count_eq_zero.mpr (h p W hd hcond.1 hcond.2)
      · rfl

/-- The invariant survives a step that leaves the issue-time tables and the ROBs alone
and changes the instruction objects only in their flags. -/
theorem WriteInv_frame (s s' : VanadisComponent) (h : WriteInv s)
    (ht : s'.issue_isa_tables = s.issue_isa_tables) (hr : s'.rob = s.rob)
    (hh : HeapRel s.heap s'.heap) : WriteInv s' := by
  refine ⟨?_, ?_, ?_⟩
  · intro t tbl r h1 h2
    rw [ht] at h1
    rw [HeapRel_inflightIntWrites hh]
    exact h.count_int t tbl r h1 h2
  · intro t tbl r h1 h2
    rw [ht] at h1
    rw [HeapRel_inflightFPWrites hh]
    exact h.count_fp t tbl r h1 h2
  · intro i q hq p hp
    rw [hr] at hq
    obtain ⟨g1, g2⟩ := h.rob_ok i q hq p hp
    refine ⟨by rw [hh.1]; exact g1, fun ins' hd' => ?_⟩
    have := hh.2 p
    rw [hd'] at this
    cases hd : derefIns s.heap p with
    | none => rw [hd] at this; exact absurd this (by simp [CellRel])
    | some ins =>
      rw [hd] at this
      rw [this.2.1]
      exact g2 ins hd

/-- The invariant survives the creation of instruction objects that are not issued, when
the pointers pushed to a ROB are pointers to new objects of its thread. -/
theorem WriteInv_extend (s s' : VanadisComponent) (extra : Heap) (h : WriteInv s)
    (ht : s'.issue_isa_tables = s.issue_isa_tables)
    (e_heap : s'.heap = s.heap ++ extra)
    (hx : ∀ c ∈ extra, ∃ ins, c = some ins ∧ ins.hasIssued = false)
    (hr : ∀ (i : Nat) (q' : VanadisCircularQueue InsPtr), s'.rob[i]? = some q' →
      ∃ q, s.rob[i]? = some q ∧ ∀ p ∈ q'.items, p ∈ q.items ∨
        (s.heap.length ≤ p ∧ p < s'.heap.length ∧
          ∀ ins, derefIns s'.heap p = some ins → ins.hw_thread = i)) : WriteInv s' := by
  refine ⟨?_, ?_, ?_⟩
  · intro t tbl r h1 h2
    rw [ht] at h1
    rw [e_heap, (inflightWrites_append _ _ hx t r).1]
    exact h.count_int t tbl r h1 h2
  · intro t tbl r h1 h2
    rw [ht] at h1
    rw [e_heap, (inflightWrites_append _ _ hx t r).2]
    exact h.count_fp t tbl r h1 h2
  · intro i q' hq' p hp
    obtain ⟨q, hq, hall⟩ := hr i q' hq'
    rcases hall p hp with hold | ⟨_, h2, h3⟩
    · obtain ⟨g1, g2⟩ := h.rob_ok i q hq p hold
      refine ⟨by rw [e_heap, List.length_append]; exact Nat.lt_add_right _ g1,
        fun ins hd => g2 ins ?_⟩
      rw [e_heap] at hd
      simp only [derefIns, List.getD_eq_getElem?_getD] at hd ⊢
      rw [List.getElem?_append_left g1] at hd
      exact hd
    · exact ⟨h2, h3⟩

theorem WriteInv_fetchThread (s s' : VanadisComponent) (i : Nat)
    (h : WriteInv s) (hf : fetchThread s i = .ok s') : WriteInv s' := by
  rcases fetchThread_ok_cases s s' i hf with rfl | ⟨dec, hd, rfl⟩
  · exact h
  · exact WriteInv_frame s _ h rfl rfl (heapRel_refl _)

/-- The decoder appends objects that are not issued to the arena. -/
theorem decoderTick_heap (i : Nat) (ops : List DecodedOp) :
    ∀ (dec : VanadisDecoder) (heap : Heap),
      ∃ extra, (decoderTick dec heap i ops).2 = heap ++ extra ∧
        ∀ c ∈ extra, ∃ ins, c = some ins ∧ ins.hasIssued = false := by
  induction ops with
  | nil =>
    intro dec heap
    exact ⟨[], by simp [decoderTick], fun c hc => by simp at hc⟩
  | cons op ops ih =>
    intro dec heap
    obtain ⟨extra, h1, h2⟩ := ih { dec with decoded_q := dec.decoded_q ++ [heap.length] }
      (heap ++ [some (VanadisInstruction.create op.id op.ins_address i op.func_type
          op.isa_int_regs_in op.isa_fp_regs_in op.isa_int_regs_out op.isa_fp_regs_out
          op.speculation)])
    refine ⟨some (VanadisInstruction.create op.id op.ins_address i op.func_type
          op.isa_int_regs_in op.isa_fp_regs_in op.isa_int_regs_out op.isa_fp_regs_out
          op.speculation) :: extra, ?_, ?_⟩
    · simp only [decoderTick, List.foldl_cons, allocIns] at h1 ⊢
      rw [h1]
      simp
    · intro c hc
      rcases List.mem_cons.mp hc with rfl | hc'
      · exact ⟨_, rfl, rfl⟩
      · exact h2 c hc'

theorem WriteInv_decodeThread (ext : External) (cycle : Nat) (s s' : VanadisComponent) (i : Nat)
    (h : WriteInv s) (hf : decodeThread ext cycle s i = .ok s') : WriteInv s' := by
  rcases decodeThread_ok_cases ext cycle s s' i hf with rfl | ⟨dec, _, hd, rfl⟩
  · exact h
  · obtain ⟨extra, h1, h2⟩ := decoderTick_heap i (ext.decoded cycle i) dec s.heap
    refine WriteInv_extend s _ extra h rfl h1 h2 ?_
    intro j q' hq'
    exact ⟨q', hq', fun p hp => Or.inl hp⟩

theorem WriteInv_pushTestInstruction (s s' : VanadisComponent) (mk : Nat → VanadisInstruction)
    (hmk : ∀ id, (mk id).hasIssued = false ∧ (mk id).hasExecuted = false ∧ (mk id).hw_thread = 0)
    (h : WriteInv s) (hf : pushTestInstruction s mk = .ok s') : WriteInv s' := by
  obtain ⟨dec, rob_0, hd, hr0, _, rfl⟩ := pushTestInstruction_ok s s' mk hf
  refine WriteInv_extend s _ [some (mk s.nextInsID)] h rfl rfl ?_ ?_
  · intro c hc
    simp only [List.mem_singleton] at hc
    subst hc
    exact ⟨_, rfl, (hmk _).1⟩
  · intro j q' hq'
    rcases getElem?_set_cases _ _ _ _ _ hq' with ⟨rfl, rfl, _⟩ | ⟨_, hq''⟩
    · refine ⟨rob_0, hr0, fun p hp => ?_⟩
      simp only [List.mem_append, List.mem_singleton] at hp
      rcases hp with hp | rfl
      · exact Or.inl hp
      · refine Or.inr ⟨Nat.le_refl _, by simp, fun ins hd' => ?_⟩
        simp only [derefIns_append, if_true, Option.some.injEq] at hd'
        rw [← hd']
        exact (hmk _).2.2
    · exact ⟨q', hq'', fun p hp => Or.inl hp⟩

theorem WriteInv_injectTestInstruction (s s' : VanadisComponent)
    (h : WriteInv s) (hf : injectTestInstruction s = .ok s') : WriteInv s' := by
  rcases injectTestInstruction_ok_cases s s' hf with rfl | hp
  · exact h
  · exact WriteInv_pushTestInstruction s s' _ (fun _ => ⟨rfl, rfl, rfl⟩) h hp

/-- The instruction objects change only in their flags during the execute stage. -/
theorem executeStage_heapRel (ci cf : Nat) (ext : External) (cycle : Nat)
    (s : VanadisComponent) (h : CoreInv ci cf s) :
    HeapRel s.heap (executeStage ext cycle s).heap := by
  have hfu := h.fu_ok
  simp only [List.mem_append] at hfu
  obtain ⟨a1, a2⟩ := tickFuncUnits_spec s.fu_int_arith s.heap
    (fun fu hfu' p hp => (hfu fu (Or.inl (Or.inl (Or.inl hfu'))) p hp).2)
  obtain ⟨b1, b2⟩ := tickFuncUnits_spec s.fu_int_div (tickFuncUnits s.fu_int_arith s.heap).2
    (fun fu hfu' p hp => HeapRel_issued a1 p (hfu fu (Or.inl (Or.inl (Or.inr hfu'))) p hp).2)
  have ab := heapRel_trans a1 b1
  obtain ⟨c1, c2⟩ := tickFuncUnits_spec s.fu_fp_arith
    (tickFuncUnits s.fu_int_div (tickFuncUnits s.fu_int_arith s.heap).2).2
    (fun fu hfu' p hp => HeapRel_issued ab p (hfu fu (Or.inl (Or.inr hfu')) p hp).2)
  have abc := heapRel_trans ab c1
  obtain ⟨d1, d2⟩ := tickFuncUnits_spec s.fu_fp_div
    (tickFuncUnits s.fu_fp_arith
      (tickFuncUnits s.fu_int_div (tickFuncUnits s.fu_int_arith s.heap).2).2).2
    (fun fu hfu' p hp => HeapRel_issued abc p (hfu fu (Or.inr hfu') p hp).2)
  have abcd := heapRel_trans abc d1
  have e1 := foldl_markExecuted_spec
    ((s.lsq.loads ++ s.lsq.stores).filter (ext.lsq_done cycle))
    (tickFuncUnits s.fu_fp_div (tickFuncUnits s.fu_fp_arith
      (tickFuncUnits s.fu_int_div (tickFuncUnits s.fu_int_arith s.heap).2).2).2).2
    (fun p hp => HeapRel_issued abcd p (h.lsq_ok p (List.mem_filter.mp hp).1).2)
  exact heapRel_trans abcd e1

theorem WriteInv_executeStage (ci cf : Nat) (ext : External) (cycle : Nat)
    (s : VanadisComponent) (hc : CoreInv ci cf s) (h : WriteInv s) :
    WriteInv (executeStage ext cycle s) :=
  WriteInv_frame s _ h rfl rfl (executeStage_heapRel ci cf ext cycle s hc)

/-- What a successful rename does to the pending-write counters. -/
theorem assignRegistersToInstruction_writes (ins : VanadisInstruction)
    (int_regs fp_regs : VanadisRegisterStack) (isa_table : VanadisISATable) (st : RenameState)
    (h : assignRegistersToInstruction ins int_regs fp_regs isa_table = .ok st) :
    (st.isa_table.int_reg_pending_write.length = isa_table.int_reg_pending_write.length ∧
      ∀ r, st.isa_table.int_reg_pending_write.getD r 0
        = isa_table.int_reg_pending_write.getD r 0
          + if r < isa_table.int_reg_pending_write.length
            then ins.isa_int_regs_out.count r else 0) ∧
    (st.isa_table.fp_reg_pending_write.length = isa_table.fp_reg_pending_write.length ∧
      ∀ r, st.isa_table.fp_reg_pending_write.getD r 0
        = isa_table.fp_reg_pending_write.getD r 0
          + if r < isa_table.fp_reg_pending_write.length
            then ins.isa_fp_regs_out.count r else 0) := by
  obtain ⟨z1, _, z3, _, _, _, _, _⟩ := assignRegistersToInstruction_sizes _ _ _ _ _ h
  have hi : ins.countISAIntRegOut ≤ int_regs.unused := by omega
  have hf : ins.countISAFPRegOut ≤ fp_regs.unused := by omega
  obtain ⟨st', hst', _, _, _, _, _, _, _, _, _, _, _, w1, w2⟩ :=
    assignRegistersToInstruction_closed ins int_regs fp_regs isa_table hi hf
  have e : st' = st := by
    rw [hst'] at h
    exact Except.ok.inj h
  subst e
  refine ⟨?_, ?_⟩
  · rw [w1]
    refine ⟨(foldl_incr_spec _ _ _).1, fun r => ?_⟩
    rw [(foldl_incr_spec _ _ _).2 r]
    show _ + (if _ then ((List.range ins.isa_int_regs_out.length).map _).count r else 0) = _
    rw [range_map_getD]
  · rw [w2]
    refine ⟨(foldl_incr_spec _ _ _).1, fun r => ?_⟩
    rw [(foldl_incr_spec _ _ _).2 r]
    show _ + (if _ then ((List.range ins.isa_fp_regs_out.length).map _).count r else 0) = _
    rw [range_map_getD]

/-- The invariant survives the rename of the head of a decoded queue. -/
theorem WriteInv_rename (s s' : VanadisComponent) (i : Nat) (p : InsPtr)
    (ins : VanadisInstruction) (int_regs fp_regs : VanadisRegisterStack)
    (isa_table : VanadisISATable) (st : RenameState) (h : WriteInv s)
    (hp : derefIns s.heap p = some ins)
    (hun : ins.hasIssued = false) (hthr : ins.hw_thread = i)
    (ht : s.issue_isa_tables[i]? = some isa_table)
    (hassign : assignRegistersToInstruction ins int_regs fp_regs isa_table = .ok st)
    (e_tbl : s'.issue_isa_tables = s.issue_isa_tables.set i st.isa_table)
    (e_heap : s'.heap = s.heap.set p (some st.ins.markIssued))
    (e_rob : s'.rob = s.rob) : WriteInv s' := by
  obtain ⟨_, _, _, _, z5, z6, z7, _⟩ := assignRegistersToInstruction_sizes _ _ _ _ _ hassign
  obtain ⟨⟨wl1, wv1⟩, ⟨wl2, wv2⟩⟩ := assignRegistersToInstruction_writes _ _ _ _ _ hassign
  have hpl := derefIns_lt _ _ _ hp
  have hnewI : ∀ t r, intWritesOf t r (some st.ins.markIssued)
      = if i = t then ins.isa_int_regs_out.count r else 0 := by
    intro t r
    simp [intWritesOf, VanadisInstruction.markIssued, VanadisInstruction.getHWThread, z5, z6, hthr]
  have hnewF : ∀ t r, fpWritesOf t r (some st.ins.markIssued)
      = if i = t then ins.isa_fp_regs_out.count r else 0 := by
    intro t r
    simp [fpWritesOf, VanadisInstruction.markIssued, VanadisInstruction.getHWThread, z5, z7, hthr]
  have holdI : ∀ t r, intWritesOf t r (some ins) = 0 := by
    intro t r; simp [intWritesOf, hun]
  have holdF : ∀ t r, fpWritesOf t r (some ins) = 0 := by
    intro t r; simp [fpWritesOf, hun]
  refine ⟨?_, ?_, ?_⟩
  · intro t tbl r h1 h2
    rw [e_tbl] at h1
    rw [e_heap]
    have hsum := inflightIntWrites_set s.heap p (some st.ins.markIssued) t r hpl
    rw [hp, holdI, hnewI] at hsum
    rcases getElem?_set_cases _ _ _ _ _ h1 with ⟨rfl, rfl, _⟩ | ⟨hne, h1'⟩
    · rw [wl1] at h2
      have hold := h.count_int t isa_table r ht h2
      rw [wv1 r, if_pos h2, hold]
      rw [if_pos rfl] at hsum
      omega
    · have hold := h.count_int t tbl r h1' h2
      rw [if_neg (fun hh => hne hh.symm)] at hsum
      omega
  · intro t tbl r h1 h2
    rw [e_tbl] at h1
    rw [e_heap]
    have hsum := inflightFPWrites_set s.heap p (some st.ins.markIssued) t r hpl
    rw [hp, holdF, hnewF] at hsum
    rcases getElem?_set_cases _ _ _ _ _ h1 with ⟨rfl, rfl, _⟩ | ⟨hne, h1'⟩
    · rw [wl2] at h2
      have hold := h.count_fp t isa_table r ht h2
      rw [wv2 r, if_pos h2, hold]
      rw [if_pos rfl] at hsum
      omega
    · have hold := h.count_fp t tbl r h1' h2
      rw [if_neg (fun hh => hne hh.symm)] at hsum
      omega
  · intro j q hq q' hq'
    rw [e_rob] at hq
    obtain ⟨g1, g2⟩ := h.rob_ok j q hq q' hq'
    refine ⟨by rw [e_heap, List.length_set]; exact g1, fun x hx => ?_⟩
    rw [e_heap, derefIns_set _ _ _ _ hpl] at hx
    split at hx
    · rename_i hqp
      subst hqp
      simp only [Option.some.injEq] at hx
      rw [← hx]
      show st.ins.hw_thread = j
      rw [z5]
      exact g2 ins hp
    · exact g2 x hx

/-- The invariant survives the issue step of a thread. -/
theorem WriteInv_issueThread (ci cf : Nat) (s s' : VanadisComponent) (i : Nat)
    (hc : CoreInv ci cf s) (h : WriteInv s) (hf : issueThread s i = .ok s') : WriteInv s' := by
  rcases issueThread_ok_cases s s' i hf with ⟨rfl, _⟩ |
    ⟨dec, p, rest, ins, int_regs, fp_regs, isa_table, _, hd, hq, hp, hi, hfp, ht, hcase⟩
  · exact WriteInv_frame s _ h rfl rfl (heapRel_refl _)
  · rcases hcase with ⟨_, rfl⟩ | ⟨_, d, hdisp, hcase2⟩
    · exact WriteInv_frame s _ h rfl rfl (heapRel_refl _)
    · obtain ⟨f1, f2, f3, f4, f5, f6, f7, f8, f9⟩ := dispatch_frame _ _ _ _ hdisp
      rcases hcase2 with ⟨hd1, rfl⟩ | ⟨_, st, hassign, rfl⟩
      · exact WriteInv_frame s _ h f4 f7 (by rw [f6]; exact heapRel_refl _)
      · obtain ⟨_, hent⟩ := hc.queue_ok i dec hd
        obtain ⟨ins0, hins0, hun, hthr⟩ := hent p (by rw [hq]; exact List.mem_cons_self _ _)
        rw [hp] at hins0
        cases hins0
        refine WriteInv_rename s _ i p ins int_regs fp_regs isa_table st h hp hun hthr ht
          hassign ?_ ?_ f7
        · simp only []; rw [f4]
        · simp only []; rw [f6]

/-- The invariant survives the retire step of a thread. -/
theorem WriteInv_retireThread (ci cf : Nat) (s s' : VanadisComponent) (i : Nat)
    (hc : CoreInv ci cf s) (h : WriteInv s) (hf : retireThread s i = .ok s') : WriteInv s' := by
  rcases retireThread_ok_cases s s' i hf with rfl |
    ⟨rob_i, p, ins, hr, hp, hd, _, ⟨_, rfl⟩ |
      ⟨hcomp, _, int_regs, fp_regs, issue, retire, hi, hfp, hit, hrt, rfl⟩⟩
  · exact h
  · exact WriteInv_frame s _ h rfl rfl
      (HeapRel_updateIns _ _ _ (fun x _ => CellRel_markFrontOfROB x))
  · have hiss : ins.hasIssued = true := hc.exec_issued p ins hd hcomp
    have hmem : p ∈ rob_i.items := by
      simp only [VanadisCircularQueue.peek] at hp
      exact List.mem_of_mem_head? hp
    have hthr : ins.hw_thread = i := (h.rob_ok i rob_i hr p hmem).2 ins hd
    have hpl := derefIns_lt _ _ _ hd
    obtain ⟨_, _, _, _, ⟨wl1, wv1⟩, ⟨wl2, wv2⟩⟩ :=
      recoverRetiredRegisters_issue ins int_regs fp_regs issue retire
    have holdI : ∀ t r, intWritesOf t r (some ins)
        = if i = t then ins.isa_int_regs_out.count r else 0 := by
      intro t r
      simp [intWritesOf, VanadisInstruction.getHWThread, hiss, hthr]
    have holdF : ∀ t r, fpWritesOf t r (some ins)
        = if i = t then ins.isa_fp_regs_out.count r else 0 := by
      intro t r
      simp [fpWritesOf, VanadisInstruction.getHWThread, hiss, hthr]
    refine ⟨?_, ?_, ?_⟩
    · intro t tbl r h1 h2
      have hsum := inflightIntWrites_set s.heap p none t r hpl
      rw [hd, holdI] at hsum
      simp only [intWritesOf, Nat.add_zero] at hsum
      show _ = inflightIntWrites (s.heap.set p none) t r
      rcases getElem?_set_cases _ _ _ _ _ h1 with ⟨rfl, rfl, _⟩ | ⟨hne, h1'⟩
      · rw [wl1] at h2
        have hold := h.count_int t issue r hit h2
        rw [wv1 r, hold]
        rw [if_pos rfl] at hsum
        omega
      · have hold := h.count_int t tbl r h1' h2
        rw [if_neg (fun hh => hne hh.symm)] at hsum
        omega
    · intro t tbl r h1 h2
      have hsum := inflightFPWrites_set s.heap p none t r hpl
      rw [hd, holdF] at hsum
      simp only [fpWritesOf, Nat.add_zero] at hsum
      show _ = inflightFPWrites (s.heap.set p none) t r
      rcases getElem?_set_cases _ _ _ _ _ h1 with ⟨rfl, rfl, _⟩ | ⟨hne, h1'⟩
      · rw [wl2] at h2
        have hold := h.count_fp t issue r hit h2
        rw [wv2 r, hold]
        rw [if_pos rfl] at hsum
        omega
      · have hold := h.count_fp t tbl r h1' h2
        rw [if_neg (fun hh => hne hh.symm)] at hsum
        omega
    · intro j q hq q' hq'
      have hsub : ∃ q0, s.rob[j]? = some q0 ∧ q' ∈ q0.items := by
        rcases getElem?_set_cases _ _ _ _ _ hq with ⟨rfl, rfl, _⟩ | ⟨_, hq0⟩
        · exact ⟨rob_i, hr, List.mem_of_mem_tail hq'⟩
        · exact ⟨q, hq0, hq'⟩
      obtain ⟨q0, hq0, hm0⟩ := hsub
      obtain ⟨g1, g2⟩ := h.rob_ok j q0 hq0 q' hm0
      refine ⟨by simp only [deleteIns, List.length_set]; exact g1, fun x hx => ?_⟩
      rw [derefIns_deleteIns _ _ _ _ hd] at hx
      split at hx
      · cases hx
      · exact g2 x hx

/-! ## The pending-write invariant in every reachable state -/

theorem initialMapping_pending (set : VanadisISATable → Nat → Nat → VanadisISATable)
    (hset : ∀ t j r, (set t j r).int_reg_pending_write = t.int_reg_pending_write ∧
      (set t j r).fp_reg_pending_write = t.fp_reg_pending_write)
    (l : List Nat) :
    ∀ (acc r : VanadisRegisterStack × VanadisISATable),
      l.foldlM
        (fun acc j =>
          match acc.1.pop with
          | .error e => (Except.error e : Except Fault (VanadisRegisterStack × VanadisISATable))
          | .ok r => .ok (r.2, set acc.2 j r.1)) acc = .ok r →
      r.2.int_reg_pending_write = acc.2.int_reg_pending_write ∧
        r.2.fp_reg_pending_write = acc.2.fp_reg_pending_write := by
  induction l with
  | nil =>
    intro acc r h
    simp only [List.foldlM, pure, Except.pure, Except.ok.injEq] at h
    subst h; simp
  | cons a l ih =>
    intro acc r h
    simp only [List.foldlM, bind, Except.bind] at h
    cases hr : acc.1.regs with
    | nil => simp [VanadisRegisterStack.pop, hr] at h
    | cons x rest =>
      simp only [VanadisRegisterStack.pop, hr] at h
      obtain ⟨h1, h2⟩ := ih _ _ h
      simp only at h1 h2
      rw [(hset _ _ _).1] at h1
      rw [(hset _ _ _).2] at h2
      exact ⟨h1, h2⟩

/-- The tables and the ROB a pass of the constructor's per-thread loop adds: nothing is
pending in the issue-time table and the ROB is empty. -/
theorem constructThread_tables (params : Params) (s s' : VanadisComponent) (i : Nat)
    (h : constructThread params s i = .ok s') :
    ∃ (issue : VanadisISATable) (rob_i : VanadisCircularQueue InsPtr),
      (∀ r, issue.int_reg_pending_write.getD r 0 = 0) ∧
      (∀ r, issue.fp_reg_pending_write.getD r 0 = 0) ∧
      rob_i.items = [] ∧
      s'.issue_isa_tables = s.issue_isa_tables ++ [issue] ∧
      s'.rob = s.rob ++ [rob_i] ∧ s'.heap = s.heap := by
  unfold constructThread at h
  simp only [bind, Except.bind] at h
  cases hdec : loadDecoder params i with
  | error e => simp [hdec] at h
  | ok dec =>
    simp only [hdec] at h
    cases h1 : initialMapping VanadisISATable.setIntPhysReg dec.count_isa_int_reg
          (VanadisRegisterStack.create (params.physical_integer_registers % 65536))
          (VanadisISATable.create dec.count_isa_int_reg dec.count_isa_fp_reg) with
    | error e => simp [h1] at h
    | ok m1 =>
      simp only [h1] at h
      cases h2 : initialMapping VanadisISATable.setFPPhysReg dec.count_isa_fp_reg
            (VanadisRegisterStack.create (params.physical_fp_registers % 65536)) m1.2 with
      | error e => simp [h2] at h
      | ok m2 =>
        simp only [h2, Except.ok.injEq, VanadisISATable.reset] at h
        obtain ⟨a1, a2⟩ := initialMapping_pending VanadisISATable.setIntPhysReg
          (fun t j r => ⟨rfl, rfl⟩) _ _ _ h1
        obtain ⟨b1, b2⟩ := initialMapping_pending VanadisISATable.setFPPhysReg
          (fun t j r => ⟨rfl, rfl⟩) _ _ _ h2
        subst h
        refine ⟨m2.2, VanadisCircularQueue.create (params.reorder_slots % 2 ^ 32),
          ?_, ?_, rfl, rfl, rfl, rfl⟩
        · intro r
          rw [b1, a1]
          simp only [VanadisISATable.create, List.getD_eq_getElem?_getD, List.getElem?_replicate]
          split <;> rfl
        · intro r
          rw [b2, a2]
          simp only [VanadisISATable.create, List.getD_eq_getElem?_getD, List.getElem?_replicate]
          split <;> rfl

theorem foldlM_list_inv {α : Type} (P : VanadisComponent → Prop)
    (f : VanadisComponent → α → Except Fault VanadisComponent)
    (hstep : ∀ s x s', P s → f s x = .ok s' → P s') :
    ∀ (l : List α) (s s' : VanadisComponent), P s → l.foldlM f s = .ok s' → P s' := by
  intro l
  induction l with
  | nil =>
    intro s s' h hf
    simp only [List.foldlM, pure, Except.pure, Except.ok.injEq] at hf
    subst hf; exact h
  | cons a l ih =>
    intro s s' h hf
    simp only [List.foldlM, bind, Except.bind] at hf
    cases hfa : f s a with
    | error e => simp [hfa] at hf
    | ok s1 =>
      simp only [hfa] at hf
      exact ih s1 s' (hstep s a s1 h hfa) hf

/-- The state the constructor builds satisfies the pending-write invariant. -/
theorem WriteInv_construct (params : Params) (s : VanadisComponent)
    (h : construct params = .ok s) : WriteInv s := by
  unfold construct at h
  simp only [bind, Except.bind] at h
  cases h1 : (List.range (emptyComponent params).hw_threads).foldlM (constructThread params)
      (emptyComponent params) with
  | error e => simp [h1] at h
  | ok s1 =>
    simp only [h1] at h
    have p1 : s1.heap = [] ∧
        (∀ (t : Nat) (tbl : VanadisISATable), s1.issue_isa_tables[t]? = some tbl →
          (∀ r, tbl.int_reg_pending_write.getD r 0 = 0) ∧
          (∀ r, tbl.fp_reg_pending_write.getD r 0 = 0)) ∧
        (∀ (i : Nat) (q : VanadisCircularQueue InsPtr), s1.rob[i]? = some q → q.items = []) := by
      refine foldlM_list_inv
        (fun s => s.heap = [] ∧
          (∀ (t : Nat) (tbl : VanadisISATable), s.issue_isa_tables[t]? = some tbl →
            (∀ r, tbl.int_reg_pending_write.getD r 0 = 0) ∧
            (∀ r, tbl.fp_reg_pending_write.getD r 0 = 0)) ∧
          (∀ (i : Nat) (q : VanadisCircularQueue InsPtr), s.rob[i]? = some q → q.items = []))
        (constructThread params) ?_ _ _ _ ?_ h1
      · intro a i b ⟨ha1, ha2, ha3⟩ hab
        obtain ⟨issue, rob_i, c1, c2, c3, c4, c5, c6⟩ := constructThread_tables params a b i hab
        refine ⟨c6.trans ha1, ?_, ?_⟩
        · intro t tbl ht
          rw [c4] at ht
          rcases getElem?_append_singleton_cases _ _ _ _ ht with ⟨_, ht'⟩ | ⟨_, rfl⟩
          · exact ha2 t tbl ht'
          · exact ⟨c1, c2⟩
        · intro j q hq
          rw [c5] at hq
          rcases getElem?_append_singleton_cases _ _ _ _ hq with ⟨_, hq'⟩ | ⟨_, rfl⟩
          · exact ha3 j q hq'
          · exact c3
      · refine ⟨rfl, ?_, ?_⟩
        · intro t tbl ht; simp [emptyComponent] at ht
        · intro j q hq; simp [emptyComponent] at hq
    have w1 : WriteInv s1 := by
      obtain ⟨e1, e2, e3⟩ := p1
      refine ⟨?_, ?_, ?_⟩
      · intro t tbl r ht _
        rw [(e2 t tbl ht).1 r, e1]
        rfl
      · intro t tbl r ht _
        rw [(e2 t tbl ht).2 r, e1]
        rfl
      · intro j q hq p hp
        rw [e3 j q hq] at hp
        cases hp
    cases h2 : startCoreZero params s1 with
    | error e => simp [h2] at h
    | ok s2 =>
      simp only [h2] at h
      have w2 : WriteInv s2 := by
        unfold startCoreZero at h2
        split at h2
        · simp only [bind, Except.bind] at h2
          cases hh : vecAt s1.halted_masks 0 with
          | error e => simp [hh] at h2
          | ok halted =>
            simp only [hh] at h2
            cases hd : vecAt s1.thread_decoders 0 with
            | error e => simp [hd] at h2
            | ok dec =>
              simp only [hd, Except.ok.injEq] at h2
              subst h2
              exact WriteInv_frame s1 _ w1 rfl rfl (heapRel_refl _)
        · cases h2
          exact w1
      cases h3 : constructorTestInstructions.foldlM pushTestInstruction s2 with
      | error e => simp [h3] at h
      | ok s3 =>
        simp only [h3] at h
        have hall : ∀ mk ∈ constructorTestInstructions, ∀ id,
            (mk id).hasIssued = false ∧ (mk id).hasExecuted = false ∧ (mk id).hw_thread = 0 := by
          intro mk hmk id
          simp only [constructorTestInstructions, List.mem_cons, List.mem_singleton,
            List.not_mem_nil, or_false] at hmk
          rcases hmk with rfl | rfl | rfl | rfl | rfl | rfl | rfl <;> exact ⟨rfl, rfl, rfl⟩
        have w3 : WriteInv s3 := by
          have gen : ∀ (l : List (Nat → VanadisInstruction)),
              (∀ mk ∈ l, ∀ id, (mk id).hasIssued = false ∧ (mk id).hasExecuted = false ∧
                (mk id).hw_thread = 0) →
              ∀ (a b : VanadisComponent), WriteInv a →
                l.foldlM pushTestInstruction a = .ok b → WriteInv b := by
            intro l
            induction l with
            | nil =>
              intro _ a b ha hab
              simp only [List.foldlM, pure, Except.pure, Except.ok.injEq] at hab
              subst hab; exact ha
            | cons mk l ih =>
              intro hl a b ha hab
              simp only [List.foldlM, bind, Except.bind] at hab
              cases hfa : pushTestInstruction a mk with
              | error e => simp [hfa] at hab
              | ok a1 =>
                simp only [hfa] at hab
                exact ih (fun mk' hmk' => hl mk' (List.mem_cons_of_mem _ hmk')) a1 b
                  (WriteInv_pushTestInstruction a a1 mk (hl mk (List.mem_cons_self _ _)) ha hfa)
                  hab
          exact gen _ hall s2 s3 w2 h3
        split at h
        · cases h
        · split at h
          · cases h
          · simp only [Except.ok.injEq] at h
            subst h
            exact WriteInv_frame s3 _ w3 rfl rfl (heapRel_refl _)

/-- A successful `tick` preserves both invariants. -/
theorem WriteInv_tick (ci cf : Nat) (ext : External) (cycle : Nat) (s s' : VanadisComponent)
    (b : Bool) (hc : CoreInv ci cf s) (h : WriteInv s) (hf : tick ext cycle s = .ok (b, s')) :
    WriteInv s' := by
  rcases tick_ok_stages ext cycle s s' b hf with ⟨_, _, rfl⟩ |
    ⟨_, _, s1, s2, s3, s4, s6, h1, h2, h3, h4, h6, rfl⟩
  · exact h
  · have i1 := foldlM_list_inv (fun a => CoreInv ci cf a ∧ WriteInv a) fetchThread
      (fun a i b ha hb => ⟨CoreInv_fetchThread ci cf a b i ha.1 hb,
        WriteInv_fetchThread a b i ha.2 hb⟩) _ _ _ ⟨hc, h⟩ h1
    have i2 := foldlM_list_inv (fun a => CoreInv ci cf a ∧ WriteInv a) (decodeThread ext cycle)
      (fun a i b ha hb => ⟨CoreInv_decodeThread ci cf ext cycle a b i ha.1 hb,
        WriteInv_decodeThread ext cycle a b i ha.2 hb⟩) _ _ _ i1 h2
    have i3 : CoreInv ci cf s3 ∧ WriteInv s3 :=
      ⟨CoreInv_injectTestInstruction ci cf _ _ i2.1 h3,
        WriteInv_injectTestInstruction _ _ i2.2 h3⟩
    have i4 := foldlM_list_inv (fun a => CoreInv ci cf a ∧ WriteInv a) issueThread
      (fun a i b ha hb => ⟨CoreInv_issueThread ci cf a b i ha.1 hb,
        WriteInv_issueThread ci cf a b i ha.1 ha.2 hb⟩) _ _ _ i3 h4
    have i5 : CoreInv ci cf (executeStage ext cycle s4) ∧ WriteInv (executeStage ext cycle s4) :=
      ⟨CoreInv_executeStage ci cf ext cycle s4 i4.1,
        WriteInv_executeStage ci cf ext cycle s4 i4.1 i4.2⟩
    have i6 := foldlM_list_inv (fun a => CoreInv ci cf a ∧ WriteInv a) retireThread
      (fun a i b ha hb => ⟨CoreInv_retireThread ci cf a b i ha.1 hb,
        WriteInv_retireThread ci cf a b i ha.1 ha.2 hb⟩) _ _ _ i5 h6
    exact WriteInv_frame s6 _ i6.2 rfl rfl (heapRel_refl _)

/-- Every reachable state satisfies the pending-write invariant. -/
theorem WriteInv_reachable (params : Params) (s : VanadisComponent) (h : Reachable params s) :
    WriteInv s := by
  induction h with
  | init s hs => exact WriteInv_construct params s hs
  | step ext cycle s s' b hr ht ih =>
    exact WriteInv_tick _ _ ext cycle s s' b (CoreInv_reachable params s hr) ih ht

/-- Both invariants hold in every state a run passes through. -/
theorem invariants_stageReachable (params : Params) (s : VanadisComponent)
    (h : StageReachable params s) :
    CoreInv (params.physical_integer_registers % 65536)
      (params.physical_fp_registers % 65536) s ∧ WriteInv s := by
  induction h with
  | boundary s hs => exact ⟨CoreInv_reachable params s hs, WriteInv_reachable params s hs⟩
  | fetch s s' i _ hf ih =>
    exact ⟨CoreInv_fetchThread _ _ s s' i ih.1 hf, WriteInv_fetchThread s s' i ih.2 hf⟩
  | decode ext cycle s s' i _ hf ih =>
    exact ⟨CoreInv_decodeThread _ _ ext cycle s s' i ih.1 hf,
      WriteInv_decodeThread ext cycle s s' i ih.2 hf⟩
  | inject s s' _ hf ih =>
    exact ⟨CoreInv_injectTestInstruction _ _ s s' ih.1 hf,
      WriteInv_injectTestInstruction s s' ih.2 hf⟩
  | issue s s' i _ hf ih =>
    exact ⟨CoreInv_issueThread _ _ s s' i ih.1 hf, WriteInv_issueThread _ _ s s' i ih.1 ih.2 hf⟩
  | execute ext cycle s _ ih =>
    exact ⟨CoreInv_executeStage _ _ ext cycle s ih.1,
      WriteInv_executeStage _ _ ext cycle s ih.1 ih.2⟩
  | retire s s' i _ hf ih =>
    exact ⟨CoreInv_retireThread _ _ s s' i ih.1 hf,
      WriteInv_retireThread _ _ s s' i ih.1 ih.2 hf⟩

/-- Pending writes while no released cell is reused.  In every state a run of `tick`,
whose `new` is `allocIns`, passes through (between ticks and between the stage steps of
a tick, so also where the issue stage calls the check), for the issue-time table of a
thread `t`: while an instruction of the thread that has `r` as an output has been
renamed and is not yet retired (its object is issued and not yet deleted by the
retirement that applies `recoverRetiredRegisters` to it), `checkInstructionResources`
on that table returns non-zero for every instruction that has `r` as an input, whatever
the free stacks and the written-ahead sets (`r` a register of the table); when no such
writer is left, nothing is pending on `r`; and an instruction none of whose inputs has
such a writer passes the check as soon as the free stacks hold its output registers.
The proof rests on `WriteInv`, whose retire step needs `CoreInv.exec_issued`: it holds
because under `allocIns` the writes of a functional unit through the pointer of a retired
instruction are lost. -/
theorem pending_writes_without_reuse (params : Params) (s : VanadisComponent)
    (h : StageReachable params s) (t : Nat) (tbl : VanadisISATable)
    (ht : s.issue_isa_tables[t]? = some tbl) :
    (∀ r, r < tbl.int_reg_pending_write.length → InflightIntWriter s.heap t r →
      ∀ (ins : VanadisInstruction) (int_regs fp_regs : VanadisRegisterStack)
        (wa_int wa_fp : Finset Nat), r ∈ ins.isa_int_regs_in →
        (checkInstructionResources ins int_regs fp_regs tbl wa_int wa_fp).1 ≠ 0) ∧
    (∀ r, r < tbl.fp_reg_pending_write.length → InflightFPWriter s.heap t r →
      ∀ (ins : VanadisInstruction) (int_regs fp_regs : VanadisRegisterStack)
        (wa_int wa_fp : Finset Nat), r ∈ ins.isa_fp_regs_in →
        (checkInstructionResources ins int_regs fp_regs tbl wa_int wa_fp).1 ≠ 0) ∧
    (∀ r, ¬ InflightIntWriter s.heap t r → tbl.pendingIntWrites r = false) ∧
    (∀ r, ¬ InflightFPWriter s.heap t r → tbl.pendingFPWrites r = false) ∧
    (∀ (ins : VanadisInstruction) (int_regs fp_regs : VanadisRegisterStack),
      ins.countISAIntRegOut ≤ int_regs.unused → ins.countISAFPRegOut ≤ fp_regs.unused →
      (∀ r ∈ ins.isa_int_regs_in, ¬ InflightIntWriter s.heap t r) →
      (∀ r ∈ ins.isa_fp_regs_in, ¬ InflightFPWriter s.heap t r) →
      (checkInstructionResources ins int_regs fp_regs tbl ∅ ∅).1 = 0) := by
  have inv := (invariants_stageReachable params s h).2
  have hI : ∀ r, ¬ InflightIntWriter s.heap t r → tbl.pendingIntWrites r = false := by
    intro r hr
    simp only [VanadisISATable.pendingIntWrites, decide_eq_false_iff_not, Nat.not_lt,
      Nat.le_zero]
    by_cases hlt : r < tbl.int_reg_pending_write.length
    · rw [inv.count_int t tbl r ht hlt]
      exact (inflightIntWrites_eq_zero_iff _ _ _).mpr hr
    · exact getD_of_length_le _ _ (Nat.le_of_not_lt hlt)
  have hF : ∀ r, ¬ InflightFPWriter s.heap t r → tbl.pendingFPWrites r = false := by
    intro r hr
    simp only [VanadisISATable.pendingFPWrites, decide_eq_false_iff_not, Nat.not_lt,
      Nat.le_zero]
    by_cases hlt : r < tbl.fp_reg_pending_write.length
    · rw [inv.count_fp t tbl r ht hlt]
      exact (inflightFPWrites_eq_zero_iff _ _ _).mpr hr
    · exact getD_of_length_le _ _ (Nat.le_of_not_lt hlt)
  refine ⟨?_, ?_, hI, hF, ?_⟩
  · intro r hlt hw ins int_regs fp_regs wa_int wa_fp hr hchk
    rw [checkInstructionResources_eq_zero_iff] at hchk
    have hp := (hchk.2.1 r hr).1
    simp only [VanadisISATable.pendingIntWrites, decide_eq_false_iff_not, Nat.not_lt,
      Nat.le_zero] at hp
    rw [inv.count_int t tbl r ht hlt] at hp
    exact (inflightIntWrites_eq_zero_iff _ _ _).mp hp hw
  · intro r hlt hw ins int_regs fp_regs wa_int wa_fp hr hchk
    rw [checkInstructionResources_eq_zero_iff] at hchk
    have hp := (hchk.2.2 r hr).1
    simp only [VanadisISATable.pendingFPWrites, decide_eq_false_iff_not, Nat.not_lt,
      Nat.le_zero] at hp
    rw [inv.count_fp t tbl r ht hlt] at hp
    exact (inflightFPWrites_eq_zero_iff _ _ _).mp hp hw
  · intro ins int_regs fp_regs h1 h2 h3 h4
    rw [checkInstructionResources_eq_zero_iff]
    exact ⟨⟨h1, h2⟩, fun r hr => ⟨hI r (h3 r hr), Finset.not_mem_empty r⟩,
      fun r hr => ⟨hF r (h4 r hr), Finset.not_mem_empty r⟩⟩

/-- The pending write on an example: one tick after construction with `exampleParams` the
first test instruction `r3 := r4 + r5` has been renamed and is not retired, and the second,
`r1 := r3 + imm`, which reads `r3`, fails the resource check on the thread's issue-time
table; no writer of `r4` is in flight and nothing is pending on `r4`. -/
theorem pending_writes_without_reuse_example :
    ∃ s tbl, Reachable exampleParams s ∧ s.issue_isa_tables[0]? = some tbl ∧
      InflightIntWriter s.heap 0 3 ∧
      (checkInstructionResources (VanadisAddImmInstruction 1 1 0 1 3)
        { max_capacity := 24, regs := [17, 18, 19, 20, 21, 22, 23] }
        { max_capacity := 8, regs := [4, 5, 6, 7] } tbl ∅ ∅).1 ≠ 0 ∧
      ¬ InflightIntWriter s.heap 0 4 ∧ tbl.pendingIntWrites 4 = false := by
  obtain ⟨s, tbl, hs, ht, ⟨W, hW, w1, w2, w3⟩, hz, hlen⟩ :
      ∃ s tbl, run exampleParams quietExternal 1 = .ok s ∧
        s.issue_isa_tables[0]? = some tbl ∧
        (∃ W, derefIns s.heap 0 = some W ∧ W.hasIssued = true ∧ W.getHWThread = 0 ∧
          3 ∈ W.isa_int_regs_out) ∧
        inflightIntWrites s.heap 0 4 = 0 ∧ 3 < tbl.int_reg_pending_write.length := by
    refine ⟨_, _, rfl, rfl, ⟨_, rfl, ?_, ?_, ?_⟩, ?_, ?_⟩ <;> decide
  have hr := run_reachable _ _ _ _ hs
  have hw : InflightIntWriter s.heap 0 3 := ⟨0, W, hW, w1, w2, w3⟩
  have hn : ¬ InflightIntWriter s.heap 0 4 := (inflightIntWrites_eq_zero_iff _ _ _).mp hz
  obtain ⟨c1, _, c3, _, _⟩ :=
    pending_writes_without_reuse exampleParams s (StageReachable.boundary s hr) 0 tbl ht
  exact ⟨s, tbl, hr, ht, hw,
    c1 3 hlen hw (VanadisAddImmInstruction 1 1 0 1 3) _ _ ∅ ∅ (by decide), hn, c3 4 hn⟩

/-- A thread's issue step that leaves the decoded queues as they were (the head, if any,
is still the head) has changed no instruction object, no free stack and no issue-time
table. -/
theorem issueThread_stall (s s' : VanadisComponent) (i : Nat)
    (h : issueThread s i = .ok s') (hq : s'.thread_decoders = s.thread_decoders) :
    s'.heap = s.heap ∧ s'.int_register_stacks = s.int_register_stacks ∧
    s'.fp_register_stacks = s.fp_register_stacks ∧
    s'.issue_isa_tables = s.issue_isa_tables := by
  rcases issueThread_ok_cases s s' i h with ⟨rfl, _⟩ |
    ⟨dec, p, rest, ins, int_regs, fp_regs, isa_table, _, hd, hdq, _, _, _, _, hcase⟩
  · exact ⟨rfl, rfl, rfl, rfl⟩
  · rcases hcase with ⟨_, rfl⟩ | ⟨_, d, hdisp, hcase2⟩
    · exact ⟨rfl, rfl, rfl, rfl⟩
    · obtain ⟨f1, f2, f3, f4, _, f6, _, _, _⟩ := dispatch_frame _ _ _ _ hdisp
      rcases hcase2 with ⟨_, rfl⟩ | ⟨_, st, _, rfl⟩
      · exact ⟨f6, f2, f3, f4⟩
      · exfalso
        have e1 : (s.thread_decoders.set i { dec with decoded_q := rest })[i]?
            = some { dec with decoded_q := rest } :=
          getElem?_set_self_of_some _ _ _ _ hd
        have e2 : (s.thread_decoders.set i { dec with decoded_q := rest })[i]? = some dec := by
          have hq1 : d.2.thread_decoders.set i { dec with decoded_q := rest }
              = s.thread_decoders := hq
          rw [f1] at hq1
          have this : s.thread_decoders.set i { dec with decoded_q := rest }
              = s.thread_decoders := hq1
          rw [this]
          exact hd
        rw [e1] at e2
        have e3 := congrArg VanadisDecoder.decoded_q (Option.some.inj e2)
        simp only [hdq] at e3
        have := congrArg List.length e3
        simp at this

/-! ## The decoded queues across a tick -/

theorem queueGrows_of_eq (a b : VanadisComponent) (h : b.thread_decoders = a.thread_decoders) :
    QueueGrows a b :=
  fun _ dec hk => ⟨dec, [], by rw [h]; exact hk, by simp⟩

/-- The issue step of an unhalted thread whose decoded queue has the head `p`: the
resource check is called with both written-ahead sets empty, and what follows depends on
its result only through the switch and the rename. -/
theorem issueThread_at_head (s : VanadisComponent) (i : Nat) (dec : VanadisDecoder)
    (p : InsPtr) (rest : List InsPtr) (ins : VanadisInstruction)
    (int_regs fp_regs : VanadisRegisterStack) (isa_table : VanadisISATable)
    (hh : s.halted_masks[i]? = some false)
    (hd : s.thread_decoders[i]? = some dec) (hq : dec.decoded_q = p :: rest)
    (hp : derefIns s.heap p = some ins)
    (hi : s.int_register_stacks[i]? = some int_regs)
    (hf : s.fp_register_stacks[i]? = some fp_regs)
    (ht : s.issue_isa_tables[i]? = some isa_table) :
    issueThread s i =
      if (checkInstructionResources ins int_regs fp_regs isa_table ∅ ∅).1 = 0 then
        match dispatch ins.getInstFuncType p { s with
          tmp_raw_int := (checkInstructionResources ins int_regs fp_regs isa_table ∅ ∅).2.1,
          tmp_raw_fp := (checkInstructionResources ins int_regs fp_regs isa_table ∅ ∅).2.2 } with
        | .error e => .error e
        | .ok d =>
          if d.1 then
            match assignRegistersToInstruction ins int_regs fp_regs isa_table with
            | .error e => .error e
            | .ok st =>
              .ok { d.2 with
                int_register_stacks := d.2.int_register_stacks.set i st.int_regs,
                fp_register_stacks := d.2.fp_register_stacks.set i st.fp_regs,
                issue_isa_tables := d.2.issue_isa_tables.set i st.isa_table,
                thread_decoders := d.2.thread_decoders.set i { dec with decoded_q := rest },
                heap := d.2.heap.set p (some st.ins.markIssued) }
          else .ok d.2
      else .ok { s with
        tmp_raw_int := (checkInstructionResources ins int_regs fp_regs isa_table ∅ ∅).2.1,
        tmp_raw_fp := (checkInstructionResources ins int_regs fp_regs isa_table ∅ ∅).2.2 } := by
  unfold issueThread
  simp only [bind, Except.bind, (vecAt_eq_ok _ _ _).mpr hh, (vecAt_eq_ok _ _ _).mpr hd,
    (vecAt_eq_ok _ _ _).mpr hi, (vecAt_eq_ok _ _ _).mpr hf, (vecAt_eq_ok _ _ _).mpr ht,
    hq, hp, Bool.false_eq_true, if_false]
  split
  · generalize dispatch ins.getInstFuncType p _ = r
    cases r with
    | error e => rfl
    | ok d =>
      show (if d.1 = true then _ else _) = (if d.1 = true then _ else _)
      split
      · generalize assignRegistersToInstruction ins int_regs fp_regs isa_table = a
        cases a <;> rfl
      · rfl
  · rfl

/-- Inserting the values `f i` for the `i` of a list, one after the other. -/
theorem foldl_insert_eq (f : Nat → Nat) (l : List Nat) (wa : Finset Nat) :
    l.foldl (fun s i => insert (f i) s) wa = wa ∪ (l.map f).toFinset := by
  induction l generalizing wa with
  | nil => simp
  | cons a l ih =>
    simp only [List.foldl_cons, List.map_cons, List.toFinset_cons]
    rw [ih]
    ext x
    simp only [Finset.mem_union, Finset.mem_insert, List.mem_toFinset]
    tauto

/-- The two written-ahead sets as `checkInstructionResources` leaves them: the integer
outputs are added to the first, and to the second the values `getISAIntRegOut(i)` for the
`i` below the number of floating-point outputs. -/
theorem checkInstructionResources_sets (ins : VanadisInstruction)
    (int_regs fp_regs : VanadisRegisterStack) (isa_table : VanadisISATable)
    (wa_int wa_fp : Finset Nat) :
    (checkInstructionResources ins int_regs fp_regs isa_table wa_int wa_fp).2.1
      = wa_int ∪ ins.isa_int_regs_out.toFinset ∧
    (checkInstructionResources ins int_regs fp_regs isa_table wa_int wa_fp).2.2
      = wa_fp ∪ ((List.range ins.countISAFPRegOut).map ins.getISAIntRegOut).toFinset := by
  constructor
  · show (List.range ins.countISAIntRegOut).foldl
      (fun s i => insert (ins.getISAIntRegOut i) s) wa_int = _
    rw [foldl_insert_eq]
    have e : (List.range ins.countISAIntRegOut).map ins.getISAIntRegOut
        = ins.isa_int_regs_out := range_map_getD ins.isa_int_regs_out
    rw [e]
  · show (List.range ins.countISAFPRegOut).foldl
      (fun s i => insert (ins.getISAIntRegOut i) s) wa_fp = _
    rw [foldl_insert_eq]

/-- C21. `checkInstructionResources` reads the free stacks and the issue-time table
(`unused()`, `pending*Writes()`) and hands back its status and the two written-ahead sets,
to which it only adds: for every instruction, stacks, table and sets, the sets it leaves
are the sets it was given with the register numbers of its two output loops added.  Seen
where `tick` calls it, for an unhalted thread with a decoded instruction at the head:
when the status is not 0 the issue step ends in the state it started from with the two
sets replaced by those of the check, every free stack, table, queue and instruction
object as before; when the status is 0 the switch is entered with that same state, and
the rename that follows an allocation receives the stacks and the table exactly as the
check received them. -/
theorem check_modifies_only_written_ahead_sets :
    (∀ (ins : VanadisInstruction) (int_regs fp_regs : VanadisRegisterStack)
        (isa_table : VanadisISATable) (wa_int wa_fp : Finset Nat),
      (checkInstructionResources ins int_regs fp_regs isa_table wa_int wa_fp).2.1
        = wa_int ∪ ins.isa_int_regs_out.toFinset ∧
      (checkInstructionResources ins int_regs fp_regs isa_table wa_int wa_fp).2.2
        = wa_fp ∪ ((List.range ins.countISAFPRegOut).map ins.getISAIntRegOut).toFinset) ∧
    (∀ (s : VanadisComponent) (i : Nat) (dec : VanadisDecoder) (p : InsPtr)
        (rest : List InsPtr) (ins : VanadisInstruction)
        (int_regs fp_regs : VanadisRegisterStack) (isa_table : VanadisISATable),
      s.halted_masks[i]? = some false →
      s.thread_decoders[i]? = some dec → dec.decoded_q = p :: rest →
      derefIns s.heap p = some ins →
      s.int_register_stacks[i]? = some int_regs →
      s.fp_register_stacks[i]? = some fp_regs →
      s.issue_isa_tables[i]? = some isa_table →
      ((checkInstructionResources ins int_regs fp_regs isa_table ∅ ∅).1 ≠ 0 →
        issueThread s i = .ok { s with
          tmp_raw_int := (checkInstructionResources ins int_regs fp_regs isa_table ∅ ∅).2.1,
          tmp_raw_fp := (checkInstructionResources ins int_regs fp_regs isa_table ∅ ∅).2.2 }) ∧
      ((checkInstructionResources ins int_regs fp_regs isa_table ∅ ∅).1 = 0 →
        issueThread s i =
          match dispatch ins.getInstFuncType p { s with
            tmp_raw_int := (checkInstructionResources ins int_regs fp_regs isa_table ∅ ∅).2.1,
            tmp_raw_fp := (checkInstructionResources ins int_regs fp_regs isa_table ∅ ∅).2.2 } with
          | .error e => .error e
          | .ok d =>
            if d.1 then
              match assignRegistersToInstruction ins int_regs fp_regs isa_table with
              | .error e => .error e
              | .ok st =>
                .ok { d.2 with
                  int_register_stacks := d.2.int_register_stacks.set i st.int_regs,
                  fp_register_stacks := d.2.fp_register_stacks.set i st.fp_regs,
                  issue_isa_tables := d.2.issue_isa_tables.set i st.isa_table,
                  thread_decoders := d.2.thread_decoders.set i { dec with decoded_q := rest },
                  heap := d.2.heap.set p (some st.ins.markIssued) }
            else .ok d.2)) := by
  refine ⟨checkInstructionResources_sets, ?_⟩
  intro s i dec p rest ins int_regs fp_regs isa_table hh hd hq hp hi hf ht
  refine ⟨fun hc => ?_, fun hc => ?_⟩
  · rw [issueThread_at_head s i dec p rest ins int_regs fp_regs isa_table hh hd hq hp hi hf ht,
      if_neg hc]
  · rw [issueThread_at_head s i dec p rest ins int_regs fp_regs isa_table hh hd hq hp hi hf ht,
      if_pos hc]

/-- C21 exercised on the addition `r2 := r3 + r3` behind a pending write of `r3`: the
check fails, and the issue step changes the integer written-ahead set to `{2}` and
nothing else. -/
theorem check_modifies_only_written_ahead_sets_witness :
    (checkInstructionResources (VanadisAddInstruction 1 4 0 2 3 3)
      { max_capacity := 6, regs := [5] } { max_capacity := 4, regs := [2, 3] }
      exampleIssuedAddTable ∅ ∅) = (1, {2}, ∅) ∧
    issueThread exampleTwoInRobCore 0 = .ok { exampleTwoInRobCore with tmp_raw_int := {2} } :=
  ⟨by decide,
   (check_modifies_only_written_ahead_sets.2 exampleTwoInRobCore 0 _ 1 [] _ _ _ _
      rfl rfl rfl rfl rfl rfl rfl).1 (by decide)⟩

/-- C26. The issue step clears both written-ahead sets before it looks at the thread and
calls `checkInstructionResources` at most once, on the head of the decoded queue, with the
cleared sets: whatever the sets held when the step began (what an earlier thread's check
left there) has no influence on the step.  With both sets empty the check returns 0
exactly when the free stacks cover the output counts and no input register has a pending
write; so the step of an unhalted thread with the head `p` stays at the check exactly
when one of these fails, and enters the switch otherwise. -/
theorem written_ahead_sets_empty_at_check :
    (∀ (s : VanadisComponent) (wa_int wa_fp : Finset Nat) (i : Nat),
      issueThread { s with tmp_raw_int := wa_int, tmp_raw_fp := wa_fp } i = issueThread s i) ∧
    (∀ (ins : VanadisInstruction) (int_regs fp_regs : VanadisRegisterStack)
        (isa_table : VanadisISATable),
      (checkInstructionResources ins int_regs fp_regs isa_table ∅ ∅).1 = 0 ↔
        ins.countISAIntRegOut ≤ int_regs.unused ∧ ins.countISAFPRegOut ≤ fp_regs.unused ∧
        (∀ r ∈ ins.isa_int_regs_in, isa_table.pendingIntWrites r = false) ∧
        (∀ r ∈ ins.isa_fp_regs_in, isa_table.pendingFPWrites r = false)) ∧
    (∀ (s : VanadisComponent) (i : Nat) (dec : VanadisDecoder) (p : InsPtr)
        (rest : List InsPtr) (ins : VanadisInstruction)
        (int_regs fp_regs : VanadisRegisterStack) (isa_table : VanadisISATable),
      s.halted_masks[i]? = some false →
      s.thread_decoders[i]? = some dec → dec.decoded_q = p :: rest →
      derefIns s.heap p = some ins →
      s.int_register_stacks[i]? = some int_regs →
      s.fp_register_stacks[i]? = some fp_regs →
      s.issue_isa_tables[i]? = some isa_table →
      (¬ (ins.countISAIntRegOut ≤ int_regs.unused ∧ ins.countISAFPRegOut ≤ fp_regs.unused ∧
          (∀ r ∈ ins.isa_int_regs_in, isa_table.pendingIntWrites r = false) ∧
          (∀ r ∈ ins.isa_fp_regs_in, isa_table.pendingFPWrites r = false)) →
        issueThread s i = .ok { s with
          tmp_raw_int := (checkInstructionResources ins int_regs fp_regs isa_table ∅ ∅).2.1,
          tmp_raw_fp := (checkInstructionResources ins int_regs fp_regs isa_table ∅ ∅).2.2 }) ∧
      (ins.countISAIntRegOut ≤ int_regs.unused ∧ ins.countISAFPRegOut ≤ fp_regs.unused ∧
          (∀ r ∈ ins.isa_int_regs_in, isa_table.pendingIntWrites r = false) ∧
          (∀ r ∈ ins.isa_fp_regs_in, isa_table.pendingFPWrites r = false) →
        issueThread s i =
          match dispatch ins.getInstFuncType p { s with
            tmp_raw_int := (checkInstructionResources ins int_regs fp_regs isa_table ∅ ∅).2.1,
            tmp_raw_fp := (checkInstructionResources ins int_regs fp_regs isa_table ∅ ∅).2.2 } with
          | .error e => .error e
          | .ok d =>
            if d.1 then
              match assignRegistersToInstruction ins int_regs fp_regs isa_table with
              | .error e => .error e
              | .ok st =>
                .ok { d.2 with
                  int_register_stacks := d.2.int_register_stacks.set i st.int_regs,
                  fp_register_stacks := d.2.fp_register_stacks.set i st.fp_regs,
                  issue_isa_tables := d.2.issue_isa_tables.set i st.isa_table,
                  thread_decoders := d.2.thread_decoders.set i { dec with decoded_q := rest },
                  heap := d.2.heap.set p (some st.ins.markIssued) }
            else .ok d.2)) := by
  have hiff : ∀ (ins : VanadisInstruction) (int_regs fp_regs : VanadisRegisterStack)
      (isa_table : VanadisISATable),
      (checkInstructionResources ins int_regs fp_regs isa_table ∅ ∅).1 = 0 ↔
        ins.countISAIntRegOut ≤ int_regs.unused ∧ ins.countISAFPRegOut ≤ fp_regs.unused ∧
        (∀ r ∈ ins.isa_int_regs_in, isa_table.pendingIntWrites r = false) ∧
        (∀ r ∈ ins.isa_fp_regs_in, isa_table.pendingFPWrites r = false) := by
    intro ins int_regs fp_regs isa_table
    rw [checkInstructionResources_eq_zero_iff]
    constructor
    · rintro ⟨⟨a, b⟩, c, d⟩
      exact ⟨a, b, fun r hr => (c r hr).1, fun r hr => (d r hr).1⟩
    · rintro ⟨a, b, c, d⟩
      exact ⟨⟨a, b⟩, fun r hr => ⟨c r hr, Finset.not_mem_empty r⟩,
        fun r hr => ⟨d r hr, Finset.not_mem_empty r⟩⟩
  refine ⟨fun s wa_int wa_fp i => rfl, hiff, ?_⟩
  intro s i dec p rest ins int_regs fp_regs isa_table hh hd hq hp hi hf ht
  constructor
  · intro hn
    rw [issueThread_at_head s i dec p rest ins int_regs fp_regs isa_table hh hd hq hp hi hf ht,
      if_neg (fun hc => hn ((hiff _ _ _ _).mp hc))]
  · intro hy
    rw [issueThread_at_head s i dec p rest ins int_regs fp_regs isa_table hh hd hq hp hi hf ht,
      if_pos ((hiff _ _ _ _).mpr hy)]

/-- C26 exercised: the issue step of the example core gives the same result when it starts
with the written-ahead sets `{1, 2}` and `{0}`, which name both inputs of the addition at
the head; the check of the addition with empty sets returns 0, and the step that starts
behind a pending write of `r3` stays at the check. -/
theorem written_ahead_sets_empty_at_check_witness :
    issueThread { exampleAddCore with tmp_raw_int := {1, 2}, tmp_raw_fp := {0} } 0
      = issueThread exampleAddCore 0 ∧
    (checkInstructionResources (VanadisAddInstruction 0 0 0 3 1 2)
      { max_capacity := 6, regs := [4, 5] } { max_capacity := 4, regs := [2, 3] }
      exampleTable ∅ ∅).1 = 0 ∧
    issueThread exampleTwoInRobCore 0 = .ok { exampleTwoInRobCore with tmp_raw_int := {2} } :=
  ⟨written_ahead_sets_empty_at_check.1 exampleAddCore {1, 2} {0} 0,
   (written_ahead_sets_empty_at_check.2.1 _ _ _ _).mpr (by decide),
   (written_ahead_sets_empty_at_check.2.2 exampleTwoInRobCore 0 _ 1 [] _ _ _ _
      rfl rfl rfl rfl rfl rfl rfl).1 (by decide)⟩

/-- A failed vector access is `badAccess`. -/
theorem vecAt_error {α : Type} (v : List α) (i : Nat) (e : Fault)
    (h : vecAt v i = .error e) : e = .badAccess := by
  unfold vecAt at h
  cases hv : v[i]? with
  | none => simp only [hv] at h; cases h; rfl
  | some x => simp only [hv] at h; cases h

/-- The issue switch fails only with the fatal error, and only for a class it has no
case for. -/
theorem dispatch_error (ft : VanadisFunctionalUnitType) (p : InsPtr) (s : VanadisComponent)
    (e : Fault) (h : dispatch ft p s = .error e) : e = .fatal ∧ ft = .INST_OTHER := by
  cases ft <;> simp only [dispatch] at h
  case INST_OTHER => cases h; exact ⟨rfl, rfl⟩
  case INST_LOAD => split at h <;> cases h
  case INST_STORE => split at h <;> cases h
  all_goals cases h

/-- After a passed resource check the rename returns. -/
theorem assign_ok_of_check (ins : VanadisInstruction)
    (int_regs fp_regs : VanadisRegisterStack) (isa_table : VanadisISATable)
    (wa_int wa_fp : Finset Nat)
    (h : (checkInstructionResources ins int_regs fp_regs isa_table wa_int wa_fp).1 = 0) :
    ∃ st, assignRegistersToInstruction ins int_regs fp_regs isa_table = .ok st := by
  have hc := (checkInstructionResources_eq_zero_iff ins int_regs fp_regs isa_table
    wa_int wa_fp).mp h
  obtain ⟨st, hst, _⟩ := assignRegistersToInstruction_closed ins int_regs fp_regs isa_table
    hc.1.1 hc.1.2
  exact ⟨st, hst⟩

/-- How the issue step can fail: through an access outside one of the driver's vectors or
through a dangling pointer, or through the fatal error of the switch on an unhandled
class.  It never fails in the rename. -/
theorem issueThread_error_cases (s : VanadisComponent) (i : Nat) (e : Fault)
    (h : issueThread s i = .error e) :
    e = .badAccess ∨
    (e = .fatal ∧ ∃ dec p rest ins int_regs fp_regs isa_table,
      s.halted_masks[i]? = some false ∧
      s.thread_decoders[i]? = some dec ∧ dec.decoded_q = p :: rest ∧
      derefIns s.heap p = some ins ∧
      s.int_register_stacks[i]? = some int_regs ∧
      s.fp_register_stacks[i]? = some fp_regs ∧
      s.issue_isa_tables[i]? = some isa_table ∧
      (checkInstructionResources ins int_regs fp_regs isa_table ∅ ∅).1 = 0 ∧
      ins.getInstFuncType = .INST_OTHER) := by
  have h0 := h
  unfold issueThread at h
  simp only [bind, Except.bind] at h
  cases hh : vecAt s.halted_masks i with
  | error e1 =>
    simp only [hh] at h
    cases h; exact Or.inl (vecAt_error _ _ _ hh)
  | ok halted =>
    simp only [hh] at h
    rw [vecAt_eq_ok] at hh
    cases halted with
    | true => simp at h
    | false =>
      simp only [Bool.false_eq_true, if_false] at h
      cases hd : vecAt s.thread_decoders i with
      | error e1 =>
        simp only [hd] at h
        cases h; exact Or.inl (vecAt_error _ _ _ hd)
      | ok dec =>
        simp only [hd] at h
        rw [vecAt_eq_ok] at hd
        cases hq : dec.decoded_q with
        | nil => simp [hq] at h
        | cons p rest =>
          simp only [hq] at h
          cases hp : derefIns s.heap p with
          | none =>
            simp only [hp] at h
            cases h; exact Or.inl rfl
          | some ins =>
            simp only [hp] at h
            cases hi : vecAt s.int_register_stacks i with
            | error e1 =>
              simp only [hi] at h
              cases h; exact Or.inl (vecAt_error _ _ _ hi)
            | ok int_regs =>
              simp only [hi] at h
              cases hf : vecAt s.fp_register_stacks i with
              | error e1 =>
                simp only [hf] at h
                cases h; exact Or.inl (vecAt_error _ _ _ hf)
              | ok fp_regs =>
                simp only [hf] at h
                cases ht : vecAt s.issue_isa_tables i with
                | error e1 =>
                  simp only [ht] at h
                  cases h; exact Or.inl (vecAt_error _ _ _ ht)
                | ok isa_table =>
                  rw [vecAt_eq_ok] at hi hf ht
                  rw [issueThread_at_head s i dec p rest ins int_regs fp_regs isa_table
                    hh hd hq hp hi hf ht] at h0
                  by_cases hc :
                      (checkInstructionResources ins int_regs fp_regs isa_table ∅ ∅).1 = 0
                  · rw [if_pos hc] at h0
                    cases hdx : dispatch ins.getInstFuncType p { s with
                      tmp_raw_int :=
                        (checkInstructionResources ins int_regs fp_regs isa_table ∅ ∅).2.1,
                      tmp_raw_fp :=
                        (checkInstructionResources ins int_regs fp_regs isa_table ∅ ∅).2.2 } with
                    | error e1 =>
                      rw [hdx] at h0
                      cases h0
                      obtain ⟨he, hcl⟩ := dispatch_error _ _ _ _ hdx
                      exact Or.inr ⟨he, dec, p, rest, ins, int_regs, fp_regs, isa_table,
                        hh, hd, hq, hp, hi, hf, ht, hc, hcl⟩
                    | ok d =>
                      rw [hdx] at h0
                      obtain ⟨st, hst⟩ := assign_ok_of_check ins int_regs fp_regs isa_table
                        ∅ ∅ hc
                      simp only [hst] at h0
                      split at h0 <;> cases h0
                  · rw [if_neg hc] at h0
                    cases h0

/-- C24. For an instruction whose functional-unit class is none of the six the issue
switch handles, the switch (the dispatch by class of the issue stage) ends in the fatal
error, in whatever state it is entered.  The issue step of `tick` enters it for the head
of an unhalted thread's decoded queue once the resource check has returned 0, and then
the step ends in that fault: it is raised in the state `s` changed in the two
written-ahead sets only, before the rename and the pop of the decoded queue, which follow
the switch, and there is no successor state.  This is the only way the issue step ends in
the fatal error: whenever it does, the thread is unhalted and the head of its decoded
queue is an instruction of an unhandled class that has passed the resource check. -/
theorem unhandled_class_is_fatal_at_dispatch (ins : VanadisInstruction)
    (h1 : ins.getInstFuncType ≠ .INST_INT_ARITH) (h2 : ins.getInstFuncType ≠ .INST_FP_ARITH)
    (h3 : ins.getInstFuncType ≠ .INST_LOAD) (h4 : ins.getInstFuncType ≠ .INST_STORE)
    (h5 : ins.getInstFuncType ≠ .INST_INT_DIV) (h6 : ins.getInstFuncType ≠ .INST_FP_DIV) :
    (∀ (p : InsPtr) (s0 : VanadisComponent),
      dispatch ins.getInstFuncType p s0 = .error .fatal) ∧
    (∀ (s : VanadisComponent) (i : Nat) (dec : VanadisDecoder) (p : InsPtr)
        (rest : List InsPtr) (int_regs fp_regs : VanadisRegisterStack)
        (isa_table : VanadisISATable),
      s.halted_masks[i]? = some false →
      s.thread_decoders[i]? = some dec → dec.decoded_q = p :: rest →
      derefIns s.heap p = some ins →
      s.int_register_stacks[i]? = some int_regs →
      s.fp_register_stacks[i]? = some fp_regs →
      s.issue_isa_tables[i]? = some isa_table →
      (checkInstructionResources ins int_regs fp_regs isa_table ∅ ∅).1 = 0 →
      issueThread s i = .error .fatal ∧
      issueThread s i = (dispatch ins.getInstFuncType p { s with
        tmp_raw_int := (checkInstructionResources ins int_regs fp_regs isa_table ∅ ∅).2.1,
        tmp_raw_fp := (checkInstructionResources ins int_regs fp_regs isa_table ∅ ∅).2.2 }).map
          (fun d => d.2)) ∧
    (∀ (t : VanadisComponent) (j : Nat), issueThread t j = .error .fatal →
      ∃ dec' p' rest' ins' int_regs' fp_regs' isa_table',
        t.halted_masks[j]? = some false ∧
        t.thread_decoders[j]? = some dec' ∧ dec'.decoded_q = p' :: rest' ∧
        derefIns t.heap p' = some ins' ∧
        t.int_register_stacks[j]? = some int_regs' ∧
        t.fp_register_stacks[j]? = some fp_regs' ∧
        t.issue_isa_tables[j]? = some isa_table' ∧
        (checkInstructionResources ins' int_regs' fp_regs' isa_table' ∅ ∅).1 = 0 ∧
        ins'.getInstFuncType = .INST_OTHER) := by
  have hd0 : ∀ (p : InsPtr) (s0 : VanadisComponent),
      dispatch ins.getInstFuncType p s0 = .error .fatal := by
    intro p s0
    cases hcl : ins.getInstFuncType with
    | INST_OTHER => rfl
    | INST_INT_ARITH => exact absurd hcl h1
    | INST_FP_ARITH => exact absurd hcl h2
    | INST_LOAD => exact absurd hcl h3
    | INST_STORE => exact absurd hcl h4
    | INST_INT_DIV => exact absurd hcl h5
    | INST_FP_DIV => exact absurd hcl h6
  refine ⟨hd0, ?_, ?_⟩
  · intro s i dec p rest int_regs fp_regs isa_table hh hd hq hp hi hf ht hc
    have e : issueThread s i = .error .fatal := by
      rw [issueThread_at_head s i dec p rest ins int_regs fp_regs isa_table hh hd hq hp hi hf
        ht, if_pos hc, hd0]
    refine ⟨e, ?_⟩
    rw [e, hd0]
    rfl
  · intro t j hx
    rcases issueThread_error_cases t j _ hx with he | ⟨_, hex⟩
    · cases he
    · exact hex

/-- C24 exercised on the core whose decoded queue holds one instruction of an unhandled
class that passes the resource check. -/
theorem unhandled_class_is_fatal_at_dispatch_witness :
    exampleOtherClass.getInstFuncType = .INST_OTHER ∧
    dispatch exampleOtherClass.getInstFuncType 0 exampleOtherClassCore = .error .fatal ∧
    issueThread exampleOtherClassCore 0 = .error .fatal :=
  ⟨rfl,
   (unhandled_class_is_fatal_at_dispatch exampleOtherClass (by decide) (by decide) (by decide)
      (by decide) (by decide) (by decide)).1 0 exampleOtherClassCore,
   ((unhandled_class_is_fatal_at_dispatch exampleOtherClass (by decide) (by decide) (by decide)
      (by decide) (by decide) (by decide)).2.1 exampleOtherClassCore 0 _ 0 [] _ _ _
      rfl rfl rfl rfl rfl rfl rfl (by decide)).1⟩

/-- A failing fold fails in one of its steps. -/
theorem foldlM_error {σ α : Type} (f : σ → α → Except Fault σ) :
    ∀ (l : List α) (s : σ) (e : Fault), l.foldlM f s = .error e →
      ∃ s0 x, f s0 x = .error e := by
  intro l
  induction l with
  | nil => intro s e h; cases h
  | cons a l ih =>
    intro s e h
    simp only [List.foldlM_cons, bind, Except.bind] at h
    cases hf : f s a with
    | error e1 =>
      simp only [hf] at h
      cases h
      exact ⟨s, a, hf⟩
    | ok s1 =>
      simp only [hf] at h
      exact ih s1 e h

/-- The fetch step never ends in a pop from an empty register stack. -/
theorem fetchThread_no_exhaustion (s : VanadisComponent) (i : Nat) :
    fetchThread s i ≠ .error .exhaustion := by
  intro h
  unfold fetchThread at h
  simp only [bind, Except.bind] at h
  cases hh : vecAt s.halted_masks i with
  | error e1 =>
    simp only [hh] at h
    cases h; cases vecAt_error _ _ _ hh
  | ok halted =>
    simp only [hh] at h
    cases halted with
    | true => simp at h
    | false =>
      simp only [Bool.false_eq_true, if_false] at h
      cases hd : vecAt s.thread_decoders i with
      | error e1 =>
        simp only [hd] at h
        cases h; cases vecAt_error _ _ _ hd
      | ok dec =>
        simp only [hd] at h
        split at h <;> cases h

/-- The decode step never ends in a pop from an empty register stack. -/
theorem decodeThread_no_exhaustion (ext : External) (cycle : Nat) (s : VanadisComponent)
    (i : Nat) : decodeThread ext cycle s i ≠ .error .exhaustion := by
  intro h
  unfold decodeThread at h
  simp only [bind, Except.bind] at h
  cases hh : vecAt s.halted_masks i with
  | error e1 =>
    simp only [hh] at h
    cases h; cases vecAt_error _ _ _ hh
  | ok halted =>
    simp only [hh] at h
    cases halted with
    | true => simp at h
    | false =>
      simp only [Bool.false_eq_true, if_false] at h
      cases hd : vecAt s.thread_decoders i with
      | error e1 =>
        simp only [hd] at h
        cases h; cases vecAt_error _ _ _ hd
      | ok dec =>
        simp only [hd] at h
        cases h

/-- Creating a test instruction fails only on a vector access or on a full ROB. -/
theorem pushTestInstruction_no_exhaustion (s : VanadisComponent)
    (mk : Nat → VanadisInstruction) : pushTestInstruction s mk ≠ .error .exhaustion := by
  intro h
  unfold pushTestInstruction at h
  simp only [bind, Except.bind] at h
  cases hd : vecAt s.thread_decoders 0 with
  | error e1 =>
    simp only [hd] at h
    cases h; cases vecAt_error _ _ _ hd
  | ok dec =>
    simp only [hd] at h
    cases hr : vecAt s.rob 0 with
    | error e1 =>
      simp only [hr] at h
      cases h; cases vecAt_error _ _ _ hr
    | ok rob_0 =>
      simp only [hr] at h
      cases hpush : rob_0.push (allocIns s.heap (mk s.nextInsID)).1 with
      | error e1 =>
        simp only [hpush] at h
        cases h
        unfold VanadisCircularQueue.push at hpush
        split at hpush <;> cases hpush
      | ok rob_1 =>
        simp only [hpush] at h
        cases h

/-- The injection of the test instruction never ends in a pop from an empty stack. -/
theorem injectTestInstruction_no_exhaustion (s : VanadisComponent) :
    injectTestInstruction s ≠ .error .exhaustion := by
  intro h
  unfold injectTestInstruction at h
  simp only [bind, Except.bind] at h
  cases hd : vecAt s.thread_decoders 0 with
  | error e1 =>
    simp only [hd] at h
    cases h; cases vecAt_error _ _ _ hd
  | ok dec =>
    simp only [hd] at h
    split at h
    · exact pushTestInstruction_no_exhaustion _ _ h
    · cases h

/-- The retire step never ends in a pop from an empty register stack. -/
theorem retireThread_no_exhaustion (s : VanadisComponent) (i : Nat) :
    retireThread s i ≠ .error .exhaustion := by
  intro h
  unfold retireThread at h
  simp only [bind, Except.bind] at h
  cases hr : vecAt s.rob i with
  | error e1 =>
    simp only [hr] at h
    cases h; cases vecAt_error _ _ _ hr
  | ok rob_i =>
    simp only [hr] at h
    cases hpk : rob_i.peek with
    | none => simp [hpk] at h
    | some rob_front =>
      simp only [hpk] at h
      cases hp : derefIns s.heap rob_front with
      | none => simp [hp] at h
      | some ins =>
        simp only [hp] at h
        split at h
        · cases h
        · split at h
          · split at h
            · cases h
            · split at h <;> cases h
          · split at h
            · cases hi : vecAt s.int_register_stacks ins.getHWThread with
              | error e1 =>
                simp only [hi] at h
                cases h; cases vecAt_error _ _ _ hi
              | ok int_regs =>
                simp only [hi] at h
                cases hf : vecAt s.fp_register_stacks ins.getHWThread with
                | error e1 =>
                  simp only [hf] at h
                  cases h; cases vecAt_error _ _ _ hf
                | ok fp_regs =>
                  simp only [hf] at h
                  cases hit : vecAt s.issue_isa_tables i with
                  | error e1 =>
                    simp only [hit] at h
                    cases h; cases vecAt_error _ _ _ hit
                  | ok issue =>
                    simp only [hit] at h
                    cases hrt : vecAt s.retire_isa_tables i with
                    | error e1 =>
                      simp only [hrt] at h
                      cases h; cases vecAt_error _ _ _ hrt
                    | ok retire =>
                      simp only [hrt] at h
                      cases h
            · cases h

/-- No step of `tick` ends in a pop from an empty register stack. -/
theorem tick_no_exhaustion (ext : External) (cycle : Nat) (s : VanadisComponent) :
    tick ext cycle s ≠ .error .exhaustion := by
  intro h
  unfold tick at h
  split at h
  · cases h
  · simp only [bind, Except.bind] at h
    cases h1 : (List.range s.hw_threads).foldlM fetchThread s with
    | error e1 =>
      simp only [h1] at h
      cases h
      obtain ⟨s0, x, hx⟩ := foldlM_error _ _ _ _ h1
      exact fetchThread_no_exhaustion _ _ hx
    | ok s1 =>
      simp only [h1] at h
      cases h2 : (List.range s1.hw_threads).foldlM (decodeThread ext cycle) s1 with
      | error e1 =>
        simp only [h2] at h
        cases h
        obtain ⟨s0, x, hx⟩ := foldlM_error _ _ _ _ h2
        exact decodeThread_no_exhaustion _ _ _ _ hx
      | ok s2 =>
        simp only [h2] at h
        cases h3 : injectTestInstruction s2 with
        | error e1 =>
          simp only [h3] at h
          cases h
          exact injectTestInstruction_no_exhaustion _ h3
        | ok s3 =>
          simp only [h3] at h
          cases h4 : issueStage s3 with
          | error e1 =>
            simp only [h4] at h
            cases h
            obtain ⟨s0, x, hx⟩ := foldlM_error _ _ _ _ h4
            rcases issueThread_error_cases _ _ _ hx with he | ⟨he, _⟩ <;> cases he
          | ok s4 =>
            simp only [h4] at h
            cases h6 : retireStage (executeStage ext cycle s4) with
            | error e1 =>
              simp only [h6] at h
              cases h
              obtain ⟨s0, x, hx⟩ := foldlM_error _ _ _ _ h6
              exact retireThread_no_exhaustion _ _ hx
            | ok s6 =>
              simp only [h6] at h
              cases h

/-- C25. When `checkInstructionResources` has returned 0 for an instruction, with any
contents of the written-ahead sets, `assignRegistersToInstruction` called on the same
stacks and table returns, having taken one register per output.  Pop by pop: the `k`-th
iteration of the integer output loop is reached, and it finds the integer free stack
non-empty, and likewise every iteration of the floating-point output loop that follows.
In `tick` nothing touches the stacks between the check and the rename: neither the issue
step nor `tick` as a whole ever ends in a pop from an empty register stack. -/
theorem rename_after_check_never_pops_empty (ins : VanadisInstruction)
    (int_regs fp_regs : VanadisRegisterStack) (isa_table : VanadisISATable)
    (wa_int wa_fp : Finset Nat)
    (h : (checkInstructionResources ins int_regs fp_regs isa_table wa_int wa_fp).1 = 0) :
    (∃ st, assignRegistersToInstruction ins int_regs fp_regs isa_table = .ok st ∧
      st.int_regs.unused + ins.countISAIntRegOut = int_regs.unused ∧
      st.fp_regs.unused + ins.countISAFPRegOut = fp_regs.unused) ∧
    (∀ k, k < ins.countISAIntRegOut →
      ∃ stk free_reg rest,
        (List.range k).foldlM assignIntOutStep
          ((List.range ins.countISAFPRegIn).foldl assignFPInStep
            ((List.range ins.countISAIntRegIn).foldl assignIntInStep
              { ins := ins, int_regs := int_regs, fp_regs := fp_regs,
                isa_table := isa_table })) = .ok stk ∧
        stk.int_regs.pop = .ok (free_reg, rest)) ∧
    (∀ st3,
      (List.range ins.countISAIntRegOut).foldlM assignIntOutStep
        ((List.range ins.countISAFPRegIn).foldl assignFPInStep
          ((List.range ins.countISAIntRegIn).foldl assignIntInStep
            { ins := ins, int_regs := int_regs, fp_regs := fp_regs,
              isa_table := isa_table })) = .ok st3 →
      ∀ k, k < ins.countISAFPRegOut →
        ∃ stk free_reg rest,
          (List.range k).foldlM assignFPOutStep st3 = .ok stk ∧
          stk.fp_regs.pop = .ok (free_reg, rest)) ∧
    (∀ (s : VanadisComponent) (i : Nat), issueThread s i ≠ .error .exhaustion) ∧
    (∀ (ext : External) (cycle : Nat) (s : VanadisComponent),
      tick ext cycle s ≠ .error .exhaustion) := by
  have hc := (checkInstructionResources_eq_zero_iff ins int_regs fp_regs isa_table
    wa_int wa_fp).mp h
  have pop_ok : ∀ (stack : VanadisRegisterStack), 0 < stack.regs.length →
      ∃ free_reg rest, stack.pop = .ok (free_reg, rest) := by
    intro stack hpos
    unfold VanadisRegisterStack.pop
    cases hr : stack.regs with
    | nil => rw [hr] at hpos; exact absurd hpos (by simp)
    | cons r rest => exact ⟨r, _, rfl⟩
  have e1 := assignIntIn_fold
    { ins := ins, int_regs := int_regs, fp_regs := fp_regs, isa_table := isa_table }
    ins.countISAIntRegIn
  have e2 := assignFPIn_fold
    ((List.range ins.countISAIntRegIn).foldl assignIntInStep
      { ins := ins, int_regs := int_regs, fp_regs := fp_regs, isa_table := isa_table })
    ins.countISAFPRegIn
  have hi2 : ((List.range ins.countISAFPRegIn).foldl assignFPInStep
      ((List.range ins.countISAIntRegIn).foldl assignIntInStep
        { ins := ins, int_regs := int_regs, fp_regs := fp_regs,
          isa_table := isa_table })).int_regs = int_regs := by
    rw [e2.1, e1.1]
  have hf2 : ((List.range ins.countISAFPRegIn).foldl assignFPInStep
      ((List.range ins.countISAIntRegIn).foldl assignIntInStep
        { ins := ins, int_regs := int_regs, fp_regs := fp_regs,
          isa_table := isa_table })).fp_regs = fp_regs := by
    rw [e2.2.1, e1.2.1]
  refine ⟨?_, ?_, ?_, ?_, tick_no_exhaustion⟩
  · obtain ⟨st, hst, _⟩ := assignRegistersToInstruction_closed ins int_regs fp_regs isa_table
      hc.1.1 hc.1.2
    have hs := assignRegistersToInstruction_sizes ins int_regs fp_regs isa_table st hst
    exact ⟨st, hst, hs.1, hs.2.2.1⟩
  · intro k hk
    have hle : k ≤ ((List.range ins.countISAFPRegIn).foldl assignFPInStep
        ((List.range ins.countISAIntRegIn).foldl assignIntInStep
          { ins := ins, int_regs := int_regs, fp_regs := fp_regs,
            isa_table := isa_table })).int_regs.regs.length := by
      rw [hi2]
      have := hc.1.1
      unfold VanadisRegisterStack.unused at this
      omega
    obtain ⟨stk, hstk, hregs, _⟩ := assignIntOut_fold _ k hle
    have hpos : 0 < stk.int_regs.regs.length := by
      rw [hregs, hi2]
      simp only [List.length_drop]
      have := hc.1.1
      unfold VanadisRegisterStack.unused at this
      omega
    obtain ⟨r, rest, hpop⟩ := pop_ok _ hpos
    exact ⟨stk, r, rest, hstk, hpop⟩
  · intro st3 hst3 k hk
    have h3 := (foldlM_assignIntOut _ _ _ hst3).2.2.1
    have hle : k ≤ st3.fp_regs.regs.length := by
      rw [h3, hf2]
      have := hc.1.2
      unfold VanadisRegisterStack.unused at this
      omega
    obtain ⟨stk, hstk, hregs, _⟩ := assignFPOut_fold st3 k hle
    have hpos : 0 < stk.fp_regs.regs.length := by
      rw [hregs, h3, hf2]
      simp only [List.length_drop]
      have := hc.1.2
      unfold VanadisRegisterStack.unused at this
      omega
    obtain ⟨r, rest, hpop⟩ := pop_ok _ hpos
    exact ⟨stk, r, rest, hstk, hpop⟩
  · intro s i hx
    rcases issueThread_error_cases _ _ _ hx with he | ⟨he, _⟩ <;> cases he

/-- C25 exercised on an instruction with two integer outputs and one floating-point
output, checked and renamed against stacks holding two integer and two floating-point
free registers. -/
theorem rename_after_check_never_pops_empty_witness :
    (checkInstructionResources exampleTwiceNamed { max_capacity := 6, regs := [4, 5] }
      { max_capacity := 4, regs := [2, 3] } exampleTable {7} ∅).1 = 0 ∧
    ∃ st, assignRegistersToInstruction exampleTwiceNamed { max_capacity := 6, regs := [4, 5] }
        { max_capacity := 4, regs := [2, 3] } exampleTable = .ok st ∧
      st.int_regs.unused + exampleTwiceNamed.countISAIntRegOut = 2 ∧
      st.fp_regs.unused + exampleTwiceNamed.countISAFPRegOut = 2 :=
  ⟨by decide,
   (rename_after_check_never_pops_empty exampleTwiceNamed { max_capacity := 6, regs := [4, 5] }
      { max_capacity := 4, regs := [2, 3] } exampleTable {7} ∅ (by decide)).1⟩

/-- The retire step of a thread whose ROB head is neither trapped nor complete: the head
object is marked as being at the front of the ROB. -/
theorem retireThread_incomplete (s : VanadisComponent) (i : Nat)
    (rob_i : VanadisCircularQueue InsPtr) (rob_front : InsPtr) (ins : VanadisInstruction)
    (hrob : s.rob[i]? = some rob_i) (hfront : rob_i.peek = some rob_front)
    (hins : derefIns s.heap rob_front = some ins)
    (htrap : ins.trapsError = false) (hdone : ins.completedExecution = false) :
    retireThread s i
      = .ok { s with heap := s.heap.set rob_front (some ins.markFrontOfROB) } := by
  unfold retireThread
  simp only [bind, Except.bind, (vecAt_eq_ok _ _ _).mpr hrob, hfront, hins, htrap, hdone,
    Bool.and_false, Bool.false_eq_true, if_false, updateIns]

/-- A fold over `l1 ++ x :: l2` that returns has passed through the step for `x`. -/
theorem foldlM_split {σ α : Type} (f : σ → α → Except Fault σ) (l1 l2 : List α) (x : α)
    (s s' : σ) (h : (l1 ++ x :: l2).foldlM f s = .ok s') :
    ∃ t1 t2, l1.foldlM f s = .ok t1 ∧ f t1 x = .ok t2 ∧ l2.foldlM f t2 = .ok s' := by
  rw [List.foldlM_append] at h
  simp only [bind, Except.bind] at h
  cases h1 : l1.foldlM f s with
  | error e => simp [h1] at h
  | ok t1 =>
    simp only [h1, List.foldlM_cons, bind, Except.bind] at h
    cases h2 : f t1 x with
    | error e => simp [h2] at h
    | ok t2 =>
      simp only [h2] at h
      exact ⟨t1, t2, rfl, h2, h⟩

/-- What the retire step of a thread `j` does to a thread `i` whose ROB head `p` is
neither trapped nor complete, in a state where every ROB holds instructions of its own
thread: nothing, except that for `j = i` the head object is marked. -/
theorem retireThread_keeps_incomplete (ci cf : Nat) (t t' : VanadisComponent) (i j : Nat)
    (rob_i : VanadisCircularQueue InsPtr) (p : InsPtr) (X : VanadisInstruction)
    (hc : CoreInv ci cf t) (hw : WriteInv t)
    (hrob : t.rob[i]? = some rob_i) (hpk : rob_i.peek = some p)
    (hp : derefIns t.heap p = some X)
    (htrap : X.trapsError = false) (hdone : X.completedExecution = false)
    (h : retireThread t j = .ok t') :
    CoreInv ci cf t' ∧ WriteInv t' ∧
    t'.rob[i]? = t.rob[i]? ∧
    t'.int_register_stacks[i]? = t.int_register_stacks[i]? ∧
    t'.fp_register_stacks[i]? = t.fp_register_stacks[i]? ∧
    t'.issue_isa_tables[i]? = t.issue_isa_tables[i]? ∧
    t'.retire_isa_tables[i]? = t.retire_isa_tables[i]? ∧
    (derefIns t'.heap p = some X ∨ derefIns t'.heap p = some X.markFrontOfROB) ∧
    (j = i → derefIns t'.heap p = some X.markFrontOfROB) := by
  have hc' := CoreInv_retireThread ci cf t t' j hc h
  have hw' := WriteInv_retireThread ci cf t t' j hc hw h
  have hplt : p < t.heap.length := derefIns_lt _ _ _ hp
  refine ⟨hc', hw', ?_⟩
  by_cases hji : j = i
  · subst hji
    rw [retireThread_incomplete t j rob_i p X hrob hpk hp htrap hdone] at h
    cases h
    have e : derefIns (t.heap.set p (some X.markFrontOfROB)) p = some X.markFrontOfROB := by
      rw [derefIns_set _ _ _ _ hplt, if_pos rfl]
    exact ⟨rfl, rfl, rfl, rfl, rfl, Or.inr e, fun _ => e⟩
  · have hmem : p ∈ rob_i.items := by
      unfold VanadisCircularQueue.peek at hpk
      exact List.mem_of_mem_head? hpk
    have hXi : X.hw_thread = i := (hw.rob_ok i rob_i hrob p hmem).2 X hp
    have hne : ∀ (rob_j : VanadisCircularQueue InsPtr) (pj : InsPtr) (Y : VanadisInstruction),
        t.rob[j]? = some rob_j → rob_j.peek = some pj → derefIns t.heap pj = some Y →
        Y.hw_thread = j ∧ p ≠ pj := by
      intro rob_j pj Y hrj hpj hY
      have hm : pj ∈ rob_j.items := by
        unfold VanadisCircularQueue.peek at hpj
        exact List.mem_of_mem_head? hpj
      have hYj : Y.hw_thread = j := (hw.rob_ok j rob_j hrj pj hm).2 Y hY
      refine ⟨hYj, fun hpp => ?_⟩
      subst hpp
      rw [hp] at hY
      cases hY
      exact hji (hYj.symm.trans hXi)
    rcases retireThread_ok_cases t t' j h with rfl |
      ⟨rob_j, pj, Y, hrj, hpj, hY, _, hcase⟩
    · exact ⟨rfl, rfl, rfl, rfl, rfl, Or.inl hp, fun hx => absurd hx hji⟩
    · obtain ⟨hYj, hpne⟩ := hne rob_j pj Y hrj hpj hY
      rcases hcase with ⟨_, rfl⟩ | ⟨_, _, int_regs, fp_regs, issue, retire, _, _, _, _, rfl⟩
      · refine ⟨rfl, rfl, rfl, rfl, rfl, Or.inl ?_, fun hx => absurd hx hji⟩
        show derefIns (updateIns t.heap pj VanadisInstruction.markFrontOfROB) p = some X
        rw [derefIns_updateIns, if_neg hpne, hp]
      · have hYt : Y.getHWThread = j := hYj
        have hij : ¬ j = i := hji
        refine ⟨?_, ?_, ?_, ?_, ?_, Or.inl ?_, fun hx => absurd hx hji⟩
        · show (t.rob.set j rob_j.pop)[i]? = t.rob[i]?
          rw [List.getElem?_set_ne hij]
        · show (t.int_register_stacks.set Y.getHWThread _)[i]? = t.int_register_stacks[i]?
          rw [hYt, List.getElem?_set_ne hij]
        · show (t.fp_register_stacks.set Y.getHWThread _)[i]? = t.fp_register_stacks[i]?
          rw [hYt, List.getElem?_set_ne hij]
        · show (t.issue_isa_tables.set j _)[i]? = t.issue_isa_tables[i]?
          rw [List.getElem?_set_ne hij]
        · show (t.retire_isa_tables.set j _)[i]? = t.retire_isa_tables[i]?
          rw [List.getElem?_set_ne hij]
        · show derefIns (deleteIns t.heap pj) p = some X
          rw [derefIns_deleteIns _ _ _ Y hY, if_neg hpne, hp]

/-- The retire stage, run from a state of a real execution, leaves alone a thread `i`
whose ROB head is neither trapped nor complete, except for marking the head object. -/
theorem retireStage_keeps_incomplete (ci cf : Nat) (s s' : VanadisComponent) (i : Nat)
    (rob_i : VanadisCircularQueue InsPtr) (p : InsPtr) (ins : VanadisInstruction)
    (hc : CoreInv ci cf s) (hw : WriteInv s) (hi : i < s.hw_threads)
    (hrob : s.rob[i]? = some rob_i) (hpk : rob_i.peek = some p)
    (hp : derefIns s.heap p = some ins)
    (htrap : ins.trapsError = false) (hdone : ins.completedExecution = false)
    (h : retireStage s = .ok s') :
    s'.rob[i]? = s.rob[i]? ∧
    s'.int_register_stacks[i]? = s.int_register_stacks[i]? ∧
    s'.fp_register_stacks[i]? = s.fp_register_stacks[i]? ∧
    s'.issue_isa_tables[i]? = s.issue_isa_tables[i]? ∧
    s'.retire_isa_tables[i]? = s.retire_isa_tables[i]? ∧
    derefIns s'.heap p = some ins.markFrontOfROB := by
  have hstep : ∀ (t t' : VanadisComponent) (j : Nat),
      (CoreInv ci cf t ∧ WriteInv t ∧ t.rob[i]? = s.rob[i]? ∧
        t.int_register_stacks[i]? = s.int_register_stacks[i]? ∧
        t.fp_register_stacks[i]? = s.fp_register_stacks[i]? ∧
        t.issue_isa_tables[i]? = s.issue_isa_tables[i]? ∧
        t.retire_isa_tables[i]? = s.retire_isa_tables[i]? ∧
        (derefIns t.heap p = some ins ∨ derefIns t.heap p = some ins.markFrontOfROB)) →
      retireThread t j = .ok t' →
      (CoreInv ci cf t' ∧ WriteInv t' ∧ t'.rob[i]? = s.rob[i]? ∧
        t'.int_register_stacks[i]? = s.int_register_stacks[i]? ∧
        t'.fp_register_stacks[i]? = s.fp_register_stacks[i]? ∧
        t'.issue_isa_tables[i]? = s.issue_isa_tables[i]? ∧
        t'.retire_isa_tables[i]? = s.retire_isa_tables[i]? ∧
        (derefIns t'.heap p = some ins ∨ derefIns t'.heap p = some ins.markFrontOfROB)) ∧
      (j = i ∨ derefIns t.heap p = some ins.markFrontOfROB →
        derefIns t'.heap p = some ins.markFrontOfROB) := by
    intro t t' j ⟨c, w, r1, r2, r3, r4, r5, r6⟩ hj
    rcases r6 with r6 | r6
    · obtain ⟨c', w', q1, q2, q3, q4, q5, q6, q7⟩ :=
        retireThread_keeps_incomplete ci cf t t' i j rob_i p ins c w (r1.trans hrob) hpk r6
          htrap hdone hj
      refine ⟨⟨c', w', q1.trans r1, q2.trans r2, q3.trans r3, q4.trans r4, q5.trans r5, q6⟩,
        fun hx => ?_⟩
      rcases hx with hx | hx
      · exact q7 hx
      · rw [r6] at hx
        have e : ins = ins.markFrontOfROB := Option.some.inj hx
        rcases q6 with q6 | q6
        · rw [q6, ← e]
        · exact q6
    · obtain ⟨c', w', q1, q2, q3, q4, q5, q6, _⟩ :=
        retireThread_keeps_incomplete ci cf t t' i j rob_i p ins.markFrontOfROB c w
          (r1.trans hrob) hpk r6 htrap hdone hj
      have q6' : derefIns t'.heap p = some ins.markFrontOfROB := by
        rcases q6 with q6 | q6
        · exact q6
        · exact q6
      exact ⟨⟨c', w', q1.trans r1, q2.trans r2, q3.trans r3, q4.trans r4, q5.trans r5,
        Or.inr q6'⟩, fun _ => q6'⟩
  obtain ⟨l1, l2, hl⟩ := List.append_of_mem (List.mem_range.mpr hi)
  unfold retireStage at h
  rw [hl] at h
  obtain ⟨t1, t2, h1, h2, h3⟩ := foldlM_split retireThread l1 l2 i s s' h
  have P1 := foldlM_list_inv
    (fun t => CoreInv ci cf t ∧ WriteInv t ∧ t.rob[i]? = s.rob[i]? ∧
        t.int_register_stacks[i]? = s.int_register_stacks[i]? ∧
        t.fp_register_stacks[i]? = s.fp_register_stacks[i]? ∧
        t.issue_isa_tables[i]? = s.issue_isa_tables[i]? ∧
        t.retire_isa_tables[i]? = s.retire_isa_tables[i]? ∧
        (derefIns t.heap p = some ins ∨ derefIns t.heap p = some ins.markFrontOfROB))
    retireThread (fun t j t' ht hj => (hstep t t' j ht hj).1) l1 s t1
    ⟨hc, hw, rfl, rfl, rfl, rfl, rfl, Or.inl hp⟩ h1
  obtain ⟨P2, hm2⟩ := hstep t1 t2 i P1 h2
  have hm2' := hm2 (Or.inl rfl)
  have P3 := foldlM_list_inv
    (fun t => (CoreInv ci cf t ∧ WriteInv t ∧ t.rob[i]? = s.rob[i]? ∧
        t.int_register_stacks[i]? = s.int_register_stacks[i]? ∧
        t.fp_register_stacks[i]? = s.fp_register_stacks[i]? ∧
        t.issue_isa_tables[i]? = s.issue_isa_tables[i]? ∧
        t.retire_isa_tables[i]? = s.retire_isa_tables[i]? ∧
        (derefIns t.heap p = some ins ∨ derefIns t.heap p = some ins.markFrontOfROB)) ∧
        derefIns t.heap p = some ins.markFrontOfROB)
    retireThread
    (fun t j t' ht hj => ⟨(hstep t t' j ht.1 hj).1, (hstep t t' j ht.1 hj).2 (Or.inr ht.2)⟩)
    l2 t2 s' ⟨P2, hm2'⟩ h3
  obtain ⟨⟨_, _, r1, r2, r3, r4, r5, _⟩, r6⟩ := P3
  exact ⟨r1, r2, r3, r4, r5, r6⟩

/-- C23. When the head of thread `i`'s ROB is an instruction with no trap flag that has
not completed execution, the retire step of `tick` for the thread returns the state it
started from with one change: the head object is marked as being at the front of the ROB.
Every ROB (contents and size), free register stack, issue-time and retire-time table,
queue, functional unit and every other instruction object is as before, and the head
object differs from what it was in that flag only.  Over the whole retire stage, run from
a state of an execution (where each ROB holds instructions of its own thread), the ROB,
the two free stacks and the two tables of thread `i` are unchanged whatever the other
threads retire, and the head object ends marked. -/
theorem incomplete_rob_head_is_only_marked (s : VanadisComponent) (i : Nat)
    (rob_i : VanadisCircularQueue InsPtr) (rob_front : InsPtr) (ins : VanadisInstruction)
    (hrob : s.rob[i]? = some rob_i) (hfront : rob_i.peek = some rob_front)
    (hins : derefIns s.heap rob_front = some ins)
    (htrap : ins.trapsError = false) (hdone : ins.completedExecution = false) :
    (∃ s', retireThread s i = .ok s' ∧
      s' = { s with heap := s'.heap } ∧
      s'.rob = s.rob ∧
      s'.int_register_stacks = s.int_register_stacks ∧
      s'.fp_register_stacks = s.fp_register_stacks ∧
      s'.issue_isa_tables = s.issue_isa_tables ∧
      s'.retire_isa_tables = s.retire_isa_tables ∧
      s'.heap.length = s.heap.length ∧
      derefIns s'.heap rob_front = some ins.markFrontOfROB ∧
      (∀ q, q ≠ rob_front → derefIns s'.heap q = derefIns s.heap q)) ∧
    ins.markFrontOfROB = { ins with isFrontOfROB := true } ∧
    (∀ (params : Params) (s' : VanadisComponent),
      StageReachable params s → i < s.hw_threads → retireStage s = .ok s' →
      s'.rob[i]? = s.rob[i]? ∧
      s'.int_register_stacks[i]? = s.int_register_stacks[i]? ∧
      s'.fp_register_stacks[i]? = s.fp_register_stacks[i]? ∧
      s'.issue_isa_tables[i]? = s.issue_isa_tables[i]? ∧
      s'.retire_isa_tables[i]? = s.retire_isa_tables[i]? ∧
      derefIns s'.heap rob_front = some ins.markFrontOfROB) := by
  have hplt : rob_front < s.heap.length := derefIns_lt _ _ _ hins
  refine ⟨⟨_, retireThread_incomplete s i rob_i rob_front ins hrob hfront hins htrap hdone,
    rfl, rfl, rfl, rfl, rfl, rfl, ?_, ?_, ?_⟩, rfl, ?_⟩
  · simp
  · show derefIns (s.heap.set rob_front (some ins.markFrontOfROB)) rob_front = _
    rw [derefIns_set _ _ _ _ hplt, if_pos rfl]
  · intro q hq
    show derefIns (s.heap.set rob_front (some ins.markFrontOfROB)) q = _
    rw [derefIns_set _ _ _ _ hplt, if_neg hq]
  · intro params s' hr hi h
    obtain ⟨hc, hw⟩ := invariants_stageReachable params s hr
    exact retireStage_keeps_incomplete _ _ s s' i rob_i rob_front ins hc hw hi hrob hfront
      hins htrap hdone h

/-- C23 exercised on the core whose ROB head is issued and not yet executed, and on the
state the constructor leaves, whose ROB head is the first test instruction. -/
theorem incomplete_rob_head_is_only_marked_witness :
    (∃ s', retireThread examplePendingHeadCore 0 = .ok s' ∧
      s'.rob = examplePendingHeadCore.rob ∧
      s'.int_register_stacks = examplePendingHeadCore.int_register_stacks ∧
      s'.retire_isa_tables = examplePendingHeadCore.retire_isa_tables ∧
      derefIns s'.heap 0
        = some { exampleIssuedAdd with hasExecuted := false, isFrontOfROB := true }) ∧
    ∃ s s', Reachable exampleParams s ∧ retireStage s = .ok s' ∧
      s'.rob[0]? = s.rob[0]? ∧
      s'.int_register_stacks[0]? = s.int_register_stacks[0]? ∧
      s'.issue_isa_tables[0]? = s.issue_isa_tables[0]? ∧
      derefIns s'.heap 0 = some (VanadisAddInstruction 0 0 0 3 4 5).markFrontOfROB := by
  constructor
  · obtain ⟨s', h1, _, h3, h4, _, _, h7, _, h9, _⟩ :=
      (incomplete_rob_head_is_only_marked examplePendingHeadCore 0 _ 0
        { exampleIssuedAdd with hasExecuted := false } rfl rfl rfl rfl rfl).1
    exact ⟨s', h1, h3, h4, h7, h9⟩
  · obtain ⟨s, s', rob_0, hs, hrob, hpk, hins, hlt, hst⟩ :
        ∃ s s' rob_0, run exampleParams quietExternal 0 = .ok s ∧
          s.rob[0]? = some rob_0 ∧ rob_0.peek = some 0 ∧
          derefIns s.heap 0 = some (VanadisAddInstruction 0 0 0 3 4 5) ∧
          0 < s.hw_threads ∧ retireStage s = .ok s' := by
      refine ⟨_, _, _, rfl, rfl, rfl, rfl, ?_, rfl⟩
      decide
    have hr := run_reachable _ _ _ _ hs
    obtain ⟨r1, r2, _, r4, _, r6⟩ :=
      (incomplete_rob_head_is_only_marked s 0 rob_0 0 (VanadisAddInstruction 0 0 0 3 4 5)
        hrob hpk hins rfl rfl).2.2 exampleParams s' (StageReachable.boundary s hr) hlt hst
    exact ⟨s, s', hr, hst, r1, r2, r4, r6⟩

/-- The issue switch keeps the cycle counter and the cycle limit. -/
theorem dispatch_cycle (ft : VanadisFunctionalUnitType) (p : InsPtr) (s : VanadisComponent)
    (d : Bool × VanadisComponent) (h : dispatch ft p s = .ok d) :
    d.2.current_cycle = s.current_cycle ∧ d.2.max_cycle = s.max_cycle := by
  cases ft <;> simp only [dispatch] at h
  case INST_OTHER => cases h
  case INST_LOAD => split at h <;> (cases h; exact ⟨rfl, rfl⟩)
  case INST_STORE => split at h <;> (cases h; exact ⟨rfl, rfl⟩)
  all_goals (cases h; exact ⟨rfl, rfl⟩)

/-- The fetch step keeps the cycle counter and the cycle limit. -/
theorem fetchThread_cycle (s s' : VanadisComponent) (i : Nat) (h : fetchThread s i = .ok s') :
    s'.current_cycle = s.current_cycle ∧ s'.max_cycle = s.max_cycle := by
  rcases fetchThread_ok_cases s s' i h with rfl | ⟨dec, _, rfl⟩ <;> exact ⟨rfl, rfl⟩

/-- The decode step keeps the cycle counter and the cycle limit. -/
theorem decodeThread_cycle (ext : External) (cycle : Nat) (s s' : VanadisComponent) (i : Nat)
    (h : decodeThread ext cycle s i = .ok s') :
    s'.current_cycle = s.current_cycle ∧ s'.max_cycle = s.max_cycle := by
  rcases decodeThread_ok_cases ext cycle s s' i h with rfl | ⟨dec, _, _, rfl⟩ <;>
    exact ⟨rfl, rfl⟩

/-- Creating a test instruction keeps the cycle counter and the cycle limit. -/
theorem pushTestInstruction_cycle (s s' : VanadisComponent) (mk : Nat → VanadisInstruction)
    (h : pushTestInstruction s mk = .ok s') :
    s'.current_cycle = s.current_cycle ∧ s'.max_cycle = s.max_cycle := by
  obtain ⟨dec, rob_0, _, _, _, rfl⟩ := pushTestInstruction_ok s s' mk h
  exact ⟨rfl, rfl⟩

/-- The injection of the test instruction keeps the cycle counter and the limit. -/
theorem injectTestInstruction_cycle (s s' : VanadisComponent)
    (h : injectTestInstruction s = .ok s') :
    s'.current_cycle = s.current_cycle ∧ s'.max_cycle = s.max_cycle := by
  rcases injectTestInstruction_ok_cases s s' h with rfl | h'
  · exact ⟨rfl, rfl⟩
  · exact pushTestInstruction_cycle _ _ _ h'

/-- The issue step keeps the cycle counter and the cycle limit. -/
theorem issueThread_cycle (s s' : VanadisComponent) (i : Nat) (h : issueThread s i = .ok s') :
    s'.current_cycle = s.current_cycle ∧ s'.max_cycle = s.max_cycle := by
  rcases issueThread_ok_cases s s' i h with ⟨rfl, _⟩ |
    ⟨dec, p, rest, ins, int_regs, fp_regs, isa_table, _, _, _, _, _, _, _, hcase⟩
  · exact ⟨rfl, rfl⟩
  · rcases hcase with ⟨_, rfl⟩ | ⟨_, d, hdisp, hcase2⟩
    · exact ⟨rfl, rfl⟩
    · have hd := dispatch_cycle _ _ _ _ hdisp
      rcases hcase2 with ⟨_, rfl⟩ | ⟨_, st, _, rfl⟩
      · exact hd
      · exact hd

/-- The retire step keeps the cycle counter and the cycle limit. -/
theorem retireThread_cycle (s s' : VanadisComponent) (i : Nat) (h : retireThread s i = .ok s') :
    s'.current_cycle = s.current_cycle ∧ s'.max_cycle = s.max_cycle := by
  rcases retireThread_ok_cases s s' i h with rfl | ⟨rob_i, p, ins, _, _, _, _, hcase⟩
  · exact ⟨rfl, rfl⟩
  · rcases hcase with ⟨_, rfl⟩ | ⟨_, _, int_regs, fp_regs, issue, retire, _, _, _, _, rfl⟩ <;>
      exact ⟨rfl, rfl⟩

/-- A fold of steps that keep the cycle counter and the cycle limit keeps them. -/
theorem cycle_foldlM {α : Type} (f : VanadisComponent → α → Except Fault VanadisComponent)
    (hstep : ∀ s x s', f s x = .ok s' →
      s'.current_cycle = s.current_cycle ∧ s'.max_cycle = s.max_cycle)
    (l : List α) (s s' : VanadisComponent) (h : l.foldlM f s = .ok s') :
    s'.current_cycle = s.current_cycle ∧ s'.max_cycle = s.max_cycle :=
  foldlM_list_inv
    (fun t => t.current_cycle = s.current_cycle ∧ t.max_cycle = s.max_cycle) f
    (fun a x b ha hb => ⟨(hstep a x b hb).1.trans ha.1, (hstep a x b hb).2.trans ha.2⟩)
    l s s' ⟨rfl, rfl⟩ h

/-- A `tick` that processes the cycle advances the counter by one, modulo the width of
the counter, and keeps the limit. -/
theorem tick_cycle (ext : External) (cycle : Nat) (s s' : VanadisComponent) (b : Bool)
    (hlt : s.current_cycle < s.max_cycle) (h : tick ext cycle s = .ok (b, s')) :
    b = false ∧ s'.current_cycle = (s.current_cycle + 1) % 2 ^ 64 ∧
      s'.max_cycle = s.max_cycle := by
  rcases tick_ok_stages ext cycle s s' b h with ⟨hge, _, _⟩ |
    ⟨_, hb, s1, s2, s3, s4, s6, h1, h2, h3, h4, h6, rfl⟩
  · omega
  · have c1 := cycle_foldlM fetchThread (fun a x b => fetchThread_cycle a b x) _ _ _ h1
    have c2 := cycle_foldlM (decodeThread ext cycle)
      (fun a x b => decodeThread_cycle ext cycle a b x) _ _ _ h2
    have c3 := injectTestInstruction_cycle _ _ h3
    have c4 := cycle_foldlM issueThread (fun a x b => issueThread_cycle a b x) _ _ _ h4
    have c6 := cycle_foldlM retireThread (fun a x b => retireThread_cycle a b x) _ _ _ h6
    have e5 : (executeStage ext cycle s4).current_cycle = s4.current_cycle ∧
        (executeStage ext cycle s4).max_cycle = s4.max_cycle := ⟨rfl, rfl⟩
    refine ⟨hb, ?_, ?_⟩
    · show (s6.current_cycle + 1) % 2 ^ 64 = _
      rw [c6.1, e5.1, c4.1, c3.1, c2.1, c1.1]
    · show s6.max_cycle = _
      rw [c6.2, e5.2, c4.2, c3.2, c2.2, c1.2]

/-- The constructor leaves the cycle counter at zero and the limit as configured, a
64-bit value. -/
theorem construct_cycle (params : Params) (s : VanadisComponent)
    (h : construct params = .ok s) :
    s.current_cycle = 0 ∧ s.max_cycle = params.max_cycle % 2 ^ 64 := by
  unfold construct at h
  simp only [bind, Except.bind] at h
  cases h1 : (List.range (emptyComponent params).hw_threads).foldlM (constructThread params)
      (emptyComponent params) with
  | error e => simp [h1] at h
  | ok s1 =>
    simp only [h1] at h
    have c1 := cycle_foldlM (constructThread params)
      (fun a x b hab => by
        obtain ⟨_, _, _, _, _, _, _, _, _, _, rfl⟩ := constructThread_ok params a b x hab
        exact ⟨rfl, rfl⟩) _ _ _ h1
    cases h2 : startCoreZero params s1 with
    | error e => simp [h2] at h
    | ok s2 =>
      simp only [h2] at h
      have c2 : s2.current_cycle = s1.current_cycle ∧ s2.max_cycle = s1.max_cycle := by
        unfold startCoreZero at h2
        split at h2
        · simp only [bind, Except.bind] at h2
          cases hm : vecAt s1.halted_masks 0 with
          | error e => simp [hm] at h2
          | ok m =>
            simp only [hm] at h2
            cases hd : vecAt s1.thread_decoders 0 with
            | error e => simp [hd] at h2
            | ok dec =>
              simp only [hd, Except.ok.injEq] at h2
              subst h2
              exact ⟨rfl, rfl⟩
        · cases h2
          exact ⟨rfl, rfl⟩
      cases h3 : constructorTestInstructions.foldlM pushTestInstruction s2 with
      | error e => simp [h3] at h
      | ok s3 =>
        simp only [h3] at h
        have c3 := cycle_foldlM pushTestInstruction
          (fun a x b => pushTestInstruction_cycle a b x) _ _ _ h3
        split at h
        · cases h
        · split at h
          · cases h
          · simp only [Except.ok.injEq] at h
            subst h
            constructor
            · show s3.current_cycle = 0
              rw [c3.1, c2.1, c1.1]
              rfl
            · show s3.max_cycle = _
              rw [c3.2, c2.2, c1.2]
              rfl

/-- In every state of an execution the cycle limit is the configured 64-bit value and the
counter has not passed it. -/
theorem reachable_cycle (params : Params) (s : VanadisComponent) (h : Reachable params s) :
    s.max_cycle = params.max_cycle % 2 ^ 64 ∧ s.current_cycle ≤ s.max_cycle := by
  induction h with
  | init s hs =>
    obtain ⟨a, b⟩ := construct_cycle params s hs
    exact ⟨b, by omega⟩
  | step ext cycle s s' b _ ht ih =>
    by_cases hlt : s.current_cycle < s.max_cycle
    · obtain ⟨_, c1, c2⟩ := tick_cycle ext cycle s s' b hlt ht
      have hm : s.max_cycle < 2 ^ 64 := by
        rw [ih.1]
        exact Nat.mod_lt _ (by norm_num)
      refine ⟨c2.trans ih.1, ?_⟩
      rw [c1, c2, Nat.mod_eq_of_lt (by omega)]
      omega
    · rcases tick_ok_stages ext cycle s s' b ht with ⟨_, _, rfl⟩ | ⟨hl, _⟩
      · exact ih
      · exact absurd hl hlt

/-- C27. When the cycle counter has reached the limit (`current_cycle >= max_cycle`),
`tick` returns true and leaves the whole state as it was.  Otherwise, when it returns at
all (it does not end in a fatal error or another fault), it returns false, the limit is
unchanged and the counter has grown by exactly one: the counter is below a 64-bit limit,
so the increment does not wrap.  Every state of an execution has such a limit, the
configured `max_cycle`. -/
theorem tick_returns_true_at_cycle_limit (ext : External) (cycle : Nat)
    (s : VanadisComponent) :
    (s.current_cycle ≥ s.max_cycle → tick ext cycle s = .ok (true, s)) ∧
    (s.current_cycle < s.max_cycle → s.max_cycle < 2 ^ 64 →
      ∀ (b : Bool) (s' : VanadisComponent), tick ext cycle s = .ok (b, s') →
        b = false ∧ s'.current_cycle = s.current_cycle + 1 ∧ s'.max_cycle = s.max_cycle) ∧
    (∀ params : Params, Reachable params s →
      s.max_cycle < 2 ^ 64 ∧ s.current_cycle ≤ s.max_cycle) := by
  refine ⟨fun hge => ?_, fun hlt hmax b s' h => ?_, fun params hr => ?_⟩
  · unfold tick
    rw [if_pos hge]
  · obtain ⟨hb, c1, c2⟩ := tick_cycle ext cycle s s' b hlt h
    refine ⟨hb, ?_, c2⟩
    rw [c1, Nat.mod_eq_of_lt (by omega)]
  · obtain ⟨a, b⟩ := reachable_cycle params s hr
    refine ⟨?_, b⟩
    rw [a]
    exact Nat.mod_lt _ (by norm_num)

/-- C27 exercised on a core at its cycle limit of 10 and on the same core at cycle 0. -/
theorem tick_returns_true_at_cycle_limit_witness :
    tick quietExternal 10 { exampleAddCore with current_cycle := 10 }
      = .ok (true, { exampleAddCore with current_cycle := 10 }) ∧
    ∃ s', tick quietExternal 0 exampleAddCore = .ok (false, s') ∧ s'.current_cycle = 1 := by
  refine ⟨(tick_returns_true_at_cycle_limit quietExternal 10
    { exampleAddCore with current_cycle := 10 }).1 (by decide), ?_⟩
  obtain ⟨b, s', hs⟩ : ∃ b s', tick quietExternal 0 exampleAddCore = .ok (b, s') :=
    ⟨_, _, rfl⟩
  obtain ⟨hb, hc, _⟩ := (tick_returns_true_at_cycle_limit quietExternal 0 exampleAddCore).2.1
    (by decide) (by decide) b s' hs
  subst hb
  exact ⟨s', hs, hc⟩

/-- The scan of a pool: either every unit is occupied and the pool is returned as it
was, or the instruction is placed in the first free unit. -/
theorem allocateFuncUnit_first_free (p : InsPtr) (l : List VanadisFunctionalUnit) :
    ((∀ v ∈ l, v.isInstructionSlotFree = false) ∧ allocateFuncUnit p l = (false, l)) ∨
    ((allocateFuncUnit p l).1 = true ∧ ClaimsFirstFree p l (allocateFuncUnit p l).2) := by
  induction l with
  | nil => exact Or.inl ⟨fun v hv => absurd hv (List.not_mem_nil v), rfl⟩
  | cons u rest ih =>
    cases hu : u.isInstructionSlotFree with
    | true =>
      right
      have e : allocateFuncUnit p (u :: rest) = (true, u.setSlotInstruction p :: rest) := by
        simp only [allocateFuncUnit, hu, if_true]
      rw [e]
      exact ⟨rfl, [], u, rest, rfl, fun v hv => absurd hv (List.not_mem_nil v), hu, rfl⟩
    | false =>
      have e : allocateFuncUnit p (u :: rest)
          = ((allocateFuncUnit p rest).1, u :: (allocateFuncUnit p rest).2) := by
        simp only [allocateFuncUnit, hu, Bool.false_eq_true, if_false]
      rw [e]
      rcases ih with ⟨hall, hr⟩ | ⟨ht, pre, w, post, h1, h2, h3, h4⟩
      · left
        refine ⟨fun v hv => ?_, by rw [hr]⟩
        rcases List.mem_cons.mp hv with rfl | hv'
        · exact hu
        · exact hall v hv'
      · right
        refine ⟨ht, u :: pre, w, post, by rw [h1]; rfl, fun v hv => ?_, h3, ?_⟩
        · rcases List.mem_cons.mp hv with rfl | hv'
          · exact hu
          · exact h2 v hv'
        · show u :: (allocateFuncUnit p rest).2 = _
          rw [h4]
          rfl

/-- The issue step of an unhalted thread whose head has passed the resource check, when
the switch returns: the step returns, and it leaves the pools and the LSQ as the switch
left them. -/
theorem issueThread_after_dispatch (s : VanadisComponent) (i : Nat) (dec : VanadisDecoder)
    (p : InsPtr) (rest : List InsPtr) (ins : VanadisInstruction)
    (int_regs fp_regs : VanadisRegisterStack) (isa_table : VanadisISATable)
    (hh : s.halted_masks[i]? = some false)
    (hd : s.thread_decoders[i]? = some dec) (hq : dec.decoded_q = p :: rest)
    (hp : derefIns s.heap p = some ins)
    (hi : s.int_register_stacks[i]? = some int_regs)
    (hf : s.fp_register_stacks[i]? = some fp_regs)
    (ht : s.issue_isa_tables[i]? = some isa_table)
    (hc : (checkInstructionResources ins int_regs fp_regs isa_table ∅ ∅).1 = 0)
    (d : Bool × VanadisComponent)
    (hdx : dispatch ins.getInstFuncType p { s with
      tmp_raw_int := (checkInstructionResources ins int_regs fp_regs isa_table ∅ ∅).2.1,
      tmp_raw_fp := (checkInstructionResources ins int_regs fp_regs isa_table ∅ ∅).2.2 }
        = .ok d) :
    ∃ s', issueThread s i = .ok s' ∧
      s'.fu_int_arith = d.2.fu_int_arith ∧ s'.fu_int_div = d.2.fu_int_div ∧
      s'.fu_fp_arith = d.2.fu_fp_arith ∧ s'.fu_fp_div = d.2.fu_fp_div ∧
      s'.lsq = d.2.lsq := by
  rw [issueThread_at_head s i dec p rest ins int_regs fp_regs isa_table hh hd hq hp hi hf ht,
    if_pos hc, hdx]
  obtain ⟨st, hst⟩ := assign_ok_of_check ins int_regs fp_regs isa_table ∅ ∅ hc
  simp only [hst]
  cases d.1 with
  | true => exact ⟨_, rfl, rfl, rfl, rfl, rfl, rfl⟩
  | false => exact ⟨_, rfl, rfl, rfl, rfl, rfl, rfl⟩

/-- C22. The scan of a pool places the instruction in the first unit, in the pool's
order, whose slot is free, and changes no other unit; when every unit of the pool is
occupied it returns the pool as it was.  In the issue step of an unhalted thread whose
head `p` has passed the resource check and belongs to a class served by functional
units, the pool scanned for the class (`fu_int_arith` for integer arithmetic,
`fu_int_div` for integer division, `fu_fp_div` for floating-point division and, in this
code, also for floating-point arithmetic) changes in this way, and the three other pools
are unchanged: at most one unit's slot changes, the first free one of the scanned pool,
and none when that pool has no free slot. -/
theorem dispatch_claims_first_free_unit (s : VanadisComponent) (i : Nat)
    (dec : VanadisDecoder) (p : InsPtr) (rest : List InsPtr) (ins : VanadisInstruction)
    (int_regs fp_regs : VanadisRegisterStack) (isa_table : VanadisISATable)
    (hh : s.halted_masks[i]? = some false)
    (hd : s.thread_decoders[i]? = some dec) (hq : dec.decoded_q = p :: rest)
    (hp : derefIns s.heap p = some ins)
    (hi : s.int_register_stacks[i]? = some int_regs)
    (hf : s.fp_register_stacks[i]? = some fp_regs)
    (ht : s.issue_isa_tables[i]? = some isa_table)
    (hc : (checkInstructionResources ins int_regs fp_regs isa_table ∅ ∅).1 = 0) :
    (∀ (q : InsPtr) (pool : List VanadisFunctionalUnit),
      ((∀ v ∈ pool, v.isInstructionSlotFree = false) ∧
        allocateFuncUnit q pool = (false, pool)) ∨
      ((allocateFuncUnit q pool).1 = true ∧
        ClaimsFirstFree q pool (allocateFuncUnit q pool).2)) ∧
    (ins.getInstFuncType = .INST_INT_ARITH →
      ∃ s', issueThread s i = .ok s' ∧
        s'.fu_int_div = s.fu_int_div ∧ s'.fu_fp_arith = s.fu_fp_arith ∧
        s'.fu_fp_div = s.fu_fp_div ∧
        (((∀ v ∈ s.fu_int_arith, v.isInstructionSlotFree = false) ∧
            s'.fu_int_arith = s.fu_int_arith) ∨
          ClaimsFirstFree p s.fu_int_arith s'.fu_int_arith)) ∧
    (ins.getInstFuncType = .INST_INT_DIV →
      ∃ s', issueThread s i = .ok s' ∧
        s'.fu_int_arith = s.fu_int_arith ∧ s'.fu_fp_arith = s.fu_fp_arith ∧
        s'.fu_fp_div = s.fu_fp_div ∧
        (((∀ v ∈ s.fu_int_div, v.isInstructionSlotFree = false) ∧
            s'.fu_int_div = s.fu_int_div) ∨
          ClaimsFirstFree p s.fu_int_div s'.fu_int_div)) ∧
    (ins.getInstFuncType = .INST_FP_DIV ∨ ins.getInstFuncType = .INST_FP_ARITH →
      ∃ s', issueThread s i = .ok s' ∧
        s'.fu_int_arith = s.fu_int_arith ∧ s'.fu_int_div = s.fu_int_div ∧
        s'.fu_fp_arith = s.fu_fp_arith ∧
        (((∀ v ∈ s.fu_fp_div, v.isInstructionSlotFree = false) ∧
            s'.fu_fp_div = s.fu_fp_div) ∨
          ClaimsFirstFree p s.fu_fp_div s'.fu_fp_div)) := by
  have key : ∀ (q : InsPtr) (pool : List VanadisFunctionalUnit),
      ((∀ v ∈ pool, v.isInstructionSlotFree = false) ∧
        (allocateFuncUnit q pool).2 = pool) ∨
      ClaimsFirstFree q pool (allocateFuncUnit q pool).2 := by
    intro q pool
    rcases allocateFuncUnit_first_free q pool with ⟨a, b⟩ | ⟨_, b⟩
    · exact Or.inl ⟨a, by rw [b]⟩
    · exact Or.inr b
  refine ⟨allocateFuncUnit_first_free, fun hcl => ?_, fun hcl => ?_, fun hcl => ?_⟩
  · obtain ⟨s', hs', e1, e2, e3, e4, _⟩ := issueThread_after_dispatch s i dec p rest ins
      int_regs fp_regs isa_table hh hd hq hp hi hf ht hc _ (by rw [hcl]; rfl)
    exact ⟨s', hs', e2, e3, e4, by rw [e1]; exact key p s.fu_int_arith⟩
  · obtain ⟨s', hs', e1, e2, e3, e4, _⟩ := issueThread_after_dispatch s i dec p rest ins
      int_regs fp_regs isa_table hh hd hq hp hi hf ht hc _ (by rw [hcl]; rfl)
    exact ⟨s', hs', e1, e3, e4, by rw [e2]; exact key p s.fu_int_div⟩
  · rcases hcl with hcl | hcl
    · obtain ⟨s', hs', e1, e2, e3, e4, _⟩ := issueThread_after_dispatch s i dec p rest ins
        int_regs fp_regs isa_table hh hd hq hp hi hf ht hc _ (by rw [hcl]; rfl)
      exact ⟨s', hs', e1, e2, e3, by rw [e4]; exact key p s.fu_fp_div⟩
    · obtain ⟨s', hs', e1, e2, e3, e4, _⟩ := issueThread_after_dispatch s i dec p rest ins
        int_regs fp_regs isa_table hh hd hq hp hi hf ht hc _ (by rw [hcl]; rfl)
      exact ⟨s', hs', e1, e2, e3, by rw [e4]; exact key p s.fu_fp_div⟩

/-- C22 exercised on the core with two integer arithmetic units of which the first is
occupied: the instruction at the head goes to the second unit. -/
theorem dispatch_claims_first_free_unit_witness :
    ∃ s', issueThread exampleSecondUnitCore 0 = .ok s' ∧
      s'.fu_int_div = exampleSecondUnitCore.fu_int_div ∧
      s'.fu_fp_div = exampleSecondUnitCore.fu_fp_div ∧
      ClaimsFirstFree 1 exampleSecondUnitCore.fu_int_arith s'.fu_int_arith ∧
      s'.fu_int_arith.map (fun u => u.slot_inst) = [some 0, some 1] := by
  obtain ⟨s', hs', e1, _, e3, e4⟩ :=
    (dispatch_claims_first_free_unit exampleSecondUnitCore 0 _ 1 [] _ _ _ _
      rfl rfl rfl rfl rfl rfl rfl (by decide)).2.1 rfl
  have hv : issueThread exampleSecondUnitCore 0 = .ok s' →
      s'.fu_int_arith.map (fun u => u.slot_inst) = [some 0, some 1] := by
    intro h
    have e : Except.ok s' = issueThread exampleSecondUnitCore 0 := h.symm
    have e2 : (issueThread exampleSecondUnitCore 0).toOption.map
        (fun t => t.fu_int_arith.map (fun u => u.slot_inst)) = some [some 0, some 1] := by
      decide
    rw [← e] at e2
    exact Option.some.inj e2
  refine ⟨s', hs', e1, e3, ?_, hv hs'⟩
  rcases e4 with ⟨hall, _⟩ | hff
  · exact absurd (hall _ (List.mem_cons_of_mem _ (List.mem_singleton_self _))) (by decide)
  · exact hff

/-- The integer output loop of `recoverRetiredRegisters` after `k` iterations, for any
instruction: the retire-time table has received the first `k` physical outputs, in
order, and the list of recovered registers the mapping each iteration found. -/
theorem recoverIntOut_fold_any (ins : VanadisInstruction) (st : RetireState) (k : Nat) :
    ((List.range k).foldl (recoverIntOutStep ins) st).int_regs = st.int_regs ∧
    ((List.range k).foldl (recoverIntOutStep ins) st).fp_regs = st.fp_regs ∧
    ((List.range k).foldl (recoverIntOutStep ins) st).recovered_phys_reg_fp
      = st.recovered_phys_reg_fp ∧
    ((List.range k).foldl (recoverIntOutStep ins) st).retire_isa_table
      = (List.range k).foldl
          (fun t j => t.setIntPhysReg (ins.getISAIntRegOut j) (ins.getPhysIntRegOut j))
          st.retire_isa_table ∧
    ((List.range k).foldl (recoverIntOutStep ins) st).recovered_phys_reg_int
      = st.recovered_phys_reg_int ++ (List.range k).map (fun j =>
          ((List.range j).foldl
            (fun t m => t.setIntPhysReg (ins.getISAIntRegOut m) (ins.getPhysIntRegOut m))
            st.retire_isa_table).getIntPhysReg (ins.getISAIntRegOut j)) := by
  induction k with
  | zero => simp
  | succ k ih =>
    obtain ⟨h1, h2, h3, h4, h5⟩ := ih
    simp only [List.range_succ, List.foldl_append, List.foldl_cons, List.foldl_nil,
      List.map_append, List.map_cons, List.map_nil]
    refine ⟨h1, h2, h3, ?_, ?_⟩
    · show ((List.range k).foldl (recoverIntOutStep ins) st).retire_isa_table.setIntPhysReg _ _
        = _
      rw [h4]
    · show ((List.range k).foldl (recoverIntOutStep ins) st).recovered_phys_reg_int ++
        [((List.range k).foldl (recoverIntOutStep ins) st).retire_isa_table.getIntPhysReg
          (ins.getISAIntRegOut k)] = _
      rw [h5, h4, List.append_assoc]

/-- The floating-point output loop of `recoverRetiredRegisters` after `k` iterations. -/
theorem recoverFPOut_fold_any (ins : VanadisInstruction) (st : RetireState) (k : Nat) :
    ((List.range k).foldl (recoverFPOutStep ins) st).int_regs = st.int_regs ∧
    ((List.range k).foldl (recoverFPOutStep ins) st).fp_regs = st.fp_regs ∧
    ((List.range k).foldl (recoverFPOutStep ins) st).recovered_phys_reg_int
      = st.recovered_phys_reg_int ∧
    ((List.range k).foldl (recoverFPOutStep ins) st).retire_isa_table
      = (List.range k).foldl
          (fun t j => t.setFPPhysReg (ins.getISAFPRegOut j) (ins.getPhysFPRegOut j))
          st.retire_isa_table ∧
    ((List.range k).foldl (recoverFPOutStep ins) st).recovered_phys_reg_fp
      = st.recovered_phys_reg_fp ++ (List.range k).map (fun j =>
          ((List.range j).foldl
            (fun t m => t.setFPPhysReg (ins.getISAFPRegOut m) (ins.getPhysFPRegOut m))
            st.retire_isa_table).getFPPhysReg (ins.getISAFPRegOut j)) := by
  induction k with
  | zero => simp
  | succ k ih =>
    obtain ⟨h1, h2, h3, h4, h5⟩ := ih
    simp only [List.range_succ, List.foldl_append, List.foldl_cons, List.foldl_nil,
      List.map_append, List.map_cons, List.map_nil]
    refine ⟨h1, h2, h3, ?_, ?_⟩
    · show ((List.range k).foldl (recoverFPOutStep ins) st).retire_isa_table.setFPPhysReg _ _
        = _
      rw [h4]
    · show ((List.range k).foldl (recoverFPOutStep ins) st).recovered_phys_reg_fp ++
        [((List.range k).foldl (recoverFPOutStep ins) st).retire_isa_table.getFPPhysReg
          (ins.getISAFPRegOut k)] = _
      rw [h5, h4, List.append_assoc]

/-- A run of `setIntPhysReg` seen through the mapping array. -/
theorem foldl_setIntPhysReg (g v : Nat → Nat) (t : VanadisISATable) (k : Nat) :
    ((List.range k).foldl (fun t j => t.setIntPhysReg (g j) (v j)) t).int_reg_ptr
      = (List.range k).foldl (fun c j => c.set (g j) (v j)) t.int_reg_ptr ∧
    ((List.range k).foldl (fun t j => t.setIntPhysReg (g j) (v j)) t).fp_reg_ptr
      = t.fp_reg_ptr := by
  induction k with
  | zero => simp
  | succ k ih =>
    simp only [List.range_succ, List.foldl_append, List.foldl_cons, List.foldl_nil]
    exact ⟨by
      show (((List.range k).foldl (fun t j => t.setIntPhysReg (g j) (v j)) t).int_reg_ptr.set
        (g k) (v k)) = _
      rw [ih.1], ih.2⟩

/-- A run of `setFPPhysReg` seen through the mapping array. -/
theorem foldl_setFPPhysReg (g v : Nat → Nat) (t : VanadisISATable) (k : Nat) :
    ((List.range k).foldl (fun t j => t.setFPPhysReg (g j) (v j)) t).fp_reg_ptr
      = (List.range k).foldl (fun c j => c.set (g j) (v j)) t.fp_reg_ptr ∧
    ((List.range k).foldl (fun t j => t.setFPPhysReg (g j) (v j)) t).int_reg_ptr
      = t.int_reg_ptr := by
  induction k with
  | zero => simp
  | succ k ih =>
    simp only [List.range_succ, List.foldl_append, List.foldl_cons, List.foldl_nil]
    exact ⟨by
      show (((List.range k).foldl (fun t j => t.setFPPhysReg (g j) (v j)) t).fp_reg_ptr.set
        (g k) (v k)) = _
      rw [ih.1], ih.2⟩

/-- `recoverRetiredRegisters` in closed form, for any instruction: the retire-time table
receives the physical outputs in order, the integer ones first, and each free stack the
registers its output loop recovered, pushed in order. -/
theorem recoverRetiredRegisters_any (ins : VanadisInstruction)
    (int_regs fp_regs : VanadisRegisterStack) (issue retire : VanadisISATable) :
    (recoverRetiredRegisters ins int_regs fp_regs issue retire).retire_isa_table
      = (List.range ins.countISAFPRegOut).foldl
          (fun t j => t.setFPPhysReg (ins.getISAFPRegOut j) (ins.getPhysFPRegOut j))
          ((List.range ins.countISAIntRegOut).foldl
            (fun t j => t.setIntPhysReg (ins.getISAIntRegOut j) (ins.getPhysIntRegOut j))
            retire) ∧
    (recoverRetiredRegisters ins int_regs fp_regs issue retire).int_regs.regs
      = ((List.range ins.countISAIntRegOut).map (fun j =>
          ((List.range j).foldl
            (fun t m => t.setIntPhysReg (ins.getISAIntRegOut m) (ins.getPhysIntRegOut m))
            retire).getIntPhysReg (ins.getISAIntRegOut j))).reverse ++ int_regs.regs ∧
    (recoverRetiredRegisters ins int_regs fp_regs issue retire).fp_regs.regs
      = ((List.range ins.countISAFPRegOut).map (fun j =>
          ((List.range j).foldl
            (fun t m => t.setFPPhysReg (ins.getISAFPRegOut m) (ins.getPhysFPRegOut m))
            retire).getFPPhysReg (ins.getISAFPRegOut j))).reverse ++ fp_regs.regs := by
  simp only [recoverRetiredRegisters]
  obtain ⟨c1, c2, c3, c4, c5⟩ := foldl_issue_only (recoverIntInStep ins)
    (fun _ _ => ⟨rfl, rfl, rfl, rfl, rfl⟩) (List.range ins.countISAIntRegIn)
    { int_regs := int_regs, fp_regs := fp_regs, issue_isa_table := issue,
      retire_isa_table := retire, recovered_phys_reg_int := [], recovered_phys_reg_fp := [] }
  generalize (List.range ins.countISAIntRegIn).foldl (recoverIntInStep ins)
    { int_regs := int_regs, fp_regs := fp_regs, issue_isa_table := issue,
      retire_isa_table := retire, recovered_phys_reg_int := [], recovered_phys_reg_fp := [] }
    = st1 at c1 c2 c3 c4 c5 ⊢
  obtain ⟨d1, d2, d3, d4, d5⟩ := foldl_issue_only (recoverFPInStep ins)
    (fun _ _ => ⟨rfl, rfl, rfl, rfl, rfl⟩) (List.range ins.countISAFPRegIn) st1
  generalize (List.range ins.countISAFPRegIn).foldl (recoverFPInStep ins) st1
    = st2 at d1 d2 d3 d4 d5 ⊢
  have e1 : st2.retire_isa_table = retire := d1.trans c1
  have e2 : st2.int_regs = int_regs := d2.trans c2
  have e3 : st2.fp_regs = fp_regs := d3.trans c3
  have e4 : st2.recovered_phys_reg_int = [] := d4.trans c4
  have e5 : st2.recovered_phys_reg_fp = [] := d5.trans c5
  obtain ⟨a1, a2, a3, a4, a5⟩ := recoverIntOut_fold_any ins st2 ins.countISAIntRegOut
  generalize (List.range ins.countISAIntRegOut).foldl (recoverIntOutStep ins) st2
    = st3 at a1 a2 a3 a4 a5 ⊢
  obtain ⟨b1, b2, b3, b4, b5⟩ := recoverFPOut_fold_any ins st3 ins.countISAFPRegOut
  generalize (List.range ins.countISAFPRegOut).foldl (recoverFPOutStep ins) st3
    = st4 at b1 b2 b3 b4 b5 ⊢
  have getF : ∀ (j : Nat) (r : Nat),
      ((List.range j).foldl
        (fun t m => t.setFPPhysReg (ins.getISAFPRegOut m) (ins.getPhysFPRegOut m))
        st3.retire_isa_table).getFPPhysReg r
      = ((List.range j).foldl
        (fun t m => t.setFPPhysReg (ins.getISAFPRegOut m) (ins.getPhysFPRegOut m))
        retire).getFPPhysReg r := by
    intro j r
    simp only [VanadisISATable.getFPPhysReg]
    rw [(foldl_setFPPhysReg _ _ _ j).1, (foldl_setFPPhysReg _ _ _ j).1, a4,
      (foldl_setIntPhysReg _ _ _ _).2, e1]
  refine ⟨?_, ?_, ?_⟩
  · show st4.retire_isa_table = _
    rw [b4, a4, e1]
  · show (st4.recovered_phys_reg_int.foldl VanadisRegisterStack.push st4.int_regs).regs = _
    rw [(foldl_push_regs _ _).1, b3, b1, a5, a1, e4, e2, e1, List.nil_append]
  · show (st4.recovered_phys_reg_fp.foldl VanadisRegisterStack.push st4.fp_regs).regs = _
    rw [(foldl_push_regs _ _).1, b5, b2, a3, a2, e5, e3, List.nil_append]
    congr 2
    apply List.map_congr_left
    intro j _
    exact getF j _

end Vanadis
namespace Vanadis

/-- An entry of a list produced by mapping over `List.range`. -/
theorem getD_map_range (f : Nat → Nat) (n j : Nat) (h : j < n) :
    ((List.range n).map f).getD j 0 = f j := by
  simp [List.getD_eq_getElem?_getD, List.getElem?_map, List.getElem?_range h]

/-- C5. Retirement of a completed, non-speculated instruction at the head of a thread's
ROB is the ROB pop followed by `recoverRetiredRegisters`.  Each iteration of an output
loop of `recoverRetiredRegisters` records for pushing the physical register the
retire-time table holds for the output's architectural register at that moment, and then
maps that architectural register (a register of the table) to the physical output
register the instruction carries for this output; no other mapping changes.  For the
whole call: each free stack receives one push per output, the `j`-th being the register
the table held for the `j`-th output register immediately before its iteration (the
mapping from before the retirement, unless an earlier output of the same instruction
names the register too); the table ends mapping every output register to the physical
output register of its (last) naming; every register that is not an output keeps its
mapping.  The retire step of `tick` for such a head, which has passed the trap test,
pops the ROB and leaves exactly these tables and stacks. -/
theorem retirement_transfers_mapping :
    (∀ (ins : VanadisInstruction) (st : RetireState) (j : Nat),
      (recoverIntOutStep ins st j).recovered_phys_reg_int
        = st.recovered_phys_reg_int ++
            [st.retire_isa_table.getIntPhysReg (ins.getISAIntRegOut j)] ∧
      (ins.getISAIntRegOut j < st.retire_isa_table.int_reg_ptr.length →
        (recoverIntOutStep ins st j).retire_isa_table.getIntPhysReg (ins.getISAIntRegOut j)
          = ins.getPhysIntRegOut j) ∧
      (∀ r, r ≠ ins.getISAIntRegOut j →
        (recoverIntOutStep ins st j).retire_isa_table.getIntPhysReg r
          = st.retire_isa_table.getIntPhysReg r) ∧
      (∀ r, (recoverIntOutStep ins st j).retire_isa_table.getFPPhysReg r
          = st.retire_isa_table.getFPPhysReg r)) ∧
    (∀ (ins : VanadisInstruction) (st : RetireState) (j : Nat),
      (recoverFPOutStep ins st j).recovered_phys_reg_fp
        = st.recovered_phys_reg_fp ++
            [st.retire_isa_table.getFPPhysReg (ins.getISAFPRegOut j)] ∧
      (ins.getISAFPRegOut j < st.retire_isa_table.fp_reg_ptr.length →
        (recoverFPOutStep ins st j).retire_isa_table.getFPPhysReg (ins.getISAFPRegOut j)
          = ins.getPhysFPRegOut j) ∧
      (∀ r, r ≠ ins.getISAFPRegOut j →
        (recoverFPOutStep ins st j).retire_isa_table.getFPPhysReg r
          = st.retire_isa_table.getFPPhysReg r) ∧
      (∀ r, (recoverFPOutStep ins st j).retire_isa_table.getIntPhysReg r
          = st.retire_isa_table.getIntPhysReg r)) ∧
    (∀ (ins : VanadisInstruction) (int_regs fp_regs : VanadisRegisterStack)
        (issue retire : VanadisISATable),
      ∃ pushed_int pushed_fp : List Nat,
        (recoverRetiredRegisters ins int_regs fp_regs issue retire).int_regs.regs
          = pushed_int.reverse ++ int_regs.regs ∧
        (recoverRetiredRegisters ins int_regs fp_regs issue retire).fp_regs.regs
          = pushed_fp.reverse ++ fp_regs.regs ∧
        pushed_int.length = ins.countISAIntRegOut ∧
        pushed_fp.length = ins.countISAFPRegOut ∧
        (∀ j, j < ins.countISAIntRegOut →
          pushed_int.getD j 0
            = ((List.range j).foldl
                (fun t m => t.setIntPhysReg (ins.getISAIntRegOut m) (ins.getPhysIntRegOut m))
                retire).getIntPhysReg (ins.getISAIntRegOut j)) ∧
        (∀ j, j < ins.countISAFPRegOut →
          pushed_fp.getD j 0
            = ((List.range j).foldl
                (fun t m => t.setFPPhysReg (ins.getISAFPRegOut m) (ins.getPhysFPRegOut m))
                retire).getFPPhysReg (ins.getISAFPRegOut j)) ∧
        (∀ j, j < ins.countISAIntRegOut →
          (∀ m, m < j → ins.getISAIntRegOut m ≠ ins.getISAIntRegOut j) →
          pushed_int.getD j 0 = retire.getIntPhysReg (ins.getISAIntRegOut j)) ∧
        (∀ j, j < ins.countISAFPRegOut →
          (∀ m, m < j → ins.getISAFPRegOut m ≠ ins.getISAFPRegOut j) →
          pushed_fp.getD j 0 = retire.getFPPhysReg (ins.getISAFPRegOut j)) ∧
        (∀ j, j < ins.countISAIntRegOut →
          (∀ m, j < m → m < ins.countISAIntRegOut →
            ins.getISAIntRegOut m ≠ ins.getISAIntRegOut j) →
          ins.getISAIntRegOut j < retire.int_reg_ptr.length →
          (recoverRetiredRegisters ins int_regs fp_regs issue retire).retire_isa_table.getIntPhysReg
            (ins.getISAIntRegOut j) = ins.getPhysIntRegOut j) ∧
        (∀ j, j < ins.countISAFPRegOut →
          (∀ m, j < m → m < ins.countISAFPRegOut →
            ins.getISAFPRegOut m ≠ ins.getISAFPRegOut j) →
          ins.getISAFPRegOut j < retire.fp_reg_ptr.length →
          (recoverRetiredRegisters ins int_regs fp_regs issue retire).retire_isa_table.getFPPhysReg
            (ins.getISAFPRegOut j) = ins.getPhysFPRegOut j) ∧
        (∀ r, r ∉ ins.isa_int_regs_out →
          (recoverRetiredRegisters ins int_regs fp_regs issue retire).retire_isa_table.getIntPhysReg r
            = retire.getIntPhysReg r) ∧
        (∀ r, r ∉ ins.isa_fp_regs_out →
          (recoverRetiredRegisters ins int_regs fp_regs issue retire).retire_isa_table.getFPPhysReg r
            = retire.getFPPhysReg r)) ∧
    (∀ (s : VanadisComponent) (i : Nat) (rob_i : VanadisCircularQueue InsPtr) (p : InsPtr)
        (ins : VanadisInstruction) (int_regs fp_regs : VanadisRegisterStack)
        (issue retire : VanadisISATable),
      s.rob[i]? = some rob_i → rob_i.peek = some p → derefIns s.heap p = some ins →
      ins.trapsError = false → ins.isSpeculated = false → ins.completedExecution = true →
      s.int_register_stacks[ins.getHWThread]? = some int_regs →
      s.fp_register_stacks[ins.getHWThread]? = some fp_regs →
      s.issue_isa_tables[i]? = some issue →
      s.retire_isa_tables[i]? = some retire →
      ∃ s', retireThread s i = .ok s' ∧
        s'.rob[i]? = some rob_i.pop ∧
        s'.retire_isa_tables[i]?
          = some (recoverRetiredRegisters ins int_regs fp_regs issue retire).retire_isa_table ∧
        s'.int_register_stacks[ins.getHWThread]?
          = some (recoverRetiredRegisters ins int_regs fp_regs issue retire).int_regs ∧
        s'.fp_register_stacks[ins.getHWThread]?
          = some (recoverRetiredRegisters ins int_regs fp_regs issue retire).fp_regs) := by
  refine ⟨?_, ?_, ?_, ?_⟩
  · intro ins st j
    refine ⟨rfl, fun hlt => ?_, fun r hr => ?_, fun r => rfl⟩
    · simp only [recoverIntOutStep, VanadisISATable.getIntPhysReg,
        VanadisISATable.setIntPhysReg, getD_set_nat, hlt, and_self, if_true]
    · simp only [recoverIntOutStep, VanadisISATable.getIntPhysReg,
        VanadisISATable.setIntPhysReg, getD_set_nat]
      rw [if_neg (fun h => hr h.1.symm)]
  · intro ins st j
    refine ⟨rfl, fun hlt => ?_, fun r hr => ?_, fun r => rfl⟩
    · simp only [recoverFPOutStep, VanadisISATable.getFPPhysReg,
        VanadisISATable.setFPPhysReg, getD_set_nat, hlt, and_self, if_true]
    · simp only [recoverFPOutStep, VanadisISATable.getFPPhysReg,
        VanadisISATable.setFPPhysReg, getD_set_nat]
      rw [if_neg (fun h => hr h.1.symm)]
  · intro ins int_regs fp_regs issue retire
    obtain ⟨t1, t2, t3⟩ := recoverRetiredRegisters_any ins int_regs fp_regs issue retire
    have tblI : ∀ k, ((List.range k).foldl
        (fun t m => t.setIntPhysReg (ins.getISAIntRegOut m) (ins.getPhysIntRegOut m))
        retire).int_reg_ptr
        = (List.range k).foldl
          (fun c m => c.set (ins.getISAIntRegOut m) (ins.getPhysIntRegOut m))
          retire.int_reg_ptr := fun k => (foldl_setIntPhysReg _ _ retire k).1
    have tblF : ∀ k, ((List.range k).foldl
        (fun t m => t.setFPPhysReg (ins.getISAFPRegOut m) (ins.getPhysFPRegOut m))
        retire).fp_reg_ptr
        = (List.range k).foldl
          (fun c m => c.set (ins.getISAFPRegOut m) (ins.getPhysFPRegOut m))
          retire.fp_reg_ptr := fun k => (foldl_setFPPhysReg _ _ retire k).1
    have finI : (recoverRetiredRegisters ins int_regs fp_regs issue retire).retire_isa_table.int_reg_ptr
        = (List.range ins.countISAIntRegOut).foldl
          (fun c m => c.set (ins.getISAIntRegOut m) (ins.getPhysIntRegOut m))
          retire.int_reg_ptr := by
      rw [t1, (foldl_setFPPhysReg _ _ _ _).2, tblI]
    have finF : (recoverRetiredRegisters ins int_regs fp_regs issue retire).retire_isa_table.fp_reg_ptr
        = (List.range ins.countISAFPRegOut).foldl
          (fun c m => c.set (ins.getISAFPRegOut m) (ins.getPhysFPRegOut m))
          retire.fp_reg_ptr := by
      rw [t1, (foldl_setFPPhysReg _ _ _ _).1, (foldl_setIntPhysReg _ _ _ _).2]
    refine ⟨_, _, t2, t3, by simp, by simp, ?_, ?_, ?_, ?_, ?_, ?_, ?_, ?_⟩
    · intro j hj
      exact getD_map_range _ _ _ hj
    · intro j hj
      exact getD_map_range _ _ _ hj
    · intro j hj hfirst
      rw [getD_map_range _ _ _ hj]
      simp only [VanadisISATable.getIntPhysReg]
      rw [tblI]
      exact (foldl_set_spec _ _ _ j).2.2 _ hfirst
    · intro j hj hfirst
      rw [getD_map_range _ _ _ hj]
      simp only [VanadisISATable.getFPPhysReg]
      rw [tblF]
      exact (foldl_set_spec _ _ _ j).2.2 _ hfirst
    · intro j hj hlast hrange
      simp only [VanadisISATable.getIntPhysReg]
      rw [finI]
      exact (foldl_set_spec _ _ _ _).2.1 j hj hlast hrange
    · intro j hj hlast hrange
      simp only [VanadisISATable.getFPPhysReg]
      rw [finF]
      exact (foldl_set_spec _ _ _ _).2.1 j hj hlast hrange
    · intro r hr
      simp only [VanadisISATable.getIntPhysReg]
      rw [finI]
      exact (foldl_set_spec _ _ _ _).2.2 r
        (fun m hm heq => hr ((mem_iff_getD _ _).mpr ⟨m, hm, heq⟩))
    · intro r hr
      simp only [VanadisISATable.getFPPhysReg]
      rw [finF]
      exact (foldl_set_spec _ _ _ _).2.2 r
        (fun m hm heq => hr ((mem_iff_getD _ _).mpr ⟨m, hm, heq⟩))
  · intro s i rob_i p ins int_regs fp_regs issue retire hrob hpeek hderef htrap hspec hdone
      hi hf hit hrt
    exact ⟨_, retireThread_retires s i rob_i p ins int_regs fp_regs issue retire hrob hpeek
        hderef htrap hspec hdone hi hf hit hrt,
      getElem?_set_self_of_some _ _ _ _ hrob, getElem?_set_self_of_some _ _ _ _ hrt,
      getElem?_set_self_of_some _ _ _ _ hi, getElem?_set_self_of_some _ _ _ _ hf⟩

/-- C5 exercised.  On `exampleRetireCore` the addition retires: `r3` becomes mapped to
physical register 4 and the register 3 the table held for it is pushed.  On
`exampleTwiceOutCore`, whose head names `r3` twice (renamed to 4, then 5), the first
iteration pushes the 3 the table held and maps `r3` to 4, the second pushes that 4 and
maps `r3` to 5, the register the rename left mapped. -/
theorem retirement_transfers_mapping_witness :
    (∃ s', retireThread exampleRetireCore 0 = .ok s' ∧
      s'.rob[0]? = some { max_capacity := 4, items := [] } ∧
      s'.retire_isa_tables[0]? = some { exampleTable with int_reg_ptr := [0, 1, 2, 4] } ∧
      s'.int_register_stacks[0]? = some { max_capacity := 6, regs := [3, 5] } ∧
      s'.fp_register_stacks[0]? = some { max_capacity := 4, regs := [2, 3] }) ∧
    (∃ s', retireThread exampleTwiceOutCore 0 = .ok s' ∧
      s'.rob[0]? = some { max_capacity := 4, items := [] } ∧
      s'.retire_isa_tables[0]? = some { exampleTable with int_reg_ptr := [0, 1, 2, 5] } ∧
      s'.int_register_stacks[0]? = some { max_capacity := 6, regs := [4, 3] } ∧
      s'.fp_register_stacks[0]? = some { max_capacity := 4, regs := [2, 3] }) :=
  ⟨retirement_transfers_mapping.2.2.2 exampleRetireCore 0 { max_capacity := 4, items := [0] } 0
      exampleIssuedAdd { max_capacity := 6, regs := [5] } { max_capacity := 4, regs := [2, 3] }
      exampleIssuedAddTable exampleTable rfl rfl rfl rfl rfl rfl rfl rfl rfl rfl,
   retirement_transfers_mapping.2.2.2 exampleTwiceOutCore 0
      { max_capacity := 4, items := [0] } 0 exampleTwiceOut { max_capacity := 6, regs := [] }
      { max_capacity := 4, regs := [2, 3] }
      { exampleTable with int_reg_ptr := [0, 1, 2, 5], int_reg_pending_write := [0, 0, 0, 2] }
      exampleTable rfl rfl rfl rfl rfl rfl rfl rfl rfl rfl⟩

/-- With the allocator of `tick`, `tickWith` is `tick`. -/
theorem tickWith_allocIns (ext : External) (cycle : Nat) (s : VanadisComponent) :
    tickWith allocIns ext cycle s = tick ext cycle s := rfl

/-- With the allocator of `tick`, `runTicksWith` is `runTicks`. -/
theorem runTicksWith_allocIns (ext : External) (n c : Nat) (s : VanadisComponent) :
    runTicksWith allocIns ext n c s = runTicks ext n c s := by
  induction n generalizing c s with
  | zero => rfl
  | succ n ih =>
    unfold runTicksWith runTicks
    rw [tickWith_allocIns]
    cases tick ext c s with
    | error e => rfl
    | ok r => exact ih (c + 1) r.2

/-- With the allocator of `tick`, `runWith` is `run`. -/
theorem runWith_allocIns (params : Params) (ext : External) (n : Nat) :
    runWith allocIns params ext n = run params ext n := by
  unfold runWith run
  cases construct params with
  | error e => rfl
  | ok s => exact runTicksWith_allocIns ext n 0 s

/-- While no cell has been emptied by `delete`, the reusing allocator places the object
in a new cell, as `allocIns` does. -/
theorem allocInsReusing_fresh (heap : Heap) (ins : VanadisInstruction)
    (h : ∀ c ∈ heap, c ≠ none) : allocInsReusing heap ins = allocIns heap ins := by
  unfold allocInsReusing allocIns
  have hn : ¬ heap.findIdx (fun c => c.isNone) < heap.length := by
    intro hlt
    have hx := List.findIdx_getElem (w := hlt)
    have hm := h _ (List.getElem_mem hlt)
    cases hc : heap[List.findIdx (fun c => c.isNone) heap] with
    | none => exact hm hc
    | some v => rw [hc] at hx; cases hx
  rw [if_neg hn]

end Vanadis
